import Mathlib

/-!
# The validation applier of the EBM native core

A shallow embedding of `shared/ebm_native/OptimizedApplyModelUpdateValidation.h`, and of the
exported function `GetInteractionScore` of `shared/ebm_native/InteractionDetection.cpp`.

* `FloatEbmType` is a type parameter `F` with its arithmetic in a record `FloatOps F`:
  every theorem holds for whatever the floating point operations compute.
* Pointers into an array are offsets (`Nat`) from the start of that array, a read or write
  outside the array is the fault `Fault.outOfBounds`.
* The `do ... while` loops with an inequality test recurse on a fuel argument,
  running out of it is the fault `Fault.outOfFuel`.
* Storage words are natural numbers, `&` is `&&&` and `>>` is `>>>`.
* The constants and helpers of headers that are not under src/ are parameters, collected in the
  records `EbmInternal` and `EbmStatistics`.
* `Binary64` is a model of the doubles, an instance of `FloatOps` for evaluating the kernels
  where rounding, the signed zeros, the infinities or NaN matter.
-/

namespace EbmNative

/-- The ways a run of an embedded kernel ends without a value. -/
inductive Fault where
  | outOfBounds
  | outOfFuel
  deriving DecidableEq, Repr

/-- The arithmetic of `FloatEbmType` used by the kernels: the literal `FloatEbmType { 0 }`,
`+`, `-`, `*`, `/`, the conversion of a `size_t` (`sum / cInstances`), `<`, `std::isnan`,
`std::isinf` and `std::numeric_limits<FloatEbmType>::max()`. -/
structure FloatOps (F : Type) where
  zero : F
  add : F → F → F
  sub : F → F → F
  mul : F → F → F
  div : F → F → F
  ofSize : Nat → F
  lt : F → F → Bool
  isnan : F → Bool
  isinf : F → Bool
  max : F

/-- The fields of `FeatureCombination` (FeatureCombination.h) that the applier reads. -/
structure FeatureCombination where
  m_cFeatures : Nat
  m_cItemsPerBitPackedDataUnit : Nat
  m_iInputData : Nat
  deriving DecidableEq, Repr

/-- The validation set as the applier sees it through the accessors of
`DataSetByFeatureCombination`: `GetCountInstances`, `GetResidualPointer`, `GetPredictorScores`,
`GetTargetDataPointer` and `GetInputDataPointer` (the packed column of a feature combination). -/
structure DataSetByFeatureCombination (F : Type) where
  m_cInstances : Nat
  m_aResidualErrors : List F
  m_aPredictorScores : List F
  m_aTargetData : List Nat
  GetInputDataPointer : FeatureCombination → List Nat

/-- One decoded item, kept as a ghost record of what the bit-pack loop did: the index of the
input word it came from, the offset of the state pointer when it was decoded, and the decoded
`iTensorBin`. No computation reads it. -/
structure Event where
  iWord : Nat
  pState : Nat
  iTensorBin : Nat
  deriving DecidableEq, Repr

/-- The local variables of a kernel while it runs: the three moving pointers (as offsets), the
array being rewritten (residuals or predictor scores), the running sum, and the ghost trace. -/
structure Cursor (F : Type) where
  pInputData : Nat
  pTargetData : Nat
  pState : Nat
  aState : List F
  sum : F
  trace : List Event

/-- Modelled from the spec: `GetCountBits` of EbmInternal.h, which is not under src/:
"bits_per_item = ⌊W / items_per_word⌋". -/
def GetCountBits (k_cBitsForStorageType cItemsBitPacked : Nat) : Nat :=
  k_cBitsForStorageType / cItemsBitPacked

/-- Modelled from the spec: `GetVectorLength` of EbmInternal.h, which is not under src/:
"V=1 for Regression and BinaryClassification; V=C for Multiclass". -/
def GetVectorLength (learningTypeOrCountTargetClasses : Int) : Nat :=
  if learningTypeOrCountTargetClasses ≤ 2 then 1 else learningTypeOrCountTargetClasses.toNat

/-- Modelled from the spec: `ComputeSingleInstanceSquaredErrorRegression` of EbmStatistics.h,
which is not under src/: the regression metric is the mean of `residual_new_i^2`. -/
def ComputeSingleInstanceSquaredErrorRegression {F : Type} (A : FloatOps F) (residualError : F) : F :=
  A.mul residualError residualError

/-- The mask of one item:
`std::numeric_limits<size_t>::max() >> (k_cBitsForStorageType - cBitsPerItemMax)`,
where `size_t` is the storage word of `k_cBitsForStorageType` bits. -/
def maskBits (k_cBitsForStorageType cBitsPerItemMax : Nat) : Nat :=
  (2 ^ k_cBitsForStorageType - 1) >>> (k_cBitsForStorageType - cBitsPerItemMax)

/-! ## The goto-based loop over the packed column -/

/-- The inner `do ... while(pInnerEnd != p)` of the three general kernels: decode the low item of
`iTensorBinCombined`, run the kernel's body on it, shift the word right by one item. -/
def innerLoop {F : Type} (item : Nat → Cursor F → Except Fault (Cursor F))
    (maskBits cBitsPerItemMax pInnerEnd : Nat) :
    Nat → Nat → Cursor F → Except Fault (Cursor F)
  | 0, _, _ => .error .outOfFuel
  | fuel + 1, iTensorBinCombined, c =>
    let iTensorBin := maskBits &&& iTensorBinCombined
    match item iTensorBin
      { c with trace := c.trace ++ [⟨c.pInputData - 1, c.pState, iTensorBin⟩] } with
    | .error e => .error e
    | .ok c1 =>
      let iTensorBinCombined1 := iTensorBinCombined >>> cBitsPerItemMax
      if pInnerEnd ≠ c1.pState then
        innerLoop item maskBits cBitsPerItemMax pInnerEnd fuel iTensorBinCombined1 c1
      else .ok c1

/-- The code from the label `one_last_loop` to the end of the inner loop: read the next input
word, advance `pInputData`, and run the inner loop up to `pInnerEnd`. -/
def oneLastLoop {F : Type} (item : Nat → Cursor F → Except Fault (Cursor F))
    (aInputData : List Nat) (maskBits cBitsPerItemMax pInnerEnd fuel : Nat) (c : Cursor F) :
    Except Fault (Cursor F) :=
  match aInputData[c.pInputData]? with
  | none => .error .outOfBounds
  | some iTensorBinCombined =>
    innerLoop item maskBits cBitsPerItemMax pInnerEnd fuel iTensorBinCombined
      { c with pInputData := c.pInputData + 1 }

/-- Control at the label `one_last_loop` with the current `pInnerEnd` and `pExit`. After the word
is done the outer `while(pExit != p)` either goes round (setting `pInnerEnd = p + cStride`, where
`cStride` is `cItemsPerBitPackedDataUnit * cVectorLength`), or falls through to the test
`if(pTrueEnd != p)`, which either jumps back to the label with `pInnerEnd = pExit = pTrueEnd` or
leaves the loop. -/
def outerLoop {F : Type} (item : Nat → Cursor F → Except Fault (Cursor F))
    (aInputData : List Nat) (maskBits cBitsPerItemMax cStride pTrueEnd : Nat) :
    Nat → Nat → Nat → Cursor F → Except Fault (Cursor F)
  | 0, _, _, _ => .error .outOfFuel
  | fuel + 1, pInnerEnd, pExit, c =>
    match oneLastLoop item aInputData maskBits cBitsPerItemMax pInnerEnd fuel c with
    | .error e => .error e
    | .ok c1 =>
      if pExit ≠ c1.pState then
        outerLoop item aInputData maskBits cBitsPerItemMax cStride pTrueEnd fuel
          (c1.pState + cStride) pExit c1
      else if pTrueEnd ≠ c1.pState then
        outerLoop item aInputData maskBits cBitsPerItemMax cStride pTrueEnd fuel
          pTrueEnd pTrueEnd c1
      else .ok c1

/-- The part common to the three general kernels, from the computation of `maskBits` to the end
of the loops: `cInstances <= cItemsPerBitPackedDataUnit` jumps straight to `one_last_loop`,
otherwise `pExit` is moved back by the size of the last word and the outer loop is entered at
its top. -/
def bitPackedLoop {F : Type} (item : Nat → Cursor F → Except Fault (Cursor F))
    (k_cBitsForStorageType fuel cItemsPerBitPackedDataUnit cVectorLength cInstances : Nat)
    (aInputData : List Nat) (c : Cursor F) : Except Fault (Cursor F) :=
  let cBitsPerItemMax := GetCountBits k_cBitsForStorageType cItemsPerBitPackedDataUnit
  let mask := maskBits k_cBitsForStorageType cBitsPerItemMax
  let pTrueEnd := c.pState + cInstances * cVectorLength
  if cInstances ≤ cItemsPerBitPackedDataUnit then
    outerLoop item aInputData mask cBitsPerItemMax (cItemsPerBitPackedDataUnit * cVectorLength)
      pTrueEnd fuel pTrueEnd pTrueEnd c
  else
    let pExit := pTrueEnd - ((cInstances - 1) % cItemsPerBitPackedDataUnit + 1) * cVectorLength
    outerLoop item aInputData mask cBitsPerItemMax (cItemsPerBitPackedDataUnit * cVectorLength)
      pTrueEnd fuel (c.pState + cItemsPerBitPackedDataUnit * cVectorLength) pExit c

/-- The loop `do ... while(pEnd != p)` of the three zero-feature kernels. -/
def zeroFeaturesLoop {F : Type} (item : Cursor F → Except Fault (Cursor F)) (pEnd : Nat) :
    Nat → Cursor F → Except Fault (Cursor F)
  | 0, _ => .error .outOfFuel
  | fuel + 1, c =>
    match item c with
    | .error e => .error e
    | .ok c1 => if pEnd ≠ c1.pState then zeroFeaturesLoop item pEnd fuel c1 else .ok c1

/-! ## The bodies of the kernels -/

/-- The regression body: `residualError = ComputeResidualErrorRegression(*p - U[iTensorBin])`,
its square is added to the sum, the residual is stored and the pointer advanced. -/
def regressionItem {F : Type} (A : FloatOps F) (ComputeResidualErrorRegression : F → F)
    (aModelFeatureCombinationUpdateTensor : List F) (iTensorBin : Nat) (c : Cursor F) :
    Except Fault (Cursor F) :=
  match aModelFeatureCombinationUpdateTensor[iTensorBin]?, c.aState[c.pState]? with
  | some smallChangeToPrediction, some residualOld =>
    let residualError := ComputeResidualErrorRegression (A.sub residualOld smallChangeToPrediction)
    let instanceSquaredError := ComputeSingleInstanceSquaredErrorRegression A residualError
    .ok { c with
      sum := A.add c.sum instanceSquaredError
      aState := c.aState.set c.pState residualError
      pState := c.pState + 1 }
  | _, _ => .error .outOfBounds

/-- The binary classification body: the target is read, the score becomes
`*p + U[iTensorBin]`, and the log loss of the new score is added to the sum. -/
def binaryItem {F : Type} (A : FloatOps F)
    (ComputeSingleInstanceLogLossBinaryClassification : F → Nat → F)
    (aTargetData : List Nat) (aModelFeatureCombinationUpdateTensor : List F)
    (iTensorBin : Nat) (c : Cursor F) : Except Fault (Cursor F) :=
  match aTargetData[c.pTargetData]?, aModelFeatureCombinationUpdateTensor[iTensorBin]?,
      c.aState[c.pState]? with
  | some targetData, some smallChangeToPredictorScores, some scoreOld =>
    let predictorScore := A.add scoreOld smallChangeToPredictorScores
    let instanceLogLoss := ComputeSingleInstanceLogLossBinaryClassification predictorScore targetData
    .ok { c with
      pTargetData := c.pTargetData + 1
      aState := c.aState.set c.pState predictorScore
      pState := c.pState + 1
      sum := A.add c.sum instanceLogLoss }
  | _, _, _ => .error .outOfBounds

/-- The multiclass loop over the classes of one instance, `do ... while(iVector < cVectorLength)`:
each score gets its tensor value added, `itemExp` keeps the exponential of the target class and
`sumExp` accumulates all of them. -/
def vectorLoop {F : Type} (A : FloatOps F) (EbmExp : F → F)
    (aModelFeatureCombinationUpdateTensor : List F) (targetData cVectorLength : Nat) :
    Nat → Nat → Nat → F → F → Cursor F → Except Fault (F × F × Cursor F)
  | 0, _, _, _, _, _ => .error .outOfFuel
  | fuel + 1, iVector, pValues, itemExp, sumExp, c =>
    match aModelFeatureCombinationUpdateTensor[pValues]?, c.aState[c.pState]? with
    | some smallChangeToPredictorScores, some scoreOld =>
      let predictorScore := A.add scoreOld smallChangeToPredictorScores
      let c1 : Cursor F := { c with
        aState := c.aState.set c.pState predictorScore
        pState := c.pState + 1 }
      let oneExp := EbmExp predictorScore
      let itemExp1 := if iVector = targetData then oneExp else itemExp
      let sumExp1 := A.add sumExp oneExp
      if iVector + 1 < cVectorLength then
        vectorLoop A EbmExp aModelFeatureCombinationUpdateTensor targetData cVectorLength fuel
          (iVector + 1) (pValues + 1) itemExp1 sumExp1 c1
      else .ok (itemExp1, sumExp1, c1)
    | _, _ => .error .outOfBounds

/-- The multiclass body for one instance whose tensor cell starts at `pValues`: read the target,
run the class loop, add `ComputeSingleInstanceLogLossMulticlass(sumExp, itemExp)` to the sum. -/
def multiclassItem {F : Type} (A : FloatOps F) (EbmExp : F → F)
    (ComputeSingleInstanceLogLossMulticlass : F → F → F)
    (aTargetData : List Nat) (aModelFeatureCombinationUpdateTensor : List F)
    (cVectorLength fuel pValues : Nat) (c : Cursor F) : Except Fault (Cursor F) :=
  match aTargetData[c.pTargetData]? with
  | none => .error .outOfBounds
  | some targetData =>
    match vectorLoop A EbmExp aModelFeatureCombinationUpdateTensor targetData cVectorLength fuel
        0 pValues A.zero A.zero { c with pTargetData := c.pTargetData + 1 } with
    | .error e => .error e
    | .ok (itemExp, sumExp, c1) =>
      .ok { c1 with sum := A.add c1.sum (ComputeSingleInstanceLogLossMulticlass sumExp itemExp) }

/-- The cursor a kernel starts from: all pointers at the start of their arrays, the sum zero. -/
def Cursor.start {F : Type} (A : FloatOps F) (aState : List F) : Cursor F :=
  { pInputData := 0, pTargetData := 0, pState := 0, aState := aState, sum := A.zero, trace := [] }

/-! ## The kernels

Each kernel comes as `Run`, the run of its loops down to the final cursor, and `Func`, which
returns `sum / cInstances` and the validation set with the rewritten array. The arguments
`cItemsPerBitPackedDataUnit` and `learningTypeOrCountTargetClasses` are the values of the macros
`GET_COUNT_ITEMS_PER_BIT_PACKED_DATA_UNIT` and `GET_LEARNING_TYPE_OR_COUNT_TARGET_CLASSES`
(EbmInternal.h) on the compile time and runtime arguments. -/

/-- The loops of `OptimizedApplyModelUpdateValidationInternal<k_Regression, P>::Func`. -/
def OptimizedApplyModelUpdateValidationInternalRegression.Run {F : Type} (A : FloatOps F)
    (ComputeResidualErrorRegression : F → F) (k_cBitsForStorageType fuel : Nat)
    (cItemsPerBitPackedDataUnit : Nat) (pFeatureCombination : FeatureCombination)
    (pValidationSet : DataSetByFeatureCombination F)
    (aModelFeatureCombinationUpdateTensor : List F) : Except Fault (Cursor F) :=
  bitPackedLoop (regressionItem A ComputeResidualErrorRegression aModelFeatureCombinationUpdateTensor)
    k_cBitsForStorageType fuel cItemsPerBitPackedDataUnit 1 pValidationSet.m_cInstances
    (pValidationSet.GetInputDataPointer pFeatureCombination)
    (Cursor.start A pValidationSet.m_aResidualErrors)

/-- The function `OptimizedApplyModelUpdateValidationInternal<k_Regression, P>::Func`. -/
def OptimizedApplyModelUpdateValidationInternalRegression.Func {F : Type} (A : FloatOps F)
    (ComputeResidualErrorRegression : F → F) (k_cBitsForStorageType fuel : Nat)
    (cItemsPerBitPackedDataUnit : Nat) (pFeatureCombination : FeatureCombination)
    (pValidationSet : DataSetByFeatureCombination F)
    (aModelFeatureCombinationUpdateTensor : List F) :
    Except Fault (F × DataSetByFeatureCombination F) :=
  match OptimizedApplyModelUpdateValidationInternalRegression.Run A ComputeResidualErrorRegression
      k_cBitsForStorageType fuel cItemsPerBitPackedDataUnit pFeatureCombination pValidationSet
      aModelFeatureCombinationUpdateTensor with
  | .error e => .error e
  | .ok c =>
    .ok (A.div c.sum (A.ofSize pValidationSet.m_cInstances),
      { pValidationSet with m_aResidualErrors := c.aState })

/-- The loops of `OptimizedApplyModelUpdateValidationInternal<2, P>::Func`. -/
def OptimizedApplyModelUpdateValidationInternalBinary.Run {F : Type} (A : FloatOps F)
    (ComputeSingleInstanceLogLossBinaryClassification : F → Nat → F)
    (k_cBitsForStorageType fuel : Nat)
    (cItemsPerBitPackedDataUnit : Nat) (pFeatureCombination : FeatureCombination)
    (pValidationSet : DataSetByFeatureCombination F)
    (aModelFeatureCombinationUpdateTensor : List F) : Except Fault (Cursor F) :=
  bitPackedLoop
    (binaryItem A ComputeSingleInstanceLogLossBinaryClassification pValidationSet.m_aTargetData
      aModelFeatureCombinationUpdateTensor)
    k_cBitsForStorageType fuel cItemsPerBitPackedDataUnit 1 pValidationSet.m_cInstances
    (pValidationSet.GetInputDataPointer pFeatureCombination)
    (Cursor.start A pValidationSet.m_aPredictorScores)

/-- The function `OptimizedApplyModelUpdateValidationInternal<2, P>::Func`. -/
def OptimizedApplyModelUpdateValidationInternalBinary.Func {F : Type} (A : FloatOps F)
    (ComputeSingleInstanceLogLossBinaryClassification : F → Nat → F)
    (k_cBitsForStorageType fuel : Nat)
    (cItemsPerBitPackedDataUnit : Nat) (pFeatureCombination : FeatureCombination)
    (pValidationSet : DataSetByFeatureCombination F)
    (aModelFeatureCombinationUpdateTensor : List F) :
    Except Fault (F × DataSetByFeatureCombination F) :=
  match OptimizedApplyModelUpdateValidationInternalBinary.Run A
      ComputeSingleInstanceLogLossBinaryClassification
      k_cBitsForStorageType fuel cItemsPerBitPackedDataUnit pFeatureCombination pValidationSet
      aModelFeatureCombinationUpdateTensor with
  | .error e => .error e
  | .ok c =>
    .ok (A.div c.sum (A.ofSize pValidationSet.m_cInstances),
      { pValidationSet with m_aPredictorScores := c.aState })

/-- The loops of the primary template `OptimizedApplyModelUpdateValidationInternal::Func`
(multiclass): the tensor cell of an instance starts at `iTensorBin * cVectorLength`. -/
def OptimizedApplyModelUpdateValidationInternal.Run {F : Type} (A : FloatOps F)
    (EbmExp : F → F) (ComputeSingleInstanceLogLossMulticlass : F → F → F)
    (k_cBitsForStorageType fuel : Nat) (learningTypeOrCountTargetClasses : Int)
    (cItemsPerBitPackedDataUnit : Nat) (pFeatureCombination : FeatureCombination)
    (pValidationSet : DataSetByFeatureCombination F)
    (aModelFeatureCombinationUpdateTensor : List F) : Except Fault (Cursor F) :=
  let cVectorLength := GetVectorLength learningTypeOrCountTargetClasses
  bitPackedLoop
    (fun iTensorBin c =>
      multiclassItem A EbmExp ComputeSingleInstanceLogLossMulticlass pValidationSet.m_aTargetData
        aModelFeatureCombinationUpdateTensor cVectorLength fuel (iTensorBin * cVectorLength) c)
    k_cBitsForStorageType fuel cItemsPerBitPackedDataUnit cVectorLength pValidationSet.m_cInstances
    (pValidationSet.GetInputDataPointer pFeatureCombination)
    (Cursor.start A pValidationSet.m_aPredictorScores)

/-- The primary template `OptimizedApplyModelUpdateValidationInternal::Func` (multiclass). -/
def OptimizedApplyModelUpdateValidationInternal.Func {F : Type} (A : FloatOps F)
    (EbmExp : F → F) (ComputeSingleInstanceLogLossMulticlass : F → F → F)
    (k_cBitsForStorageType fuel : Nat) (learningTypeOrCountTargetClasses : Int)
    (cItemsPerBitPackedDataUnit : Nat) (pFeatureCombination : FeatureCombination)
    (pValidationSet : DataSetByFeatureCombination F)
    (aModelFeatureCombinationUpdateTensor : List F) :
    Except Fault (F × DataSetByFeatureCombination F) :=
  match OptimizedApplyModelUpdateValidationInternal.Run A EbmExp
      ComputeSingleInstanceLogLossMulticlass k_cBitsForStorageType fuel
      learningTypeOrCountTargetClasses cItemsPerBitPackedDataUnit pFeatureCombination
      pValidationSet aModelFeatureCombinationUpdateTensor with
  | .error e => .error e
  | .ok c =>
    .ok (A.div c.sum (A.ofSize pValidationSet.m_cInstances),
      { pValidationSet with m_aPredictorScores := c.aState })

/-- The loops of the primary template `OptimizedApplyModelUpdateValidationZeroFeatures::Func`
(multiclass): every instance reads the single tensor cell, which starts at offset 0. -/
def OptimizedApplyModelUpdateValidationZeroFeatures.Run {F : Type} (A : FloatOps F)
    (EbmExp : F → F) (ComputeSingleInstanceLogLossMulticlass : F → F → F)
    (fuel : Nat) (learningTypeOrCountTargetClasses : Int)
    (pValidationSet : DataSetByFeatureCombination F)
    (aModelFeatureCombinationUpdateTensor : List F) : Except Fault (Cursor F) :=
  let cVectorLength := GetVectorLength learningTypeOrCountTargetClasses
  zeroFeaturesLoop
    (multiclassItem A EbmExp ComputeSingleInstanceLogLossMulticlass pValidationSet.m_aTargetData
      aModelFeatureCombinationUpdateTensor cVectorLength fuel 0)
    (pValidationSet.m_cInstances * cVectorLength) fuel
    (Cursor.start A pValidationSet.m_aPredictorScores)

/-- The primary template `OptimizedApplyModelUpdateValidationZeroFeatures::Func` (multiclass). -/
def OptimizedApplyModelUpdateValidationZeroFeatures.Func {F : Type} (A : FloatOps F)
    (EbmExp : F → F) (ComputeSingleInstanceLogLossMulticlass : F → F → F)
    (fuel : Nat) (learningTypeOrCountTargetClasses : Int)
    (pValidationSet : DataSetByFeatureCombination F)
    (aModelFeatureCombinationUpdateTensor : List F) :
    Except Fault (F × DataSetByFeatureCombination F) :=
  match OptimizedApplyModelUpdateValidationZeroFeatures.Run A EbmExp
      ComputeSingleInstanceLogLossMulticlass fuel learningTypeOrCountTargetClasses
      pValidationSet aModelFeatureCombinationUpdateTensor with
  | .error e => .error e
  | .ok c =>
    .ok (A.div c.sum (A.ofSize pValidationSet.m_cInstances),
      { pValidationSet with m_aPredictorScores := c.aState })

/-- The function `OptimizedApplyModelUpdateValidationZeroFeatures<2>::Func`: the single tensor
value `aModelFeatureCombinationUpdateTensor[0]` is read once, before the loop. -/
def OptimizedApplyModelUpdateValidationZeroFeaturesBinary.Func {F : Type} (A : FloatOps F)
    (ComputeSingleInstanceLogLossBinaryClassification : F → Nat → F) (fuel : Nat)
    (pValidationSet : DataSetByFeatureCombination F)
    (aModelFeatureCombinationUpdateTensor : List F) :
    Except Fault (F × DataSetByFeatureCombination F) :=
  match aModelFeatureCombinationUpdateTensor[0]? with
  | none => .error .outOfBounds
  | some smallChangeToPredictorScores =>
    match zeroFeaturesLoop
        (binaryItem A ComputeSingleInstanceLogLossBinaryClassification
          pValidationSet.m_aTargetData [smallChangeToPredictorScores] 0)
        pValidationSet.m_cInstances fuel
        (Cursor.start A pValidationSet.m_aPredictorScores) with
    | .error e => .error e
    | .ok c =>
      .ok (A.div c.sum (A.ofSize pValidationSet.m_cInstances),
        { pValidationSet with m_aPredictorScores := c.aState })

/-- The function `OptimizedApplyModelUpdateValidationZeroFeatures<k_Regression>::Func`: the single
tensor value `aModelFeatureCombinationUpdateTensor[0]` is read once, before the loop. -/
def OptimizedApplyModelUpdateValidationZeroFeaturesRegression.Func {F : Type} (A : FloatOps F)
    (ComputeResidualErrorRegression : F → F) (fuel : Nat)
    (pValidationSet : DataSetByFeatureCombination F)
    (aModelFeatureCombinationUpdateTensor : List F) :
    Except Fault (F × DataSetByFeatureCombination F) :=
  match aModelFeatureCombinationUpdateTensor[0]? with
  | none => .error .outOfBounds
  | some smallChangeToPrediction =>
    match zeroFeaturesLoop
        (regressionItem A ComputeResidualErrorRegression [smallChangeToPrediction] 0)
        pValidationSet.m_cInstances fuel
        (Cursor.start A pValidationSet.m_aResidualErrors) with
    | .error e => .error e
    | .ok c =>
      .ok (A.div c.sum (A.ofSize pValidationSet.m_cInstances),
        { pValidationSet with m_aResidualErrors := c.aState })

/-- Exact rational arithmetic as an instance of the float operations, for evaluating the kernels
on inputs whose every intermediate value a binary float represents exactly. There is no NaN and
no infinity among the rationals, and `max` is the largest finite double. -/
def exactOps : FloatOps ℚ :=
  { zero := 0, add := (· + ·), sub := (· - ·), mul := (· * ·), div := (· / ·)
    ofSize := fun n => (n : ℚ), lt := fun a b => decide (a < b)
    isnan := fun _ => false, isinf := fun _ => false
    max := (2 ^ 1024 - 2 ^ 971 : ℚ) }

/-! ## What the loop over the packed column computes -/

/-- The item of instance `i` in a packed column: field `i % P` of word `i / P`, where the
fields of `GetCountBits W P` bits are counted from the low end of the word. -/
def decodeItem (k_cBitsForStorageType cItemsPerBitPackedDataUnit : Nat) (aInputData : List Nat)
    (i : Nat) : Nat :=
  maskBits k_cBitsForStorageType (GetCountBits k_cBitsForStorageType cItemsPerBitPackedDataUnit) &&&
    (aInputData.getD (i / cItemsPerBitPackedDataUnit) 0 >>>
      (i % cItemsPerBitPackedDataUnit *
        GetCountBits k_cBitsForStorageType cItemsPerBitPackedDataUnit))

/-- The event of instance `i`: its word, the offset of its state and its decoded item. -/
def itemEvent (k_cBitsForStorageType cItemsPerBitPackedDataUnit cVectorLength : Nat)
    (aInputData : List Nat) (pStart i : Nat) : Event :=
  ⟨i / cItemsPerBitPackedDataUnit, pStart + i * cVectorLength,
    decodeItem k_cBitsForStorageType cItemsPerBitPackedDataUnit aInputData i⟩

/-- The events of the instances `0 .. cInstances - 1` in instance order. -/
def itemEvents (k_cBitsForStorageType cItemsPerBitPackedDataUnit cVectorLength : Nat)
    (aInputData : List Nat) (pStart cInstances : Nat) : List Event :=
  (List.range cInstances).map
    (itemEvent k_cBitsForStorageType cItemsPerBitPackedDataUnit cVectorLength aInputData pStart)

/-- The body of a kernel run on a list of events, one after the other: before each one the
cursor is given the input pointer and the trace the loop has at that moment. -/
def applyItems {F : Type} (item : Nat → Cursor F → Except Fault (Cursor F)) :
    List Event → Cursor F → Except Fault (Cursor F)
  | [], c => .ok c
  | e :: es, c =>
    match item e.iTensorBin { c with pInputData := e.iWord + 1, trace := c.trace ++ [e] } with
    | .error x => .error x
    | .ok c1 => applyItems item es c1

/-- A kernel body moves the state pointer by `cVectorLength` and leaves the input pointer and
the trace alone. -/
def ItemAdvances {F : Type} (cVectorLength : Nat)
    (item : Nat → Cursor F → Except Fault (Cursor F)) : Prop :=
  ∀ iTensorBin c c1, item iTensorBin c = .ok c1 →
    c1.pState = c.pState + cVectorLength ∧ c1.pInputData = c.pInputData ∧ c1.trace = c.trace

/-- The list `old` with its first `n` entries replaced by `f 0, ..., f (n - 1)`: an array that a
kernel has rewritten up to offset `n`. -/
def prefixMap {α : Type} (f : Nat → α) (old : List α) (n : Nat) : List α :=
  (List.range n).map f ++ old.drop n

/-- The residual the regression kernel stores for instance `i` whose item is `iTensorBin`. -/
def residualNew {F : Type} (A : FloatOps F) (ComputeResidualErrorRegression : F → F)
    (aResidualErrors aModelFeatureCombinationUpdateTensor : List F) (bin : Nat → Nat) (i : Nat) : F :=
  ComputeResidualErrorRegression
    (A.sub (aResidualErrors.getD i A.zero)
      (aModelFeatureCombinationUpdateTensor.getD (bin i) A.zero))

/-- The sum a kernel has accumulated after `n` instances, the `i`-th of which added `term i`:
the additions are made from the left, starting from zero. -/
def sumUpTo {F : Type} (A : FloatOps F) (term : Nat → F) (n : Nat) : F :=
  (List.range n).foldl (fun acc i => A.add acc (term i)) A.zero

/-- The number of input words read once `n` instances are done. -/
def wordsRead (cItemsPerBitPackedDataUnit n : Nat) : Nat :=
  if n = 0 then 0 else (n - 1) / cItemsPerBitPackedDataUnit + 1

/-- The cursor of the regression kernel after `n` instances. -/
def regressionCursor {F : Type} (A : FloatOps F) (ComputeResidualErrorRegression : F → F)
    (k_cBitsForStorageType cItemsPerBitPackedDataUnit : Nat) (aInputData : List Nat)
    (aResidualErrors aModelFeatureCombinationUpdateTensor : List F) (n : Nat) : Cursor F :=
  { pInputData := wordsRead cItemsPerBitPackedDataUnit n
    pTargetData := 0
    pState := n
    aState := prefixMap (residualNew A ComputeResidualErrorRegression aResidualErrors
      aModelFeatureCombinationUpdateTensor
      (decodeItem k_cBitsForStorageType cItemsPerBitPackedDataUnit aInputData)) aResidualErrors n
    sum := sumUpTo A (fun i => ComputeSingleInstanceSquaredErrorRegression A
      (residualNew A ComputeResidualErrorRegression aResidualErrors
        aModelFeatureCombinationUpdateTensor
        (decodeItem k_cBitsForStorageType cItemsPerBitPackedDataUnit aInputData) i)) n
    trace := itemEvents k_cBitsForStorageType cItemsPerBitPackedDataUnit 1 aInputData 0 n }

/-- The score the binary classification kernel stores for instance `i`. -/
def scoreNew {F : Type} (A : FloatOps F)
    (aPredictorScores aModelFeatureCombinationUpdateTensor : List F) (bin : Nat → Nat) (i : Nat) : F :=
  A.add (aPredictorScores.getD i A.zero) (aModelFeatureCombinationUpdateTensor.getD (bin i) A.zero)

/-- The cursor of the binary classification kernel after `n` instances. -/
def binaryCursor {F : Type} (A : FloatOps F)
    (ComputeSingleInstanceLogLossBinaryClassification : F → Nat → F)
    (k_cBitsForStorageType cItemsPerBitPackedDataUnit : Nat) (aInputData aTargetData : List Nat)
    (aPredictorScores aModelFeatureCombinationUpdateTensor : List F) (n : Nat) : Cursor F :=
  { pInputData := wordsRead cItemsPerBitPackedDataUnit n
    pTargetData := n
    pState := n
    aState := prefixMap (scoreNew A aPredictorScores aModelFeatureCombinationUpdateTensor
      (decodeItem k_cBitsForStorageType cItemsPerBitPackedDataUnit aInputData)) aPredictorScores n
    sum := sumUpTo A (fun i => ComputeSingleInstanceLogLossBinaryClassification
      (scoreNew A aPredictorScores aModelFeatureCombinationUpdateTensor
        (decodeItem k_cBitsForStorageType cItemsPerBitPackedDataUnit aInputData) i)
      (aTargetData.getD i 0)) n
    trace := itemEvents k_cBitsForStorageType cItemsPerBitPackedDataUnit 1 aInputData 0 n }

/-- The score the multiclass kernel stores at offset `idx`, which belongs to the class
`idx % cVectorLength` of the instance `idx / cVectorLength`: the tensor cell of the instance
starts at `bin * cVectorLength`. -/
def multiclassScoreNew {F : Type} (A : FloatOps F)
    (aPredictorScores aModelFeatureCombinationUpdateTensor : List F) (cVectorLength : Nat)
    (bin : Nat → Nat) (idx : Nat) : F :=
  A.add (aPredictorScores.getD idx A.zero)
    (aModelFeatureCombinationUpdateTensor.getD
      (bin (idx / cVectorLength) * cVectorLength + idx % cVectorLength) A.zero)

/-- The value of `sumExp` after the class loop of instance `i`, when `score` gives the new
scores: the exponentials of the scores of all classes, added from the left, from zero. -/
def instanceSumExp {F : Type} (A : FloatOps F) (EbmExp : F → F) (score : Nat → F)
    (cVectorLength i : Nat) : F :=
  sumUpTo A (fun v => EbmExp (score (i * cVectorLength + v))) cVectorLength

/-- The value of `itemExp` after the class loop of instance `i` with target `targetData`: the
exponential of the new score of the target class, or the initial zero when no class index
equals the target. -/
def instanceItemExp {F : Type} (A : FloatOps F) (EbmExp : F → F) (score : Nat → F)
    (cVectorLength targetData i : Nat) : F :=
  if targetData < cVectorLength then EbmExp (score (i * cVectorLength + targetData)) else A.zero

/-- The log loss the multiclass kernels add to the sum for instance `i`. -/
def instanceLogLoss {F : Type} (A : FloatOps F) (EbmExp : F → F)
    (ComputeSingleInstanceLogLossMulticlass : F → F → F) (score : Nat → F)
    (cVectorLength : Nat) (aTargetData : List Nat) (i : Nat) : F :=
  ComputeSingleInstanceLogLossMulticlass (instanceSumExp A EbmExp score cVectorLength i)
    (instanceItemExp A EbmExp score cVectorLength (aTargetData.getD i 0) i)

/-- The cursor of a multiclass kernel after `n` instances, given the words read and the trace. -/
def multiclassCursor {F : Type} (A : FloatOps F) (EbmExp : F → F)
    (ComputeSingleInstanceLogLossMulticlass : F → F → F) (cVectorLength : Nat)
    (aTargetData : List Nat) (aPredictorScores aModelFeatureCombinationUpdateTensor : List F)
    (bin : Nat → Nat) (cWords : Nat) (trace : List Event) (n : Nat) : Cursor F :=
  { pInputData := cWords
    pTargetData := n
    pState := n * cVectorLength
    aState := prefixMap (multiclassScoreNew A aPredictorScores aModelFeatureCombinationUpdateTensor
      cVectorLength bin) aPredictorScores (n * cVectorLength)
    sum := sumUpTo A (instanceLogLoss A EbmExp ComputeSingleInstanceLogLossMulticlass
      (multiclassScoreNew A aPredictorScores aModelFeatureCombinationUpdateTensor cVectorLength bin)
      cVectorLength aTargetData) n
    trace := trace }

/-! ## The packed column as the specification lays it out -/

/-- The field of instance `i` in a packed column: word `i / cItemsPerWord` holds the instance in
the `cBitsPerItem` bits that start at bit `(i % cItemsPerWord) * cBitsPerItem`, counted from the
low end. -/
def packedField (cBitsPerItem cItemsPerWord : Nat) (aInputData : List Nat) (i : Nat) : Nat :=
  aInputData.getD (i / cItemsPerWord) 0 / 2 ^ (i % cItemsPerWord * cBitsPerItem) %
    2 ^ cBitsPerItem

/-- The word that holds `items` in consecutive fields of `cBitsPerItem` bits, the first item in
the low bits; the bits above the last item are zero. -/
def packWord (cBitsPerItem : Nat) : List Nat → Nat
  | [] => 0
  | x :: xs => x + 2 ^ cBitsPerItem * packWord cBitsPerItem xs

/-- The packed column of a sequence of bins: `⌈N / P⌉` words, word `w` holding the instances
`w * P .. min (w * P + P, N) - 1`. -/
def packColumn (cItemsPerWord cBitsPerItem : Nat) (bins : List Nat) : List Nat :=
  (List.range ((bins.length + cItemsPerWord - 1) / cItemsPerWord)).map fun w =>
    packWord cBitsPerItem ((bins.drop (w * cItemsPerWord)).take cItemsPerWord)

/-- The number of items a run has decoded from each of the first `cWords` input words. -/
def itemsPerWord (trace : List Event) (cWords : Nat) : List Nat :=
  (List.range cWords).map fun w => trace.countP fun e => e.iWord = w

/-! ## The entry point of the applier -/

/-- The constants and helper predicates of EbmInternal.h, which is not under src/, that the
entry points use; they are parameters. `IsNumberConvertable` is the instance
`IsNumberConvertable<size_t, IntEbmType>`, and `GetNextCountItemsBitPacked` gives the next pack
width the compile time chain tries. -/
structure EbmInternal where
  k_Regression : Int
  k_DynamicClassification : Int
  k_cCompilerOptimizedTargetClassesMax : Int
  k_cDimensionsMax : Nat
  k_cItemsPerBitPackedDataUnitDynamic : Nat
  k_cItemsPerBitPackedDataUnitMax : Nat
  GetNextCountItemsBitPacked : Nat → Nat
  IsClassification : Int → Bool
  IsNumberConvertable : Int → Bool
  TODO_REMOVE_THIS_DEFAULT_cInstancesRequiredForChildSplitMin : Nat

/-- The functions of EbmStatistics.h, which is not under src/, that the kernels call; they are
parameters. -/
structure EbmStatistics (F : Type) where
  EbmExp : F → F
  ComputeResidualErrorRegression : F → F
  ComputeSingleInstanceLogLossBinaryClassification : F → Nat → F
  ComputeSingleInstanceLogLossMulticlass : F → F → F

/-- Modelled from the spec: the macro `GET_LEARNING_TYPE_OR_COUNT_TARGET_CLASSES` of
EbmInternal.h, which is not under src/: the monomorphic variant of a kernel uses its compile
time class count, "the dynamic variant" the runtime one. -/
def GET_LEARNING_TYPE_OR_COUNT_TARGET_CLASSES (k_DynamicClassification
    compilerLearningTypeOrCountTargetClasses runtimeLearningTypeOrCountTargetClasses : Int) : Int :=
  if k_DynamicClassification = compilerLearningTypeOrCountTargetClasses then
    runtimeLearningTypeOrCountTargetClasses
  else compilerLearningTypeOrCountTargetClasses

/-- Modelled from the spec: the macro `GET_COUNT_ITEMS_PER_BIT_PACKED_DATA_UNIT` of
EbmInternal.h, which is not under src/: "the compile-time version uses a fixed inner loop-bound
of P", the "dynamic-width version" the runtime pack width. -/
def GET_COUNT_ITEMS_PER_BIT_PACKED_DATA_UNIT (k_cItemsPerBitPackedDataUnitDynamic
    compilerCountItemsPerBitPackedDataUnit runtimeCountItemsPerBitPackedDataUnit : Nat) : Nat :=
  if k_cItemsPerBitPackedDataUnitDynamic = compilerCountItemsPerBitPackedDataUnit then
    runtimeCountItemsPerBitPackedDataUnit
  else compilerCountItemsPerBitPackedDataUnit

/-- The class template `OptimizedApplyModelUpdateValidationZeroFeatures<compiler>::Func` at a
compile time argument: the specialization for `k_Regression`, the one for `2`, and the primary
template for every other argument. -/
def OptimizedApplyModelUpdateValidationZeroFeatures.Instance {F : Type} (E : EbmInternal)
    (A : FloatOps F) (S : EbmStatistics F) (fuel : Nat)
    (compilerLearningTypeOrCountTargetClasses runtimeLearningTypeOrCountTargetClasses : Int)
    (pValidationSet : DataSetByFeatureCombination F)
    (aModelFeatureCombinationUpdateTensor : List F) :
    Except Fault (F × DataSetByFeatureCombination F) :=
  if compilerLearningTypeOrCountTargetClasses = E.k_Regression then
    OptimizedApplyModelUpdateValidationZeroFeaturesRegression.Func A
      S.ComputeResidualErrorRegression fuel pValidationSet aModelFeatureCombinationUpdateTensor
  else if compilerLearningTypeOrCountTargetClasses = 2 then
    OptimizedApplyModelUpdateValidationZeroFeaturesBinary.Func A
      S.ComputeSingleInstanceLogLossBinaryClassification fuel pValidationSet
      aModelFeatureCombinationUpdateTensor
  else
    OptimizedApplyModelUpdateValidationZeroFeatures.Func A S.EbmExp
      S.ComputeSingleInstanceLogLossMulticlass fuel
      (GET_LEARNING_TYPE_OR_COUNT_TARGET_CLASSES E.k_DynamicClassification
        compilerLearningTypeOrCountTargetClasses runtimeLearningTypeOrCountTargetClasses)
      pValidationSet aModelFeatureCombinationUpdateTensor

/-- The class template `OptimizedApplyModelUpdateValidationInternal<compiler, P>::Func` at its
compile time arguments: the specialization for `k_Regression`, the one for `2`, and the primary
template for every other first argument. -/
def OptimizedApplyModelUpdateValidationInternal.Instance {F : Type} (E : EbmInternal)
    (A : FloatOps F) (S : EbmStatistics F) (k_cBitsForStorageType fuel : Nat)
    (compilerLearningTypeOrCountTargetClasses : Int)
    (compilerCountItemsPerBitPackedDataUnit : Nat)
    (runtimeLearningTypeOrCountTargetClasses : Int)
    (runtimeCountItemsPerBitPackedDataUnit : Nat)
    (pFeatureCombination : FeatureCombination)
    (pValidationSet : DataSetByFeatureCombination F)
    (aModelFeatureCombinationUpdateTensor : List F) :
    Except Fault (F × DataSetByFeatureCombination F) :=
  let cItemsPerBitPackedDataUnit :=
    GET_COUNT_ITEMS_PER_BIT_PACKED_DATA_UNIT E.k_cItemsPerBitPackedDataUnitDynamic
      compilerCountItemsPerBitPackedDataUnit runtimeCountItemsPerBitPackedDataUnit
  if compilerLearningTypeOrCountTargetClasses = E.k_Regression then
    OptimizedApplyModelUpdateValidationInternalRegression.Func A
      S.ComputeResidualErrorRegression k_cBitsForStorageType fuel cItemsPerBitPackedDataUnit
      pFeatureCombination pValidationSet aModelFeatureCombinationUpdateTensor
  else if compilerLearningTypeOrCountTargetClasses = 2 then
    OptimizedApplyModelUpdateValidationInternalBinary.Func A
      S.ComputeSingleInstanceLogLossBinaryClassification k_cBitsForStorageType fuel
      cItemsPerBitPackedDataUnit pFeatureCombination pValidationSet
      aModelFeatureCombinationUpdateTensor
  else
    OptimizedApplyModelUpdateValidationInternal.Func A S.EbmExp
      S.ComputeSingleInstanceLogLossMulticlass k_cBitsForStorageType fuel
      (GET_LEARNING_TYPE_OR_COUNT_TARGET_CLASSES E.k_DynamicClassification
        compilerLearningTypeOrCountTargetClasses runtimeLearningTypeOrCountTargetClasses)
      cItemsPerBitPackedDataUnit pFeatureCombination pValidationSet
      aModelFeatureCombinationUpdateTensor

/-- The chain `OptimizedApplyModelUpdateValidationCompiler<compiler, possible>::
MagicCompilerLoopFunction`: the specialization for `k_cItemsPerBitPackedDataUnitDynamic` calls
the dynamic kernel; otherwise the kernel compiled for `possible` is called when `possible` is the
runtime pack width, and else the chain goes on with `GetNextCountItemsBitPacked(possible)`. The
first argument bounds the number of instantiations. -/
def OptimizedApplyModelUpdateValidationCompiler.MagicCompilerLoopFunction {F : Type}
    (E : EbmInternal) (A : FloatOps F) (S : EbmStatistics F) (k_cBitsForStorageType fuel : Nat)
    (compilerLearningTypeOrCountTargetClasses runtimeLearningTypeOrCountTargetClasses : Int)
    (runtimeCountItemsPerBitPackedDataUnit : Nat) (pFeatureCombination : FeatureCombination)
    (pValidationSet : DataSetByFeatureCombination F)
    (aModelFeatureCombinationUpdateTensor : List F) :
    Nat → Nat → Except Fault (F × DataSetByFeatureCombination F)
  | 0, _ => .error .outOfFuel
  | depth + 1, compilerCountItemsPerBitPackedDataUnitPossible =>
    if compilerCountItemsPerBitPackedDataUnitPossible = E.k_cItemsPerBitPackedDataUnitDynamic then
      OptimizedApplyModelUpdateValidationInternal.Instance E A S k_cBitsForStorageType fuel
        compilerLearningTypeOrCountTargetClasses E.k_cItemsPerBitPackedDataUnitDynamic
        runtimeLearningTypeOrCountTargetClasses runtimeCountItemsPerBitPackedDataUnit
        pFeatureCombination pValidationSet aModelFeatureCombinationUpdateTensor
    else if compilerCountItemsPerBitPackedDataUnitPossible =
        runtimeCountItemsPerBitPackedDataUnit then
      OptimizedApplyModelUpdateValidationInternal.Instance E A S k_cBitsForStorageType fuel
        compilerLearningTypeOrCountTargetClasses compilerCountItemsPerBitPackedDataUnitPossible
        runtimeLearningTypeOrCountTargetClasses runtimeCountItemsPerBitPackedDataUnit
        pFeatureCombination pValidationSet aModelFeatureCombinationUpdateTensor
    else
      OptimizedApplyModelUpdateValidationCompiler.MagicCompilerLoopFunction E A S
        k_cBitsForStorageType fuel compilerLearningTypeOrCountTargetClasses
        runtimeLearningTypeOrCountTargetClasses runtimeCountItemsPerBitPackedDataUnit
        pFeatureCombination pValidationSet aModelFeatureCombinationUpdateTensor depth
        (E.GetNextCountItemsBitPacked compilerCountItemsPerBitPackedDataUnitPossible)

/-- The first half of `OptimizedApplyModelUpdateValidation<compiler>`: the choice of the kernel
that computes the raw `ret`. -/
def OptimizedApplyModelUpdateValidation.Dispatch {F : Type} (E : EbmInternal) (A : FloatOps F)
    (S : EbmStatistics F) (k_cBitsForStorageType fuel : Nat)
    (compilerLearningTypeOrCountTargetClasses runtimeLearningTypeOrCountTargetClasses : Int)
    (bUseSIMD : Bool) (pFeatureCombination : FeatureCombination)
    (pValidationSet : DataSetByFeatureCombination F)
    (aModelFeatureCombinationUpdateTensor : List F) :
    Except Fault (F × DataSetByFeatureCombination F) :=
  if 0 = pFeatureCombination.m_cFeatures then
    OptimizedApplyModelUpdateValidationZeroFeatures.Instance E A S fuel
      compilerLearningTypeOrCountTargetClasses runtimeLearningTypeOrCountTargetClasses
      pValidationSet aModelFeatureCombinationUpdateTensor
  else if bUseSIMD then
    OptimizedApplyModelUpdateValidationCompiler.MagicCompilerLoopFunction E A S
      k_cBitsForStorageType fuel compilerLearningTypeOrCountTargetClasses
      runtimeLearningTypeOrCountTargetClasses pFeatureCombination.m_cItemsPerBitPackedDataUnit
      pFeatureCombination pValidationSet aModelFeatureCombinationUpdateTensor fuel
      E.k_cItemsPerBitPackedDataUnitMax
  else
    OptimizedApplyModelUpdateValidationInternal.Instance E A S k_cBitsForStorageType fuel
      compilerLearningTypeOrCountTargetClasses E.k_cItemsPerBitPackedDataUnitDynamic
      runtimeLearningTypeOrCountTargetClasses pFeatureCombination.m_cItemsPerBitPackedDataUnit
      pFeatureCombination pValidationSet aModelFeatureCombinationUpdateTensor

/-- The second half of `OptimizedApplyModelUpdateValidation<compiler>`: a NaN or infinite `ret`
is replaced by `std::numeric_limits<FloatEbmType>::max()`, and otherwise, for a classification
instantiation, a `ret` below zero by zero. -/
def OptimizedApplyModelUpdateValidation.Finish {F : Type} (E : EbmInternal) (A : FloatOps F)
    (compilerLearningTypeOrCountTargetClasses : Int) (ret : F) : F :=
  if A.isnan ret || A.isinf ret then A.max
  else if E.IsClassification compilerLearningTypeOrCountTargetClasses then
    if A.lt ret A.zero then A.zero else ret
  else ret

/-- The function template `OptimizedApplyModelUpdateValidation<compiler>`: the metric it returns
and the validation set as the kernel left it. -/
def OptimizedApplyModelUpdateValidation {F : Type} (E : EbmInternal) (A : FloatOps F)
    (S : EbmStatistics F) (k_cBitsForStorageType fuel : Nat)
    (compilerLearningTypeOrCountTargetClasses runtimeLearningTypeOrCountTargetClasses : Int)
    (bUseSIMD : Bool) (pFeatureCombination : FeatureCombination)
    (pValidationSet : DataSetByFeatureCombination F)
    (aModelFeatureCombinationUpdateTensor : List F) :
    Except Fault (F × DataSetByFeatureCombination F) :=
  match OptimizedApplyModelUpdateValidation.Dispatch E A S k_cBitsForStorageType fuel
      compilerLearningTypeOrCountTargetClasses runtimeLearningTypeOrCountTargetClasses bUseSIMD
      pFeatureCombination pValidationSet aModelFeatureCombinationUpdateTensor with
  | .error e => .error e
  | .ok (ret, pValidationSet1) =>
    .ok (OptimizedApplyModelUpdateValidation.Finish E A compilerLearningTypeOrCountTargetClasses
      ret, pValidationSet1)

/-- Values of the constants for evaluating the entry points: regression is `-1`, dynamic
classification `0`, class counts up to `8` have their own kernel, a combination has at most `63`
dimensions, the dynamic pack width is `0`, the chain of pack widths starts at `64` and goes down
through the widths that fill a word of 64 bits, a count is a `size_t` when it is not negative
and below `2 ^ 64`. -/
def ebmInternal64 : EbmInternal :=
  { k_Regression := -1
    k_DynamicClassification := 0
    k_cCompilerOptimizedTargetClassesMax := 8
    k_cDimensionsMax := 63
    k_cItemsPerBitPackedDataUnitDynamic := 0
    k_cItemsPerBitPackedDataUnitMax := 64
    GetNextCountItemsBitPacked := fun cItemsBitPackedPrev =>
      if cItemsBitPackedPrev ≤ 1 then 0 else 64 / (64 / cItemsBitPackedPrev + 1)
    IsClassification := fun learningTypeOrCountTargetClasses =>
      decide (0 ≤ learningTypeOrCountTargetClasses)
    IsNumberConvertable := fun number => decide (0 ≤ number ∧ number < 2 ^ 64)
    TODO_REMOVE_THIS_DEFAULT_cInstancesRequiredForChildSplitMin := 1 }

/-! ## The arithmetic of doubles -/

/-- Modelled from the spec: `FloatEbmType`, whose definition in ebm_native.h is not under src/:
"all floating-point is IEEE-754 double". The values of a double: NaN (the payload is not
modelled), the two infinities, the two zeros, and the other numbers as rationals. -/
inductive Binary64 where
  | nan
  | inf (negative : Bool)
  | zero (negative : Bool)
  | finite (q : ℚ)
  deriving DecidableEq

/-- The integer nearest to `m`, the even one of the two when `m` is half way between them. -/
def roundNearestEven (m : ℚ) : ℤ :=
  if m - ⌊m⌋ < 1 / 2 then ⌊m⌋
  else if 1 / 2 < m - ⌊m⌋ then ⌊m⌋ + 1
  else if ⌊m⌋ % 2 = 0 then ⌊m⌋ else ⌊m⌋ + 1

/-- The spacing of the doubles around the non-zero rational `q`: 53 significant bits, and the
fixed spacing `2 ^ (-1074)` of the subnormal range below `2 ^ (-1022)`. -/
def Binary64.ulp (q : ℚ) : ℚ :=
  2 ^ (max (Int.log 2 |q|) (-1022) - 52)

/-- The double that an operation with the exact result `q` returns, rounding to nearest, ties to
even: an exact zero is `+0`, a result that rounds to zero keeps its sign, and a result that
rounds to `2 ^ 1024` or beyond is an infinity. -/
def Binary64.ofRat (q : ℚ) : Binary64 :=
  if q = 0 then .zero false
  else
    let r : ℚ := roundNearestEven (q / Binary64.ulp q) * Binary64.ulp q
    if r = 0 then .zero (decide (q < 0))
    else if 2 ^ 1024 ≤ |r| then .inf (decide (q < 0))
    else .finite r

/-- Unary minus of a double: the sign is flipped. -/
def Binary64.neg : Binary64 → Binary64
  | .nan => .nan
  | .inf s => .inf (!s)
  | .zero s => .zero (!s)
  | .finite q => .finite (-q)

/-- Addition of doubles. -/
def Binary64.add : Binary64 → Binary64 → Binary64
  | .nan, _ => .nan
  | _, .nan => .nan
  | .inf a, .inf b => if a = b then .inf a else .nan
  | .inf a, _ => .inf a
  | _, .inf b => .inf b
  | .zero a, .zero b => .zero (a && b)
  | .zero _, .finite q => .finite q
  | .finite p, .zero _ => .finite p
  | .finite p, .finite q => Binary64.ofRat (p + q)

/-- Multiplication of doubles. -/
def Binary64.mul : Binary64 → Binary64 → Binary64
  | .nan, _ => .nan
  | _, .nan => .nan
  | .inf _, .zero _ => .nan
  | .zero _, .inf _ => .nan
  | .inf a, .inf b => .inf (xor a b)
  | .inf a, .finite q => .inf (xor a (decide (q < 0)))
  | .finite p, .inf b => .inf (xor (decide (p < 0)) b)
  | .zero a, .zero b => .zero (xor a b)
  | .zero a, .finite q => .zero (xor a (decide (q < 0)))
  | .finite p, .zero b => .zero (xor (decide (p < 0)) b)
  | .finite p, .finite q => Binary64.ofRat (p * q)

/-- Division of doubles. -/
def Binary64.div : Binary64 → Binary64 → Binary64
  | .nan, _ => .nan
  | _, .nan => .nan
  | .inf _, .inf _ => .nan
  | .zero _, .zero _ => .nan
  | .inf a, .zero b => .inf (xor a b)
  | .inf a, .finite q => .inf (xor a (decide (q < 0)))
  | .zero a, .inf b => .zero (xor a b)
  | .finite p, .inf b => .zero (xor (decide (p < 0)) b)
  | .zero a, .finite q => .zero (xor a (decide (q < 0)))
  | .finite p, .zero b => .inf (xor (decide (p < 0)) b)
  | .finite p, .finite q => Binary64.ofRat (p / q)

/-- The comparison `<` of doubles: false when either side is NaN, the two zeros are equal. -/
def Binary64.lt : Binary64 → Binary64 → Bool
  | .nan, _ => false
  | _, .nan => false
  | .inf a, .inf b => a && !b
  | .inf a, _ => a
  | _, .inf b => !b
  | .zero _, .zero _ => false
  | .zero _, .finite q => decide (0 < q)
  | .finite p, .zero _ => decide (p < 0)
  | .finite p, .finite q => decide (p < q)

/-- The float operations of the kernels on doubles. -/
def binary64Ops : FloatOps Binary64 :=
  { zero := .zero false
    add := Binary64.add
    sub := fun x y => Binary64.add x (Binary64.neg y)
    mul := Binary64.mul
    div := Binary64.div
    ofSize := fun n => Binary64.ofRat n
    lt := Binary64.lt
    isnan := fun x => match x with
      | .nan => true
      | _ => false
    isinf := fun x => match x with
      | .inf _ => true
      | _ => false
    max := .finite (2 ^ 1024 - 2 ^ 971) }

/-! ## The entry point of interaction detection

A shallow embedding of `GetInteractionScore` of `shared/ebm_native/InteractionDetection.cpp`. -/

/-- The field of `Feature` (Feature.h) that `GetInteractionScore` reads. -/
structure Feature where
  m_cBins : Nat
  deriving DecidableEq, Repr

/-- The fields of `EbmInteractionState` (EbmInteractionState.h) that `GetInteractionScore` reads.
The pointer `m_pDataSet` is `none` when it is null, and `D` is the type of the data set, which
only the scorer looks into. -/
structure EbmInteractionState (D : Type) where
  m_runtimeLearningTypeOrCountTargetClasses : Int
  m_cFeatures : Nat
  m_aFeatures : List Feature
  m_pDataSet : Option D

/-- What a call of `GetInteractionScore` leaves behind: the return code, the contents of
`*interactionScoreReturn` (`none` for a null pointer), and two ghost records that no computation
reads: the compile time arguments of the instantiations of `GetInteractionScorePerTargetClasses`
that were called, and the number of recursive calls in the chain
`CompilerRecursiveGetInteractionScore`. -/
structure InteractionScoreResult (F : Type) where
  ret : Int
  interactionScoreReturn : Option F
  scorerCalls : List Int
  chainSteps : Nat

/-- The function template `GetInteractionScorePerTargetClasses<compiler>`. The allocation
`new (std::nothrow) CachedInteractionThreadResources()` succeeds when `bAllocated` is true.
`CalculateInteractionScore` (DimensionMultiple.h) is not under src/ and is a parameter: from the
compile time and the runtime class count, the data set pointer, the features of the combination
and `cInstancesRequiredForChildSplitMin` it gives its boolean result, true for a failure, and
the score it stores through `pInteractionScoreReturn`, if it stores one; nothing is stored
through a null pointer. -/
def GetInteractionScorePerTargetClasses {D F : Type} (bAllocated : Bool)
    (CalculateInteractionScore : Int → Int → Option D → List Feature → Nat → Bool × Option F)
    (compilerLearningTypeOrCountTargetClasses : Int)
    (pEbmInteractionState : EbmInteractionState D) (pFeatureCombination : List Feature)
    (cInstancesRequiredForChildSplitMin : Nat) (pInteractionScoreReturn : Option F) :
    InteractionScoreResult F :=
  if !bAllocated then
    ⟨1, pInteractionScoreReturn, [compilerLearningTypeOrCountTargetClasses], 0⟩
  else
    let r := CalculateInteractionScore compilerLearningTypeOrCountTargetClasses
      pEbmInteractionState.m_runtimeLearningTypeOrCountTargetClasses
      pEbmInteractionState.m_pDataSet pFeatureCombination cInstancesRequiredForChildSplitMin
    let stored : Option F :=
      match pInteractionScoreReturn, r.2 with
      | some _, some score => some score
      | _, _ => pInteractionScoreReturn
    ⟨if r.1 then 1 else 0, stored, [compilerLearningTypeOrCountTargetClasses], 0⟩

/-- The chain of function templates `CompilerRecursiveGetInteractionScore<possible>`. The first
argument is the distance `k_cCompilerOptimizedTargetClassesMax + 1 - possible` to the
specialization that ends the chain with the dynamic scorer. -/
def CompilerRecursiveGetInteractionScore {D F : Type} (E : EbmInternal) (bAllocated : Bool)
    (CalculateInteractionScore : Int → Int → Option D → List Feature → Nat → Bool × Option F)
    (runtimeLearningTypeOrCountTargetClasses : Int)
    (pEbmInteractionState : EbmInteractionState D) (pFeatureCombination : List Feature)
    (cInstancesRequiredForChildSplitMin : Nat) (pInteractionScoreReturn : Option F) :
    Nat → Int → InteractionScoreResult F
  | 0, _ =>
    GetInteractionScorePerTargetClasses bAllocated CalculateInteractionScore
      E.k_DynamicClassification pEbmInteractionState pFeatureCombination
      cInstancesRequiredForChildSplitMin pInteractionScoreReturn
  | distance + 1, possibleCompilerLearningTypeOrCountTargetClasses =>
    if runtimeLearningTypeOrCountTargetClasses =
        possibleCompilerLearningTypeOrCountTargetClasses then
      GetInteractionScorePerTargetClasses bAllocated CalculateInteractionScore
        possibleCompilerLearningTypeOrCountTargetClasses pEbmInteractionState pFeatureCombination
        cInstancesRequiredForChildSplitMin pInteractionScoreReturn
    else
      let r := CompilerRecursiveGetInteractionScore E bAllocated CalculateInteractionScore
        runtimeLearningTypeOrCountTargetClasses pEbmInteractionState pFeatureCombination
        cInstancesRequiredForChildSplitMin pInteractionScoreReturn distance
        (possibleCompilerLearningTypeOrCountTargetClasses + 1)
      { r with chainSteps := r.chainSteps + 1 }

/-- The ways the first loop of `GetInteractionScore` over `featureIndexes` ends: with
`return 1` at an index that is no `size_t`, with `return 0` at a feature with `m_cBins <= 1`, or
at the end of the indexes. -/
inductive FeatureScan where
  | notConvertable
  | degenerate
  | done
  deriving DecidableEq, Repr

/-- The first `do ... while(pFeatureCombinationIndexEnd != pFeatureCombinationIndex)` of
`GetInteractionScore`; the pointer into `featureIndexes` is an offset. -/
def scanFeatureIndexes (E : EbmInternal) (aFeatures : List Feature) (featureIndexes : List Int)
    (pFeatureCombinationIndexEnd : Nat) : Nat → Nat → Except Fault FeatureScan
  | 0, _ => .error .outOfFuel
  | fuel + 1, pFeatureCombinationIndex =>
    match featureIndexes[pFeatureCombinationIndex]? with
    | none => .error .outOfBounds
    | some indexFeatureInterop =>
      if !E.IsNumberConvertable indexFeatureInterop then .ok .notConvertable
      else
        match aFeatures[indexFeatureInterop.toNat]? with
        | none => .error .outOfBounds
        | some pFeature =>
          if pFeature.m_cBins ≤ 1 then .ok .degenerate
          else if pFeatureCombinationIndexEnd ≠ pFeatureCombinationIndex + 1 then
            scanFeatureIndexes E aFeatures featureIndexes pFeatureCombinationIndexEnd fuel
              (pFeatureCombinationIndex + 1)
          else .ok .done

/-- The second loop of `GetInteractionScore`, which stores the feature of each index in the
entries of the feature combination on the stack. -/
def fillFeatureCombination (aFeatures : List Feature) (featureIndexes : List Int)
    (pFeatureCombinationIndexEnd : Nat) : Nat → Nat → List Feature → Except Fault (List Feature)
  | 0, _, _ => .error .outOfFuel
  | fuel + 1, pFeatureCombinationIndex, entries =>
    match featureIndexes[pFeatureCombinationIndex]? with
    | none => .error .outOfBounds
    | some indexFeatureInterop =>
      match aFeatures[indexFeatureInterop.toNat]? with
      | none => .error .outOfBounds
      | some pFeature =>
        if pFeatureCombinationIndexEnd ≠ pFeatureCombinationIndex + 1 then
          fillFeatureCombination aFeatures featureIndexes pFeatureCombinationIndexEnd fuel
            (pFeatureCombinationIndex + 1) (entries ++ [pFeature])
        else .ok (entries ++ [pFeature])

/-- The exported function `GetInteractionScore`. The argument `interactionScoreReturn` is the
contents of `*interactionScoreReturn` before the call, `none` for a null pointer. Each of the two
loops over the indexes makes at most `cFeaturesInCombination` passes, which is the fuel it is
given. The tail of the function only logs and asserts. -/
def GetInteractionScore {D F : Type} (E : EbmInternal) (A : FloatOps F) (bAllocated : Bool)
    (CalculateInteractionScore : Int → Int → Option D → List Feature → Nat → Bool × Option F)
    (pEbmInteractionState : EbmInteractionState D) (countFeaturesInCombination : Int)
    (featureIndexes : List Int) (interactionScoreReturn : Option F) :
    Except Fault (InteractionScoreResult F) :=
  if !E.IsNumberConvertable countFeaturesInCombination then
    .ok ⟨1, interactionScoreReturn, [], 0⟩
  else
    let cFeaturesInCombination := countFeaturesInCombination.toNat
    if 0 = cFeaturesInCombination then
      .ok ⟨0, interactionScoreReturn.map fun _ => A.zero, [], 0⟩
    else
      match pEbmInteractionState.m_pDataSet with
      | none => .ok ⟨0, interactionScoreReturn.map fun _ => A.zero, [], 0⟩
      | some _ =>
        match scanFeatureIndexes E pEbmInteractionState.m_aFeatures featureIndexes
            cFeaturesInCombination cFeaturesInCombination 0 with
        | .error e => .error e
        | .ok .notConvertable => .ok ⟨1, interactionScoreReturn, [], 0⟩
        | .ok .degenerate => .ok ⟨0, interactionScoreReturn.map fun _ => A.zero, [], 0⟩
        | .ok .done =>
          if E.k_cDimensionsMax < cFeaturesInCombination then
            .ok ⟨1, interactionScoreReturn, [], 0⟩
          else
            match fillFeatureCombination pEbmInteractionState.m_aFeatures featureIndexes
                cFeaturesInCombination cFeaturesInCombination 0 [] with
            | .error e => .error e
            | .ok pFeatureCombination =>
              if E.IsClassification
                  pEbmInteractionState.m_runtimeLearningTypeOrCountTargetClasses then
                if pEbmInteractionState.m_runtimeLearningTypeOrCountTargetClasses ≤ 1 then
                  .ok ⟨0, interactionScoreReturn.map fun _ => A.zero, [], 0⟩
                else
                  .ok (CompilerRecursiveGetInteractionScore E bAllocated
                    CalculateInteractionScore
                    pEbmInteractionState.m_runtimeLearningTypeOrCountTargetClasses
                    pEbmInteractionState pFeatureCombination
                    E.TODO_REMOVE_THIS_DEFAULT_cInstancesRequiredForChildSplitMin
                    interactionScoreReturn
                    (E.k_cCompilerOptimizedTargetClassesMax + 1 - 2).toNat 2)
              else
                .ok (GetInteractionScorePerTargetClasses bAllocated CalculateInteractionScore
                  E.k_Regression pEbmInteractionState pFeatureCombination
                  E.TODO_REMOVE_THIS_DEFAULT_cInstancesRequiredForChildSplitMin
                  interactionScoreReturn)

/-- The assertion `EBM_ASSERT(FloatEbmType { 0 } <= *interactionScoreReturn)` in the tail of
`GetInteractionScore`, on the result of a call; the paths through the scorers reach it, and it
is made when the pointer is not null. `0 <= x` holds when `x` is not NaN and `x < 0` is
false. -/
def GetInteractionScore.ExitAssertion {F : Type} (A : FloatOps F)
    (r : InteractionScoreResult F) : Prop :=
  ∀ x, r.interactionScoreReturn = some x → A.isnan x = false ∧ A.lt x A.zero = false

/-! ## The allocation of an interaction state -/

/-- What `AllocateInteraction` returns, the pointer to the new state (`none` for `nullptr`),
with two ghost counts that no computation reads: the `EbmInteractionState` objects that were
constructed and those that were deleted again. -/
structure AllocateInteractionResult (D : Type) where
  pEbmInteractionState : Option (EbmInteractionState D)
  cConstructed : Nat
  cDeleted : Nat

/-- The function `AllocateInteraction`. The caller's arrays and `optionalTempParams` are only
handed on and are one argument `buffers`. The constructor and the member function
`InitializeInteraction` of `EbmInteractionState` (EbmInteractionState.h) are not under src/ and
are parameters: `newEbmInteractionState` is `new (std::nothrow) EbmInteractionState(...)`,
`none` when the allocation fails, and `InitializeInteraction` gives its boolean result, true
for a failure, and the state it leaves. -/
def AllocateInteraction {D I : Type} (E : EbmInternal)
    (newEbmInteractionState : Int → Nat → I → Option (EbmInteractionState D))
    (InitializeInteraction : EbmInteractionState D → I → Nat → Bool × EbmInteractionState D)
    (countFeatures : Int) (runtimeLearningTypeOrCountTargetClasses : Int)
    (countInstances : Int) (buffers : I) : AllocateInteractionResult D :=
  if !E.IsNumberConvertable countFeatures then ⟨none, 0, 0⟩
  else if !E.IsNumberConvertable countInstances then ⟨none, 0, 0⟩
  else
    let cFeatures := countFeatures.toNat
    let cInstances := countInstances.toNat
    match newEbmInteractionState runtimeLearningTypeOrCountTargetClasses cFeatures buffers with
    | none => ⟨none, 0, 0⟩
    | some pEbmInteractionState =>
      let r := InitializeInteraction pEbmInteractionState buffers cInstances
      if r.1 then ⟨none, 1, 1⟩ else ⟨some r.2, 1, 0⟩

/-- The exported function `InitializeInteractionClassification`. The instance
`IsNumberConvertable<ptrdiff_t, IntEbmType>` of EbmInternal.h is the parameter
`IsNumberConvertablePtrdiff`. -/
def InitializeInteractionClassification {D I : Type} (E : EbmInternal)
    (IsNumberConvertablePtrdiff : Int → Bool)
    (newEbmInteractionState : Int → Nat → I → Option (EbmInteractionState D))
    (InitializeInteraction : EbmInteractionState D → I → Nat → Bool × EbmInteractionState D)
    (countTargetClasses countFeatures countInstances : Int) (buffers : I) :
    AllocateInteractionResult D :=
  if countTargetClasses < 0 then ⟨none, 0, 0⟩
  else if 0 = countTargetClasses ∧ 0 ≠ countInstances then ⟨none, 0, 0⟩
  else if !IsNumberConvertablePtrdiff countTargetClasses then ⟨none, 0, 0⟩
  else
    AllocateInteraction E newEbmInteractionState InitializeInteraction countFeatures
      countTargetClasses countInstances buffers

/-- The exported function `InitializeInteractionRegression`. -/
def InitializeInteractionRegression {D I : Type} (E : EbmInternal)
    (newEbmInteractionState : Int → Nat → I → Option (EbmInteractionState D))
    (InitializeInteraction : EbmInteractionState D → I → Nat → Bool × EbmInteractionState D)
    (countFeatures countInstances : Int) (buffers : I) : AllocateInteractionResult D :=
  AllocateInteraction E newEbmInteractionState InitializeInteraction countFeatures
    E.k_Regression countInstances buffers

/-! ## The scratch storage of the boosting state

A shallow embedding of the constructors and destructors of `CachedThreadResourcesUnion` and
`EbmBoostingState` of `shared/ebm_native/EbmBoostingState.h`. -/

/-- The two members of the union `CachedThreadResourcesUnion`. -/
inductive CachedThreadResourcesMember where
  | regression
  | classification
  deriving DecidableEq, Repr

/-- The union `CachedThreadResourcesUnion` as a ghost record of its life: the members that were
constructed in its storage by placement new, with the vector length each was given, and the
members whose destructor was called, in the order of the calls. -/
structure CachedThreadResourcesUnion where
  constructed : List (CachedThreadResourcesMember × Nat)
  destroyed : List CachedThreadResourcesMember
  deriving DecidableEq, Repr

/-- The constructor `CachedThreadResourcesUnion(runtimeLearningTypeOrCountTargetClasses)`. -/
def CachedThreadResourcesUnion.construct (E : EbmInternal)
    (runtimeLearningTypeOrCountTargetClasses : Int) : CachedThreadResourcesUnion :=
  let cVectorLength := GetVectorLength runtimeLearningTypeOrCountTargetClasses
  if E.IsClassification runtimeLearningTypeOrCountTargetClasses then
    { constructed := [(.classification, cVectorLength)], destroyed := [] }
  else
    { constructed := [(.regression, cVectorLength)], destroyed := [] }

/-- The destructor `~CachedThreadResourcesUnion()`, whose body is empty. -/
def CachedThreadResourcesUnion.destruct (u : CachedThreadResourcesUnion) :
    CachedThreadResourcesUnion := u

/-- The data members of `EbmBoostingState` that its constructor sets from its arguments or from
constants, and the union; the pointers to the sets, the models and the features are left
out. -/
structure EbmBoostingState (F : Type) where
  m_runtimeLearningTypeOrCountTargetClasses : Int
  m_cFeatureCombinations : Nat
  m_cSamplingSets : Nat
  m_bestModelMetric : F
  m_cFeatures : Nat
  m_cachedThreadResourcesUnion : CachedThreadResourcesUnion

/-- The constructor of `EbmBoostingState`: its member initializer list. -/
def EbmBoostingState.construct {F : Type} (E : EbmInternal) (A : FloatOps F)
    (runtimeLearningTypeOrCountTargetClasses : Int)
    (cFeatures cFeatureCombinations cSamplingSets : Nat) : EbmBoostingState F :=
  { m_runtimeLearningTypeOrCountTargetClasses := runtimeLearningTypeOrCountTargetClasses
    m_cFeatureCombinations := cFeatureCombinations
    m_cSamplingSets := cSamplingSets
    m_bestModelMetric := A.max
    m_cFeatures := cFeatures
    m_cachedThreadResourcesUnion :=
      CachedThreadResourcesUnion.construct E runtimeLearningTypeOrCountTargetClasses }

/-- The destructor `~EbmBoostingState()`, as far as the union goes: the destructor of the
member named by `IsClassification(m_runtimeLearningTypeOrCountTargetClasses)` is called in the
body, and the destructor of the union itself runs when the members are destroyed. The result is
the record of the life of the union. -/
def EbmBoostingState.destruct {F : Type} (E : EbmInternal) (s : EbmBoostingState F) :
    CachedThreadResourcesUnion :=
  let u := s.m_cachedThreadResourcesUnion
  let u1 : CachedThreadResourcesUnion :=
    if E.IsClassification s.m_runtimeLearningTypeOrCountTargetClasses then
      { u with destroyed := u.destroyed ++ [.classification] }
    else
      { u with destroyed := u.destroyed ++ [.regression] }
  CachedThreadResourcesUnion.destruct u1

/-- Exact rational arithmetic with the range of the doubles, for evaluating the entry points:
as `exactOps`, except that a number whose magnitude is above the largest finite double counts
as an infinity, so that every number that is not an infinity is at most `max`. -/
def boundedOps : FloatOps ℚ :=
  { exactOps with isinf := fun x => decide (exactOps.max < |x|) }

/-! ## Properties of the loops -/

theorem applyItems_append {F : Type} (item : Nat → Cursor F → Except Fault (Cursor F))
    (l1 l2 : List Event) (c : Cursor F) :
    applyItems item (l1 ++ l2) c =
      match applyItems item l1 c with
      | .error x => .error x
      | .ok c1 => applyItems item l2 c1 := by
  induction l1 generalizing c with
  | nil => simp [applyItems]
  | cons e es ih =>
    simp only [List.cons_append, applyItems]
    cases h : item e.iTensorBin { c with pInputData := e.iWord + 1, trace := c.trace ++ [e] } with
    | error x => simp
    | ok c1 => simp [ih]

theorem applyItems_pState {F : Type} {item : Nat → Cursor F → Except Fault (Cursor F)}
    {V : Nat} (hitem : ItemAdvances V item) (l : List Event) (c c1 : Cursor F)
    (h : applyItems item l c = .ok c1) : c1.pState = c.pState + l.length * V := by
  induction l generalizing c with
  | nil =>
    simp only [applyItems, Except.ok.injEq] at h
    subst h; simp
  | cons e es ih =>
    simp only [applyItems] at h
    cases h1 : item e.iTensorBin { c with pInputData := e.iWord + 1, trace := c.trace ++ [e] } with
    | error x => simp [h1] at h
    | ok c2 =>
      simp only [h1] at h
      have h2 := ih c2 h
      have h3 := (hitem _ _ _ h1).1
      simp only at h3
      rw [h2, h3, List.length_cons, Nat.succ_mul]; omega

theorem applyItems_pInputData {F : Type} {item : Nat → Cursor F → Except Fault (Cursor F)}
    {V : Nat} (hitem : ItemAdvances V item) (l : List Event) (c c1 : Cursor F)
    (h : applyItems item l c = .ok c1) :
    c1.pInputData = ((l.getLast?.map (fun e => e.iWord + 1)).getD c.pInputData) ∧
      c1.trace = c.trace ++ l := by
  induction l generalizing c with
  | nil =>
    simp only [applyItems, Except.ok.injEq] at h
    subst h; simp
  | cons e es ih =>
    simp only [applyItems] at h
    cases h1 : item e.iTensorBin { c with pInputData := e.iWord + 1, trace := c.trace ++ [e] } with
    | error x => simp [h1] at h
    | ok c2 =>
      simp only [h1] at h
      have h2 := ih c2 h
      have h3 := hitem _ _ _ h1
      simp only at h3
      rw [h2.1, h2.2, h3.2.1, h3.2.2]
      constructor
      · cases es with
        | nil => simp
        | cons a as =>
          rw [List.getLast?_cons_cons, List.getLast?_eq_getLast _ (List.cons_ne_nil a as)]
          simp
      · simp

/-- The inner loop over `k` items of the word `w` runs the body on the `k` low fields of `w`. -/
theorem innerLoop_eq {F : Type} {item : Nat → Cursor F → Except Fault (Cursor F)}
    {V : Nat} (hV : 0 < V) (hitem : ItemAdvances V item) (mask b : Nat) (k : Nat) :
    ∀ (fuel w : Nat) (c : Cursor F), 0 < k → k ≤ fuel → 1 ≤ c.pInputData →
      innerLoop item mask b (c.pState + k * V) fuel w c =
        applyItems item
          ((List.range k).map fun j => ⟨c.pInputData - 1, c.pState + j * V, mask &&& (w >>> (j * b))⟩)
          c := by
  induction k with
  | zero => intro fuel w c h; omega
  | succ k ih =>
    intro fuel w c _ hfuel hin
    obtain ⟨fuel, rfl⟩ : ∃ f, fuel = f + 1 := ⟨fuel - 1, by omega⟩
    rw [List.range_succ_eq_map]
    simp only [innerLoop, List.map_cons, List.map_map, applyItems, Nat.zero_mul, Nat.shiftRight_zero,
      Nat.add_zero]
    have hp : c.pInputData - 1 + 1 = c.pInputData := by omega
    rw [hp]
    cases h1 : item (mask &&& w)
        { c with pInputData := c.pInputData,
                 trace := c.trace ++ [⟨c.pInputData - 1, c.pState, mask &&& w⟩] } with
    | error x => simp
    | ok c1 =>
      have h3 := hitem _ _ _ h1
      simp only at h3
      obtain ⟨hs, hi, _⟩ := h3
      simp only
      rcases Nat.eq_zero_or_pos k with hk | hk
      · subst hk
        simp [hs, applyItems]
      · have hne : c.pState + (k + 1) * V ≠ c1.pState := by
          rw [hs, Nat.succ_mul]
          have := Nat.mul_pos hk hV
          omega
        rw [if_pos hne]
        have hend : c.pState + (k + 1) * V = c1.pState + k * V := by
          rw [hs, Nat.succ_mul]; omega
        rw [hend, ih fuel (w >>> b) c1 hk (by omega) (by omega)]
        congr 1
        apply List.map_congr_left
        intro j _
        simp only [Function.comp, hi, hs, Nat.succ_mul, ← Nat.shiftRight_add, Event.mk.injEq, true_and]
        constructor
        · omega
        · rw [Nat.add_comm b]

theorem applyItems_cons_pInputData {F : Type} (item : Nat → Cursor F → Except Fault (Cursor F))
    (l : List Event) (hl : l ≠ []) (c : Cursor F) (x : Nat) :
    applyItems item l { c with pInputData := x } = applyItems item l c := by
  cases l with
  | nil => exact absurd rfl hl
  | cons e es => simp [applyItems]

/-- One pass from the label `one_last_loop` over the word `w`, of which `k` items are taken. -/
theorem oneLastLoop_eq {F : Type} {item : Nat → Cursor F → Except Fault (Cursor F)}
    {V : Nat} (hV : 0 < V) (hitem : ItemAdvances V item) (W P : Nat) (hP : 0 < P)
    (col : List Nat) (p0 w k fuel : Nat) (c : Cursor F)
    (hk : 0 < k) (hkP : k ≤ P) (hfuel : k ≤ fuel) (hw : w < col.length)
    (hin : c.pInputData = w) (hst : c.pState = p0 + w * P * V) :
    oneLastLoop item col (maskBits W (GetCountBits W P)) (GetCountBits W P)
        (c.pState + k * V) fuel c =
      applyItems item ((List.range k).map fun j => itemEvent W P V col p0 (w * P + j)) c := by
  unfold oneLastLoop
  rw [hin, List.getElem?_eq_getElem hw]
  simp only
  have h := innerLoop_eq hV hitem (maskBits W (GetCountBits W P)) (GetCountBits W P) k fuel
    col[w] { c with pInputData := w + 1 } hk hfuel (by simp)
  simp only at h
  rw [h, applyItems_cons_pInputData]
  · congr 1
    apply List.map_congr_left
    intro j hj
    have hj : j < P := by
      have := List.mem_range.mp hj
      omega
    have h1 : (w * P + j) / P = w := by
      rw [Nat.mul_comm, Nat.mul_add_div hP, Nat.div_eq_of_lt hj]; rfl
    have h2 : (w * P + j) % P = j := by
      rw [Nat.mul_comm, Nat.mul_add_mod, Nat.mod_eq_of_lt hj]
    simp only [itemEvent, decodeItem, h1, h2, Nat.add_sub_cancel, hst, Event.mk.injEq, true_and,
      List.getD_eq_getElem?_getD, List.getElem?_eq_getElem hw, Option.getD_some, and_true]
    rw [Nat.add_mul, Nat.add_assoc]
  · cases k with
    | zero => omega
    | succ k => simp [List.range_succ_eq_map]

theorem getLast?_range_map {α : Type} (f : Nat → α) (n : Nat) :
    ((List.range (n + 1)).map f).getLast? = some (f n) := by
  simp [List.range_succ]

theorem lastWord_of_full (W P V : Nat) (hP : 0 < P) (col : List Nat) (p0 w d : Nat) :
    ((((List.range P).map fun j => itemEvent W P V col p0 (w * P + j)).getLast?.map
      fun e => e.iWord + 1).getD d) = w + 1 := by
  obtain ⟨P, rfl⟩ : ∃ n, P = n + 1 := ⟨P - 1, by omega⟩
  rw [getLast?_range_map]
  simp only [Option.map_some', Option.getD_some, itemEvent]
  rw [Nat.mul_comm, Nat.mul_add_div (by omega), Nat.div_eq_of_lt (by omega)]

theorem range_map_split {α : Type} (f : Nat → α) (a b : Nat) :
    (List.range (a + b)).map f = (List.range a).map f ++ (List.range b).map fun j => f (a + j) := by
  rw [List.range_add, List.map_append, List.map_map]
  rfl

/-- The last pass: entered at `one_last_loop` with `pInnerEnd = pExit = pTrueEnd`, it takes the
remaining `r` items of the word `w` and leaves the loop. -/
theorem outerLoop_final {F : Type} {item : Nat → Cursor F → Except Fault (Cursor F)}
    {V : Nat} (hV : 0 < V) (hitem : ItemAdvances V item) (W P : Nat) (hP : 0 < P)
    (col : List Nat) (p0 w r fuel cStride : Nat) (c : Cursor F)
    (hr : 0 < r) (hrP : r ≤ P) (hfuel : r < fuel) (hw : w < col.length)
    (hin : c.pInputData = w) (hst : c.pState = p0 + w * P * V) :
    outerLoop item col (maskBits W (GetCountBits W P)) (GetCountBits W P) cStride
        (c.pState + r * V) fuel (c.pState + r * V) (c.pState + r * V) c =
      applyItems item ((List.range r).map fun j => itemEvent W P V col p0 (w * P + j)) c := by
  obtain ⟨fuel, rfl⟩ : ∃ f, fuel = f + 1 := ⟨fuel - 1, by omega⟩
  rw [outerLoop, oneLastLoop_eq hV hitem W P hP col p0 w r fuel c hr hrP (by omega) hw hin hst]
  cases h : applyItems item ((List.range r).map fun j => itemEvent W P V col p0 (w * P + j)) c with
  | error x => rfl
  | ok c1 =>
    have hs := applyItems_pState hitem _ _ _ h
    simp only [List.length_map, List.length_range] at hs
    simp [hs]

/-- The outer loop entered at its top with `q + 1` full words and then `r` more items to go. -/
theorem outerLoop_full {F : Type} {item : Nat → Cursor F → Except Fault (Cursor F)}
    {V : Nat} (hV : 0 < V) (hitem : ItemAdvances V item) (W P : Nat) (hP : 0 < P)
    (col : List Nat) (p0 r : Nat) (hr : 0 < r) (hrP : r ≤ P) (q : Nat) :
    ∀ (w fuel : Nat) (c : Cursor F), (q + 1) * P + r < fuel → w + q + 1 < col.length →
      c.pInputData = w → c.pState = p0 + w * P * V →
      outerLoop item col (maskBits W (GetCountBits W P)) (GetCountBits W P) (P * V)
          (c.pState + ((q + 1) * P + r) * V) fuel (c.pState + P * V)
          (c.pState + (q + 1) * P * V) c =
        applyItems item
          ((List.range ((q + 1) * P + r)).map fun j => itemEvent W P V col p0 (w * P + j)) c := by
  induction q with
  | zero =>
    intro w fuel c hfuel hw hin hst
    obtain ⟨fuel, rfl⟩ : ∃ f, fuel = f + 1 := ⟨fuel - 1, by omega⟩
    simp only [Nat.zero_add, Nat.one_mul] at hfuel ⊢
    rw [outerLoop, oneLastLoop_eq hV hitem W P hP col p0 w P fuel c hP (Nat.le_refl _) (by omega)
      (by omega) hin hst, range_map_split, applyItems_append]
    cases h : applyItems item ((List.range P).map fun j => itemEvent W P V col p0 (w * P + j)) c with
    | error x => rfl
    | ok c1 =>
      have hs := applyItems_pState hitem _ _ _ h
      have hi := (applyItems_pInputData hitem _ _ _ h).1
      simp only [List.length_map, List.length_range] at hs
      have hrV : 0 < r * V := Nat.mul_pos hr hV
      have hne : c.pState + (P + r) * V ≠ c1.pState := by
        rw [hs, Nat.add_mul]; omega
      simp only [hs, ne_eq, not_true_eq_false, if_false]
      rw [← hs, if_pos hne]
      have hend : c.pState + (P + r) * V = c1.pState + r * V := by
        rw [hs, Nat.add_mul]; omega
      have hi1 : c1.pInputData = w + 1 := by
        rw [hi]
        exact lastWord_of_full W P V hP col p0 w c.pInputData
      have hst1 : c1.pState = p0 + (w + 1) * P * V := by
        rw [hs, hst, Nat.add_mul, Nat.add_mul, Nat.one_mul]; omega
      rw [hend, outerLoop_final hV hitem W P hP col p0 (w + 1) r fuel (P * V) c1 hr hrP
        (by omega) (by omega) hi1 hst1]
      congr 1
      apply List.map_congr_left
      intro j _
      rw [Nat.add_mul, Nat.one_mul, Nat.add_assoc]
  | succ q ih =>
    intro w fuel c hfuel hw hin hst
    obtain ⟨fuel, rfl⟩ : ∃ f, fuel = f + 1 := ⟨fuel - 1, by omega⟩
    have hsplit : (q + 1 + 1) * P + r = P + ((q + 1) * P + r) := by
      rw [Nat.add_mul (q + 1) 1 P]; omega
    rw [outerLoop, oneLastLoop_eq hV hitem W P hP col p0 w P fuel c hP (Nat.le_refl _)
      (by rw [hsplit] at hfuel; omega) (by omega) hin hst, hsplit, range_map_split,
      applyItems_append]
    cases h : applyItems item ((List.range P).map fun j => itemEvent W P V col p0 (w * P + j)) c with
    | error x => rfl
    | ok c1 =>
      have hs := applyItems_pState hitem _ _ _ h
      have hi := (applyItems_pInputData hitem _ _ _ h).1
      simp only [List.length_map, List.length_range] at hs
      have hqV : 0 < (q + 1) * P * V := Nat.mul_pos (Nat.mul_pos (by omega) hP) hV
      have hexp : (q + 1 + 1) * P * V = P * V + (q + 1) * P * V := by
        rw [Nat.add_mul (q + 1) 1 P, Nat.one_mul, Nat.add_mul]; omega
      have hne : c.pState + (q + 1 + 1) * P * V ≠ c1.pState := by
        rw [hs, hexp]; omega
      simp only
      rw [if_pos hne]
      have hi1 : c1.pInputData = w + 1 := by
        rw [hi]
        exact lastWord_of_full W P V hP col p0 w c.pInputData
      have hst1 : c1.pState = p0 + (w + 1) * P * V := by
        rw [hs, hst, Nat.add_mul, Nat.add_mul, Nat.one_mul]; omega
      have hend : c.pState + (P + ((q + 1) * P + r)) * V =
          c1.pState + ((q + 1) * P + r) * V := by
        rw [hs, Nat.add_mul P]; omega
      have hexit : c.pState + (q + 1 + 1) * P * V = c1.pState + (q + 1) * P * V := by
        rw [hs, hexp]; omega
      rw [hend, hexit, ih (w + 1) fuel c1 (by rw [hsplit] at hfuel; omega) (by omega) hi1 hst1]
      congr 1
      apply List.map_congr_left
      intro j _
      rw [Nat.add_mul, Nat.one_mul, Nat.add_assoc]

/-- What the goto-based loop does: provided there are enough input words and enough fuel, it
runs the body of the kernel once on every instance `0 .. cInstances - 1`, in that order, each
time on the item `decodeItem` of that instance. -/
theorem bitPackedLoop_eq {F : Type} {item : Nat → Cursor F → Except Fault (Cursor F)}
    {V : Nat} (hV : 0 < V) (hitem : ItemAdvances V item) (W P : Nat) (hP : 0 < P)
    (N : Nat) (hN : 0 < N) (col : List Nat) (fuel : Nat) (c : Cursor F)
    (hfuel : N < fuel) (hcol : (N - 1) / P < col.length) (hin : c.pInputData = 0) :
    bitPackedLoop item W fuel P V N col c = applyItems item (itemEvents W P V col c.pState N) c := by
  unfold bitPackedLoop itemEvents
  simp only
  by_cases hNP : N ≤ P
  · rw [if_pos hNP]
    have hw : 0 < col.length := Nat.lt_of_le_of_lt (Nat.zero_le _) hcol
    have h := outerLoop_final hV hitem W P hP col c.pState 0 N fuel (P * V) c hN hNP hfuel hw hin
      (by simp)
    rw [h]
    congr 1
    apply List.map_congr_left
    intro j _
    simp
  · rw [if_neg hNP]
    have hdm := Nat.div_add_mod (N - 1) P
    have hmod : (N - 1) % P < P := Nat.mod_lt _ hP
    have hq : 0 < (N - 1) / P := Nat.div_pos (by omega) hP
    obtain ⟨q, hq1⟩ : ∃ q, (N - 1) / P = q + 1 := ⟨(N - 1) / P - 1, by omega⟩
    have hNeq : N = (q + 1) * P + ((N - 1) % P + 1) := by
      rw [hq1, Nat.mul_comm] at hdm; omega
    rw [hq1] at hcol
    have hexit : c.pState + N * V - ((N - 1) % P + 1) * V = c.pState + (q + 1) * P * V := by
      have : N * V = (q + 1) * P * V + ((N - 1) % P + 1) * V := by
        rw [← Nat.add_mul, ← hNeq]
      omega
    rw [hexit]
    have h := outerLoop_full hV hitem W P hP col c.pState ((N - 1) % P + 1) (by omega) (by omega)
      q 0 fuel c (by omega) (by omega) hin (by simp)
    rw [← hNeq] at h
    rw [h]
    congr 1
    apply List.map_congr_left
    intro j _
    simp

/-- Running the body over the events `E 0, ..., E (N - 1)` gives the cursor `cs N` as soon as each
single step leads from `cs n` to `cs (n + 1)`. -/
theorem applyItems_range {F : Type} (item : Nat → Cursor F → Except Fault (Cursor F))
    (E : Nat → Event) (cs : Nat → Cursor F) (N : Nat)
    (hstep : ∀ n, n < N →
      item (E n).iTensorBin
        { cs n with pInputData := (E n).iWord + 1, trace := (cs n).trace ++ [E n] } =
        .ok (cs (n + 1))) :
    applyItems item ((List.range N).map E) (cs 0) = .ok (cs N) := by
  induction N with
  | zero => simp [applyItems]
  | succ N ih =>
    rw [List.range_succ, List.map_append, applyItems_append,
      ih (fun n hn => hstep n (Nat.lt_succ_of_lt hn))]
    simp only [List.map_cons, List.map_nil, applyItems]
    rw [hstep N (Nat.lt_succ_self N)]

theorem prefixMap_length {α : Type} (f : Nat → α) (old : List α) (n : Nat) (h : n ≤ old.length) :
    (prefixMap f old n).length = old.length := by
  simp [prefixMap]; omega

theorem prefixMap_getElem?_lt {α : Type} (f : Nat → α) (old : List α) (n i : Nat) (h : i < n) :
    (prefixMap f old n)[i]? = some (f i) := by
  unfold prefixMap
  rw [List.getElem?_append_left (by simpa using h)]
  simp [h]

theorem prefixMap_getElem?_ge {α : Type} (f : Nat → α) (old : List α) (n i : Nat) (h : n ≤ i) :
    (prefixMap f old n)[i]? = old[i]? := by
  unfold prefixMap
  rw [List.getElem?_append_right (by simpa using h)]
  simp only [List.length_map, List.length_range, List.getElem?_drop]
  congr 1; omega

theorem prefixMap_set {α : Type} (f : Nat → α) (old : List α) (n : Nat) (h : n < old.length) :
    (prefixMap f old n).set n (f n) = prefixMap f old (n + 1) := by
  apply List.ext_getElem?
  intro i
  rw [List.getElem?_set]
  by_cases hi : n = i
  · subst hi
    rw [if_pos rfl, prefixMap_length f old n (by omega), if_pos h,
      prefixMap_getElem?_lt f old (n + 1) n (by omega)]
  · rw [if_neg hi]
    by_cases hlt : i < n
    · rw [prefixMap_getElem?_lt _ _ _ _ hlt, prefixMap_getElem?_lt _ _ _ _ (by omega)]
    · rw [prefixMap_getElem?_ge _ _ _ _ (by omega), prefixMap_getElem?_ge _ _ _ _ (by omega)]

theorem prefixMap_zero {α : Type} (f : Nat → α) (old : List α) : prefixMap f old 0 = old := by
  simp [prefixMap]

theorem prefixMap_take {α : Type} (f : Nat → α) (old : List α) (n : Nat) :
    (prefixMap f old n).take n = (List.range n).map f := by
  unfold prefixMap
  rw [List.take_append_of_le_length (by simp)]
  rw [List.take_of_length_le (by simp)]

theorem sumUpTo_succ {F : Type} (A : FloatOps F) (term : Nat → F) (n : Nat) :
    sumUpTo A term (n + 1) = A.add (sumUpTo A term n) (term n) := by
  simp [sumUpTo, List.range_succ, List.foldl_append]

theorem wordsRead_succ (P n : Nat) : wordsRead P (n + 1) = n / P + 1 := by
  simp [wordsRead]

theorem regressionItem_advances {F : Type} (A : FloatOps F) (CRE : F → F) (U : List F) :
    ItemAdvances 1 (regressionItem A CRE U) := by
  intro bin c c1 h
  unfold regressionItem at h
  split at h
  · simp only [Except.ok.injEq] at h
    subst h; simp
  · simp at h

theorem binaryItem_advances {F : Type} (A : FloatOps F) (LL : F → Nat → F) (T : List Nat)
    (U : List F) : ItemAdvances 1 (binaryItem A LL T U) := by
  intro bin c c1 h
  unfold binaryItem at h
  split at h
  · simp only [Except.ok.injEq] at h
    subst h; simp
  · simp at h

theorem itemEvents_succ (W P V : Nat) (col : List Nat) (p0 n : Nat) :
    itemEvents W P V col p0 (n + 1) = itemEvents W P V col p0 n ++ [itemEvent W P V col p0 n] := by
  simp [itemEvents, List.range_succ]

theorem getElem?_eq_some_getD {α : Type} (l : List α) (i : Nat) (d : α) (h : i < l.length) :
    l[i]? = some (l.getD i d) := by
  simp [List.getD_eq_getElem?_getD, List.getElem?_eq_getElem h]

/-- The run of the regression kernel ends in the cursor `regressionCursor` at `cInstances`. -/
theorem regression_run {F : Type} (A : FloatOps F) (CRE : F → F) (W fuel P : Nat)
    (fc : FeatureCombination) (ds : DataSetByFeatureCombination F) (U : List F)
    (hN : 0 < ds.m_cInstances) (hP : 0 < P) (hfuel : ds.m_cInstances < fuel)
    (hres : ds.m_cInstances ≤ ds.m_aResidualErrors.length)
    (hcol : (ds.m_cInstances - 1) / P < (ds.GetInputDataPointer fc).length)
    (hU : ∀ i, i < ds.m_cInstances → decodeItem W P (ds.GetInputDataPointer fc) i < U.length) :
    OptimizedApplyModelUpdateValidationInternalRegression.Run A CRE W fuel P fc ds U =
      .ok (regressionCursor A CRE W P (ds.GetInputDataPointer fc) ds.m_aResidualErrors U
        ds.m_cInstances) := by
  unfold OptimizedApplyModelUpdateValidationInternalRegression.Run
  rw [bitPackedLoop_eq (Nat.one_pos) (regressionItem_advances A CRE U) W P hP _ hN _ _ _ hfuel hcol
    rfl]
  have h0 : Cursor.start A ds.m_aResidualErrors =
      regressionCursor A CRE W P (ds.GetInputDataPointer fc) ds.m_aResidualErrors U 0 := by
    simp [Cursor.start, regressionCursor, wordsRead, prefixMap_zero, sumUpTo, itemEvents]
  rw [h0]
  apply applyItems_range
  intro n hn
  have h1 := getElem?_eq_some_getD U _ A.zero (hU n hn)
  have h2 : (prefixMap (residualNew A CRE ds.m_aResidualErrors U
      (decodeItem W P (ds.GetInputDataPointer fc))) ds.m_aResidualErrors n)[n]? =
      some (ds.m_aResidualErrors.getD n A.zero) := by
    rw [prefixMap_getElem?_ge _ _ _ _ (Nat.le_refl n)]
    exact getElem?_eq_some_getD _ _ _ (by omega)
  simp only [regressionItem, regressionCursor, itemEvent, h1, h2, Except.ok.injEq, Cursor.mk.injEq,
    wordsRead_succ, sumUpTo_succ, itemEvents_succ, true_and, and_true]
  exact ⟨prefixMap_set (residualNew A CRE ds.m_aResidualErrors U
    (decodeItem W P (ds.GetInputDataPointer fc))) ds.m_aResidualErrors n (by omega), rfl⟩

/-- C1. Regression validation apply with at least one feature: the call returns, every residual
`i < cInstances` becomes `ComputeResidualErrorRegression (residual_old_i - U[bin_i])` with `bin_i`
the item decoded for instance `i`, and the returned raw metric is the sum (from the left, from
zero) of the squares of the new residuals divided by `cInstances`. -/
theorem regression_apply_contract {F : Type} (A : FloatOps F) (CRE : F → F) (W fuel P : Nat)
    (fc : FeatureCombination) (ds : DataSetByFeatureCombination F) (U : List F)
    (hN : 1 ≤ ds.m_cInstances) (hP : 1 ≤ P) (hfuel : ds.m_cInstances < fuel)
    (hres : ds.m_cInstances ≤ ds.m_aResidualErrors.length)
    (hcol : (ds.m_cInstances - 1) / P < (ds.GetInputDataPointer fc).length)
    (hU : ∀ i, i < ds.m_cInstances → decodeItem W P (ds.GetInputDataPointer fc) i < U.length) :
    ∃ ret ds1,
      OptimizedApplyModelUpdateValidationInternalRegression.Func A CRE W fuel P fc ds U =
        .ok (ret, ds1) ∧
      ds1.m_aResidualErrors.length = ds.m_aResidualErrors.length ∧
      (∀ i r u, i < ds.m_cInstances → ds.m_aResidualErrors[i]? = some r →
        U[decodeItem W P (ds.GetInputDataPointer fc) i]? = some u →
        ds1.m_aResidualErrors[i]? = some (CRE (A.sub r u))) ∧
      ret = A.div
        ((ds1.m_aResidualErrors.take ds.m_cInstances).foldl (fun acc r => A.add acc (A.mul r r))
          A.zero)
        (A.ofSize ds.m_cInstances) := by
  have hrun := regression_run A CRE W fuel P fc ds U hN hP hfuel hres hcol hU
  refine ⟨A.div (regressionCursor A CRE W P (ds.GetInputDataPointer fc) ds.m_aResidualErrors U
      ds.m_cInstances).sum (A.ofSize ds.m_cInstances),
    { ds with m_aResidualErrors := (regressionCursor A CRE W P (ds.GetInputDataPointer fc)
      ds.m_aResidualErrors U ds.m_cInstances).aState }, ?_, ?_, ?_, ?_⟩
  · unfold OptimizedApplyModelUpdateValidationInternalRegression.Func
    rw [hrun]
  · exact prefixMap_length _ _ _ hres
  · intro i r u hi hr hu
    simp only [regressionCursor]
    rw [prefixMap_getElem?_lt _ _ _ _ hi]
    simp [residualNew, List.getD_eq_getElem?_getD, hr, hu]
  · simp only [regressionCursor, prefixMap_take, List.foldl_map, sumUpTo,
      ComputeSingleInstanceSquaredErrorRegression]

/-- Scenario S1 for C1, in exact arithmetic with 64 one-bit items per word: residuals
`[1, -1, 2, -2]`, bins `[0, 1, 0, 1]` (the word `0b1010`) and `U = [0.5, -0.5]` give the residuals
`[0.5, -0.5, 1.5, -1.5]` and the metric `1.25`. -/
theorem regression_apply_contract_witness :
    ((OptimizedApplyModelUpdateValidationInternalRegression.Func exactOps id 64 5 64 ⟨1, 64, 0⟩
        ⟨4, [1, -1, 2, -2], [], [], fun _ => [0b1010]⟩ [1 / 2, -1 / 2]).toOption.map
      fun r => (r.1, r.2.m_aResidualErrors)) = some (5 / 4, [1 / 2, -1 / 2, 3 / 2, -3 / 2]) ∧
    ∃ ret ds1,
      OptimizedApplyModelUpdateValidationInternalRegression.Func exactOps id 64 5 64 ⟨1, 64, 0⟩
        ⟨4, [1, -1, 2, -2], [], [], fun _ => [0b1010]⟩ [1 / 2, -1 / 2] = .ok (ret, ds1) ∧
      ds1.m_aResidualErrors.length = 4 ∧
      (∀ i r u, i < 4 → [(1 : ℚ), -1, 2, -2][i]? = some r →
        [(1 / 2 : ℚ), -1 / 2][decodeItem 64 64 [0b1010] i]? = some u →
        ds1.m_aResidualErrors[i]? = some (id (exactOps.sub r u))) ∧
      ret = exactOps.div
        ((ds1.m_aResidualErrors.take 4).foldl (fun acc r => exactOps.add acc (exactOps.mul r r))
          exactOps.zero)
        (exactOps.ofSize 4) := by
  refine ⟨?_, regression_apply_contract exactOps id 64 5 64 ⟨1, 64, 0⟩
    ⟨4, [1, -1, 2, -2], [], [], fun _ => [0b1010]⟩ [1 / 2, -1 / 2] (by decide) (by decide)
    (by decide) (by decide) (by decide) (by decide)⟩
  simp [OptimizedApplyModelUpdateValidationInternalRegression.Func,
    OptimizedApplyModelUpdateValidationInternalRegression.Run, bitPackedLoop, outerLoop,
    oneLastLoop, innerLoop, regressionItem, Cursor.start, exactOps, GetCountBits, maskBits,
    ComputeSingleInstanceSquaredErrorRegression, Except.toOption]
  norm_num

theorem sumUpTo_congr {F : Type} (A : FloatOps F) (f g : Nat → F) (n : Nat)
    (h : ∀ i, i < n → f i = g i) : sumUpTo A f n = sumUpTo A g n := by
  induction n with
  | zero => rfl
  | succ n ih =>
    rw [sumUpTo_succ, sumUpTo_succ, ih (fun i hi => h i (Nat.lt_succ_of_lt hi)),
      h n (Nat.lt_succ_self n)]

/-- The run of the binary classification kernel ends in `binaryCursor` at `cInstances`. -/
theorem binary_run {F : Type} (A : FloatOps F) (LL : F → Nat → F) (W fuel P : Nat)
    (fc : FeatureCombination) (ds : DataSetByFeatureCombination F) (U : List F)
    (hN : 0 < ds.m_cInstances) (hP : 0 < P) (hfuel : ds.m_cInstances < fuel)
    (hsc : ds.m_cInstances ≤ ds.m_aPredictorScores.length)
    (htg : ds.m_cInstances ≤ ds.m_aTargetData.length)
    (hcol : (ds.m_cInstances - 1) / P < (ds.GetInputDataPointer fc).length)
    (hU : ∀ i, i < ds.m_cInstances → decodeItem W P (ds.GetInputDataPointer fc) i < U.length) :
    OptimizedApplyModelUpdateValidationInternalBinary.Run A LL W fuel P fc ds U =
      .ok (binaryCursor A LL W P (ds.GetInputDataPointer fc) ds.m_aTargetData
        ds.m_aPredictorScores U ds.m_cInstances) := by
  unfold OptimizedApplyModelUpdateValidationInternalBinary.Run
  rw [bitPackedLoop_eq (Nat.one_pos) (binaryItem_advances A LL ds.m_aTargetData U) W P hP _ hN _ _ _
    hfuel hcol rfl]
  have h0 : Cursor.start A ds.m_aPredictorScores =
      binaryCursor A LL W P (ds.GetInputDataPointer fc) ds.m_aTargetData ds.m_aPredictorScores U
        0 := by
    simp [Cursor.start, binaryCursor, wordsRead, prefixMap_zero, sumUpTo, itemEvents]
  rw [h0]
  apply applyItems_range
  intro n hn
  have h1 := getElem?_eq_some_getD U _ A.zero (hU n hn)
  have h2 : (prefixMap (scoreNew A ds.m_aPredictorScores U
      (decodeItem W P (ds.GetInputDataPointer fc))) ds.m_aPredictorScores n)[n]? =
      some (ds.m_aPredictorScores.getD n A.zero) := by
    rw [prefixMap_getElem?_ge _ _ _ _ (Nat.le_refl n)]
    exact getElem?_eq_some_getD _ _ _ (by omega)
  have h3 := getElem?_eq_some_getD ds.m_aTargetData n 0 (by omega)
  simp only [binaryItem, binaryCursor, itemEvent, h1, h2, h3, Except.ok.injEq, Cursor.mk.injEq,
    wordsRead_succ, sumUpTo_succ, itemEvents_succ, true_and, and_true]
  exact ⟨prefixMap_set (scoreNew A ds.m_aPredictorScores U
    (decodeItem W P (ds.GetInputDataPointer fc))) ds.m_aPredictorScores n (by omega), rfl⟩

/-- C2. Binary classification validation apply with at least one feature: the call returns, every
score `i < cInstances` becomes `score_old_i + U[bin_i]`, and the returned raw metric is the sum
(from the left, from zero) over the instances of the log loss of the new score and the target,
divided by `cInstances`. -/
theorem binary_apply_contract {F : Type} (A : FloatOps F) (LL : F → Nat → F) (W fuel P : Nat)
    (fc : FeatureCombination) (ds : DataSetByFeatureCombination F) (U : List F)
    (hN : 1 ≤ ds.m_cInstances) (hP : 1 ≤ P) (hfuel : ds.m_cInstances < fuel)
    (hsc : ds.m_cInstances ≤ ds.m_aPredictorScores.length)
    (htg : ds.m_cInstances ≤ ds.m_aTargetData.length)
    (hcol : (ds.m_cInstances - 1) / P < (ds.GetInputDataPointer fc).length)
    (hU : ∀ i, i < ds.m_cInstances → decodeItem W P (ds.GetInputDataPointer fc) i < U.length) :
    ∃ ret ds1,
      OptimizedApplyModelUpdateValidationInternalBinary.Func A LL W fuel P fc ds U =
        .ok (ret, ds1) ∧
      ds1.m_aPredictorScores.length = ds.m_aPredictorScores.length ∧
      (∀ i s u, i < ds.m_cInstances → ds.m_aPredictorScores[i]? = some s →
        U[decodeItem W P (ds.GetInputDataPointer fc) i]? = some u →
        ds1.m_aPredictorScores[i]? = some (A.add s u)) ∧
      ret = A.div
        (sumUpTo A (fun i => LL (ds1.m_aPredictorScores.getD i A.zero) (ds.m_aTargetData.getD i 0))
          ds.m_cInstances)
        (A.ofSize ds.m_cInstances) := by
  have hrun := binary_run A LL W fuel P fc ds U hN hP hfuel hsc htg hcol hU
  refine ⟨A.div (binaryCursor A LL W P (ds.GetInputDataPointer fc) ds.m_aTargetData
      ds.m_aPredictorScores U ds.m_cInstances).sum (A.ofSize ds.m_cInstances),
    { ds with m_aPredictorScores := (binaryCursor A LL W P (ds.GetInputDataPointer fc)
      ds.m_aTargetData ds.m_aPredictorScores U ds.m_cInstances).aState }, ?_, ?_, ?_, ?_⟩
  · unfold OptimizedApplyModelUpdateValidationInternalBinary.Func
    rw [hrun]
  · exact prefixMap_length _ _ _ hsc
  · intro i r u hi hr hu
    simp only [binaryCursor]
    rw [prefixMap_getElem?_lt _ _ _ _ hi]
    simp [scoreNew, List.getD_eq_getElem?_getD, hr, hu]
  · simp only [binaryCursor]
    congr 1
    apply sumUpTo_congr
    intro i hi
    rw [List.getD_eq_getElem?_getD (prefixMap _ _ _), prefixMap_getElem?_lt _ _ _ _ hi]
    rfl

/-- For C2, in real arithmetic with the log loss `softplus (-score)` for target 1 and
`softplus score` otherwise: two instances with scores `[0, 0]`, targets `[0, 1]`, bins `[0, 0]`
and `U = [0]` keep the scores `[0, 0]` and give the metric `log 2`. -/
theorem binary_apply_contract_witness :
    ∃ ret ds1,
      OptimizedApplyModelUpdateValidationInternalBinary.Func
        (⟨0, (· + ·), (· - ·), (· * ·), (· / ·), fun n => (n : ℝ), fun a b => decide (a < b),
          fun _ => false, fun _ => false, 2 ^ 1024 - 2 ^ 971⟩ : FloatOps ℝ)
        (fun s t => if t = 1 then Real.log (1 + Real.exp (-s)) else Real.log (1 + Real.exp s))
        64 3 64 ⟨1, 64, 0⟩ ⟨2, [], [0, 0], [0, 1], fun _ => [0]⟩ [0] = .ok (ret, ds1) ∧
      ds1.m_aPredictorScores = [0, 0] ∧ ret = Real.log 2 := by
  obtain ⟨ret, ds1, h1, h2, h3, h4⟩ := binary_apply_contract
    (⟨0, (· + ·), (· - ·), (· * ·), (· / ·), fun n => (n : ℝ), fun a b => decide (a < b),
          fun _ => false, fun _ => false, 2 ^ 1024 - 2 ^ 971⟩ : FloatOps ℝ)
    (fun s t => if t = 1 then Real.log (1 + Real.exp (-s)) else Real.log (1 + Real.exp s))
    64 3 64 ⟨1, 64, 0⟩ ⟨2, [], [0, 0], [0, 1], fun _ => [0]⟩ [0]
    (by decide) (by decide) (by decide) (by decide) (by decide) (by decide) (by decide)
  have hsc : ds1.m_aPredictorScores = [0, 0] := by
    have e0 := h3 0 0 0 (by decide) rfl rfl
    have e1 := h3 1 0 0 (by decide) rfl rfl
    simp only [add_zero] at e0 e1
    apply List.ext_getElem?
    intro i
    match i with
    | 0 => simpa using e0
    | 1 => simpa using e1
    | i + 2 =>
      have : ds1.m_aPredictorScores.length = 2 := h2
      simp [List.getElem?_eq_none, this]
  refine ⟨ret, ds1, h1, hsc, ?_⟩
  rw [h4, hsc]
  simp [sumUpTo, List.range_succ]
  norm_num

/-- The class loop from class `v` on, with `k` classes to go, on an array rewritten up to
offset `p + v`: it rewrites the scores up to `p + V`, `sumExp` gets the exponentials of the
new scores added in class order, and `itemExp` becomes the exponential of the target class if
that class is among the `k`. -/
theorem vectorLoop_eq {F : Type} (A : FloatOps F) (EbmExp : F → F) (U old : List F)
    (t V p pv : Nat) (g : Nat → F) (hold : p + V ≤ old.length) (hU : pv + V ≤ U.length)
    (hg : ∀ v, v < V → g (p + v) = A.add (old.getD (p + v) A.zero) (U.getD (pv + v) A.zero))
    (k : Nat) :
    ∀ (v fuel : Nat) (itemExp sumExp : F) (c : Cursor F), v + k = V → 0 < k → k ≤ fuel →
      c.pState = p + v → c.aState = prefixMap g old (p + v) →
      vectorLoop A EbmExp U t V fuel v (pv + v) itemExp sumExp c =
        .ok (if v ≤ t ∧ t < V then EbmExp (g (p + t)) else itemExp,
          (List.range' v k).foldl (fun acc j => A.add acc (EbmExp (g (p + j)))) sumExp,
          { c with aState := prefixMap g old (p + V), pState := p + V }) := by
  induction k with
  | zero => intro v fuel itemExp sumExp c _ h; omega
  | succ k ih =>
    intro v fuel itemExp sumExp c hvk _ hfuel hst hast
    obtain ⟨fuel, rfl⟩ : ∃ f, fuel = f + 1 := ⟨fuel - 1, by omega⟩
    have h1 := getElem?_eq_some_getD U (pv + v) A.zero (by omega)
    have h2 : c.aState[c.pState]? = some (old.getD (p + v) A.zero) := by
      rw [hast, hst, prefixMap_getElem?_ge _ _ _ _ (Nat.le_refl _)]
      exact getElem?_eq_some_getD _ _ _ (by omega)
    have hgv := hg v (by omega)
    have hset : c.aState.set c.pState (g (p + v)) = prefixMap g old (p + (v + 1)) := by
      rw [hast, hst]
      exact prefixMap_set g old (p + v) (by omega)
    rw [vectorLoop]
    simp only [h1, h2, ← hgv, hset]
    rcases Nat.eq_zero_or_pos k with hk | hk
    · subst hk
      have hv : ¬ v + 1 < V := by omega
      rw [if_neg hv]
      have hpV : p + (v + 1) = p + V := by omega
      have hp1 : c.pState + 1 = p + V := by omega
      have hite : (if v = t then EbmExp (g (p + v)) else itemExp) =
          (if v ≤ t ∧ t < V then EbmExp (g (p + t)) else itemExp) := by
        by_cases hvt : v = t
        · subst hvt
          rw [if_pos rfl, if_pos ⟨Nat.le_refl _, by omega⟩]
        · rw [if_neg hvt, if_neg (by omega)]
      rw [hite, hpV, hp1]
      rfl
    · have hv : v + 1 < V := by omega
      rw [if_pos hv]
      have h := ih (v + 1) fuel (if v = t then EbmExp (g (p + v)) else itemExp)
        (A.add sumExp (EbmExp (g (p + v))))
        { c with aState := prefixMap g old (p + (v + 1)), pState := c.pState + 1 }
        (by omega) hk (by omega) (by simp only [hst]; omega) rfl
      rw [Nat.add_assoc pv v 1, h]
      have hite : (if v + 1 ≤ t ∧ t < V then EbmExp (g (p + t))
          else if v = t then EbmExp (g (p + v)) else itemExp) =
          (if v ≤ t ∧ t < V then EbmExp (g (p + t)) else itemExp) := by
        by_cases hvt : v = t
        · subst hvt
          rw [if_pos rfl, if_neg (by omega), if_pos ⟨Nat.le_refl _, by omega⟩]
        · rw [if_neg hvt]
          by_cases h3 : v + 1 ≤ t ∧ t < V
          · rw [if_pos h3, if_pos ⟨by omega, h3.2⟩]
          · rw [if_neg h3, if_neg (by omega)]
      rw [hite]
      rfl

theorem range'_foldl_eq_sumUpTo {F : Type} (A : FloatOps F) (f : Nat → F) (n : Nat) :
    (List.range' 0 n).foldl (fun acc j => A.add acc (f j)) A.zero = sumUpTo A f n := by
  rw [sumUpTo, List.range_eq_range']

/-- The multiclass body on instance `n`, on an array rewritten up to offset `n * V`. -/
theorem multiclassItem_eq {F : Type} (A : FloatOps F) (EbmExp : F → F) (LL : F → F → F)
    (T : List Nat) (U old : List F) (V fuel pv n : Nat) (g : Nat → F) (c : Cursor F)
    (hV : 0 < V) (hfuel : V ≤ fuel) (hT : n < T.length)
    (hold : n * V + V ≤ old.length) (hU : pv + V ≤ U.length)
    (hg : ∀ v, v < V →
      g (n * V + v) = A.add (old.getD (n * V + v) A.zero) (U.getD (pv + v) A.zero))
    (htg : c.pTargetData = n) (hst : c.pState = n * V)
    (hast : c.aState = prefixMap g old (n * V)) :
    multiclassItem A EbmExp LL T U V fuel pv c =
      .ok { c with
        pTargetData := n + 1
        pState := (n + 1) * V
        aState := prefixMap g old ((n + 1) * V)
        sum := A.add c.sum (instanceLogLoss A EbmExp LL g V T n) } := by
  unfold multiclassItem
  rw [htg, getElem?_eq_some_getD T n 0 hT]
  simp only
  have h := vectorLoop_eq A EbmExp U old (T.getD n 0) V (n * V) pv g hold hU hg V 0 fuel A.zero
    A.zero { c with pTargetData := n + 1 } (by omega) hV hfuel (by simp [hst]) (by simp [hast])
  rw [Nat.add_zero] at h
  rw [h]
  simp only [Except.ok.injEq, Cursor.mk.injEq, true_and, and_true, instanceLogLoss, instanceSumExp,
    instanceItemExp, range'_foldl_eq_sumUpTo, Nat.zero_le, Nat.succ_mul]

theorem vectorLoop_advances {F : Type} (A : FloatOps F) (EbmExp : F → F) (U : List F)
    (t V : Nat) :
    ∀ (fuel v pv : Nat) (itemExp sumExp : F) (c : Cursor F) (r : F × F × Cursor F),
      vectorLoop A EbmExp U t V fuel v pv itemExp sumExp c = .ok r → v < V →
      r.2.2.pState = c.pState + (V - v) ∧ r.2.2.pInputData = c.pInputData ∧
        r.2.2.trace = c.trace ∧ r.2.2.pTargetData = c.pTargetData ∧ r.2.2.sum = c.sum := by
  intro fuel
  induction fuel with
  | zero => intro v pv itemExp sumExp c r h; simp [vectorLoop] at h
  | succ fuel ih =>
    intro v pv itemExp sumExp c r h hv
    rw [vectorLoop] at h
    split at h
    · simp only at h
      by_cases hv1 : v + 1 < V
      · rw [if_pos hv1] at h
        have h1 := ih _ _ _ _ _ _ h hv1
        simp only at h1
        refine ⟨?_, h1.2.1, h1.2.2.1, h1.2.2.2.1, h1.2.2.2.2⟩
        rw [h1.1]; omega
      · rw [if_neg hv1, Except.ok.injEq] at h
        subst h
        simp only [and_self, and_true]
        omega
    · simp at h

theorem GetVectorLength_pos (c : Int) : 0 < GetVectorLength c := by
  unfold GetVectorLength
  split
  · exact Nat.one_pos
  · omega

theorem GetVectorLength_multiclass (C : Nat) (hC : 3 ≤ C) : GetVectorLength (C : Int) = C := by
  unfold GetVectorLength
  rw [if_neg (by omega)]
  simp

theorem multiclassItem_advances {F : Type} (A : FloatOps F) (EbmExp : F → F) (LL : F → F → F)
    (T : List Nat) (U : List F) (V fuel : Nat) (hV : 0 < V) :
    ItemAdvances V (fun iTensorBin c =>
      multiclassItem A EbmExp LL T U V fuel (iTensorBin * V) c) := by
  intro bin c c1 h
  simp only [multiclassItem] at h
  split at h
  · simp at h
  · split at h
    · simp at h
    · rename_i heq
      have h1 := vectorLoop_advances A EbmExp U _ V _ _ _ _ _ _ _ heq hV
      simp only [Except.ok.injEq] at h
      subst h
      simp only at h1 ⊢
      exact ⟨by rw [h1.1]; omega, h1.2.1, h1.2.2.1⟩

/-- The run of the general multiclass kernel ends in `multiclassCursor` at `cInstances`. -/
theorem multiclass_run {F : Type} (A : FloatOps F) (EbmExp : F → F) (LL : F → F → F)
    (W fuel : Nat) (ltc : Int) (P : Nat)
    (fc : FeatureCombination) (ds : DataSetByFeatureCombination F) (U : List F)
    (hN : 0 < ds.m_cInstances) (hP : 0 < P) (hfuel : ds.m_cInstances < fuel)
    (hfuelV : GetVectorLength ltc ≤ fuel)
    (hsc : ds.m_cInstances * GetVectorLength ltc ≤ ds.m_aPredictorScores.length)
    (htg : ds.m_cInstances ≤ ds.m_aTargetData.length)
    (hcol : (ds.m_cInstances - 1) / P < (ds.GetInputDataPointer fc).length)
    (hU : ∀ i, i < ds.m_cInstances →
      decodeItem W P (ds.GetInputDataPointer fc) i * GetVectorLength ltc + GetVectorLength ltc ≤
        U.length) :
    OptimizedApplyModelUpdateValidationInternal.Run A EbmExp LL W fuel ltc P fc ds U =
      .ok (multiclassCursor A EbmExp LL (GetVectorLength ltc) ds.m_aTargetData
        ds.m_aPredictorScores U (decodeItem W P (ds.GetInputDataPointer fc))
        (wordsRead P ds.m_cInstances)
        (itemEvents W P (GetVectorLength ltc) (ds.GetInputDataPointer fc) 0 ds.m_cInstances)
        ds.m_cInstances) := by
  have hV := GetVectorLength_pos ltc
  unfold OptimizedApplyModelUpdateValidationInternal.Run
  simp only
  rw [bitPackedLoop_eq hV
    (multiclassItem_advances A EbmExp LL ds.m_aTargetData U (GetVectorLength ltc) fuel hV) W P hP _
    hN _ _ _ hfuel hcol rfl]
  have h0 : Cursor.start A ds.m_aPredictorScores =
      multiclassCursor A EbmExp LL (GetVectorLength ltc) ds.m_aTargetData
        ds.m_aPredictorScores U (decodeItem W P (ds.GetInputDataPointer fc)) (wordsRead P 0)
        (itemEvents W P (GetVectorLength ltc) (ds.GetInputDataPointer fc) 0 0) 0 := by
    simp [Cursor.start, multiclassCursor, wordsRead, prefixMap_zero, sumUpTo, itemEvents]
  have hstart : (Cursor.start A ds.m_aPredictorScores).pState = 0 := rfl
  rw [hstart, h0]
  apply applyItems_range (fun iTensorBin c => multiclassItem A EbmExp LL ds.m_aTargetData U
      (GetVectorLength ltc) fuel (iTensorBin * GetVectorLength ltc) c)
    (itemEvent W P (GetVectorLength ltc) (ds.GetInputDataPointer fc) 0)
    (fun n => multiclassCursor A EbmExp LL (GetVectorLength ltc) ds.m_aTargetData
        ds.m_aPredictorScores U (decodeItem W P (ds.GetInputDataPointer fc)) (wordsRead P n)
        (itemEvents W P (GetVectorLength ltc) (ds.GetInputDataPointer fc) 0 n) n)
  intro n hn
  have hle : n * GetVectorLength ltc + GetVectorLength ltc ≤ ds.m_aPredictorScores.length := by
    have : (n + 1) * GetVectorLength ltc ≤ ds.m_cInstances * GetVectorLength ltc :=
      Nat.mul_le_mul_right _ hn
    rw [Nat.succ_mul] at this
    omega
  simp only [itemEvent]
  rw [multiclassItem_eq A EbmExp LL ds.m_aTargetData U ds.m_aPredictorScores (GetVectorLength ltc)
    fuel _ n (multiclassScoreNew A ds.m_aPredictorScores U (GetVectorLength ltc)
      (decodeItem W P (ds.GetInputDataPointer fc))) _ hV hfuelV (by omega) hle (hU n hn) ?_ rfl rfl
    rfl]
  · simp only [multiclassCursor, itemEvent, Cursor.start, wordsRead_succ, sumUpTo_succ,
      itemEvents_succ]
  · intro v hv
    simp only [multiclassScoreNew, itemEvent]
    rw [Nat.mul_comm n, Nat.mul_add_div hV, Nat.div_eq_of_lt hv, Nat.add_zero, Nat.mul_add_mod,
      Nat.mod_eq_of_lt hv]

/-- The zero-feature loop over `N` instances gives the cursor `cs N` as soon as each single
step leads from `cs n` to `cs (n + 1)` and only `cs N` has its state pointer at `pEnd`. -/
theorem zeroFeaturesLoop_eq {F : Type} (item : Cursor F → Except Fault (Cursor F))
    (cs : Nat → Cursor F) (N pEnd : Nat)
    (hstep : ∀ n, n < N → item (cs n) = .ok (cs (n + 1)))
    (hend : ∀ n, n ≤ N → ((cs n).pState = pEnd ↔ n = N)) (k : Nat) :
    ∀ (n fuel : Nat), n + k = N → 0 < k → k ≤ fuel →
      zeroFeaturesLoop item pEnd fuel (cs n) = .ok (cs N) := by
  induction k with
  | zero => intro n fuel _ h; omega
  | succ k ih =>
    intro n fuel hnk _ hfuel
    obtain ⟨fuel, rfl⟩ : ∃ f, fuel = f + 1 := ⟨fuel - 1, by omega⟩
    rw [zeroFeaturesLoop, hstep n (by omega)]
    simp only
    rcases Nat.eq_zero_or_pos k with hk | hk
    · subst hk
      have h1 : n + 1 = N := by omega
      have h2 := (hend (n + 1) (by omega)).mpr h1
      rw [if_neg (by rw [h2]; simp), h1]
    · have h2 : pEnd ≠ (cs (n + 1)).pState := by
        intro h
        have := (hend (n + 1) (by omega)).mp h.symm
        omega
      rw [if_pos h2]
      exact ih (n + 1) fuel (by omega) hk (by omega)

/-- The run of the zero-feature multiclass kernel ends in `multiclassCursor` at `cInstances`,
where every instance has the tensor cell 0. -/
theorem zeroFeatures_multiclass_run {F : Type} (A : FloatOps F) (EbmExp : F → F)
    (LL : F → F → F) (fuel : Nat) (ltc : Int)
    (ds : DataSetByFeatureCombination F) (U : List F)
    (hN : 0 < ds.m_cInstances) (hfuel : ds.m_cInstances < fuel)
    (hfuelV : GetVectorLength ltc ≤ fuel)
    (hsc : ds.m_cInstances * GetVectorLength ltc ≤ ds.m_aPredictorScores.length)
    (htg : ds.m_cInstances ≤ ds.m_aTargetData.length)
    (hU : GetVectorLength ltc ≤ U.length) :
    OptimizedApplyModelUpdateValidationZeroFeatures.Run A EbmExp LL fuel ltc ds U =
      .ok (multiclassCursor A EbmExp LL (GetVectorLength ltc) ds.m_aTargetData
        ds.m_aPredictorScores U (fun _ => 0) 0 [] ds.m_cInstances) := by
  have hV := GetVectorLength_pos ltc
  unfold OptimizedApplyModelUpdateValidationZeroFeatures.Run
  simp only
  have h0 : Cursor.start A ds.m_aPredictorScores =
      multiclassCursor A EbmExp LL (GetVectorLength ltc) ds.m_aTargetData
        ds.m_aPredictorScores U (fun _ => 0) 0 [] 0 := by
    simp [Cursor.start, multiclassCursor, prefixMap_zero, sumUpTo]
  rw [h0]
  apply zeroFeaturesLoop_eq _ (fun n => multiclassCursor A EbmExp LL (GetVectorLength ltc)
    ds.m_aTargetData ds.m_aPredictorScores U (fun _ => 0) 0 [] n) ds.m_cInstances _ ?_ ?_
    ds.m_cInstances 0 fuel (by omega) hN (by omega)
  · intro n hn
    have hle : n * GetVectorLength ltc + GetVectorLength ltc ≤ ds.m_aPredictorScores.length := by
      have : (n + 1) * GetVectorLength ltc ≤ ds.m_cInstances * GetVectorLength ltc :=
        Nat.mul_le_mul_right _ hn
      rw [Nat.succ_mul] at this
      omega
    rw [multiclassItem_eq A EbmExp LL ds.m_aTargetData U ds.m_aPredictorScores
      (GetVectorLength ltc) fuel 0 n (multiclassScoreNew A ds.m_aPredictorScores U
        (GetVectorLength ltc) (fun _ => 0)) _ hV hfuelV (by omega) hle (by omega) ?_ rfl rfl rfl]
    · simp only [multiclassCursor, sumUpTo_succ]
    · intro v hv
      simp only [multiclassScoreNew]
      rw [Nat.mul_add_mod_of_lt hv, Nat.zero_mul]
  · intro n hn
    simp only [multiclassCursor]
    constructor
    · intro h
      exact Nat.eq_of_mul_eq_mul_right hV h
    · intro h
      rw [h]

theorem sumUpTo_real (A : FloatOps ℝ) (hzero : A.zero = 0) (hadd : ∀ x y, A.add x y = x + y)
    (f : Nat → ℝ) (n : Nat) : sumUpTo A f n = ∑ v ∈ Finset.range n, f v := by
  induction n with
  | zero => simp [sumUpTo, hzero]
  | succ n ih => rw [sumUpTo_succ, ih, hadd, Finset.sum_range_succ]

theorem getD_prefixMap_lt {α : Type} (f : Nat → α) (old : List α) (n i : Nat) (d : α)
    (h : i < n) : (prefixMap f old n).getD i d = f i := by
  rw [List.getD_eq_getElem?_getD, prefixMap_getElem?_lt f old n i h]
  rfl

/-- The sum of the multiclass cursor, written with the scores the kernel has stored. -/
theorem multiclass_sum_eq {F : Type} (A : FloatOps F) (EbmExp : F → F) (LL : F → F → F)
    (C N : Nat) (T : List Nat) (old : List F) (g : Nat → F) :
    sumUpTo A (instanceLogLoss A EbmExp LL g C T) N =
      sumUpTo A (fun i =>
        LL (sumUpTo A (fun v => EbmExp ((prefixMap g old (N * C)).getD (i * C + v) A.zero)) C)
          (if T.getD i 0 < C then
            EbmExp ((prefixMap g old (N * C)).getD (i * C + T.getD i 0) A.zero)
          else A.zero)) N := by
  apply sumUpTo_congr
  intro i hi
  have hlt : ∀ v, v < C → i * C + v < N * C := by
    intro v hv
    have : (i + 1) * C ≤ N * C := Nat.mul_le_mul_right _ hi
    rw [Nat.succ_mul] at this
    omega
  simp only [instanceLogLoss, instanceSumExp, instanceItemExp]
  congr 1
  · apply sumUpTo_congr
    intro v hv
    rw [getD_prefixMap_lt g old _ _ _ (hlt v hv)]
  · by_cases ht : T.getD i 0 < C
    · rw [if_pos ht, if_pos ht, getD_prefixMap_lt g old _ _ _ (hlt _ ht)]
    · rw [if_neg ht, if_neg ht]

/-- What the general multiclass kernel returns for `C >= 3` classes. -/
theorem multiclass_func {F : Type} (A : FloatOps F) (EbmExp : F → F) (LL : F → F → F)
    (W fuel C P : Nat) (fc : FeatureCombination) (ds : DataSetByFeatureCombination F)
    (U : List F) (hC : 3 ≤ C)
    (hN : 1 ≤ ds.m_cInstances) (hP : 1 ≤ P) (hfuel : ds.m_cInstances < fuel) (hfuelC : C ≤ fuel)
    (hsc : ds.m_cInstances * C ≤ ds.m_aPredictorScores.length)
    (htg : ds.m_cInstances ≤ ds.m_aTargetData.length)
    (hcol : (ds.m_cInstances - 1) / P < (ds.GetInputDataPointer fc).length)
    (hU : ∀ i, i < ds.m_cInstances →
      decodeItem W P (ds.GetInputDataPointer fc) i * C + C ≤ U.length) :
    OptimizedApplyModelUpdateValidationInternal.Func A EbmExp LL W fuel (C : Int) P fc ds U =
      .ok (A.div (sumUpTo A (instanceLogLoss A EbmExp LL
          (multiclassScoreNew A ds.m_aPredictorScores U C
            (decodeItem W P (ds.GetInputDataPointer fc))) C ds.m_aTargetData) ds.m_cInstances)
          (A.ofSize ds.m_cInstances),
        { ds with m_aPredictorScores := (prefixMap (multiclassScoreNew A ds.m_aPredictorScores U C
            (decodeItem W P (ds.GetInputDataPointer fc))) ds.m_aPredictorScores
            (ds.m_cInstances * C)) }) := by
  have hV := GetVectorLength_multiclass C hC
  have hrun := multiclass_run A EbmExp LL W fuel (C : Int) P fc ds U hN hP hfuel
    (by rw [hV]; exact hfuelC) (by rw [hV]; exact hsc) htg hcol (by rw [hV]; exact hU)
  rw [hV] at hrun
  unfold OptimizedApplyModelUpdateValidationInternal.Func
  rw [hrun]
  rfl

/-- What the zero-feature multiclass kernel returns for `C >= 3` classes. -/
theorem zeroFeatures_multiclass_func {F : Type} (A : FloatOps F) (EbmExp : F → F)
    (LL : F → F → F) (fuel C : Nat) (ds : DataSetByFeatureCombination F) (U : List F)
    (hC : 3 ≤ C) (hN : 1 ≤ ds.m_cInstances) (hfuel : ds.m_cInstances < fuel) (hfuelC : C ≤ fuel)
    (hsc : ds.m_cInstances * C ≤ ds.m_aPredictorScores.length)
    (htg : ds.m_cInstances ≤ ds.m_aTargetData.length) (hU : C ≤ U.length) :
    OptimizedApplyModelUpdateValidationZeroFeatures.Func A EbmExp LL fuel (C : Int) ds U =
      .ok (A.div (sumUpTo A (instanceLogLoss A EbmExp LL
          (multiclassScoreNew A ds.m_aPredictorScores U C (fun _ => 0)) C ds.m_aTargetData)
          ds.m_cInstances) (A.ofSize ds.m_cInstances),
        { ds with m_aPredictorScores := (prefixMap (multiclassScoreNew A ds.m_aPredictorScores U C
            (fun _ => 0)) ds.m_aPredictorScores (ds.m_cInstances * C)) }) := by
  have hV := GetVectorLength_multiclass C hC
  have hrun := zeroFeatures_multiclass_run A EbmExp LL fuel (C : Int) ds U hN hfuel
    (by rw [hV]; exact hfuelC) (by rw [hV]; exact hsc) htg (by rw [hV]; exact hU)
  rw [hV] at hrun
  unfold OptimizedApplyModelUpdateValidationZeroFeatures.Func
  rw [hrun]
  rfl

/-- C3. Multiclass validation apply with at least one feature and `C >= 3` classes: the call
returns and, for every instance `i < cInstances` and class `v < C`, the score at offset
`i * C + v` becomes `score_old[i * C + v] + U[bin_i * C + v]`: the `C` scores of an instance and
the `C` values of a tensor cell are contiguous, the cell of bin `b` starting at `b * C`. -/
theorem multiclass_apply_contract {F : Type} (A : FloatOps F) (EbmExp : F → F) (LL : F → F → F)
    (W fuel C P : Nat) (fc : FeatureCombination) (ds : DataSetByFeatureCombination F)
    (U : List F) (hC : 3 ≤ C)
    (hN : 1 ≤ ds.m_cInstances) (hP : 1 ≤ P) (hfuel : ds.m_cInstances < fuel) (hfuelC : C ≤ fuel)
    (hsc : ds.m_cInstances * C ≤ ds.m_aPredictorScores.length)
    (htg : ds.m_cInstances ≤ ds.m_aTargetData.length)
    (hcol : (ds.m_cInstances - 1) / P < (ds.GetInputDataPointer fc).length)
    (hU : ∀ i, i < ds.m_cInstances →
      decodeItem W P (ds.GetInputDataPointer fc) i * C + C ≤ U.length) :
    ∃ ret ds1,
      OptimizedApplyModelUpdateValidationInternal.Func A EbmExp LL W fuel (C : Int) P fc ds U =
        .ok (ret, ds1) ∧
      ds1.m_aPredictorScores.length = ds.m_aPredictorScores.length ∧
      (∀ i v s u, i < ds.m_cInstances → v < C → ds.m_aPredictorScores[i * C + v]? = some s →
        U[decodeItem W P (ds.GetInputDataPointer fc) i * C + v]? = some u →
        ds1.m_aPredictorScores[i * C + v]? = some (A.add s u)) := by
  refine ⟨_, _, multiclass_func A EbmExp LL W fuel C P fc ds U hC hN hP hfuel hfuelC hsc htg hcol
    hU, ?_, ?_⟩
  · exact prefixMap_length _ _ _ hsc
  · intro i v s u hi hv hs hu
    have hlt : i * C + v < ds.m_cInstances * C := by
      have : (i + 1) * C ≤ ds.m_cInstances * C := Nat.mul_le_mul_right _ hi
      rw [Nat.succ_mul] at this
      omega
    simp only [multiclassCursor]
    rw [prefixMap_getElem?_lt _ _ _ _ hlt]
    have h1 : (i * C + v) / C = i := by
      rw [Nat.mul_comm, Nat.mul_add_div (by omega), Nat.div_eq_of_lt hv, Nat.add_zero]
    have h2 : (i * C + v) % C = v := Nat.mul_add_mod_of_lt hv
    simp [multiclassScoreNew, h1, h2, List.getD_eq_getElem?_getD, hs, hu]

/-- For C3, in real arithmetic: three classes, two instances with scores `[0, 0, 0, 10, 10, 10]`
and bins `[1, 0]` packed in two-bit items, and the tensor `[1, 2, 3, 4, 5, 6]` give the scores
`[4, 5, 6, 11, 12, 13]`. -/
theorem multiclass_apply_contract_witness :
    ∃ ret ds1,
      OptimizedApplyModelUpdateValidationInternal.Func
        (⟨0, (· + ·), (· - ·), (· * ·), (· / ·), fun n => (n : ℝ), fun a b => decide (a < b),
          fun _ => false, fun _ => false, 2 ^ 1024 - 2 ^ 971⟩ : FloatOps ℝ)
        Real.exp (fun sumExp itemExp => Real.log sumExp - Real.log itemExp)
        64 4 ((3 : Nat) : Int) 32 ⟨1, 32, 0⟩ ⟨2, [], [0, 0, 0, 10, 10, 10], [2, 0], fun _ => [1]⟩
        [1, 2, 3, 4, 5, 6] = .ok (ret, ds1) ∧
      ds1.m_aPredictorScores = [4, 5, 6, 11, 12, 13] := by
  obtain ⟨ret, ds1, h1, h2, h3⟩ := multiclass_apply_contract
    (⟨0, (· + ·), (· - ·), (· * ·), (· / ·), fun n => (n : ℝ), fun a b => decide (a < b),
          fun _ => false, fun _ => false, 2 ^ 1024 - 2 ^ 971⟩ : FloatOps ℝ)
    Real.exp (fun sumExp itemExp => Real.log sumExp - Real.log itemExp)
    64 4 3 32 ⟨1, 32, 0⟩ ⟨2, [], [0, 0, 0, 10, 10, 10], [2, 0], fun _ => [1]⟩
    [1, 2, 3, 4, 5, 6] (by decide) (by decide) (by decide) (by decide) (by decide) (by decide)
    (by decide) (by decide) (by decide)
  refine ⟨ret, ds1, h1, ?_⟩
  have e0 := h3 0 0 0 4 (by decide) (by decide) rfl rfl
  have e1 := h3 0 1 0 5 (by decide) (by decide) rfl rfl
  have e2 := h3 0 2 0 6 (by decide) (by decide) rfl rfl
  have e3 := h3 1 0 10 1 (by decide) (by decide) rfl rfl
  have e4 := h3 1 1 10 2 (by decide) (by decide) rfl rfl
  have e5 := h3 1 2 10 3 (by decide) (by decide) rfl rfl
  norm_num at e0 e1 e2 e3 e4 e5
  apply List.ext_getElem?
  intro i
  match i with
  | 0 => simpa using e0
  | 1 => simpa using e1
  | 2 => simpa using e2
  | 3 => simpa using e3
  | 4 => simpa using e4
  | 5 => simpa using e5
  | i + 6 =>
    have : ds1.m_aPredictorScores.length = 6 := h2
    simp [List.getElem?_eq_none, this]

/-- C4. Multiclass loss, for `C >= 3` classes: both the zero-feature and the general multiclass
kernel return, and the raw metric is the sum (from the left, from zero) over the instances of
`ComputeSingleInstanceLogLossMulticlass sumExp itemExp` divided by `cInstances`, where `sumExp`
is the sum of `EbmExp` of the `C` new scores of the instance and, for an instance whose target
is below `C`, `itemExp` is `EbmExp` of the new score of the target class (for any other target
`itemExp` keeps its initial zero). In real arithmetic, with the exponential for `EbmExp` and the
helper read as `log sumExp - log itemExp`, that loss is
`log (sum over v of exp (score_new_v)) - score_new_t`. -/
theorem multiclass_loss_contract {F : Type} (A : FloatOps F) (EbmExp : F → F) (LL : F → F → F)
    (fuel C : Nat) (hC : 3 ≤ C) (hfuelC : C ≤ fuel) :
    (∀ (ds : DataSetByFeatureCombination F) (U : List F),
      1 ≤ ds.m_cInstances → ds.m_cInstances < fuel →
      ds.m_cInstances * C ≤ ds.m_aPredictorScores.length →
      ds.m_cInstances ≤ ds.m_aTargetData.length → C ≤ U.length →
      ∃ ret ds1,
        OptimizedApplyModelUpdateValidationZeroFeatures.Func A EbmExp LL fuel (C : Int) ds U =
          .ok (ret, ds1) ∧
        ret = A.div
          (sumUpTo A (fun i =>
            LL (sumUpTo A (fun v => EbmExp (ds1.m_aPredictorScores.getD (i * C + v) A.zero)) C)
              (if ds.m_aTargetData.getD i 0 < C then
                EbmExp (ds1.m_aPredictorScores.getD (i * C + ds.m_aTargetData.getD i 0) A.zero)
              else A.zero))
            ds.m_cInstances)
          (A.ofSize ds.m_cInstances)) ∧
    (∀ (W P : Nat) (fc : FeatureCombination) (ds : DataSetByFeatureCombination F) (U : List F),
      1 ≤ ds.m_cInstances → 1 ≤ P → ds.m_cInstances < fuel →
      ds.m_cInstances * C ≤ ds.m_aPredictorScores.length →
      ds.m_cInstances ≤ ds.m_aTargetData.length →
      (ds.m_cInstances - 1) / P < (ds.GetInputDataPointer fc).length →
      (∀ i, i < ds.m_cInstances →
        decodeItem W P (ds.GetInputDataPointer fc) i * C + C ≤ U.length) →
      ∃ ret ds1,
        OptimizedApplyModelUpdateValidationInternal.Func A EbmExp LL W fuel (C : Int) P fc ds U =
          .ok (ret, ds1) ∧
        ret = A.div
          (sumUpTo A (fun i =>
            LL (sumUpTo A (fun v => EbmExp (ds1.m_aPredictorScores.getD (i * C + v) A.zero)) C)
              (if ds.m_aTargetData.getD i 0 < C then
                EbmExp (ds1.m_aPredictorScores.getD (i * C + ds.m_aTargetData.getD i 0) A.zero)
              else A.zero))
            ds.m_cInstances)
          (A.ofSize ds.m_cInstances)) ∧
    (∀ (R : FloatOps ℝ), R.zero = 0 → (∀ x y, R.add x y = x + y) →
      ∀ (score : Nat → ℝ) (i t : Nat),
        Real.log (sumUpTo R (fun v => Real.exp (score (i * C + v))) C) -
            Real.log (Real.exp (score (i * C + t))) =
          Real.log (∑ v ∈ Finset.range C, Real.exp (score (i * C + v))) - score (i * C + t)) := by
  refine ⟨?_, ?_, ?_⟩
  · intro ds U hN hfuel hsc htg hU
    refine ⟨_, _, zeroFeatures_multiclass_func A EbmExp LL fuel C ds U hC hN hfuel hfuelC hsc htg
      hU, ?_⟩
    rw [multiclass_sum_eq A EbmExp LL C ds.m_cInstances ds.m_aTargetData ds.m_aPredictorScores]
  · intro W P fc ds U hN hP hfuel hsc htg hcol hU
    refine ⟨_, _, multiclass_func A EbmExp LL W fuel C P fc ds U hC hN hP hfuel hfuelC hsc htg
      hcol hU, ?_⟩
    rw [multiclass_sum_eq A EbmExp LL C ds.m_cInstances ds.m_aTargetData ds.m_aPredictorScores]
  · intro R hzero hadd score i t
    rw [sumUpTo_real R hzero hadd, Real.log_exp]

/-- Scenario S3 for C4, in real arithmetic with the helper read as `log sumExp - log itemExp`:
three classes, one instance with scores `[0, 0, 0]` and target 2, no feature and
`U = [0, 0, 0]` give the metric `log 3`. -/
theorem multiclass_loss_contract_witness :
    ∃ ret ds1,
      OptimizedApplyModelUpdateValidationZeroFeatures.Func
        (⟨0, (· + ·), (· - ·), (· * ·), (· / ·), fun n => (n : ℝ), fun a b => decide (a < b),
          fun _ => false, fun _ => false, 2 ^ 1024 - 2 ^ 971⟩ : FloatOps ℝ)
        Real.exp (fun sumExp itemExp => Real.log sumExp - Real.log itemExp)
        4 ((3 : Nat) : Int) ⟨1, [], [0, 0, 0], [2], fun _ => []⟩ [0, 0, 0] = .ok (ret, ds1) ∧
      ds1.m_aPredictorScores = [0, 0, 0] ∧ ret = Real.log 3 := by
  obtain ⟨ret, ds1, h1, h2⟩ := (multiclass_loss_contract
    (⟨0, (· + ·), (· - ·), (· * ·), (· / ·), fun n => (n : ℝ), fun a b => decide (a < b),
          fun _ => false, fun _ => false, 2 ^ 1024 - 2 ^ 971⟩ : FloatOps ℝ)
    Real.exp (fun sumExp itemExp => Real.log sumExp - Real.log itemExp)
    4 3 (by decide) (by decide)).1 ⟨1, [], [0, 0, 0], [2], fun _ => []⟩ [0, 0, 0]
    (by decide) (by decide) (by decide) (by decide) (by decide)
  have hsc : ds1.m_aPredictorScores = [0, 0, 0] := by
    have e := h1
    simp [OptimizedApplyModelUpdateValidationZeroFeatures.Func,
      OptimizedApplyModelUpdateValidationZeroFeatures.Run, zeroFeaturesLoop, multiclassItem,
      vectorLoop, GetVectorLength, Cursor.start] at e
    rw [← e.2]
  refine ⟨ret, ds1, h1, hsc, ?_⟩
  rw [h2, hsc]
  simp [sumUpTo, List.range_succ]
  norm_num

/-! ## The mask and the fields of a word -/

theorem maskBits_eq (W b : Nat) (hb : b ≤ W) : maskBits W b = 2 ^ b - 1 := by
  unfold maskBits
  rw [Nat.shiftRight_eq_div_pow]
  have hpow : 2 ^ W = 2 ^ b * 2 ^ (W - b) := by
    rw [← Nat.pow_add]; congr 1; omega
  have hk : 0 < 2 ^ (W - b) := Nat.two_pow_pos _
  have hb1 : 0 < 2 ^ b := Nat.two_pow_pos _
  apply Nat.div_eq_of_lt_le
  · rw [hpow, Nat.sub_mul, Nat.one_mul]
    omega
  · rw [Nat.sub_add_cancel hb1, hpow]
    have := Nat.mul_pos hb1 hk
    omega

theorem GetCountBits_le (W P : Nat) : GetCountBits W P ≤ W :=
  Nat.div_le_self W P

theorem decodeItem_eq_packedField (W P : Nat) (col : List Nat) (i : Nat) :
    decodeItem W P col i = packedField (GetCountBits W P) P col i := by
  unfold decodeItem packedField
  rw [maskBits_eq W _ (GetCountBits_le W P), Nat.land_comm, Nat.and_pow_two_sub_one_eq_mod,
    Nat.shiftRight_eq_div_pow]

theorem packWord_field (b : Nat) (items : List Nat) (hlt : ∀ x, x ∈ items → x < 2 ^ b) :
    ∀ j, j < items.length → packWord b items / 2 ^ (j * b) % 2 ^ b = items.getD j 0 := by
  induction items with
  | nil => intro j hj; simp at hj
  | cons x xs ih =>
    intro j hj
    have hx : x < 2 ^ b := hlt x (List.mem_cons_self x xs)
    have hb1 : 0 < 2 ^ b := Nat.two_pow_pos _
    cases j with
    | zero =>
      simp only [packWord, Nat.zero_mul, Nat.pow_zero, Nat.div_one, Nat.add_mul_mod_self_left,
        Nat.mod_eq_of_lt hx, List.getD_cons_zero]
    | succ j =>
      have hdiv : (x + 2 ^ b * packWord b xs) / 2 ^ ((j + 1) * b) = packWord b xs / 2 ^ (j * b) := by
        rw [Nat.succ_mul, Nat.add_comm (j * b) b, Nat.pow_add, ← Nat.div_div_eq_div_mul,
          Nat.add_mul_div_left _ _ hb1, Nat.div_eq_of_lt hx, Nat.zero_add]
      simp only [packWord, hdiv, List.getD_cons_succ]
      exact ih (fun y hy => hlt y (List.mem_cons_of_mem x hy)) j
        (by simpa using Nat.lt_of_succ_lt_succ hj)

theorem packColumn_length (P b : Nat) (bins : List Nat) :
    (packColumn P b bins).length = (bins.length + P - 1) / P := by
  simp [packColumn]

theorem words_lt (P N i : Nat) (hP : 0 < P) (hi : i < N) : i / P < (N + P - 1) / P := by
  rw [Nat.div_lt_iff_lt_mul hP]
  have h1 := Nat.div_add_mod (N + P - 1) P
  have h2 := Nat.mod_lt (N + P - 1) hP
  have h3 : (N + P - 1) / P * P = P * ((N + P - 1) / P) := Nat.mul_comm _ _
  omega

/-- Field `i` of the packed column of `bins` is `bins[i]`. -/
theorem packColumn_field (P b : Nat) (hP : 0 < P) (bins : List Nat)
    (hlt : ∀ x, x ∈ bins → x < 2 ^ b) (i : Nat) (hi : i < bins.length) :
    packedField b P (packColumn P b bins) i = bins.getD i 0 := by
  unfold packedField packColumn
  have hw := words_lt P bins.length i hP hi
  rw [List.getD_eq_getElem?_getD, List.getElem?_map, List.getElem?_range hw]
  simp only [Option.map_some', Option.getD_some]
  have hdm := Nat.div_add_mod i P
  have hmod := Nat.mod_lt i hP
  have hcomm : i / P * P = P * (i / P) := Nat.mul_comm _ _
  rw [packWord_field b _ (fun x hx => hlt x (List.mem_of_mem_drop (List.mem_of_mem_take hx)))
    (i % P) (by rw [List.length_take, List.length_drop]; omega)]
  rw [List.getD_eq_getElem?_getD, List.getD_eq_getElem?_getD, List.getElem?_take_of_lt hmod,
    List.getElem?_drop]
  congr 2
  omega

theorem itemEvents_map_iTensorBin (W P V : Nat) (col : List Nat) (p0 N : Nat) :
    (itemEvents W P V col p0 N).map (fun e => e.iTensorBin) =
      (List.range N).map (decodeItem W P col) := by
  simp [itemEvents, itemEvent, Function.comp_def]

theorem range_map_getD {α : Type} (l : List α) (d : α) :
    (List.range l.length).map (fun i => l.getD i d) = l := by
  apply List.ext_getElem?
  intro i
  by_cases hi : i < l.length
  · rw [List.getElem?_map, List.getElem?_range hi]
    simp [List.getD_eq_getElem?_getD, List.getElem?_eq_getElem hi]
  · rw [List.getElem?_eq_none (by simpa using hi), List.getElem?_eq_none (by simpa using hi)]

/-- C5. Bit-pack round trip: when the column of the feature combination is the packed column
of a sequence `bins` of `cInstances >= 1` bins, each below `2 ^ (W / P)`, the regression kernel
returns and the sequence of `iTensorBin` values its loop has decoded is `bins`. -/
theorem bitpack_roundtrip {F : Type} (A : FloatOps F) (CRE : F → F) (W fuel P : Nat)
    (fc : FeatureCombination) (ds : DataSetByFeatureCombination F) (U : List F)
    (bins : List Nat) (hP : 1 ≤ P) (hN : 1 ≤ bins.length) (hds : ds.m_cInstances = bins.length)
    (hlt : ∀ x, x ∈ bins → x < 2 ^ (W / P))
    (hcol : ds.GetInputDataPointer fc = packColumn P (W / P) bins)
    (hfuel : ds.m_cInstances < fuel) (hres : ds.m_cInstances ≤ ds.m_aResidualErrors.length)
    (hU : ∀ x, x ∈ bins → x < U.length) :
    ∃ c,
      OptimizedApplyModelUpdateValidationInternalRegression.Run A CRE W fuel P fc ds U = .ok c ∧
      c.trace.map (fun e => e.iTensorBin) = bins := by
  have hdec : ∀ i, i < bins.length →
      decodeItem W P (ds.GetInputDataPointer fc) i = bins.getD i 0 := by
    intro i hi
    rw [decodeItem_eq_packedField, hcol]
    exact packColumn_field P (W / P) hP bins hlt i hi
  have hwords : (ds.m_cInstances - 1) / P < (ds.GetInputDataPointer fc).length := by
    rw [hcol, packColumn_length, hds]
    exact words_lt P bins.length (bins.length - 1) hP (by omega)
  refine ⟨_, regression_run A CRE W fuel P fc ds U (by omega) hP hfuel hres hwords ?_, ?_⟩
  · intro i hi
    rw [hds] at hi
    rw [hdec i hi, List.getD_eq_getElem?_getD, List.getElem?_eq_getElem hi]
    exact hU _ (List.getElem_mem _)
  · simp only [regressionCursor, itemEvents_map_iTensorBin, hds]
    calc (List.range bins.length).map (decodeItem W P (ds.GetInputDataPointer fc))
        = (List.range bins.length).map (fun i => bins.getD i 0) :=
          List.map_congr_left (fun i hi => hdec i (List.mem_range.mp hi))
      _ = bins := range_map_getD bins 0

/-- For C5, in exact arithmetic: five bins `[3, 0, 2, 1, 3]` packed two to a 64-bit word, in
fields of 32 bits, are decoded in three words as `[3, 0, 2, 1, 3]`. -/
theorem bitpack_roundtrip_witness :
    packColumn 2 (64 / 2) [3, 0, 2, 1, 3] = [3, 2 + 2 ^ 32, 3] ∧
    ∃ c,
      OptimizedApplyModelUpdateValidationInternalRegression.Run exactOps id 64 6 2 ⟨1, 2, 0⟩
        ⟨5, [0, 0, 0, 0, 0], [], [], fun _ => packColumn 2 (64 / 2) [3, 0, 2, 1, 3]⟩
        [0, 0, 0, 0] = .ok c ∧
      c.trace.map (fun e => e.iTensorBin) = [3, 0, 2, 1, 3] :=
  ⟨by decide, bitpack_roundtrip exactOps id 64 6 2 ⟨1, 2, 0⟩
    ⟨5, [0, 0, 0, 0, 0], [], [], fun _ => packColumn 2 (64 / 2) [3, 0, 2, 1, 3]⟩ [0, 0, 0, 0]
    [3, 0, 2, 1, 3] (by decide) (by decide) rfl (by decide) rfl (by decide) (by decide)
    (by decide)⟩

/-- C10. The mask `(all-ones word) >> (W - b)` with `b = W / P` is `2 ^ b - 1`, so the item
`mask & word` of any word, and with it every item the loop decodes, is below `2 ^ b`. -/
theorem mask_and_item_range (W P : Nat) :
    maskBits W (GetCountBits W P) = 2 ^ (W / P) - 1 ∧
    (∀ word, maskBits W (GetCountBits W P) &&& word < 2 ^ (W / P)) ∧
    (∀ col i, decodeItem W P col i < 2 ^ (W / P)) := by
  have hmask := maskBits_eq W (GetCountBits W P) (GetCountBits_le W P)
  have hpos : 0 < 2 ^ (W / P) := Nat.two_pow_pos _
  refine ⟨hmask, ?_, ?_⟩
  · intro word
    rw [hmask, Nat.land_comm, Nat.and_pow_two_sub_one_eq_mod]
    exact Nat.mod_lt _ hpos
  · intro col i
    rw [decodeItem_eq_packedField]
    exact Nat.mod_lt _ hpos

/-! ## Words read and items per word -/

theorem wordsRead_eq_ceil (P N : Nat) (hP : 0 < P) (hN : 0 < N) :
    wordsRead P N = (N + P - 1) / P := by
  unfold wordsRead
  rw [if_neg (by omega)]
  have h : N + P - 1 = N - 1 + P := by omega
  rw [h, Nat.add_div_right _ hP]

theorem div_eq_iff_bounds (P n w : Nat) (hP : 0 < P) :
    n / P = w ↔ w * P ≤ n ∧ n < w * P + P := by
  constructor
  · intro h
    have h1 := Nat.div_add_mod n P
    have h2 := Nat.mod_lt n hP
    have h3 : P * (n / P) = w * P := by rw [h, Nat.mul_comm]
    omega
  · intro h
    apply Nat.div_eq_of_lt_le h.1
    rw [Nat.succ_mul]
    exact h.2

/-- Of the first `N` instances, `min P (N - w * P)` have their item in word `w`. -/
theorem itemEvents_countP (W P V : Nat) (hP : 0 < P) (col : List Nat) (p0 w : Nat) (N : Nat) :
    (itemEvents W P V col p0 N).countP (fun e => e.iWord = w) = min P (N - w * P) := by
  induction N with
  | zero => simp [itemEvents]
  | succ N ih =>
    rw [itemEvents_succ, List.countP_append, ih]
    simp only [List.countP_cons, List.countP_nil, itemEvent, Nat.zero_add, decide_eq_true_eq]
    have hiff := div_eq_iff_bounds P N w hP
    by_cases h : N / P = w
    · rw [if_pos h]
      have := hiff.mp h
      omega
    · rw [if_neg h]
      have : ¬ (w * P ≤ N ∧ N < w * P + P) := fun h1 => h (hiff.mpr h1)
      omega

/-- The items per word of a run over `N >= 1` instances: `P` for each of the first
`(N - 1) / P` words, and `(N - 1) % P + 1` for the last one. -/
theorem itemsPerWord_itemEvents (W P V : Nat) (hP : 0 < P) (col : List Nat) (p0 N : Nat)
    (hN : 0 < N) :
    itemsPerWord (itemEvents W P V col p0 N) (wordsRead P N) =
      List.replicate ((N - 1) / P) P ++ [(N - 1) % P + 1] := by
  unfold itemsPerWord wordsRead
  rw [if_neg (by omega), List.range_succ, List.map_append]
  have hdm := Nat.div_add_mod (N - 1) P
  have hmod := Nat.mod_lt (N - 1) hP
  have hcomm : (N - 1) / P * P = P * ((N - 1) / P) := Nat.mul_comm _ _
  congr 1
  · rw [List.eq_replicate_iff]
    constructor
    · simp
    · intro b hb
      rw [List.mem_map] at hb
      obtain ⟨w, hw, rfl⟩ := hb
      rw [itemEvents_countP W P V hP]
      have hw1 : w + 1 ≤ (N - 1) / P := List.mem_range.mp hw
      have : (w + 1) * P ≤ (N - 1) / P * P := Nat.mul_le_mul_right _ hw1
      rw [Nat.succ_mul] at this
      omega
  · simp only [List.map_cons, List.map_nil, itemEvents_countP W P V hP]
    congr 1
    omega

theorem itemEvents_map_pState (W P V : Nat) (col : List Nat) (N : Nat) :
    (itemEvents W P V col 0 N).map (fun e => e.pState) = (List.range N).map (fun i => i * V) := by
  simp [itemEvents, itemEvent, Function.comp_def]

/-- The words the general multiclass kernel reads for `C >= 3` classes. -/
theorem loop_words_helper {F : Type} (A : FloatOps F)
    (EbmExp : F → F) (LLm : F → F → F) (W fuel C P : Nat) (fc : FeatureCombination)
    (ds : DataSetByFeatureCombination F) (U : List F) (hC : 3 ≤ C)
    (hN : 1 ≤ ds.m_cInstances) (hP : 1 ≤ P) (hfuel : ds.m_cInstances < fuel) (hfuelC : C ≤ fuel)
    (hsc : ds.m_cInstances * C ≤ ds.m_aPredictorScores.length)
    (htg : ds.m_cInstances ≤ ds.m_aTargetData.length)
    (hcol : (ds.m_cInstances - 1) / P < (ds.GetInputDataPointer fc).length)
    (hU : ∀ i, i < ds.m_cInstances →
      decodeItem W P (ds.GetInputDataPointer fc) i * C + C ≤ U.length) :
    ∃ c,
      OptimizedApplyModelUpdateValidationInternal.Run A EbmExp LLm W fuel (C : Int) P fc ds U =
        .ok c ∧
      c.pInputData = (ds.m_cInstances + P - 1) / P ∧
      c.trace = itemEvents W P C (ds.GetInputDataPointer fc) 0 ds.m_cInstances := by
  have hV := GetVectorLength_multiclass C hC
  have hm := multiclass_run A EbmExp LLm W fuel (C : Int) P fc ds U hN hP hfuel
    (by rw [hV]; exact hfuelC) (by rw [hV]; exact hsc) htg hcol (by rw [hV]; exact hU)
  rw [hV] at hm
  exact ⟨_, hm, wordsRead_eq_ceil P _ hP hN, rfl⟩

/-- C6. For `cInstances >= 1` and `P >= 1` each of the three general kernels returns having
read exactly `⌈cInstances / P⌉` input words, and the state offsets at which it has run its body
are those of the instances `0, 1, ..., cInstances - 1`, each once and in this order. -/
theorem loop_reads_and_updates {F : Type} (A : FloatOps F) (W fuel P : Nat)
    (fc : FeatureCombination) (hP : 1 ≤ P) :
    (∀ (CRE : F → F) (ds : DataSetByFeatureCombination F) (U : List F),
      1 ≤ ds.m_cInstances → ds.m_cInstances < fuel →
      ds.m_cInstances ≤ ds.m_aResidualErrors.length →
      (ds.m_cInstances - 1) / P < (ds.GetInputDataPointer fc).length →
      (∀ i, i < ds.m_cInstances → decodeItem W P (ds.GetInputDataPointer fc) i < U.length) →
      ∃ c,
        OptimizedApplyModelUpdateValidationInternalRegression.Run A CRE W fuel P fc ds U =
          .ok c ∧
        c.pInputData = (ds.m_cInstances + P - 1) / P ∧
        c.trace.map (fun e => e.pState) = List.range ds.m_cInstances) ∧
    (∀ (LLb : F → Nat → F) (ds : DataSetByFeatureCombination F) (U : List F),
      1 ≤ ds.m_cInstances → ds.m_cInstances < fuel →
      ds.m_cInstances ≤ ds.m_aPredictorScores.length →
      ds.m_cInstances ≤ ds.m_aTargetData.length →
      (ds.m_cInstances - 1) / P < (ds.GetInputDataPointer fc).length →
      (∀ i, i < ds.m_cInstances → decodeItem W P (ds.GetInputDataPointer fc) i < U.length) →
      ∃ c,
        OptimizedApplyModelUpdateValidationInternalBinary.Run A LLb W fuel P fc ds U = .ok c ∧
        c.pInputData = (ds.m_cInstances + P - 1) / P ∧
        c.trace.map (fun e => e.pState) = List.range ds.m_cInstances) ∧
    (∀ (EbmExp : F → F) (LLm : F → F → F) (C : Nat) (ds : DataSetByFeatureCombination F)
      (U : List F), 3 ≤ C → C ≤ fuel →
      1 ≤ ds.m_cInstances → ds.m_cInstances < fuel →
      ds.m_cInstances * C ≤ ds.m_aPredictorScores.length →
      ds.m_cInstances ≤ ds.m_aTargetData.length →
      (ds.m_cInstances - 1) / P < (ds.GetInputDataPointer fc).length →
      (∀ i, i < ds.m_cInstances →
        decodeItem W P (ds.GetInputDataPointer fc) i * C + C ≤ U.length) →
      ∃ c,
        OptimizedApplyModelUpdateValidationInternal.Run A EbmExp LLm W fuel (C : Int) P fc ds U =
          .ok c ∧
        c.pInputData = (ds.m_cInstances + P - 1) / P ∧
        c.trace.map (fun e => e.pState) = (List.range ds.m_cInstances).map (fun i => i * C)) := by
  refine ⟨?_, ?_, ?_⟩
  · intro CRE ds U hN hfuel hres hcol hU
    refine ⟨_, regression_run A CRE W fuel P fc ds U hN hP hfuel hres hcol hU,
      wordsRead_eq_ceil P _ hP hN, ?_⟩
    simp [regressionCursor, itemEvents_map_pState]
  · intro LLb ds U hN hfuel hsc htg hcol hU
    refine ⟨_, binary_run A LLb W fuel P fc ds U hN hP hfuel hsc htg hcol hU,
      wordsRead_eq_ceil P _ hP hN, ?_⟩
    simp [binaryCursor, itemEvents_map_pState]
  · intro EbmExp LLm C ds U hC hfuelC hN hfuel hsc htg hcol hU
    obtain ⟨c, h1, h2, h3⟩ := loop_words_helper A EbmExp LLm W fuel C P fc ds U hC hN hP hfuel
      hfuelC hsc htg hcol hU
    refine ⟨c, h1, h2, ?_⟩
    rw [h3, itemEvents_map_pState]

/-- For C6, in exact arithmetic: five instances and two items per word; the regression kernel
reads `⌈5 / 2⌉ = 3` words and runs its body at the offsets `0, ..., 4`. -/
theorem loop_reads_and_updates_witness :
    ∃ c,
      OptimizedApplyModelUpdateValidationInternalRegression.Run exactOps id 64 6 2 ⟨1, 2, 0⟩
        ⟨5, [0, 0, 0, 0, 0], [], [], fun _ => [1, 2 ^ 32, 0]⟩ [0, 0] = .ok c ∧
      c.pInputData = 3 ∧ c.trace.map (fun e => e.pState) = [0, 1, 2, 3, 4] :=
  (loop_reads_and_updates exactOps 64 6 2 ⟨1, 2, 0⟩ (by decide)).1 id
    ⟨5, [0, 0, 0, 0, 0], [], [], fun _ => [1, 2 ^ 32, 0]⟩ [0, 0]
    (by decide) (by decide) (by decide) (by decide) (by decide)

theorem itemEvents_last_and_earlier (W P V : Nat) (hP : 0 < P) (col : List Nat) (N : Nat)
    (hN : 0 < N) :
    (∀ w, w + 1 < wordsRead P N →
      (itemEvents W P V col 0 N).countP (fun e => e.iWord = w) = P) ∧
    (itemEvents W P V col 0 N).countP (fun e => e.iWord = wordsRead P N - 1) =
      (N - 1) % P + 1 := by
  have hdm := Nat.div_add_mod (N - 1) P
  have hmod := Nat.mod_lt (N - 1) hP
  have hcomm : (N - 1) / P * P = P * ((N - 1) / P) := Nat.mul_comm _ _
  have hwr : wordsRead P N = (N - 1) / P + 1 := by
    unfold wordsRead
    rw [if_neg (by omega)]
  constructor
  · intro w hw
    rw [itemEvents_countP W P V hP]
    rw [hwr] at hw
    have hw1 : w + 1 ≤ (N - 1) / P := by omega
    have : (w + 1) * P ≤ (N - 1) / P * P := Nat.mul_le_mul_right _ hw1
    rw [Nat.succ_mul] at this
    omega
  · rw [itemEvents_countP W P V hP, hwr, Nat.add_sub_cancel]
    omega

/-- C7. For `cInstances >= 1` and `P >= 1` each of the three general kernels returns, and of
the input words it has read the last one has contributed exactly `(cInstances - 1) % P + 1`
items and every earlier one exactly `P` items. -/
theorem last_word_items {F : Type} (A : FloatOps F) (W fuel P : Nat)
    (fc : FeatureCombination) (hP : 1 ≤ P) :
    (∀ (CRE : F → F) (ds : DataSetByFeatureCombination F) (U : List F),
      1 ≤ ds.m_cInstances → ds.m_cInstances < fuel →
      ds.m_cInstances ≤ ds.m_aResidualErrors.length →
      (ds.m_cInstances - 1) / P < (ds.GetInputDataPointer fc).length →
      (∀ i, i < ds.m_cInstances → decodeItem W P (ds.GetInputDataPointer fc) i < U.length) →
      ∃ c,
        OptimizedApplyModelUpdateValidationInternalRegression.Run A CRE W fuel P fc ds U =
          .ok c ∧
        (∀ w, w + 1 < c.pInputData → c.trace.countP (fun e => e.iWord = w) = P) ∧
        c.trace.countP (fun e => e.iWord = c.pInputData - 1) =
          (ds.m_cInstances - 1) % P + 1) ∧
    (∀ (LLb : F → Nat → F) (ds : DataSetByFeatureCombination F) (U : List F),
      1 ≤ ds.m_cInstances → ds.m_cInstances < fuel →
      ds.m_cInstances ≤ ds.m_aPredictorScores.length →
      ds.m_cInstances ≤ ds.m_aTargetData.length →
      (ds.m_cInstances - 1) / P < (ds.GetInputDataPointer fc).length →
      (∀ i, i < ds.m_cInstances → decodeItem W P (ds.GetInputDataPointer fc) i < U.length) →
      ∃ c,
        OptimizedApplyModelUpdateValidationInternalBinary.Run A LLb W fuel P fc ds U = .ok c ∧
        (∀ w, w + 1 < c.pInputData → c.trace.countP (fun e => e.iWord = w) = P) ∧
        c.trace.countP (fun e => e.iWord = c.pInputData - 1) =
          (ds.m_cInstances - 1) % P + 1) ∧
    (∀ (EbmExp : F → F) (LLm : F → F → F) (C : Nat) (ds : DataSetByFeatureCombination F)
      (U : List F), 3 ≤ C → C ≤ fuel →
      1 ≤ ds.m_cInstances → ds.m_cInstances < fuel →
      ds.m_cInstances * C ≤ ds.m_aPredictorScores.length →
      ds.m_cInstances ≤ ds.m_aTargetData.length →
      (ds.m_cInstances - 1) / P < (ds.GetInputDataPointer fc).length →
      (∀ i, i < ds.m_cInstances →
        decodeItem W P (ds.GetInputDataPointer fc) i * C + C ≤ U.length) →
      ∃ c,
        OptimizedApplyModelUpdateValidationInternal.Run A EbmExp LLm W fuel (C : Int) P fc ds U =
          .ok c ∧
        (∀ w, w + 1 < c.pInputData → c.trace.countP (fun e => e.iWord = w) = P) ∧
        c.trace.countP (fun e => e.iWord = c.pInputData - 1) =
          (ds.m_cInstances - 1) % P + 1) := by
  refine ⟨?_, ?_, ?_⟩
  · intro CRE ds U hN hfuel hres hcol hU
    exact ⟨_, regression_run A CRE W fuel P fc ds U hN hP hfuel hres hcol hU,
      itemEvents_last_and_earlier W P 1 hP _ _ hN⟩
  · intro LLb ds U hN hfuel hsc htg hcol hU
    exact ⟨_, binary_run A LLb W fuel P fc ds U hN hP hfuel hsc htg hcol hU,
      itemEvents_last_and_earlier W P 1 hP _ _ hN⟩
  · intro EbmExp LLm C ds U hC hfuelC hN hfuel hsc htg hcol hU
    have hV := GetVectorLength_multiclass C hC
    have hm := multiclass_run A EbmExp LLm W fuel (C : Int) P fc ds U hN hP hfuel
      (by rw [hV]; exact hfuelC) (by rw [hV]; exact hsc) htg hcol (by rw [hV]; exact hU)
    rw [hV] at hm
    exact ⟨_, hm, itemEvents_last_and_earlier W P C hP _ _ hN⟩

/-- For C7, in real arithmetic: five instances, two items per word and three classes; the
multiclass kernel takes two items from each of the words 0 and 1 and one item from word 2. -/
theorem last_word_items_witness :
    ∃ c,
      OptimizedApplyModelUpdateValidationInternal.Run
        (⟨0, (· + ·), (· - ·), (· * ·), (· / ·), fun n => (n : ℝ), fun a b => decide (a < b),
      fun _ => false, fun _ => false, 2 ^ 1024 - 2 ^ 971⟩ : FloatOps ℝ)
        Real.exp (fun sumExp itemExp => Real.log sumExp - Real.log itemExp) 64 6 ((3 : Nat) : Int)
        2 ⟨1, 2, 0⟩
        ⟨5, [], List.replicate 15 0, [0, 1, 2, 0, 1], fun _ => [1, 2 ^ 32, 0]⟩
        [0, 0, 0, 0, 0, 0] = .ok c ∧
      c.pInputData = 3 ∧
      c.trace.countP (fun e => e.iWord = 0) = 2 ∧ c.trace.countP (fun e => e.iWord = 1) = 2 ∧
      c.trace.countP (fun e => e.iWord = 2) = 1 := by
  obtain ⟨c, h1, h2, h3⟩ := (last_word_items
    (⟨0, (· + ·), (· - ·), (· * ·), (· / ·), fun n => (n : ℝ), fun a b => decide (a < b),
      fun _ => false, fun _ => false, 2 ^ 1024 - 2 ^ 971⟩ : FloatOps ℝ) 64 6 2 ⟨1, 2, 0⟩ (by decide)).2.2
    Real.exp (fun sumExp itemExp => Real.log sumExp - Real.log itemExp) 3
    ⟨5, [], List.replicate 15 0, [0, 1, 2, 0, 1], fun _ => [1, 2 ^ 32, 0]⟩
    [0, 0, 0, 0, 0, 0] (by decide) (by decide) (by decide) (by decide) (by decide) (by decide)
    (by decide) (by decide)
  obtain ⟨c6, h4, h5, _⟩ := (loop_words_helper
    (⟨0, (· + ·), (· - ·), (· * ·), (· / ·), fun n => (n : ℝ), fun a b => decide (a < b),
      fun _ => false, fun _ => false, 2 ^ 1024 - 2 ^ 971⟩ : FloatOps ℝ)
    Real.exp (fun sumExp itemExp => Real.log sumExp - Real.log itemExp) 64 6 3 2 ⟨1, 2, 0⟩
    ⟨5, [], List.replicate 15 0, [0, 1, 2, 0, 1], fun _ => [1, 2 ^ 32, 0]⟩
    [0, 0, 0, 0, 0, 0] (by decide) (by decide) (by decide) (by decide) (by decide) (by decide)
    (by decide) (by decide) (by decide))
  rw [h1] at h4
  cases h4
  have h5 : c.pInputData = 3 := h5
  rw [h5] at h2 h3
  exact ⟨c, h1, h5, h2 0 (by decide), h2 1 (by decide), h3⟩

/-- C8, as stated, fails when `P` divides `cInstances`: for four instances and two items per
word the regression kernel reads two words of two items each, and not `4 / 2` full words
followed by one more word of `(4 - 1) % 2 + 1` items. -/
theorem full_words_floor_counterexample :
    (∃ c,
      OptimizedApplyModelUpdateValidationInternalRegression.Run exactOps id 64 5 2 ⟨1, 2, 0⟩
        ⟨4, [1, -1, 2, -2], [], [], fun _ => [2 ^ 32, 2 ^ 32]⟩ [1 / 2, -1 / 2] = .ok c ∧
      itemsPerWord c.trace c.pInputData = [2, 2]) ∧
    ¬ ∃ c,
      OptimizedApplyModelUpdateValidationInternalRegression.Run exactOps id 64 5 2 ⟨1, 2, 0⟩
        ⟨4, [1, -1, 2, -2], [], [], fun _ => [2 ^ 32, 2 ^ 32]⟩ [1 / 2, -1 / 2] = .ok c ∧
      itemsPerWord c.trace c.pInputData = List.replicate (4 / 2) 2 ++ [(4 - 1) % 2 + 1] := by
  have hrun := regression_run exactOps id 64 5 2 ⟨1, 2, 0⟩
    ⟨4, [1, -1, 2, -2], [], [], fun _ => [2 ^ 32, 2 ^ 32]⟩ [1 / 2, -1 / 2]
    (by decide) (by decide) (by decide) (by decide) (by decide) (by decide)
  have hcount := itemsPerWord_itemEvents 64 2 1 (by decide) [2 ^ 32, 2 ^ 32] 0 4 (by decide)
  constructor
  · exact ⟨_, hrun, hcount⟩
  · rintro ⟨c, h1, h2⟩
    rw [hrun] at h1
    cases h1
    have h3 : itemsPerWord (itemEvents 64 2 1 [2 ^ 32, 2 ^ 32] 0 4) (wordsRead 2 4) = [2, 2, 2] := h2
    rw [hcount] at h3
    exact absurd h3 (by decide)

/-- C8, amended. For `cInstances >= 1` and `P >= 1` the regression kernel returns having taken
`P` items from each of the first `(cInstances - 1) / P` input words and then
`(cInstances - 1) % P + 1` items from one last word. -/
theorem full_words_then_last {F : Type} (A : FloatOps F) (CRE : F → F) (W fuel P : Nat)
    (fc : FeatureCombination) (ds : DataSetByFeatureCombination F) (U : List F)
    (hN : 1 ≤ ds.m_cInstances) (hP : 1 ≤ P) (hfuel : ds.m_cInstances < fuel)
    (hres : ds.m_cInstances ≤ ds.m_aResidualErrors.length)
    (hcol : (ds.m_cInstances - 1) / P < (ds.GetInputDataPointer fc).length)
    (hU : ∀ i, i < ds.m_cInstances → decodeItem W P (ds.GetInputDataPointer fc) i < U.length) :
    ∃ c,
      OptimizedApplyModelUpdateValidationInternalRegression.Run A CRE W fuel P fc ds U = .ok c ∧
      itemsPerWord c.trace c.pInputData =
        List.replicate ((ds.m_cInstances - 1) / P) P ++ [(ds.m_cInstances - 1) % P + 1] :=
  ⟨_, regression_run A CRE W fuel P fc ds U hN hP hfuel hres hcol hU,
    itemsPerWord_itemEvents W P 1 hP _ 0 _ hN⟩

/-- For C8 as amended, in exact arithmetic: four instances and two items per word give one
full word and then a last word of two items. -/
theorem full_words_then_last_witness :
    ∃ c,
      OptimizedApplyModelUpdateValidationInternalRegression.Run exactOps id 64 5 2 ⟨1, 2, 0⟩
        ⟨4, [1, -1, 2, -2], [], [], fun _ => [2 ^ 32, 2 ^ 32]⟩ [1 / 2, -1 / 2] = .ok c ∧
      itemsPerWord c.trace c.pInputData = List.replicate 1 2 ++ [2] :=
  full_words_then_last exactOps id 64 5 2 ⟨1, 2, 0⟩
    ⟨4, [1, -1, 2, -2], [], [], fun _ => [2 ^ 32, 2 ^ 32]⟩ [1 / 2, -1 / 2]
    (by decide) (by decide) (by decide) (by decide) (by decide) (by decide)

/-! ## Bits outside the fields of the valid instances -/

theorem prefixMap_congr {α : Type} (f g : Nat → α) (old : List α) (n : Nat)
    (h : ∀ i, i < n → f i = g i) : prefixMap f old n = prefixMap g old n := by
  unfold prefixMap
  congr 1
  exact List.map_congr_left (fun i hi => h i (List.mem_range.mp hi))

/-- The metric and the residuals of the regression kernel depend on the column only through
the fields of the valid instances. -/
theorem regression_func_fields {F : Type} (A : FloatOps F) (CRE : F → F) (W fuel P : Nat)
    (fc : FeatureCombination) (ds : DataSetByFeatureCombination F) (U : List F) (bin : Nat → Nat)
    (hN : 1 ≤ ds.m_cInstances) (hP : 1 ≤ P) (hfuel : ds.m_cInstances < fuel)
    (hres : ds.m_cInstances ≤ ds.m_aResidualErrors.length)
    (hcol : (ds.m_cInstances - 1) / P < (ds.GetInputDataPointer fc).length)
    (hbin : ∀ i, i < ds.m_cInstances →
      packedField (W / P) P (ds.GetInputDataPointer fc) i = bin i)
    (hU : ∀ i, i < ds.m_cInstances → bin i < U.length) :
    ∃ ds1,
      OptimizedApplyModelUpdateValidationInternalRegression.Func A CRE W fuel P fc ds U =
        .ok (A.div (sumUpTo A (fun i => ComputeSingleInstanceSquaredErrorRegression A
            (residualNew A CRE ds.m_aResidualErrors U bin i)) ds.m_cInstances)
          (A.ofSize ds.m_cInstances), ds1) ∧
      ds1.m_aResidualErrors =
        prefixMap (residualNew A CRE ds.m_aResidualErrors U bin) ds.m_aResidualErrors
          ds.m_cInstances := by
  have hdec : ∀ i, i < ds.m_cInstances →
      decodeItem W P (ds.GetInputDataPointer fc) i = bin i := by
    intro i hi
    rw [decodeItem_eq_packedField]
    exact hbin i hi
  have hrun := regression_run A CRE W fuel P fc ds U hN hP hfuel hres hcol
    (fun i hi => by rw [hdec i hi]; exact hU i hi)
  have hf : ∀ i, i < ds.m_cInstances →
      residualNew A CRE ds.m_aResidualErrors U (decodeItem W P (ds.GetInputDataPointer fc)) i =
        residualNew A CRE ds.m_aResidualErrors U bin i := by
    intro i hi
    simp only [residualNew, hdec i hi]
  refine ⟨{ ds with m_aResidualErrors :=
    (prefixMap (residualNew A CRE ds.m_aResidualErrors U bin) ds.m_aResidualErrors
      ds.m_cInstances) }, ?_, rfl⟩
  unfold OptimizedApplyModelUpdateValidationInternalRegression.Func
  rw [hrun]
  simp only [regressionCursor]
  rw [prefixMap_congr _ _ _ _ hf, sumUpTo_congr A _ _ _ (fun i hi => by rw [hf i hi])]

/-- The metric and the scores of the binary classification kernel depend on the column only
through the fields of the valid instances. -/
theorem binary_func_fields {F : Type} (A : FloatOps F) (LL : F → Nat → F) (W fuel P : Nat)
    (fc : FeatureCombination) (ds : DataSetByFeatureCombination F) (U : List F) (bin : Nat → Nat)
    (hN : 1 ≤ ds.m_cInstances) (hP : 1 ≤ P) (hfuel : ds.m_cInstances < fuel)
    (hsc : ds.m_cInstances ≤ ds.m_aPredictorScores.length)
    (htg : ds.m_cInstances ≤ ds.m_aTargetData.length)
    (hcol : (ds.m_cInstances - 1) / P < (ds.GetInputDataPointer fc).length)
    (hbin : ∀ i, i < ds.m_cInstances →
      packedField (W / P) P (ds.GetInputDataPointer fc) i = bin i)
    (hU : ∀ i, i < ds.m_cInstances → bin i < U.length) :
    ∃ ds1,
      OptimizedApplyModelUpdateValidationInternalBinary.Func A LL W fuel P fc ds U =
        .ok (A.div (sumUpTo A (fun i => LL (scoreNew A ds.m_aPredictorScores U bin i)
            (ds.m_aTargetData.getD i 0)) ds.m_cInstances)
          (A.ofSize ds.m_cInstances), ds1) ∧
      ds1.m_aPredictorScores =
        prefixMap (scoreNew A ds.m_aPredictorScores U bin) ds.m_aPredictorScores
          ds.m_cInstances := by
  have hdec : ∀ i, i < ds.m_cInstances →
      decodeItem W P (ds.GetInputDataPointer fc) i = bin i := by
    intro i hi
    rw [decodeItem_eq_packedField]
    exact hbin i hi
  have hrun := binary_run A LL W fuel P fc ds U hN hP hfuel hsc htg hcol
    (fun i hi => by rw [hdec i hi]; exact hU i hi)
  have hf : ∀ i, i < ds.m_cInstances →
      scoreNew A ds.m_aPredictorScores U (decodeItem W P (ds.GetInputDataPointer fc)) i =
        scoreNew A ds.m_aPredictorScores U bin i := by
    intro i hi
    simp only [scoreNew, hdec i hi]
  refine ⟨{ ds with m_aPredictorScores :=
    (prefixMap (scoreNew A ds.m_aPredictorScores U bin) ds.m_aPredictorScores
      ds.m_cInstances) }, ?_, rfl⟩
  unfold OptimizedApplyModelUpdateValidationInternalBinary.Func
  rw [hrun]
  simp only [binaryCursor]
  rw [prefixMap_congr _ _ _ _ hf, sumUpTo_congr A _ _ _ (fun i hi => by rw [hf i hi])]

theorem div_lt_of_lt_mul (i v N C : Nat) (hi : i < N) (hv : v < C) : (i * C + v) / C < N := by
  rw [Nat.mul_comm, Nat.mul_add_div (by omega), Nat.div_eq_of_lt hv]
  omega

/-- The metric and the scores of the general multiclass kernel depend on the column only
through the fields of the valid instances. -/
theorem multiclass_func_fields {F : Type} (A : FloatOps F) (EbmExp : F → F) (LL : F → F → F)
    (W fuel C P : Nat) (fc : FeatureCombination) (ds : DataSetByFeatureCombination F)
    (U : List F) (bin : Nat → Nat) (hC : 3 ≤ C)
    (hN : 1 ≤ ds.m_cInstances) (hP : 1 ≤ P) (hfuel : ds.m_cInstances < fuel) (hfuelC : C ≤ fuel)
    (hsc : ds.m_cInstances * C ≤ ds.m_aPredictorScores.length)
    (htg : ds.m_cInstances ≤ ds.m_aTargetData.length)
    (hcol : (ds.m_cInstances - 1) / P < (ds.GetInputDataPointer fc).length)
    (hbin : ∀ i, i < ds.m_cInstances →
      packedField (W / P) P (ds.GetInputDataPointer fc) i = bin i)
    (hU : ∀ i, i < ds.m_cInstances → bin i * C + C ≤ U.length) :
    ∃ ds1,
      OptimizedApplyModelUpdateValidationInternal.Func A EbmExp LL W fuel (C : Int) P fc ds U =
        .ok (A.div (sumUpTo A (instanceLogLoss A EbmExp LL
            (multiclassScoreNew A ds.m_aPredictorScores U C bin) C ds.m_aTargetData)
            ds.m_cInstances) (A.ofSize ds.m_cInstances), ds1) ∧
      ds1.m_aPredictorScores =
        prefixMap (multiclassScoreNew A ds.m_aPredictorScores U C bin) ds.m_aPredictorScores
          (ds.m_cInstances * C) := by
  have hdec : ∀ i, i < ds.m_cInstances →
      decodeItem W P (ds.GetInputDataPointer fc) i = bin i := by
    intro i hi
    rw [decodeItem_eq_packedField]
    exact hbin i hi
  have hfun := multiclass_func A EbmExp LL W fuel C P fc ds U hC hN hP hfuel hfuelC hsc htg hcol
    (fun i hi => by rw [hdec i hi]; exact hU i hi)
  have hlt : ∀ i v, i < ds.m_cInstances → v < C → (i * C + v) / C < ds.m_cInstances :=
    fun i v hi hv => div_lt_of_lt_mul i v _ C hi hv
  have hf : ∀ i v, i < ds.m_cInstances → v < C →
      multiclassScoreNew A ds.m_aPredictorScores U C
          (decodeItem W P (ds.GetInputDataPointer fc)) (i * C + v) =
        multiclassScoreNew A ds.m_aPredictorScores U C bin (i * C + v) := by
    intro i v hi hv
    simp only [multiclassScoreNew, hdec _ (hlt i v hi hv)]
  have hidx : ∀ idx, idx < ds.m_cInstances * C →
      multiclassScoreNew A ds.m_aPredictorScores U C
          (decodeItem W P (ds.GetInputDataPointer fc)) idx =
        multiclassScoreNew A ds.m_aPredictorScores U C bin idx := by
    intro idx hidx
    have hCpos : 0 < C := by omega
    have h1 : idx / C < ds.m_cInstances := (Nat.div_lt_iff_lt_mul hCpos).mpr hidx
    simp only [multiclassScoreNew, hdec _ h1]
  refine ⟨{ ds with m_aPredictorScores :=
    (prefixMap (multiclassScoreNew A ds.m_aPredictorScores U C bin) ds.m_aPredictorScores
      (ds.m_cInstances * C)) }, ?_, rfl⟩
  rw [hfun, prefixMap_congr _ _ _ _ hidx]
  congr 3
  apply sumUpTo_congr
  intro i hi
  simp only [instanceLogLoss, instanceSumExp, instanceItemExp]
  congr 1
  · apply sumUpTo_congr
    intro v hv
    rw [hf i v hi hv]
  · split
    · rename_i ht
      rw [hf i _ hi ht]
    · rfl

/-- C9. Padding is never read: let two packed columns, each long enough for `cInstances >= 1`
instances, agree on the field of every valid instance (they may differ in every other bit: the
high bits of the last word and the bits of any word above its `P` fields). Then on the two
validation sets that differ only in that column each of the three general kernels returns the
same metric and leaves the same residuals, respectively the same predictor scores. -/
theorem padding_never_read {F : Type} (A : FloatOps F) (W fuel P : Nat)
    (fc : FeatureCombination) (col2 : List Nat) (hP : 1 ≤ P) :
    (∀ (CRE : F → F) (ds : DataSetByFeatureCombination F) (U : List F),
      1 ≤ ds.m_cInstances → ds.m_cInstances < fuel →
      ds.m_cInstances ≤ ds.m_aResidualErrors.length →
      (ds.m_cInstances - 1) / P < (ds.GetInputDataPointer fc).length →
      (ds.m_cInstances - 1) / P < col2.length →
      (∀ i, i < ds.m_cInstances →
        packedField (W / P) P (ds.GetInputDataPointer fc) i = packedField (W / P) P col2 i) →
      (∀ i, i < ds.m_cInstances →
        packedField (W / P) P (ds.GetInputDataPointer fc) i < U.length) →
      ∃ ret d1 d2,
        OptimizedApplyModelUpdateValidationInternalRegression.Func A CRE W fuel P fc ds U =
          .ok (ret, d1) ∧
        OptimizedApplyModelUpdateValidationInternalRegression.Func A CRE W fuel P fc
          { ds with GetInputDataPointer := fun _ => col2 } U = .ok (ret, d2) ∧
        d1.m_aResidualErrors = d2.m_aResidualErrors) ∧
    (∀ (LLb : F → Nat → F) (ds : DataSetByFeatureCombination F) (U : List F),
      1 ≤ ds.m_cInstances → ds.m_cInstances < fuel →
      ds.m_cInstances ≤ ds.m_aPredictorScores.length →
      ds.m_cInstances ≤ ds.m_aTargetData.length →
      (ds.m_cInstances - 1) / P < (ds.GetInputDataPointer fc).length →
      (ds.m_cInstances - 1) / P < col2.length →
      (∀ i, i < ds.m_cInstances →
        packedField (W / P) P (ds.GetInputDataPointer fc) i = packedField (W / P) P col2 i) →
      (∀ i, i < ds.m_cInstances →
        packedField (W / P) P (ds.GetInputDataPointer fc) i < U.length) →
      ∃ ret d1 d2,
        OptimizedApplyModelUpdateValidationInternalBinary.Func A LLb W fuel P fc ds U =
          .ok (ret, d1) ∧
        OptimizedApplyModelUpdateValidationInternalBinary.Func A LLb W fuel P fc
          { ds with GetInputDataPointer := fun _ => col2 } U = .ok (ret, d2) ∧
        d1.m_aPredictorScores = d2.m_aPredictorScores) ∧
    (∀ (EbmExp : F → F) (LLm : F → F → F) (C : Nat) (ds : DataSetByFeatureCombination F)
      (U : List F), 3 ≤ C → C ≤ fuel →
      1 ≤ ds.m_cInstances → ds.m_cInstances < fuel →
      ds.m_cInstances * C ≤ ds.m_aPredictorScores.length →
      ds.m_cInstances ≤ ds.m_aTargetData.length →
      (ds.m_cInstances - 1) / P < (ds.GetInputDataPointer fc).length →
      (ds.m_cInstances - 1) / P < col2.length →
      (∀ i, i < ds.m_cInstances →
        packedField (W / P) P (ds.GetInputDataPointer fc) i = packedField (W / P) P col2 i) →
      (∀ i, i < ds.m_cInstances →
        packedField (W / P) P (ds.GetInputDataPointer fc) i * C + C ≤ U.length) →
      ∃ ret d1 d2,
        OptimizedApplyModelUpdateValidationInternal.Func A EbmExp LLm W fuel (C : Int) P fc ds
          U = .ok (ret, d1) ∧
        OptimizedApplyModelUpdateValidationInternal.Func A EbmExp LLm W fuel (C : Int) P fc
          { ds with GetInputDataPointer := fun _ => col2 } U = .ok (ret, d2) ∧
        d1.m_aPredictorScores = d2.m_aPredictorScores) := by
  refine ⟨?_, ?_, ?_⟩
  · intro CRE ds U hN hfuel hres hcol hcol2 hagree hU
    obtain ⟨d1, h1, e1⟩ := regression_func_fields A CRE W fuel P fc ds U
      (packedField (W / P) P (ds.GetInputDataPointer fc)) hN hP hfuel hres hcol
      (fun _ _ => rfl) hU
    obtain ⟨d2, h2, e2⟩ := regression_func_fields A CRE W fuel P fc
      { ds with GetInputDataPointer := fun _ => col2 } U
      (packedField (W / P) P (ds.GetInputDataPointer fc)) hN hP hfuel hres hcol2
      (fun i hi => (hagree i hi).symm) hU
    exact ⟨_, d1, d2, h1, h2, e1.trans e2.symm⟩
  · intro LLb ds U hN hfuel hsc htg hcol hcol2 hagree hU
    obtain ⟨d1, h1, e1⟩ := binary_func_fields A LLb W fuel P fc ds U
      (packedField (W / P) P (ds.GetInputDataPointer fc)) hN hP hfuel hsc htg hcol
      (fun _ _ => rfl) hU
    obtain ⟨d2, h2, e2⟩ := binary_func_fields A LLb W fuel P fc
      { ds with GetInputDataPointer := fun _ => col2 } U
      (packedField (W / P) P (ds.GetInputDataPointer fc)) hN hP hfuel hsc htg hcol2
      (fun i hi => (hagree i hi).symm) hU
    exact ⟨_, d1, d2, h1, h2, e1.trans e2.symm⟩
  · intro EbmExp LLm C ds U hC hfuelC hN hfuel hsc htg hcol hcol2 hagree hU
    obtain ⟨d1, h1, e1⟩ := multiclass_func_fields A EbmExp LLm W fuel C P fc ds U
      (packedField (W / P) P (ds.GetInputDataPointer fc)) hC hN hP hfuel hfuelC hsc htg hcol
      (fun _ _ => rfl) hU
    obtain ⟨d2, h2, e2⟩ := multiclass_func_fields A EbmExp LLm W fuel C P fc
      { ds with GetInputDataPointer := fun _ => col2 } U
      (packedField (W / P) P (ds.GetInputDataPointer fc)) hC hN hP hfuel hfuelC hsc htg hcol2
      (fun i hi => (hagree i hi).symm) hU
    exact ⟨_, d1, d2, h1, h2, e1.trans e2.symm⟩

/-- For C9, in real arithmetic with the softplus log loss: four instances with bins
`[1, 0, 1, 1]`, three items of 21 bits per 64-bit word. The second column has bit 63 of the
first word and the bits above the one valid field of the last word set; the binary
classification kernel returns the same metric and scores on both. -/
theorem padding_never_read_witness :
    [1 + 2 ^ 42, 1] ≠ [1 + 2 ^ 42 + 2 ^ 63, 1 + 7 * 2 ^ 21] ∧
    ∃ ret d1 d2,
      OptimizedApplyModelUpdateValidationInternalBinary.Func
        (⟨0, (· + ·), (· - ·), (· * ·), (· / ·), fun n => (n : ℝ), fun a b => decide (a < b),
      fun _ => false, fun _ => false, 2 ^ 1024 - 2 ^ 971⟩ : FloatOps ℝ)
        (fun s t => if t = 1 then Real.log (1 + Real.exp (-s)) else Real.log (1 + Real.exp s))
        64 5 3 ⟨1, 3, 0⟩
        ⟨4, [], [1, -1, 2, -2], [0, 1, 1, 0], fun _ => [1 + 2 ^ 42, 1]⟩
        [1, 2] = .ok (ret, d1) ∧
      OptimizedApplyModelUpdateValidationInternalBinary.Func
        (⟨0, (· + ·), (· - ·), (· * ·), (· / ·), fun n => (n : ℝ), fun a b => decide (a < b),
      fun _ => false, fun _ => false, 2 ^ 1024 - 2 ^ 971⟩ : FloatOps ℝ)
        (fun s t => if t = 1 then Real.log (1 + Real.exp (-s)) else Real.log (1 + Real.exp s))
        64 5 3 ⟨1, 3, 0⟩
        ⟨4, [], [1, -1, 2, -2], [0, 1, 1, 0],
          fun _ => [1 + 2 ^ 42 + 2 ^ 63, 1 + 7 * 2 ^ 21]⟩
        [1, 2] = .ok (ret, d2) ∧
      d1.m_aPredictorScores = d2.m_aPredictorScores :=
  ⟨by decide, (padding_never_read
    (⟨0, (· + ·), (· - ·), (· * ·), (· / ·), fun n => (n : ℝ), fun a b => decide (a < b),
      fun _ => false, fun _ => false, 2 ^ 1024 - 2 ^ 971⟩ : FloatOps ℝ) 64 5 3 ⟨1, 3, 0⟩ [1 + 2 ^ 42 + 2 ^ 63, 1 + 7 * 2 ^ 21] (by decide)).2.1
    (fun s t => if t = 1 then Real.log (1 + Real.exp (-s)) else Real.log (1 + Real.exp s))
    ⟨4, [], [1, -1, 2, -2], [0, 1, 1, 0], fun _ => [1 + 2 ^ 42, 1]⟩
    [1, 2] (by decide) (by decide) (by decide) (by decide) (by decide) (by decide) (by decide)
    (by decide)⟩

/-! ## The metric the entry point returns -/

/-- The entry point returns what `Finish` makes of the raw metric of the chosen kernel. -/
theorem OptimizedApplyModelUpdateValidation_of_raw {F : Type} (E : EbmInternal) (A : FloatOps F)
    (S : EbmStatistics F) (W fuel : Nat) (compiler runtime : Int) (bUseSIMD : Bool)
    (fc : FeatureCombination) (ds : DataSetByFeatureCombination F) (U : List F) (ret : F)
    (ds1 : DataSetByFeatureCombination F)
    (hraw : OptimizedApplyModelUpdateValidation.Dispatch E A S W fuel compiler runtime bUseSIMD
      fc ds U = .ok (ret, ds1)) :
    OptimizedApplyModelUpdateValidation E A S W fuel compiler runtime bUseSIMD fc ds U =
      .ok (OptimizedApplyModelUpdateValidation.Finish E A compiler ret, ds1) := by
  unfold OptimizedApplyModelUpdateValidation
  rw [hraw]

/-- C11, as stated, fails: a regression set of one instance whose residual is NaN, one
feature, `U = [0]`. The raw mean is NaN, and the metric returned is the largest finite double,
which is not an infinity. -/
theorem nan_metric_counterexample :
    ∃ ds1,
      OptimizedApplyModelUpdateValidation.Dispatch ebmInternal64 binary64Ops
        ⟨id, id, fun x _ => x, fun x _ => x⟩ 64 2 (-1) (-1) false ⟨1, 64, 0⟩
        ⟨1, [Binary64.nan], [], [], fun _ => [0]⟩ [Binary64.zero false] =
          .ok (Binary64.nan, ds1) ∧
      OptimizedApplyModelUpdateValidation ebmInternal64 binary64Ops
        ⟨id, id, fun x _ => x, fun x _ => x⟩ 64 2 (-1) (-1) false ⟨1, 64, 0⟩
        ⟨1, [Binary64.nan], [], [], fun _ => [0]⟩ [Binary64.zero false] =
          .ok (Binary64.finite (2 ^ 1024 - 2 ^ 971), ds1) ∧
      binary64Ops.isinf (Binary64.finite (2 ^ 1024 - 2 ^ 971)) = false ∧
      Binary64.finite (2 ^ 1024 - 2 ^ 971) ≠ Binary64.inf false :=
  ⟨⟨1, [Binary64.nan], [], [], fun _ => [0]⟩,
    by simp [OptimizedApplyModelUpdateValidation.Dispatch,
      OptimizedApplyModelUpdateValidationInternal.Instance,
      GET_COUNT_ITEMS_PER_BIT_PACKED_DATA_UNIT, ebmInternal64,
      OptimizedApplyModelUpdateValidationInternalRegression.Func,
      OptimizedApplyModelUpdateValidationInternalRegression.Run, bitPackedLoop, outerLoop,
      oneLastLoop, innerLoop, regressionItem, Cursor.start, binary64Ops, GetCountBits, maskBits,
      ComputeSingleInstanceSquaredErrorRegression, Binary64.add, Binary64.neg, Binary64.mul,
      Binary64.div],
    by simp [OptimizedApplyModelUpdateValidation, OptimizedApplyModelUpdateValidation.Finish,
      OptimizedApplyModelUpdateValidation.Dispatch,
      OptimizedApplyModelUpdateValidationInternal.Instance,
      GET_COUNT_ITEMS_PER_BIT_PACKED_DATA_UNIT, ebmInternal64,
      OptimizedApplyModelUpdateValidationInternalRegression.Func,
      OptimizedApplyModelUpdateValidationInternalRegression.Run, bitPackedLoop, outerLoop,
      oneLastLoop, innerLoop, regressionItem, Cursor.start, binary64Ops, GetCountBits, maskBits,
      ComputeSingleInstanceSquaredErrorRegression, Binary64.add, Binary64.neg, Binary64.mul,
      Binary64.div],
    rfl, by simp⟩

/-- C11, amended. Non-finite rejection: whenever the raw mean computed by the chosen kernel is
NaN or infinite, the metric returned by `OptimizedApplyModelUpdateValidation` is
`std::numeric_limits<FloatEbmType>::max()`, the largest finite value, and the validation set is
the one the kernel left. -/
theorem nonfinite_mean_gives_max {F : Type} (E : EbmInternal) (A : FloatOps F)
    (S : EbmStatistics F) (W fuel : Nat) (compiler runtime : Int) (bUseSIMD : Bool)
    (fc : FeatureCombination) (ds : DataSetByFeatureCombination F) (U : List F) (ret : F)
    (ds1 : DataSetByFeatureCombination F)
    (hraw : OptimizedApplyModelUpdateValidation.Dispatch E A S W fuel compiler runtime bUseSIMD
      fc ds U = .ok (ret, ds1))
    (hnonfinite : A.isnan ret = true ∨ A.isinf ret = true) :
    OptimizedApplyModelUpdateValidation E A S W fuel compiler runtime bUseSIMD fc ds U =
      .ok (A.max, ds1) := by
  rw [OptimizedApplyModelUpdateValidation_of_raw E A S W fuel compiler runtime bUseSIMD fc ds U
    ret ds1 hraw]
  unfold OptimizedApplyModelUpdateValidation.Finish
  rw [if_pos (by rcases hnonfinite with h | h <;> simp [h])]

/-- A regression set with the residuals `[NaN, 1]`: the raw mean is NaN and the metric
returned is the largest finite double. -/
theorem nonfinite_mean_gives_max_witness :
    OptimizedApplyModelUpdateValidation ebmInternal64 binary64Ops
      ⟨id, id, fun x _ => x, fun x _ => x⟩ 64 3 (-1) (-1) false ⟨1, 64, 0⟩
      ⟨2, [Binary64.nan, Binary64.finite 1], [], [], fun _ => [0]⟩ [Binary64.zero false] =
        .ok (Binary64.finite (2 ^ 1024 - 2 ^ 971),
          ⟨2, [Binary64.nan, Binary64.finite 1], [], [], fun _ => [0]⟩) :=
  nonfinite_mean_gives_max ebmInternal64 binary64Ops ⟨id, id, fun x _ => x, fun x _ => x⟩ 64 3
    (-1) (-1) false ⟨1, 64, 0⟩ ⟨2, [Binary64.nan, Binary64.finite 1], [], [], fun _ => [0]⟩
    [Binary64.zero false] Binary64.nan _
    (by simp [OptimizedApplyModelUpdateValidation.Dispatch,
      OptimizedApplyModelUpdateValidationInternal.Instance,
      GET_COUNT_ITEMS_PER_BIT_PACKED_DATA_UNIT, ebmInternal64,
      OptimizedApplyModelUpdateValidationInternalRegression.Func,
      OptimizedApplyModelUpdateValidationInternalRegression.Run, bitPackedLoop, outerLoop,
      oneLastLoop, innerLoop, regressionItem, Cursor.start, binary64Ops, GetCountBits, maskBits,
      ComputeSingleInstanceSquaredErrorRegression, Binary64.add, Binary64.neg, Binary64.mul,
      Binary64.div])
    (Or.inl rfl)

/-- C12. Negative-mean clamp: when the raw mean of the chosen kernel is neither NaN nor
infinite, `OptimizedApplyModelUpdateValidation` returns exactly zero if the instantiation is a
classification one and the raw mean is below zero, and for every instantiation it returns the raw
mean unchanged if that is not below zero. -/
theorem negative_mean_clamp {F : Type} (E : EbmInternal) (A : FloatOps F)
    (S : EbmStatistics F) (W fuel : Nat) (compiler runtime : Int) (bUseSIMD : Bool)
    (fc : FeatureCombination) (ds : DataSetByFeatureCombination F) (U : List F) (ret : F)
    (ds1 : DataSetByFeatureCombination F)
    (hraw : OptimizedApplyModelUpdateValidation.Dispatch E A S W fuel compiler runtime bUseSIMD
      fc ds U = .ok (ret, ds1))
    (hnan : A.isnan ret = false) (hinf : A.isinf ret = false) :
    (E.IsClassification compiler = true → A.lt ret A.zero = true →
      OptimizedApplyModelUpdateValidation E A S W fuel compiler runtime bUseSIMD fc ds U =
        .ok (A.zero, ds1)) ∧
    (A.lt ret A.zero = false →
      OptimizedApplyModelUpdateValidation E A S W fuel compiler runtime bUseSIMD fc ds U =
        .ok (ret, ds1)) := by
  rw [OptimizedApplyModelUpdateValidation_of_raw E A S W fuel compiler runtime bUseSIMD fc ds U
    ret ds1 hraw]
  unfold OptimizedApplyModelUpdateValidation.Finish
  rw [if_neg (by simp [hnan, hinf])]
  constructor
  · intro hc hlt
    rw [if_pos hc, if_pos hlt]
  · intro hlt
    by_cases hc : E.IsClassification compiler = true
    · rw [if_pos hc, if_neg (by simp [hlt])]
    · rw [if_neg hc]

/-- A zero-feature multiclass call in exact arithmetic, three classes, one instance, with an
approximate exponential `1 + x` and an approximate log loss `sumExp / itemExp - 4`: the raw mean
is `-1` and the metric returned is `0`. -/
theorem negative_mean_clamp_witness :
    OptimizedApplyModelUpdateValidation.Dispatch ebmInternal64 exactOps
      ⟨fun x => 1 + x, id, fun x _ => x, fun sumExp itemExp => sumExp / itemExp - 4⟩ 64 4 3 3
      false ⟨0, 1, 0⟩ ⟨1, [], [0, 0, 0], [2], fun _ => []⟩ [0, 0, 0] =
        .ok (-1, ⟨1, [], [0, 0, 0], [2], fun _ => []⟩) ∧
    OptimizedApplyModelUpdateValidation ebmInternal64 exactOps
      ⟨fun x => 1 + x, id, fun x _ => x, fun sumExp itemExp => sumExp / itemExp - 4⟩ 64 4 3 3
      false ⟨0, 1, 0⟩ ⟨1, [], [0, 0, 0], [2], fun _ => []⟩ [0, 0, 0] =
        .ok (0, ⟨1, [], [0, 0, 0], [2], fun _ => []⟩) := by
  have hraw : OptimizedApplyModelUpdateValidation.Dispatch ebmInternal64 exactOps
      ⟨fun x => 1 + x, id, fun x _ => x, fun sumExp itemExp => sumExp / itemExp - 4⟩ 64 4 3 3
      false ⟨0, 1, 0⟩ ⟨1, [], [0, 0, 0], [2], fun _ => []⟩ [0, 0, 0] =
        .ok (-1, ⟨1, [], [0, 0, 0], [2], fun _ => []⟩) := by
    simp [OptimizedApplyModelUpdateValidation.Dispatch,
      OptimizedApplyModelUpdateValidationZeroFeatures.Instance,
      GET_LEARNING_TYPE_OR_COUNT_TARGET_CLASSES, ebmInternal64,
      OptimizedApplyModelUpdateValidationZeroFeatures.Func,
      OptimizedApplyModelUpdateValidationZeroFeatures.Run, zeroFeaturesLoop, multiclassItem,
      vectorLoop, Cursor.start, exactOps, GetVectorLength]
    norm_num
  exact ⟨hraw, (negative_mean_clamp ebmInternal64 exactOps
    ⟨fun x => 1 + x, id, fun x _ => x, fun sumExp itemExp => sumExp / itemExp - 4⟩ 64 4 3 3 false
    ⟨0, 1, 0⟩ ⟨1, [], [0, 0, 0], [2], fun _ => []⟩ [0, 0, 0] (-1) _ hraw rfl rfl).1 rfl
    (by simp [exactOps])⟩

/-! ## The zero-feature kernels -/

/-- What the zero-feature regression kernel returns: every instance has the tensor value
`U[0]`. -/
theorem zeroFeatures_regression_func {F : Type} (A : FloatOps F) (CRE : F → F) (fuel : Nat)
    (ds : DataSetByFeatureCombination F) (U : List F) (u0 : F)
    (hN : 1 ≤ ds.m_cInstances) (hfuel : ds.m_cInstances < fuel)
    (hres : ds.m_cInstances ≤ ds.m_aResidualErrors.length) (hU : U[0]? = some u0) :
    OptimizedApplyModelUpdateValidationZeroFeaturesRegression.Func A CRE fuel ds U =
      .ok (A.div (sumUpTo A (fun i => ComputeSingleInstanceSquaredErrorRegression A
          (residualNew A CRE ds.m_aResidualErrors [u0] (fun _ => 0) i)) ds.m_cInstances)
          (A.ofSize ds.m_cInstances),
        { ds with m_aResidualErrors := (prefixMap
            (residualNew A CRE ds.m_aResidualErrors [u0] (fun _ => 0)) ds.m_aResidualErrors
            ds.m_cInstances) }) := by
  have hloop := zeroFeaturesLoop_eq (regressionItem A CRE [u0] 0)
    (fun n => ({ pInputData := 0, pTargetData := 0, pState := n
                 aState := prefixMap (residualNew A CRE ds.m_aResidualErrors [u0] (fun _ => 0))
                   ds.m_aResidualErrors n
                 sum := sumUpTo A (fun i => ComputeSingleInstanceSquaredErrorRegression A
                   (residualNew A CRE ds.m_aResidualErrors [u0] (fun _ => 0) i)) n
                 trace := [] } : Cursor F))
    ds.m_cInstances ds.m_cInstances
    (by
      intro n hn
      have h2 : (prefixMap (residualNew A CRE ds.m_aResidualErrors [u0] (fun _ => 0))
          ds.m_aResidualErrors n)[n]? = some (ds.m_aResidualErrors.getD n A.zero) := by
        rw [prefixMap_getElem?_ge _ _ _ _ (Nat.le_refl n)]
        exact getElem?_eq_some_getD _ _ _ (by omega)
      simp only [regressionItem, h2, List.getElem?_cons_zero, Except.ok.injEq, Cursor.mk.injEq,
        sumUpTo_succ, true_and, and_true]
      exact ⟨prefixMap_set (residualNew A CRE ds.m_aResidualErrors [u0] (fun _ => 0))
        ds.m_aResidualErrors n (by omega), rfl⟩)
    (fun n _ => Iff.rfl)
    ds.m_cInstances 0 fuel (by omega) hN (by omega)
  unfold OptimizedApplyModelUpdateValidationZeroFeaturesRegression.Func
  rw [hU]
  simp only
  have h0 : Cursor.start A ds.m_aResidualErrors =
      ({ pInputData := 0, pTargetData := 0, pState := 0
         aState := prefixMap (residualNew A CRE ds.m_aResidualErrors [u0] (fun _ => 0))
           ds.m_aResidualErrors 0
         sum := sumUpTo A (fun i => ComputeSingleInstanceSquaredErrorRegression A
           (residualNew A CRE ds.m_aResidualErrors [u0] (fun _ => 0) i)) 0
         trace := [] } : Cursor F) := by
    simp [Cursor.start, prefixMap_zero, sumUpTo]
  rw [h0, hloop]

/-- What the zero-feature binary classification kernel returns: every instance has the tensor
value `U[0]`. -/
theorem zeroFeatures_binary_func {F : Type} (A : FloatOps F) (LL : F → Nat → F) (fuel : Nat)
    (ds : DataSetByFeatureCombination F) (U : List F) (u0 : F)
    (hN : 1 ≤ ds.m_cInstances) (hfuel : ds.m_cInstances < fuel)
    (hsc : ds.m_cInstances ≤ ds.m_aPredictorScores.length)
    (htg : ds.m_cInstances ≤ ds.m_aTargetData.length) (hU : U[0]? = some u0) :
    OptimizedApplyModelUpdateValidationZeroFeaturesBinary.Func A LL fuel ds U =
      .ok (A.div (sumUpTo A (fun i => LL (scoreNew A ds.m_aPredictorScores [u0] (fun _ => 0) i)
          (ds.m_aTargetData.getD i 0)) ds.m_cInstances)
          (A.ofSize ds.m_cInstances),
        { ds with m_aPredictorScores := (prefixMap
            (scoreNew A ds.m_aPredictorScores [u0] (fun _ => 0)) ds.m_aPredictorScores
            ds.m_cInstances) }) := by
  have hloop := zeroFeaturesLoop_eq (binaryItem A LL ds.m_aTargetData [u0] 0)
    (fun n => ({ pInputData := 0, pTargetData := n, pState := n
                 aState := prefixMap (scoreNew A ds.m_aPredictorScores [u0] (fun _ => 0))
                   ds.m_aPredictorScores n
                 sum := sumUpTo A (fun i => LL (scoreNew A ds.m_aPredictorScores [u0]
                   (fun _ => 0) i) (ds.m_aTargetData.getD i 0)) n
                 trace := [] } : Cursor F))
    ds.m_cInstances ds.m_cInstances
    (by
      intro n hn
      have h1 := getElem?_eq_some_getD ds.m_aTargetData n 0 (by omega)
      have h2 : (prefixMap (scoreNew A ds.m_aPredictorScores [u0] (fun _ => 0))
          ds.m_aPredictorScores n)[n]? = some (ds.m_aPredictorScores.getD n A.zero) := by
        rw [prefixMap_getElem?_ge _ _ _ _ (Nat.le_refl n)]
        exact getElem?_eq_some_getD _ _ _ (by omega)
      simp only [binaryItem, h1, h2, List.getElem?_cons_zero, Except.ok.injEq, Cursor.mk.injEq,
        sumUpTo_succ, true_and, and_true]
      exact ⟨prefixMap_set (scoreNew A ds.m_aPredictorScores [u0] (fun _ => 0))
        ds.m_aPredictorScores n (by omega), rfl⟩)
    (fun n _ => Iff.rfl)
    ds.m_cInstances 0 fuel (by omega) hN (by omega)
  unfold OptimizedApplyModelUpdateValidationZeroFeaturesBinary.Func
  rw [hU]
  simp only
  have h0 : Cursor.start A ds.m_aPredictorScores =
      ({ pInputData := 0, pTargetData := 0, pState := 0
         aState := prefixMap (scoreNew A ds.m_aPredictorScores [u0] (fun _ => 0))
           ds.m_aPredictorScores 0
         sum := sumUpTo A (fun i => LL (scoreNew A ds.m_aPredictorScores [u0]
           (fun _ => 0) i) (ds.m_aTargetData.getD i 0)) 0
         trace := [] } : Cursor F) := by
    simp [Cursor.start, prefixMap_zero, sumUpTo]
  rw [h0, hloop]


/-- C14. Zero-feature specialization: when the feature combination has no feature,
`OptimizedApplyModelUpdateValidation` takes its raw metric from the zero-feature kernel of the
objective, which reads no input word (the call returns the same metric and arrays whatever the
packed column is, the empty one included) and gives every instance the update of the single
tensor cell: in regression residual `i` becomes
`ComputeResidualErrorRegression (residual_old_i - U[0])`, in binary classification score `i`
becomes `score_old_i + U[0]`, with `C >= 3` classes the score at `i * C + v` becomes
`score_old[i * C + v] + U[v]`; the raw metric is the sum of the losses of the instances (the
square of the new residual, the log loss of the new scores) divided by `cInstances`. -/
theorem zero_features_update {F : Type} (E : EbmInternal) (A : FloatOps F) (S : EbmStatistics F)
    (W fuel : Nat) (bUseSIMD : Bool) (fc : FeatureCombination) (hF : fc.m_cFeatures = 0) :
    (∀ (runtime : Int) (ds : DataSetByFeatureCombination F) (U : List F) (u0 : F),
      1 ≤ ds.m_cInstances → ds.m_cInstances < fuel →
      ds.m_cInstances ≤ ds.m_aResidualErrors.length → U[0]? = some u0 →
      ∃ (ret : F) (ds1 : DataSetByFeatureCombination F),
        (∀ col, OptimizedApplyModelUpdateValidation.Dispatch E A S W fuel E.k_Regression runtime
          bUseSIMD fc { ds with GetInputDataPointer := col } U =
            .ok (ret, { ds1 with GetInputDataPointer := col })) ∧
        (∀ i r, i < ds.m_cInstances → ds.m_aResidualErrors[i]? = some r →
          ds1.m_aResidualErrors[i]? =
            some (S.ComputeResidualErrorRegression (A.sub r u0))) ∧
        ret = A.div
          (sumUpTo A (fun i => A.mul (ds1.m_aResidualErrors.getD i A.zero)
            (ds1.m_aResidualErrors.getD i A.zero)) ds.m_cInstances)
          (A.ofSize ds.m_cInstances)) ∧
    (∀ (runtime : Int) (ds : DataSetByFeatureCombination F) (U : List F) (u0 : F),
      (2 : Int) ≠ E.k_Regression →
      1 ≤ ds.m_cInstances → ds.m_cInstances < fuel →
      ds.m_cInstances ≤ ds.m_aPredictorScores.length →
      ds.m_cInstances ≤ ds.m_aTargetData.length → U[0]? = some u0 →
      ∃ (ret : F) (ds1 : DataSetByFeatureCombination F),
        (∀ col, OptimizedApplyModelUpdateValidation.Dispatch E A S W fuel 2 runtime
          bUseSIMD fc { ds with GetInputDataPointer := col } U =
            .ok (ret, { ds1 with GetInputDataPointer := col })) ∧
        (∀ i s, i < ds.m_cInstances → ds.m_aPredictorScores[i]? = some s →
          ds1.m_aPredictorScores[i]? = some (A.add s u0)) ∧
        ret = A.div
          (sumUpTo A (fun i => S.ComputeSingleInstanceLogLossBinaryClassification
            (ds1.m_aPredictorScores.getD i A.zero) (ds.m_aTargetData.getD i 0)) ds.m_cInstances)
          (A.ofSize ds.m_cInstances)) ∧
    (∀ (compiler runtime : Int) (C : Nat) (ds : DataSetByFeatureCombination F) (U : List F),
      compiler ≠ E.k_Regression → compiler ≠ 2 →
      GET_LEARNING_TYPE_OR_COUNT_TARGET_CLASSES E.k_DynamicClassification compiler runtime = C →
      3 ≤ C → 1 ≤ ds.m_cInstances → ds.m_cInstances < fuel → C ≤ fuel →
      ds.m_cInstances * C ≤ ds.m_aPredictorScores.length →
      ds.m_cInstances ≤ ds.m_aTargetData.length → C ≤ U.length →
      ∃ (ret : F) (ds1 : DataSetByFeatureCombination F),
        (∀ col, OptimizedApplyModelUpdateValidation.Dispatch E A S W fuel compiler runtime
          bUseSIMD fc { ds with GetInputDataPointer := col } U =
            .ok (ret, { ds1 with GetInputDataPointer := col })) ∧
        (∀ i v s u, i < ds.m_cInstances → v < C → ds.m_aPredictorScores[i * C + v]? = some s →
          U[v]? = some u → ds1.m_aPredictorScores[i * C + v]? = some (A.add s u)) ∧
        ret = A.div
          (sumUpTo A (fun i =>
            S.ComputeSingleInstanceLogLossMulticlass
              (sumUpTo A (fun v => S.EbmExp (ds1.m_aPredictorScores.getD (i * C + v) A.zero)) C)
              (if ds.m_aTargetData.getD i 0 < C then
                S.EbmExp (ds1.m_aPredictorScores.getD (i * C + ds.m_aTargetData.getD i 0) A.zero)
              else A.zero))
            ds.m_cInstances)
          (A.ofSize ds.m_cInstances)) := by
  refine ⟨?_, ?_, ?_⟩
  · intro runtime ds U u0 hN hfuel hres hU
    refine ⟨_, { ds with m_aResidualErrors := (prefixMap
        (residualNew A S.ComputeResidualErrorRegression ds.m_aResidualErrors [u0] (fun _ => 0))
        ds.m_aResidualErrors ds.m_cInstances) }, ?_, ?_, rfl⟩
    · intro col
      unfold OptimizedApplyModelUpdateValidation.Dispatch
      rw [if_pos hF.symm]
      unfold OptimizedApplyModelUpdateValidationZeroFeatures.Instance
      rw [if_pos rfl, zeroFeatures_regression_func A S.ComputeResidualErrorRegression fuel
        { ds with GetInputDataPointer := col } U u0 hN hfuel hres hU]
      simp only [Except.ok.injEq, Prod.mk.injEq, and_true]
      congr 1
      apply sumUpTo_congr
      intro i hi
      rw [getD_prefixMap_lt _ _ _ _ _ hi]
      rfl
    · intro i r hi hr
      simp only
      rw [prefixMap_getElem?_lt _ _ _ _ hi]
      simp [residualNew, List.getD_eq_getElem?_getD, hr]
  · intro runtime ds U u0 h2 hN hfuel hsc htg hU
    refine ⟨_, { ds with m_aPredictorScores := (prefixMap
        (scoreNew A ds.m_aPredictorScores [u0] (fun _ => 0))
        ds.m_aPredictorScores ds.m_cInstances) }, ?_, ?_, rfl⟩
    · intro col
      unfold OptimizedApplyModelUpdateValidation.Dispatch
      rw [if_pos hF.symm]
      unfold OptimizedApplyModelUpdateValidationZeroFeatures.Instance
      rw [if_neg h2, if_pos rfl, zeroFeatures_binary_func A
        S.ComputeSingleInstanceLogLossBinaryClassification fuel
        { ds with GetInputDataPointer := col } U u0 hN hfuel hsc htg hU]
      simp only [Except.ok.injEq, Prod.mk.injEq, and_true]
      congr 1
      apply sumUpTo_congr
      intro i hi
      rw [getD_prefixMap_lt _ _ _ _ _ hi]
    · intro i s hi hs
      simp only
      rw [prefixMap_getElem?_lt _ _ _ _ hi]
      simp [scoreNew, List.getD_eq_getElem?_getD, hs]
  · intro compiler runtime C ds U hreg hbin hget hC hN hfuel hfuelC hsc htg hU
    refine ⟨_, { ds with m_aPredictorScores := (prefixMap
        (multiclassScoreNew A ds.m_aPredictorScores U C (fun _ => 0))
        ds.m_aPredictorScores (ds.m_cInstances * C)) }, ?_, ?_, rfl⟩
    · intro col
      unfold OptimizedApplyModelUpdateValidation.Dispatch
      rw [if_pos hF.symm]
      unfold OptimizedApplyModelUpdateValidationZeroFeatures.Instance
      rw [if_neg hreg, if_neg hbin, hget, zeroFeatures_multiclass_func A S.EbmExp
        S.ComputeSingleInstanceLogLossMulticlass fuel C
        { ds with GetInputDataPointer := col } U hC hN hfuel hfuelC hsc htg hU]
      simp only [Except.ok.injEq, Prod.mk.injEq, and_true]
      rw [multiclass_sum_eq A S.EbmExp S.ComputeSingleInstanceLogLossMulticlass C
        ds.m_cInstances ds.m_aTargetData ds.m_aPredictorScores]
    · intro i v s u hi hv hs hu
      have hlt : i * C + v < ds.m_cInstances * C := by
        have : (i + 1) * C ≤ ds.m_cInstances * C := Nat.mul_le_mul_right _ hi
        rw [Nat.succ_mul] at this
        omega
      simp only
      rw [prefixMap_getElem?_lt _ _ _ _ hlt]
      have h2 : (i * C + v) % C = v := Nat.mul_add_mod_of_lt hv
      simp [multiclassScoreNew, h2, List.getD_eq_getElem?_getD, hs, hu]

/-- Scenario S2 for C14, in real arithmetic with the log loss `softplus (-score)` for target 1
and `softplus score` otherwise: binary classification, no feature, two instances with scores
`[0, 0]`, targets `[0, 1]` and `U = [0]` keep the scores `[0, 0]` and give the raw metric
`log 2`. -/
theorem zero_features_update_witness :
    ∃ ret ds1,
      OptimizedApplyModelUpdateValidation.Dispatch ebmInternal64
        (⟨0, (· + ·), (· - ·), (· * ·), (· / ·), fun n => (n : ℝ), fun a b => decide (a < b),
          fun _ => false, fun _ => false, 2 ^ 1024 - 2 ^ 971⟩ : FloatOps ℝ)
        ⟨Real.exp, id,
          fun s t => if t = 1 then Real.log (1 + Real.exp (-s)) else Real.log (1 + Real.exp s),
          fun sumExp itemExp => Real.log sumExp - Real.log itemExp⟩
        64 3 2 2 false ⟨0, 1, 0⟩ ⟨2, [], [0, 0], [0, 1], fun _ => []⟩ [0] = .ok (ret, ds1) ∧
      ds1.m_aPredictorScores = [0, 0] ∧ ret = Real.log 2 := by
  obtain ⟨ret, ds1, h1, _, h3⟩ := (zero_features_update ebmInternal64
    (⟨0, (· + ·), (· - ·), (· * ·), (· / ·), fun n => (n : ℝ), fun a b => decide (a < b),
          fun _ => false, fun _ => false, 2 ^ 1024 - 2 ^ 971⟩ : FloatOps ℝ)
    ⟨Real.exp, id,
      fun s t => if t = 1 then Real.log (1 + Real.exp (-s)) else Real.log (1 + Real.exp s),
      fun sumExp itemExp => Real.log sumExp - Real.log itemExp⟩
    64 3 false ⟨0, 1, 0⟩ rfl).2.1 2 ⟨2, [], [0, 0], [0, 1], fun _ => []⟩ [0] 0
    (by decide) (by decide) (by decide) (by decide) (by decide) rfl
  have hsc : ds1.m_aPredictorScores = [0, 0] := by
    have e := h1 (fun _ => [])
    simp [OptimizedApplyModelUpdateValidation.Dispatch,
      OptimizedApplyModelUpdateValidationZeroFeatures.Instance, ebmInternal64,
      OptimizedApplyModelUpdateValidationZeroFeaturesBinary.Func, zeroFeaturesLoop, binaryItem,
      Cursor.start] at e
    exact e.2.2.2.1.symm
  refine ⟨ret, { ds1 with GetInputDataPointer := fun _ => [] }, h1 (fun _ => []), hsc, ?_⟩
  rw [h3, hsc]
  simp [sumUpTo, List.range_succ]
  norm_num

/-! ## Applying a zero update, and an update and its negation -/

/-- What the general regression kernel returns. -/
theorem regression_func {F : Type} (A : FloatOps F) (CRE : F → F) (W fuel P : Nat)
    (fc : FeatureCombination) (ds : DataSetByFeatureCombination F) (U : List F)
    (hN : 1 ≤ ds.m_cInstances) (hP : 1 ≤ P) (hfuel : ds.m_cInstances < fuel)
    (hres : ds.m_cInstances ≤ ds.m_aResidualErrors.length)
    (hcol : (ds.m_cInstances - 1) / P < (ds.GetInputDataPointer fc).length)
    (hU : ∀ i, i < ds.m_cInstances → decodeItem W P (ds.GetInputDataPointer fc) i < U.length) :
    OptimizedApplyModelUpdateValidationInternalRegression.Func A CRE W fuel P fc ds U =
      .ok (A.div (sumUpTo A (fun i => ComputeSingleInstanceSquaredErrorRegression A
          (residualNew A CRE ds.m_aResidualErrors U
            (decodeItem W P (ds.GetInputDataPointer fc)) i)) ds.m_cInstances)
          (A.ofSize ds.m_cInstances),
        { ds with m_aResidualErrors := (prefixMap (residualNew A CRE ds.m_aResidualErrors U
            (decodeItem W P (ds.GetInputDataPointer fc))) ds.m_aResidualErrors
            ds.m_cInstances) }) := by
  unfold OptimizedApplyModelUpdateValidationInternalRegression.Func
  rw [regression_run A CRE W fuel P fc ds U hN hP hfuel hres hcol hU]
  rfl

/-- What the general binary classification kernel returns. -/
theorem binary_func {F : Type} (A : FloatOps F) (LL : F → Nat → F) (W fuel P : Nat)
    (fc : FeatureCombination) (ds : DataSetByFeatureCombination F) (U : List F)
    (hN : 1 ≤ ds.m_cInstances) (hP : 1 ≤ P) (hfuel : ds.m_cInstances < fuel)
    (hsc : ds.m_cInstances ≤ ds.m_aPredictorScores.length)
    (htg : ds.m_cInstances ≤ ds.m_aTargetData.length)
    (hcol : (ds.m_cInstances - 1) / P < (ds.GetInputDataPointer fc).length)
    (hU : ∀ i, i < ds.m_cInstances → decodeItem W P (ds.GetInputDataPointer fc) i < U.length) :
    OptimizedApplyModelUpdateValidationInternalBinary.Func A LL W fuel P fc ds U =
      .ok (A.div (sumUpTo A (fun i => LL (scoreNew A ds.m_aPredictorScores U
            (decodeItem W P (ds.GetInputDataPointer fc)) i) (ds.m_aTargetData.getD i 0))
          ds.m_cInstances) (A.ofSize ds.m_cInstances),
        { ds with m_aPredictorScores := (prefixMap (scoreNew A ds.m_aPredictorScores U
            (decodeItem W P (ds.GetInputDataPointer fc))) ds.m_aPredictorScores
            ds.m_cInstances) }) := by
  unfold OptimizedApplyModelUpdateValidationInternalBinary.Func
  rw [binary_run A LL W fuel P fc ds U hN hP hfuel hsc htg hcol hU]
  rfl

/-- An array rewritten with its own entries is unchanged. -/
theorem prefixMap_eq_self {α : Type} (f : Nat → α) (old : List α) (n : Nat) (d : α)
    (hn : n ≤ old.length) (hf : ∀ i, i < n → f i = old.getD i d) : prefixMap f old n = old := by
  apply List.ext_getElem?
  intro i
  by_cases hi : i < n
  · rw [prefixMap_getElem?_lt _ _ _ _ hi, hf i hi, getElem?_eq_some_getD old i d (by omega)]
  · rw [prefixMap_getElem?_ge _ _ _ _ (by omega)]

/-- Rewriting a rewritten array over the same length forgets the first rewriting. -/
theorem prefixMap_prefixMap {α : Type} (f g : Nat → α) (old : List α) (n : Nat) :
    prefixMap g (prefixMap f old n) n = prefixMap g old n := by
  apply List.ext_getElem?
  intro i
  by_cases hi : i < n
  · rw [prefixMap_getElem?_lt _ _ _ _ hi, prefixMap_getElem?_lt _ _ _ _ hi]
  · rw [prefixMap_getElem?_ge _ _ _ _ (by omega), prefixMap_getElem?_ge _ _ _ _ (by omega),
      prefixMap_getElem?_ge _ _ _ _ (by omega)]

/-- An entry of a list inside its length, as a member. -/
theorem getD_mem {α : Type} (l : List α) (i : Nat) (d : α) (h : i < l.length) : l.getD i d ∈ l := by
  rw [List.getD_eq_getElem?_getD, List.getElem?_eq_getElem h]
  exact List.getElem_mem h


/-- A tensor whose entries are all zero reads as zero at every offset. -/
theorem getD_of_all_zero {α : Type} (U : List α) (z : α) (hU : ∀ u, u ∈ U → u = z) (k : Nat) :
    U.getD k z = z := by
  by_cases hk : k < U.length
  · exact hU _ (getD_mem U k z hk)
  · rw [List.getD_eq_getElem?_getD, List.getElem?_eq_none (by omega)]
    rfl

/-- C15, as stated, fails: binary classification, one instance whose predictor score
is `-0.0`, one feature, and the update tensor `[+0.0]`. The call stores `-0.0 + 0.0`, which is
`+0.0`: the sign bit of the score has changed. The log loss is whatever function; here it
returns the score. -/
theorem zero_update_counterexample :
    ∃ ret ds1,
      OptimizedApplyModelUpdateValidationInternalBinary.Func binary64Ops (fun score _ => score)
        64 2 64 ⟨1, 64, 0⟩ ⟨1, [], [Binary64.zero true], [0], fun _ => [0]⟩
        [Binary64.zero false] = .ok (ret, ds1) ∧
      ds1.m_aPredictorScores = [Binary64.zero false] ∧
      Binary64.zero false ≠ Binary64.zero true := by
  refine ⟨_, _, binary_func binary64Ops (fun score _ => score) 64 2 64 ⟨1, 64, 0⟩
    ⟨1, [], [Binary64.zero true], [0], fun _ => [0]⟩ [Binary64.zero false] (by decide)
    (by decide) (by decide) (by decide) (by decide) (by decide) (by decide), ?_, by simp⟩
  rfl

/-- An entry of an array rewritten with a tensor of zeros: inside the rewritten part it is
`f old_i` and unchanged when `f old_i = old_i`, beyond it it is the old entry. -/
theorem prefixMap_zero_update {α : Type} (g : Nat → α) (f : α → α) (old : List α) (n : Nat)
    (d : α) (hg : ∀ i, i < n → g i = f (old.getD i d)) (i : Nat) (x : α)
    (hx : old[i]? = some x) :
    (i < n → (prefixMap g old n)[i]? = some (f x)) ∧
    ((i < n → f x = x) → (prefixMap g old n)[i]? = some x) := by
  have hd : old.getD i d = x := by
    rw [List.getD_eq_getElem?_getD, hx]
    rfl
  have hlt : i < n → (prefixMap g old n)[i]? = some (f x) := by
    intro hi
    rw [prefixMap_getElem?_lt _ _ _ _ hi, hg i hi, hd]
  refine ⟨hlt, fun hkeep => ?_⟩
  by_cases hi : i < n
  · rw [hlt hi, hkeep hi]
  · rw [prefixMap_getElem?_ge _ _ _ _ (by omega)]
    exact hx

/-- C15, amended. Zero update: for every objective, every `N >= 1` and every well-formed packed
column, applying an update tensor whose entries are all the zero `FloatEbmType { 0 }` stores
`ComputeResidualErrorRegression (r - 0)` for the residual `r` of every instance (regression)
and `s + 0` for every predictor score `s` of an instance (classification), so it leaves
unchanged, element by element and whatever happens to the other elements, every residual `r`
for which `ComputeResidualErrorRegression (r - 0)` is `r` again and every predictor score `s`
for which `s + 0` is `s` again; the entries beyond the instances are not touched, and when
every element of the instances is kept the whole array is as before. Among the doubles
`r - 0` is `r` for every `r`, and `s + 0` is `s` for every `s` other than `-0.0`. -/
theorem zero_update_unchanged {F : Type} (A : FloatOps F) (W fuel P : Nat) (hP : 1 ≤ P) :
    (∀ (CRE : F → F) (fc : FeatureCombination) (ds : DataSetByFeatureCombination F)
        (U : List F),
      1 ≤ ds.m_cInstances → ds.m_cInstances < fuel →
      ds.m_cInstances ≤ ds.m_aResidualErrors.length →
      (ds.m_cInstances - 1) / P < (ds.GetInputDataPointer fc).length →
      (∀ i, i < ds.m_cInstances → decodeItem W P (ds.GetInputDataPointer fc) i < U.length) →
      (∀ u, u ∈ U → u = A.zero) →
      ∃ (ret : F) (ds1 : DataSetByFeatureCombination F),
        OptimizedApplyModelUpdateValidationInternalRegression.Func A CRE W fuel P fc ds U =
          .ok (ret, ds1) ∧
        ds1.m_aResidualErrors.length = ds.m_aResidualErrors.length ∧
        (∀ i r, i < ds.m_cInstances → ds.m_aResidualErrors[i]? = some r →
          ds1.m_aResidualErrors[i]? = some (CRE (A.sub r A.zero))) ∧
        (∀ i r, ds.m_aResidualErrors[i]? = some r →
          (i < ds.m_cInstances → CRE (A.sub r A.zero) = r) →
          ds1.m_aResidualErrors[i]? = some r) ∧
        ((∀ i r, i < ds.m_cInstances → ds.m_aResidualErrors[i]? = some r →
            CRE (A.sub r A.zero) = r) →
          ds1.m_aResidualErrors = ds.m_aResidualErrors)) ∧
    (∀ (LL : F → Nat → F) (fc : FeatureCombination) (ds : DataSetByFeatureCombination F)
        (U : List F),
      1 ≤ ds.m_cInstances → ds.m_cInstances < fuel →
      ds.m_cInstances ≤ ds.m_aPredictorScores.length →
      ds.m_cInstances ≤ ds.m_aTargetData.length →
      (ds.m_cInstances - 1) / P < (ds.GetInputDataPointer fc).length →
      (∀ i, i < ds.m_cInstances → decodeItem W P (ds.GetInputDataPointer fc) i < U.length) →
      (∀ u, u ∈ U → u = A.zero) →
      ∃ (ret : F) (ds1 : DataSetByFeatureCombination F),
        OptimizedApplyModelUpdateValidationInternalBinary.Func A LL W fuel P fc ds U =
          .ok (ret, ds1) ∧
        ds1.m_aPredictorScores.length = ds.m_aPredictorScores.length ∧
        (∀ i s, i < ds.m_cInstances → ds.m_aPredictorScores[i]? = some s →
          ds1.m_aPredictorScores[i]? = some (A.add s A.zero)) ∧
        (∀ i s, ds.m_aPredictorScores[i]? = some s →
          (i < ds.m_cInstances → A.add s A.zero = s) →
          ds1.m_aPredictorScores[i]? = some s) ∧
        ((∀ i s, i < ds.m_cInstances → ds.m_aPredictorScores[i]? = some s →
            A.add s A.zero = s) →
          ds1.m_aPredictorScores = ds.m_aPredictorScores)) ∧
    (∀ (EbmExp : F → F) (LL : F → F → F) (C : Nat) (fc : FeatureCombination)
        (ds : DataSetByFeatureCombination F) (U : List F),
      3 ≤ C → C ≤ fuel → 1 ≤ ds.m_cInstances → ds.m_cInstances < fuel →
      ds.m_cInstances * C ≤ ds.m_aPredictorScores.length →
      ds.m_cInstances ≤ ds.m_aTargetData.length →
      (ds.m_cInstances - 1) / P < (ds.GetInputDataPointer fc).length →
      (∀ i, i < ds.m_cInstances →
        decodeItem W P (ds.GetInputDataPointer fc) i * C + C ≤ U.length) →
      (∀ u, u ∈ U → u = A.zero) →
      ∃ (ret : F) (ds1 : DataSetByFeatureCombination F),
        OptimizedApplyModelUpdateValidationInternal.Func A EbmExp LL W fuel (C : Int) P fc ds U =
          .ok (ret, ds1) ∧
        ds1.m_aPredictorScores.length = ds.m_aPredictorScores.length ∧
        (∀ k s, k < ds.m_cInstances * C → ds.m_aPredictorScores[k]? = some s →
          ds1.m_aPredictorScores[k]? = some (A.add s A.zero)) ∧
        (∀ k s, ds.m_aPredictorScores[k]? = some s →
          (k < ds.m_cInstances * C → A.add s A.zero = s) →
          ds1.m_aPredictorScores[k]? = some s) ∧
        ((∀ k s, k < ds.m_cInstances * C → ds.m_aPredictorScores[k]? = some s →
            A.add s A.zero = s) →
          ds1.m_aPredictorScores = ds.m_aPredictorScores)) ∧
    (∀ r : Binary64, binary64Ops.sub r binary64Ops.zero = r) ∧
    (∀ s : Binary64, s ≠ Binary64.zero true → binary64Ops.add s binary64Ops.zero = s) := by
  refine ⟨?_, ?_, ?_, ?_, ?_⟩
  · intro CRE fc ds U hN hfuel hres hcol hU hzero
    have hg : ∀ i, i < ds.m_cInstances →
        residualNew A CRE ds.m_aResidualErrors U (decodeItem W P (ds.GetInputDataPointer fc)) i =
          (fun r => CRE (A.sub r A.zero)) (ds.m_aResidualErrors.getD i A.zero) := by
      intro i _
      simp only [residualNew]
      rw [getD_of_all_zero U A.zero hzero]
    have hpm := prefixMap_zero_update (residualNew A CRE ds.m_aResidualErrors U
      (decodeItem W P (ds.GetInputDataPointer fc))) (fun r => CRE (A.sub r A.zero))
      ds.m_aResidualErrors ds.m_cInstances A.zero hg
    refine ⟨_, _, regression_func A CRE W fuel P fc ds U hN hP hfuel hres hcol hU,
      prefixMap_length _ _ _ hres, ?_, ?_, ?_⟩
    · intro i r hi hr
      exact (hpm i r hr).1 hi
    · intro i r hr hkeep
      exact (hpm i r hr).2 hkeep
    · intro hkeep
      apply prefixMap_eq_self _ _ _ A.zero hres
      intro i hi
      rw [hg i hi]
      exact hkeep i _ hi (getElem?_eq_some_getD _ _ _ (by omega))
  · intro LL fc ds U hN hfuel hsc htg hcol hU hzero
    have hg : ∀ i, i < ds.m_cInstances →
        scoreNew A ds.m_aPredictorScores U (decodeItem W P (ds.GetInputDataPointer fc)) i =
          (fun s => A.add s A.zero) (ds.m_aPredictorScores.getD i A.zero) := by
      intro i _
      simp only [scoreNew]
      rw [getD_of_all_zero U A.zero hzero]
    have hpm := prefixMap_zero_update (scoreNew A ds.m_aPredictorScores U
      (decodeItem W P (ds.GetInputDataPointer fc))) (fun s => A.add s A.zero)
      ds.m_aPredictorScores ds.m_cInstances A.zero hg
    refine ⟨_, _, binary_func A LL W fuel P fc ds U hN hP hfuel hsc htg hcol hU,
      prefixMap_length _ _ _ hsc, ?_, ?_, ?_⟩
    · intro i s hi hs
      exact (hpm i s hs).1 hi
    · intro i s hs hkeep
      exact (hpm i s hs).2 hkeep
    · intro hkeep
      apply prefixMap_eq_self _ _ _ A.zero hsc
      intro i hi
      rw [hg i hi]
      exact hkeep i _ hi (getElem?_eq_some_getD _ _ _ (by omega))
  · intro EbmExp LL C fc ds U hC hfuelC hN hfuel hsc htg hcol hU hzero
    have hg : ∀ k, k < ds.m_cInstances * C →
        multiclassScoreNew A ds.m_aPredictorScores U C
            (decodeItem W P (ds.GetInputDataPointer fc)) k =
          (fun s => A.add s A.zero) (ds.m_aPredictorScores.getD k A.zero) := by
      intro k _
      simp only [multiclassScoreNew]
      rw [getD_of_all_zero U A.zero hzero]
    have hpm := prefixMap_zero_update (multiclassScoreNew A ds.m_aPredictorScores U C
      (decodeItem W P (ds.GetInputDataPointer fc))) (fun s => A.add s A.zero)
      ds.m_aPredictorScores (ds.m_cInstances * C) A.zero hg
    refine ⟨_, _, multiclass_func A EbmExp LL W fuel C P fc ds U hC hN hP hfuel hfuelC hsc htg
      hcol hU, prefixMap_length _ _ _ hsc, ?_, ?_, ?_⟩
    · intro k s hk hs
      exact (hpm k s hs).1 hk
    · intro k s hs hkeep
      exact (hpm k s hs).2 hkeep
    · intro hkeep
      apply prefixMap_eq_self _ _ _ A.zero hsc
      intro k hk
      rw [hg k hk]
      exact hkeep k _ hk (getElem?_eq_some_getD _ _ _ (by omega))
  · intro r
    cases r <;> simp [binary64Ops, Binary64.add, Binary64.neg]
  · intro s hs
    cases s with
    | nan => rfl
    | inf a => rfl
    | zero a =>
      cases a
      · rfl
      · exact absurd rfl hs
    | finite q => rfl

/-- For C15, in double arithmetic. A binary classification call with the scores `[-0.0, 1]`
and `U = [+0.0]`: the score `1` is unchanged although the score `-0.0` of the other instance
becomes `+0.0`. A regression call with the residuals `[-0.0, 1, NaN]`, of which the first two
belong to instances, and `U = [+0.0]` leaves the three residuals as they are. -/
theorem zero_update_unchanged_witness :
    (∃ ret ds1,
      OptimizedApplyModelUpdateValidationInternalBinary.Func binary64Ops (fun score _ => score)
        64 3 64 ⟨1, 64, 0⟩
        ⟨2, [], [Binary64.zero true, Binary64.finite 1], [0, 0], fun _ => [0]⟩
        [Binary64.zero false] = .ok (ret, ds1) ∧
      ds1.m_aPredictorScores[1]? = some (Binary64.finite 1) ∧
      ds1.m_aPredictorScores[0]? = some (Binary64.zero false)) ∧
    ∃ ret ds1,
      OptimizedApplyModelUpdateValidationInternalRegression.Func binary64Ops id 64 3 64
        ⟨1, 64, 0⟩ ⟨2, [Binary64.zero true, Binary64.finite 1, Binary64.nan], [], [],
          fun _ => [0]⟩ [Binary64.zero false] = .ok (ret, ds1) ∧
      ds1.m_aResidualErrors = [Binary64.zero true, Binary64.finite 1, Binary64.nan] := by
  constructor
  · obtain ⟨ret, ds1, h1, _, hstore, hkeep, _⟩ :=
      (zero_update_unchanged binary64Ops 64 3 64 (by decide)).2.1 (fun score _ => score)
        ⟨1, 64, 0⟩ ⟨2, [], [Binary64.zero true, Binary64.finite 1], [0, 0], fun _ => [0]⟩
        [Binary64.zero false] (by decide) (by decide) (by decide) (by decide) (by decide)
        (by decide) (by simp [binary64Ops])
    exact ⟨ret, ds1, h1, hkeep 1 (Binary64.finite 1) rfl (fun _ => rfl),
      hstore 0 (Binary64.zero true) (by decide) rfl⟩
  · obtain ⟨ret, ds1, h1, _, _, _, hall⟩ :=
      (zero_update_unchanged binary64Ops 64 3 64 (by decide)).1 id ⟨1, 64, 0⟩
        ⟨2, [Binary64.zero true, Binary64.finite 1, Binary64.nan], [], [], fun _ => [0]⟩
        [Binary64.zero false] (by decide) (by decide) (by decide) (by decide) (by decide)
        (by simp [binary64Ops])
    refine ⟨ret, ds1, h1, hall ?_⟩
    intro i r hi hr
    match i, hi with
    | 0, _ =>
      simp only [List.getElem?_cons_zero, Option.some.injEq] at hr
      subst hr; rfl
    | 1, _ =>
      simp only [List.getElem?_cons_succ, List.getElem?_cons_zero, Option.some.injEq] at hr
      subst hr; rfl

/-- The entry of a mapped tensor inside its length. -/
theorem getD_map_lt {α : Type} (g : α → α) (U : List α) (k : Nat) (d : α) (h : k < U.length) :
    (U.map g).getD k d = g (U.getD k d) := by
  simp [List.getD_eq_getElem?_getD, List.getElem?_eq_getElem h]

/-- Rewriting the single entry of an array. -/
theorem prefixMap_singleton {α : Type} (f : Nat → α) (x : α) : prefixMap f [x] 1 = [f 0] := rfl

/-- The new residual of the single instance of a set whose tensor has a single value. -/
theorem residualNew_singleton {F : Type} (A : FloatOps F) (CRE : F → F) (x u : F)
    (bin : Nat → Nat) (h : bin 0 = 0) :
    residualNew A CRE [x] [u] bin 0 = CRE (A.sub x u) := by
  simp [residualNew, h]

/-- The exponent of the binade of a positive rational. -/
theorem Int_log_two_eq {q : ℚ} {e : ℤ} (h1 : (2 : ℚ) ^ e ≤ q) (h2 : q < (2 : ℚ) ^ (e + 1)) :
    Int.log 2 q = e := by
  have hq : 0 < q := lt_of_lt_of_le (zpow_pos (by norm_num) e) h1
  have a := (Int.zpow_le_iff_le_log (by norm_num : 1 < 2) hq).1 h1
  have b := (Int.lt_zpow_iff_log_lt (by norm_num : 1 < 2) hq).1 h2
  omega

/-- The spacing of the doubles in the binade of exponent `e`. -/
theorem ulp_eq {q : ℚ} (e : ℤ) (h1 : (2 : ℚ) ^ e ≤ |q|) (h2 : |q| < (2 : ℚ) ^ (e + 1))
    (he : -1022 ≤ e) : Binary64.ulp q = 2 ^ (e - 52) := by
  unfold Binary64.ulp
  rw [Int_log_two_eq h1 h2, max_eq_left he]

/-- In double arithmetic `2 ^ 53 + 1` is rounded to `2 ^ 53`: it lies half way between the
doubles `2 ^ 53` and `2 ^ 53 + 2`, and `2 ^ 53` has the even significand. -/
theorem ofRat_two_pow_53_add_one : Binary64.ofRat (2 ^ 53 + 1) = .finite (2 ^ 53) := by
  have hu : Binary64.ulp (2 ^ 53 + 1) = 2 := by
    rw [ulp_eq 53 (by rw [abs_of_pos (by norm_num)]; norm_num)
      (by rw [abs_of_pos (by norm_num)]; norm_num) (by norm_num)]
    norm_num
  have hf : ⌊((2 : ℚ) ^ 53 + 1) / 2⌋ = 2 ^ 52 := by
    rw [Int.floor_eq_iff]
    constructor <;> norm_num
  unfold Binary64.ofRat
  rw [if_neg (by norm_num)]
  simp only [hu, roundNearestEven, hf]
  norm_num

/-- In double arithmetic `2 ^ 53 - 1` is a double. -/
theorem ofRat_two_pow_53_sub_one : Binary64.ofRat (2 ^ 53 - 1) = .finite (2 ^ 53 - 1) := by
  have hu : Binary64.ulp (2 ^ 53 - 1) = 1 := by
    rw [ulp_eq 52 (by rw [abs_of_pos (by norm_num)]; norm_num)
      (by rw [abs_of_pos (by norm_num)]; norm_num) (by norm_num)]
    norm_num
  have hf : ⌊((2 : ℚ) ^ 53 - 1) / 1⌋ = 2 ^ 53 - 1 := by
    rw [Int.floor_eq_iff]
    constructor <;> norm_num
  unfold Binary64.ofRat
  rw [if_neg (by norm_num)]
  simp only [hu, roundNearestEven, hf]
  norm_num

/-- C16, as stated, fails: regression in double arithmetic, one instance with the
residual `2 ^ 53`, one feature, `U = [-1]` and the identity for the clip. Applying `U` stores
`2 ^ 53 + 1` rounded to a double, which is `2 ^ 53`; applying `-U = [1]` then stores
`2 ^ 53 - 1`. The residual is `1` away from its value before the first call, while
`machine_epsilon * N * max|U|` is `2 ^ (-52) * 1 * 1`. -/
theorem round_trip_counterexample :
    ∃ ret1 ds1 ret2 ds2,
      OptimizedApplyModelUpdateValidationInternalRegression.Func binary64Ops id 64 2 64
        ⟨1, 64, 0⟩ ⟨1, [Binary64.finite (2 ^ 53)], [], [], fun _ => [0]⟩
        [Binary64.finite (-1)] = .ok (ret1, ds1) ∧
      ds1.m_aResidualErrors = [Binary64.finite (2 ^ 53)] ∧
      OptimizedApplyModelUpdateValidationInternalRegression.Func binary64Ops id 64 2 64
        ⟨1, 64, 0⟩ ds1 ([Binary64.finite (-1)].map Binary64.neg) = .ok (ret2, ds2) ∧
      ds2.m_aResidualErrors = [Binary64.finite (2 ^ 53 - 1)] ∧
      (2 : ℚ) ^ (-52 : ℤ) * 1 * 1 < |(2 ^ 53 - 1 : ℚ) - 2 ^ 53| := by
  have hd : decodeItem 64 64 [0] 0 = 0 := by decide
  have hadd : binary64Ops.sub (Binary64.finite (2 ^ 53)) (Binary64.finite (-1)) =
      Binary64.finite (2 ^ 53) := by
    simp only [binary64Ops, Binary64.neg, Binary64.add, neg_neg]
    exact ofRat_two_pow_53_add_one
  have hsub : binary64Ops.sub (Binary64.finite (2 ^ 53)) (Binary64.neg (Binary64.finite (-1))) =
      Binary64.finite (2 ^ 53 - 1) := by
    simp only [binary64Ops, Binary64.neg, Binary64.add, neg_neg, ← sub_eq_add_neg]
    exact ofRat_two_pow_53_sub_one
  have h1 : prefixMap (residualNew binary64Ops id [Binary64.finite (2 ^ 53)]
      [Binary64.finite (-1)] (decodeItem 64 64 [0])) [Binary64.finite (2 ^ 53)] 1 =
      [Binary64.finite (2 ^ 53)] := by
    rw [prefixMap_singleton, residualNew_singleton _ _ _ _ _ hd, hadd, id]
  have h2 : prefixMap (residualNew binary64Ops id [Binary64.finite (2 ^ 53)]
      ([Binary64.finite (-1)].map Binary64.neg) (decodeItem 64 64 [0]))
      [Binary64.finite (2 ^ 53)] 1 = [Binary64.finite (2 ^ 53 - 1)] := by
    rw [prefixMap_singleton, List.map_cons, List.map_nil,
      residualNew_singleton _ _ _ _ _ hd, hsub, id]
  have hc1 := regression_func binary64Ops id 64 2 64 ⟨1, 64, 0⟩
    ⟨1, [Binary64.finite (2 ^ 53)], [], [], fun _ => [0]⟩ [Binary64.finite (-1)] (by decide)
    (by decide) (by decide) (by decide) (by decide) (by decide)
  have hc2 := regression_func binary64Ops id 64 2 64 ⟨1, 64, 0⟩
    ⟨1, [Binary64.finite (2 ^ 53)], [], [], fun _ => [0]⟩
    ([Binary64.finite (-1)].map Binary64.neg) (by decide)
    (by decide) (by decide) (by decide) (by decide) (by decide)
  dsimp only at hc1 hc2
  rw [h1] at hc1
  rw [h2] at hc2
  exact ⟨_, _, _, _, hc1, rfl, hc2, rfl, by rw [abs_of_neg (by norm_num)]; norm_num⟩


/-- C16, amended. Apply round trip: for every objective and every update tensor `U`, applying
`U` and then its entrywise negation on the same data set and feature combination restores every
residual and every score exactly when the arithmetic is exact on the values involved: in
regression `ComputeResidualErrorRegression (ComputeResidualErrorRegression (r - u) - (-u))` is
`r` for every residual `r` and tensor value `u`, in classification `(s + u) + (-u)` is `s` for
every score `s` and tensor value `u`. -/
theorem apply_round_trip_exact {F : Type} (A : FloatOps F) (neg : F → F) (W fuel P : Nat)
    (hP : 1 ≤ P) :
    (∀ (CRE : F → F) (fc : FeatureCombination) (ds : DataSetByFeatureCombination F)
        (U : List F),
      1 ≤ ds.m_cInstances → ds.m_cInstances < fuel →
      ds.m_cInstances ≤ ds.m_aResidualErrors.length →
      (ds.m_cInstances - 1) / P < (ds.GetInputDataPointer fc).length →
      (∀ i, i < ds.m_cInstances → decodeItem W P (ds.GetInputDataPointer fc) i < U.length) →
      (∀ r u, r ∈ ds.m_aResidualErrors → u ∈ U → CRE (A.sub (CRE (A.sub r u)) (neg u)) = r) →
      ∃ (ret1 : F) (ds1 : DataSetByFeatureCombination F) (ret2 : F)
          (ds2 : DataSetByFeatureCombination F),
        OptimizedApplyModelUpdateValidationInternalRegression.Func A CRE W fuel P fc ds U =
          .ok (ret1, ds1) ∧
        OptimizedApplyModelUpdateValidationInternalRegression.Func A CRE W fuel P fc ds1
          (U.map neg) = .ok (ret2, ds2) ∧
        ds2.m_aResidualErrors = ds.m_aResidualErrors) ∧
    (∀ (LL : F → Nat → F) (fc : FeatureCombination) (ds : DataSetByFeatureCombination F)
        (U : List F),
      1 ≤ ds.m_cInstances → ds.m_cInstances < fuel →
      ds.m_cInstances ≤ ds.m_aPredictorScores.length →
      ds.m_cInstances ≤ ds.m_aTargetData.length →
      (ds.m_cInstances - 1) / P < (ds.GetInputDataPointer fc).length →
      (∀ i, i < ds.m_cInstances → decodeItem W P (ds.GetInputDataPointer fc) i < U.length) →
      (∀ s u, s ∈ ds.m_aPredictorScores → u ∈ U → A.add (A.add s u) (neg u) = s) →
      ∃ (ret1 : F) (ds1 : DataSetByFeatureCombination F) (ret2 : F)
          (ds2 : DataSetByFeatureCombination F),
        OptimizedApplyModelUpdateValidationInternalBinary.Func A LL W fuel P fc ds U =
          .ok (ret1, ds1) ∧
        OptimizedApplyModelUpdateValidationInternalBinary.Func A LL W fuel P fc ds1
          (U.map neg) = .ok (ret2, ds2) ∧
        ds2.m_aPredictorScores = ds.m_aPredictorScores) ∧
    (∀ (EbmExp : F → F) (LL : F → F → F) (C : Nat) (fc : FeatureCombination)
        (ds : DataSetByFeatureCombination F) (U : List F),
      3 ≤ C → C ≤ fuel → 1 ≤ ds.m_cInstances → ds.m_cInstances < fuel →
      ds.m_cInstances * C ≤ ds.m_aPredictorScores.length →
      ds.m_cInstances ≤ ds.m_aTargetData.length →
      (ds.m_cInstances - 1) / P < (ds.GetInputDataPointer fc).length →
      (∀ i, i < ds.m_cInstances →
        decodeItem W P (ds.GetInputDataPointer fc) i * C + C ≤ U.length) →
      (∀ s u, s ∈ ds.m_aPredictorScores → u ∈ U → A.add (A.add s u) (neg u) = s) →
      ∃ (ret1 : F) (ds1 : DataSetByFeatureCombination F) (ret2 : F)
          (ds2 : DataSetByFeatureCombination F),
        OptimizedApplyModelUpdateValidationInternal.Func A EbmExp LL W fuel (C : Int) P fc ds U =
          .ok (ret1, ds1) ∧
        OptimizedApplyModelUpdateValidationInternal.Func A EbmExp LL W fuel (C : Int) P fc ds1
          (U.map neg) = .ok (ret2, ds2) ∧
        ds2.m_aPredictorScores = ds.m_aPredictorScores) := by
  refine ⟨?_, ?_, ?_⟩
  · intro CRE fc ds U hN hfuel hres hcol hU hexact
    refine ⟨_, _, _, _, regression_func A CRE W fuel P fc ds U hN hP hfuel hres hcol hU,
      regression_func A CRE W fuel P fc _ (U.map neg) hN hP hfuel
        (by rw [prefixMap_length _ _ _ hres]; exact hres) hcol
        (by intro i hi; rw [List.length_map]; exact hU i hi), ?_⟩
    simp only
    rw [prefixMap_prefixMap]
    apply prefixMap_eq_self _ _ _ A.zero hres
    intro i hi
    simp only [residualNew]
    rw [getD_prefixMap_lt _ _ _ _ _ hi, getD_map_lt neg U _ _ (hU i hi)]
    exact hexact _ _ (getD_mem _ _ _ (by omega)) (getD_mem _ _ _ (hU i hi))
  · intro LL fc ds U hN hfuel hsc htg hcol hU hexact
    refine ⟨_, _, _, _, binary_func A LL W fuel P fc ds U hN hP hfuel hsc htg hcol hU,
      binary_func A LL W fuel P fc _ (U.map neg) hN hP hfuel
        (by rw [prefixMap_length _ _ _ hsc]; exact hsc) htg hcol
        (by intro i hi; rw [List.length_map]; exact hU i hi), ?_⟩
    simp only
    rw [prefixMap_prefixMap]
    apply prefixMap_eq_self _ _ _ A.zero hsc
    intro i hi
    simp only [scoreNew]
    rw [getD_prefixMap_lt _ _ _ _ _ hi, getD_map_lt neg U _ _ (hU i hi)]
    exact hexact _ _ (getD_mem _ _ _ (by omega)) (getD_mem _ _ _ (hU i hi))
  · intro EbmExp LL C fc ds U hC hfuelC hN hfuel hsc htg hcol hU hexact
    refine ⟨_, _, _, _, multiclass_func A EbmExp LL W fuel C P fc ds U hC hN hP hfuel hfuelC hsc
        htg hcol hU,
      multiclass_func A EbmExp LL W fuel C P fc _ (U.map neg) hC hN hP hfuel hfuelC
        (by rw [prefixMap_length _ _ _ hsc]; exact hsc) htg hcol
        (by intro i hi; rw [List.length_map]; exact hU i hi), ?_⟩
    simp only
    rw [prefixMap_prefixMap]
    apply prefixMap_eq_self _ _ _ A.zero hsc
    intro k hk
    have hCpos : 0 < C := by omega
    have hi : k / C < ds.m_cInstances := by
      rw [Nat.div_lt_iff_lt_mul hCpos]
      exact hk
    have hmod : k % C < C := Nat.mod_lt _ hCpos
    have hidx : decodeItem W P (ds.GetInputDataPointer fc) (k / C) * C + k % C < U.length := by
      have := hU (k / C) hi
      omega
    simp only [multiclassScoreNew]
    rw [getD_prefixMap_lt _ _ _ _ _ hk, getD_map_lt neg U _ _ hidx]
    exact hexact _ _ (getD_mem _ _ _ (by omega)) (getD_mem _ _ _ hidx)

/-- Scenario S1 for C16, in exact arithmetic: residuals `[1, -1, 2, -2]`, bins `[0, 1, 0, 1]`,
`U = [0.5, -0.5]` and then `-U = [-0.5, 0.5]` give the residuals `[1, -1, 2, -2]` again. -/
theorem apply_round_trip_exact_witness :
    ∃ ret1 ds1 ret2 ds2,
      OptimizedApplyModelUpdateValidationInternalRegression.Func exactOps id 64 5 64 ⟨1, 64, 0⟩
        ⟨4, [1, -1, 2, -2], [], [], fun _ => [0b1010]⟩ [1 / 2, -1 / 2] = .ok (ret1, ds1) ∧
      OptimizedApplyModelUpdateValidationInternalRegression.Func exactOps id 64 5 64 ⟨1, 64, 0⟩
        ds1 ([1 / 2, -1 / 2].map fun u => -u) = .ok (ret2, ds2) ∧
      ds2.m_aResidualErrors = [1, -1, 2, -2] :=
  (apply_round_trip_exact exactOps (fun u => -u) 64 5 64 (by decide)).1 id ⟨1, 64, 0⟩
    ⟨4, [1, -1, 2, -2], [], [], fun _ => [0b1010]⟩ [1 / 2, -1 / 2]
    (by decide) (by decide) (by decide) (by decide) (by decide)
    (by intro r u _ _; simp [exactOps])

/-! ## The compile time and the runtime class count -/

/-- C17. Monomorphic versus dynamic class count: for every class count `C >= 3` (so for every
`C` in `3..8`) and identical inputs, the multiclass validation kernel instantiated with the
compile time class count `C` and the kernel instantiated as dynamic classification with the
runtime class count `C` are the same computation, for the general kernel and for the
zero-feature kernel: they return the same metric and leave the same validation set, or end in
the same fault. So the two metrics, read as real numbers, are within `4 * N * epsilon` of each
other for every `epsilon >= 0`, and the scores after the call are the same. -/
theorem monomorphic_equals_dynamic {F : Type} (E : EbmInternal) (A : FloatOps F)
    (S : EbmStatistics F) (W fuel C : Nat) (hC : 3 ≤ C) (hCreg : (C : Int) ≠ E.k_Regression)
    (hdyn2 : E.k_DynamicClassification ≠ 2)
    (hdynreg : E.k_DynamicClassification ≠ E.k_Regression) :
    (∀ (compilerP runtimeP : Nat) (fc : FeatureCombination)
        (ds : DataSetByFeatureCombination F) (U : List F),
      OptimizedApplyModelUpdateValidationInternal.Instance E A S W fuel (C : Int) compilerP
          (C : Int) runtimeP fc ds U =
        OptimizedApplyModelUpdateValidationInternal.Instance E A S W fuel
          E.k_DynamicClassification compilerP (C : Int) runtimeP fc ds U) ∧
    (∀ (ds : DataSetByFeatureCombination F) (U : List F),
      OptimizedApplyModelUpdateValidationZeroFeatures.Instance E A S fuel (C : Int) (C : Int)
          ds U =
        OptimizedApplyModelUpdateValidationZeroFeatures.Instance E A S fuel
          E.k_DynamicClassification (C : Int) ds U) ∧
    (∀ (val : F → ℝ) (ε : ℝ), 0 ≤ ε →
      ∀ (compilerP runtimeP : Nat) (fc : FeatureCombination)
        (ds : DataSetByFeatureCombination F) (U : List F) (m1 m2 : F)
        (ds1 ds2 : DataSetByFeatureCombination F),
      OptimizedApplyModelUpdateValidationInternal.Instance E A S W fuel (C : Int) compilerP
          (C : Int) runtimeP fc ds U = .ok (m1, ds1) →
      OptimizedApplyModelUpdateValidationInternal.Instance E A S W fuel
          E.k_DynamicClassification compilerP (C : Int) runtimeP fc ds U = .ok (m2, ds2) →
      |val m1 - val m2| ≤ 4 * (ds.m_cInstances : ℝ) * ε ∧
        ds1.m_aPredictorScores = ds2.m_aPredictorScores) ∧
    (∀ (val : F → ℝ) (ε : ℝ), 0 ≤ ε →
      ∀ (ds : DataSetByFeatureCombination F) (U : List F) (m1 m2 : F)
        (ds1 ds2 : DataSetByFeatureCombination F),
      OptimizedApplyModelUpdateValidationZeroFeatures.Instance E A S fuel (C : Int) (C : Int)
          ds U = .ok (m1, ds1) →
      OptimizedApplyModelUpdateValidationZeroFeatures.Instance E A S fuel
          E.k_DynamicClassification (C : Int) ds U = .ok (m2, ds2) →
      |val m1 - val m2| ≤ 4 * (ds.m_cInstances : ℝ) * ε ∧
        ds1.m_aPredictorScores = ds2.m_aPredictorScores) := by
  have hC2 : (C : Int) ≠ 2 := by omega
  have hgen : ∀ (compilerP runtimeP : Nat) (fc : FeatureCombination)
      (ds : DataSetByFeatureCombination F) (U : List F),
      OptimizedApplyModelUpdateValidationInternal.Instance E A S W fuel (C : Int) compilerP
          (C : Int) runtimeP fc ds U =
        OptimizedApplyModelUpdateValidationInternal.Instance E A S W fuel
          E.k_DynamicClassification compilerP (C : Int) runtimeP fc ds U := by
    intro compilerP runtimeP fc ds U
    unfold OptimizedApplyModelUpdateValidationInternal.Instance
    simp only [if_neg hCreg, if_neg hC2, if_neg hdyn2, if_neg hdynreg,
      GET_LEARNING_TYPE_OR_COUNT_TARGET_CLASSES, ite_self, if_true]
  have hzero : ∀ (ds : DataSetByFeatureCombination F) (U : List F),
      OptimizedApplyModelUpdateValidationZeroFeatures.Instance E A S fuel (C : Int) (C : Int)
          ds U =
        OptimizedApplyModelUpdateValidationZeroFeatures.Instance E A S fuel
          E.k_DynamicClassification (C : Int) ds U := by
    intro ds U
    unfold OptimizedApplyModelUpdateValidationZeroFeatures.Instance
    simp only [if_neg hCreg, if_neg hC2, if_neg hdyn2, if_neg hdynreg,
      GET_LEARNING_TYPE_OR_COUNT_TARGET_CLASSES, ite_self, if_true]
  refine ⟨hgen, hzero, ?_, ?_⟩
  · intro val ε hε compilerP runtimeP fc ds U m1 m2 ds1 ds2 h1 h2
    rw [hgen, h2] at h1
    simp only [Except.ok.injEq, Prod.mk.injEq] at h1
    rw [h1.1, h1.2, sub_self, abs_zero]
    exact ⟨by positivity, rfl⟩
  · intro val ε hε ds U m1 m2 ds1 ds2 h1 h2
    rw [hzero, h2] at h1
    simp only [Except.ok.injEq, Prod.mk.injEq] at h1
    rw [h1.1, h1.2, sub_self, abs_zero]
    exact ⟨by positivity, rfl⟩

/-- For C17, in exact arithmetic with the approximate exponential `1 + x` and the approximate
log loss `sumExp / itemExp - 1`: three classes, one instance with the scores `[0, 0, 0]` and the
target 2, bin 0 and the tensor `[1, 2, 3]`. The kernel compiled for three classes and the
dynamic kernel both return the metric `5 / 4` and the scores `[1, 2, 3]`. -/
theorem monomorphic_equals_dynamic_witness :
    OptimizedApplyModelUpdateValidationInternal.Instance ebmInternal64 exactOps
        ⟨fun x => 1 + x, id, fun x _ => x, fun sumExp itemExp => sumExp / itemExp - 1⟩ 64 4
        (3 : Nat) 0 (3 : Nat) 64 ⟨1, 64, 0⟩ ⟨1, [], [0, 0, 0], [2], fun _ => [0]⟩ [1, 2, 3] =
      OptimizedApplyModelUpdateValidationInternal.Instance ebmInternal64 exactOps
        ⟨fun x => 1 + x, id, fun x _ => x, fun sumExp itemExp => sumExp / itemExp - 1⟩ 64 4
        ebmInternal64.k_DynamicClassification 0 (3 : Nat) 64 ⟨1, 64, 0⟩
        ⟨1, [], [0, 0, 0], [2], fun _ => [0]⟩ [1, 2, 3] ∧
    OptimizedApplyModelUpdateValidationInternal.Instance ebmInternal64 exactOps
        ⟨fun x => 1 + x, id, fun x _ => x, fun sumExp itemExp => sumExp / itemExp - 1⟩ 64 4
        ebmInternal64.k_DynamicClassification 0 (3 : Nat) 64 ⟨1, 64, 0⟩
        ⟨1, [], [0, 0, 0], [2], fun _ => [0]⟩ [1, 2, 3] =
      .ok (5 / 4, ⟨1, [], [1, 2, 3], [2], fun _ => [0]⟩) := by
  refine ⟨(monomorphic_equals_dynamic ebmInternal64 exactOps
    ⟨fun x => 1 + x, id, fun x _ => x, fun sumExp itemExp => sumExp / itemExp - 1⟩ 64 4 3
    (by decide) (by decide) (by decide) (by decide)).1 0 64 ⟨1, 64, 0⟩
    ⟨1, [], [0, 0, 0], [2], fun _ => [0]⟩ [1, 2, 3], ?_⟩
  simp [OptimizedApplyModelUpdateValidationInternal.Instance,
    GET_COUNT_ITEMS_PER_BIT_PACKED_DATA_UNIT, GET_LEARNING_TYPE_OR_COUNT_TARGET_CLASSES,
    ebmInternal64, OptimizedApplyModelUpdateValidationInternal.Func,
    OptimizedApplyModelUpdateValidationInternal.Run, bitPackedLoop, outerLoop, oneLastLoop,
    innerLoop, multiclassItem, vectorLoop, Cursor.start, exactOps, GetVectorLength, GetCountBits,
    maskBits]
  norm_num

/-! ## The short-circuits of `GetInteractionScore` -/

/-- The first loop over the indexes stops with `degenerate` when the indexes up to a feature
with at most one bin are valid. -/
theorem scanFeatureIndexes_degenerate (E : EbmInternal) (aFeatures : List Feature)
    (featureIndexes : List Int) (pEnd j0 : Nat) (hj0 : j0 < pEnd)
    (hvalid : ∀ j, j ≤ j0 → ∃ idx f, featureIndexes[j]? = some idx ∧
      E.IsNumberConvertable idx = true ∧ aFeatures[idx.toNat]? = some f)
    (hdeg : ∃ idx f, featureIndexes[j0]? = some idx ∧ aFeatures[idx.toNat]? = some f ∧
      f.m_cBins ≤ 1) :
    ∀ (fuel p : Nat), p ≤ j0 → j0 - p < fuel →
      scanFeatureIndexes E aFeatures featureIndexes pEnd fuel p = .ok .degenerate := by
  intro fuel
  induction fuel with
  | zero => intro p _ h; omega
  | succ fuel ih =>
    intro p hp hfuel
    obtain ⟨idx, f, h1, h2, h3⟩ := hvalid p hp
    rw [scanFeatureIndexes, h1]
    simp only [h2, Bool.not_true, Bool.false_eq_true, if_false, h3]
    by_cases hb : f.m_cBins ≤ 1
    · rw [if_pos hb]
    · rw [if_neg hb]
      have hne : p ≠ j0 := by
        intro h
        subst h
        obtain ⟨idx1, f1, e1, e2, e3⟩ := hdeg
        rw [h1] at e1
        cases e1
        rw [h3] at e2
        cases e2
        exact hb e3
      rw [if_pos (by omega)]
      exact ih (p + 1) (by omega) (by omega)

/-- The first loop over the indexes reaches the end when every index is valid and every feature
has at least two bins. -/
theorem scanFeatureIndexes_done (E : EbmInternal) (aFeatures : List Feature)
    (featureIndexes : List Int) (pEnd : Nat)
    (hvalid : ∀ j, j < pEnd → ∃ idx f, featureIndexes[j]? = some idx ∧
      E.IsNumberConvertable idx = true ∧ aFeatures[idx.toNat]? = some f ∧ 2 ≤ f.m_cBins) :
    ∀ (fuel p : Nat), p < pEnd → pEnd - p ≤ fuel →
      scanFeatureIndexes E aFeatures featureIndexes pEnd fuel p = .ok .done := by
  intro fuel
  induction fuel with
  | zero => intro p _ h; omega
  | succ fuel ih =>
    intro p hp hfuel
    obtain ⟨idx, f, h1, h2, h3, h4⟩ := hvalid p hp
    rw [scanFeatureIndexes, h1]
    simp only [h2, Bool.not_true, Bool.false_eq_true, if_false, h3]
    rw [if_neg (by omega)]
    by_cases hend : pEnd = p + 1
    · rw [if_neg (by simp [hend])]
    · rw [if_pos hend]
      exact ih (p + 1) (by omega) (by omega)

/-- C18. Degenerate-feature short-circuit: for every interaction state with a data set and every
non-empty list of valid feature indexes that contains a feature with at most one bin,
`GetInteractionScore` returns 0, stores exactly zero in `*interactionScoreReturn` when that
pointer is not null (and nothing otherwise), and calls no instantiation of
`GetInteractionScorePerTargetClasses`, so no scratch resources are allocated: whatever the data
set, the scorer, the objective and the number of features in the list, which may exceed
`k_cDimensionsMax`. -/
theorem degenerate_feature_short_circuit {D F : Type} (E : EbmInternal) (A : FloatOps F)
    (bAllocated : Bool)
    (CalculateInteractionScore : Int → Int → Option D → List Feature → Nat → Bool × Option F)
    (pEbmInteractionState : EbmInteractionState D) (countFeaturesInCombination : Int)
    (featureIndexes : List Int) (interactionScoreReturn : Option F) (pDataSet : D)
    (hcount : E.IsNumberConvertable countFeaturesInCombination = true)
    (hds : pEbmInteractionState.m_pDataSet = some pDataSet)
    (hvalid : ∀ j, j < countFeaturesInCombination.toNat → ∃ idx f,
      featureIndexes[j]? = some idx ∧ E.IsNumberConvertable idx = true ∧
      pEbmInteractionState.m_aFeatures[idx.toNat]? = some f)
    (hdeg : ∃ j idx f, j < countFeaturesInCombination.toNat ∧ featureIndexes[j]? = some idx ∧
      pEbmInteractionState.m_aFeatures[idx.toNat]? = some f ∧ f.m_cBins ≤ 1) :
    GetInteractionScore E A bAllocated CalculateInteractionScore pEbmInteractionState
        countFeaturesInCombination featureIndexes interactionScoreReturn =
      .ok ⟨0, interactionScoreReturn.map fun _ => A.zero, [], 0⟩ := by
  obtain ⟨j0, idx0, f0, hj0, e1, e2, e3⟩ := hdeg
  unfold GetInteractionScore
  simp only [hcount, Bool.not_true, Bool.false_eq_true, if_false]
  rw [if_neg (by omega), hds]
  simp only
  rw [scanFeatureIndexes_degenerate E _ featureIndexes _ j0 hj0
    (fun j hj => hvalid j (by omega)) ⟨idx0, f0, e1, e2, e3⟩ _ 0 (Nat.zero_le _) (by omega)]

/-- For C18: a state with a data set and the features with `2`, `1` and `3` bins; the
combination of the three features has a feature with one bin: the call returns 0, the score
`7` that was behind the pointer is replaced by `0`, and no scorer is called. -/
theorem degenerate_feature_short_circuit_witness :
    GetInteractionScore ebmInternal64 exactOps true (fun _ _ _ _ _ => (false, some 1))
        (⟨-1, 3, [⟨2⟩, ⟨1⟩, ⟨3⟩], some ()⟩ : EbmInteractionState Unit) 3 [0, 1, 2] (some 7) =
      .ok ⟨0, some 0, [], 0⟩ :=
  degenerate_feature_short_circuit ebmInternal64 exactOps true (fun _ _ _ _ _ => (false, some 1))
    ⟨-1, 3, [⟨2⟩, ⟨1⟩, ⟨3⟩], some ()⟩ 3 [0, 1, 2] (some 7) () (by decide) rfl
    (by
      intro j hj
      match j, hj with
      | 0, _ => exact ⟨0, ⟨2⟩, rfl, by decide, rfl⟩
      | 1, _ => exact ⟨1, ⟨1⟩, rfl, by decide, rfl⟩
      | 2, _ => exact ⟨2, ⟨3⟩, rfl, by decide, rfl⟩)
    ⟨1, 1, ⟨1⟩, by decide, rfl, rfl, by decide⟩

/-- C19. Zero instances: when the interaction state holds no data set, `GetInteractionScore`
with a non-empty feature list (a count that is a non-zero `size_t`) returns 0 and stores zero
in `*interactionScoreReturn` when that pointer is not null, whatever `featureIndexes` holds
(no index is read, so even an empty array will do), and calls no scorer. -/
theorem zero_instances_short_circuit {D F : Type} (E : EbmInternal) (A : FloatOps F)
    (bAllocated : Bool)
    (CalculateInteractionScore : Int → Int → Option D → List Feature → Nat → Bool × Option F)
    (pEbmInteractionState : EbmInteractionState D) (countFeaturesInCombination : Int)
    (featureIndexes : List Int) (interactionScoreReturn : Option F)
    (hcount : E.IsNumberConvertable countFeaturesInCombination = true)
    (hpos : 0 < countFeaturesInCombination.toNat)
    (hds : pEbmInteractionState.m_pDataSet = none) :
    GetInteractionScore E A bAllocated CalculateInteractionScore pEbmInteractionState
        countFeaturesInCombination featureIndexes interactionScoreReturn =
      .ok ⟨0, interactionScoreReturn.map fun _ => A.zero, [], 0⟩ := by
  unfold GetInteractionScore
  simp only [hcount, Bool.not_true, Bool.false_eq_true, if_false]
  rw [if_neg (by omega), hds]

/-- For C19: a state without a data set, a count of two features and an array of indexes that
holds nothing: the call returns 0 and replaces the score `7` behind the pointer by `0`. -/
theorem zero_instances_short_circuit_witness :
    GetInteractionScore ebmInternal64 exactOps true (fun _ _ _ _ _ => (false, some 1))
        (⟨-1, 2, [⟨2⟩, ⟨2⟩], none⟩ : EbmInteractionState Unit) 2 [] (some 7) =
      .ok ⟨0, some 0, [], 0⟩ :=
  zero_instances_short_circuit ebmInternal64 exactOps true (fun _ _ _ _ _ => (false, some 1))
    ⟨-1, 2, [⟨2⟩, ⟨2⟩], none⟩ 2 [] (some 7) (by decide) (by decide) rfl

/-- C20, as stated, fails: with `k_cDimensionsMax = 63` and a list of 64 feature
indexes, `GetInteractionScore` returns 0, not an error code, on a state without a data set, and
on a state with a data set whose listed feature has one bin. -/
theorem too_many_dimensions_counterexample :
    ebmInternal64.k_cDimensionsMax < (List.replicate 64 (0 : Int)).length ∧
    GetInteractionScore ebmInternal64 exactOps true (fun _ _ _ _ _ => (false, some 1))
        (⟨-1, 1, [⟨2⟩], none⟩ : EbmInteractionState Unit) 64 (List.replicate 64 0) (some 7) =
      .ok ⟨0, some 0, [], 0⟩ ∧
    GetInteractionScore ebmInternal64 exactOps true (fun _ _ _ _ _ => (false, some 1))
        (⟨-1, 1, [⟨1⟩], some ()⟩ : EbmInteractionState Unit) 64 (List.replicate 64 0) (some 7) =
      .ok ⟨0, some 0, [], 0⟩ := by
  refine ⟨by decide, ?_, ?_⟩
  · simp [GetInteractionScore, ebmInternal64, exactOps]
  · simp [GetInteractionScore, ebmInternal64, exactOps, scanFeatureIndexes]

/-- C20, amended. Too many dimensions: for every interaction state with a data set and every
feature list whose length exceeds `k_cDimensionsMax` and whose indexes are all valid and name
features with at least two bins, `GetInteractionScore` returns the error code 1, leaves
`*interactionScoreReturn` as it was and calls no scorer. -/
theorem too_many_dimensions {D F : Type} (E : EbmInternal) (A : FloatOps F)
    (bAllocated : Bool)
    (CalculateInteractionScore : Int → Int → Option D → List Feature → Nat → Bool × Option F)
    (pEbmInteractionState : EbmInteractionState D) (countFeaturesInCombination : Int)
    (featureIndexes : List Int) (interactionScoreReturn : Option F) (pDataSet : D)
    (hcount : E.IsNumberConvertable countFeaturesInCombination = true)
    (hmax : E.k_cDimensionsMax < countFeaturesInCombination.toNat)
    (hds : pEbmInteractionState.m_pDataSet = some pDataSet)
    (hvalid : ∀ j, j < countFeaturesInCombination.toNat → ∃ idx f,
      featureIndexes[j]? = some idx ∧ E.IsNumberConvertable idx = true ∧
      pEbmInteractionState.m_aFeatures[idx.toNat]? = some f ∧ 2 ≤ f.m_cBins) :
    GetInteractionScore E A bAllocated CalculateInteractionScore pEbmInteractionState
        countFeaturesInCombination featureIndexes interactionScoreReturn =
      .ok ⟨1, interactionScoreReturn, [], 0⟩ := by
  unfold GetInteractionScore
  simp only [hcount, Bool.not_true, Bool.false_eq_true, if_false]
  rw [if_neg (by omega), hds]
  simp only
  rw [scanFeatureIndexes_done E _ featureIndexes _ hvalid _ 0 (by omega) (by omega)]
  simp only
  rw [if_pos hmax]

/-- For C20: with `k_cDimensionsMax = 63`, a state with a data set and one feature of two bins,
and a list that names that feature 64 times: the call returns 1 and the score `7` behind the
pointer stays. -/
theorem too_many_dimensions_witness :
    GetInteractionScore ebmInternal64 exactOps true (fun _ _ _ _ _ => (false, some 1))
        (⟨-1, 1, [⟨2⟩], some ()⟩ : EbmInteractionState Unit) 64 (List.replicate 64 0) (some 7) =
      .ok ⟨1, some 7, [], 0⟩ :=
  too_many_dimensions ebmInternal64 exactOps true (fun _ _ _ _ _ => (false, some 1))
    ⟨-1, 1, [⟨2⟩], some ()⟩ 64 (List.replicate 64 0) (some 7) () (by decide) (by decide) rfl
    (by
      intro j hj
      refine ⟨0, ⟨2⟩, ?_, by decide, rfl, by decide⟩
      have hj64 : j < 64 := hj
      rw [List.getElem?_replicate, if_pos hj64])

/-! ## The scorer paths of `GetInteractionScore` -/

/-- The second loop over the indexes returns the entries when every index is valid. -/
theorem fillFeatureCombination_ok (aFeatures : List Feature) (featureIndexes : List Int)
    (pEnd : Nat)
    (hvalid : ∀ j, j < pEnd → ∃ idx f, featureIndexes[j]? = some idx ∧
      aFeatures[idx.toNat]? = some f) :
    ∀ (fuel p : Nat) (entries : List Feature), p < pEnd → pEnd - p ≤ fuel →
      ∃ out, fillFeatureCombination aFeatures featureIndexes pEnd fuel p entries = .ok out ∧
        out.length = entries.length + (pEnd - p) := by
  intro fuel
  induction fuel with
  | zero => intro p _ _ h; omega
  | succ fuel ih =>
    intro p entries hp hfuel
    obtain ⟨idx, f, h1, h2⟩ := hvalid p hp
    rw [fillFeatureCombination, h1]
    simp only [h2]
    by_cases hend : pEnd = p + 1
    · rw [if_neg (by simp [hend])]
      exact ⟨_, rfl, by simp; omega⟩
    · rw [if_pos hend]
      obtain ⟨out, ho, hl⟩ := ih (p + 1) (entries ++ [f]) (by omega) (by omega)
      exact ⟨out, ho, by rw [hl]; simp; omega⟩

/-- The first loop over the indexes stops with `notConvertable` at an index that is no `size_t`
when the indexes before it are valid and name features with at least two bins. -/
theorem scanFeatureIndexes_notConvertable (E : EbmInternal) (aFeatures : List Feature)
    (featureIndexes : List Int) (pEnd j0 : Nat) (hj0 : j0 < pEnd) (idx0 : Int)
    (h0 : featureIndexes[j0]? = some idx0) (hbad : E.IsNumberConvertable idx0 = false)
    (hvalid : ∀ j, j < j0 → ∃ idx f, featureIndexes[j]? = some idx ∧
      E.IsNumberConvertable idx = true ∧ aFeatures[idx.toNat]? = some f ∧ 2 ≤ f.m_cBins) :
    ∀ (fuel p : Nat), p ≤ j0 → j0 - p < fuel →
      scanFeatureIndexes E aFeatures featureIndexes pEnd fuel p = .ok .notConvertable := by
  intro fuel
  induction fuel with
  | zero => intro p _ h; omega
  | succ fuel ih =>
    intro p hp hfuel
    by_cases hpj : p = j0
    · subst hpj
      rw [scanFeatureIndexes, h0]
      simp only [hbad, Bool.not_false, if_true]
    · obtain ⟨idx, f, h1, h2, h3, h4⟩ := hvalid p (by omega)
      rw [scanFeatureIndexes, h1]
      simp only [h2, Bool.not_true, Bool.false_eq_true, if_false, h3]
      rw [if_neg (by omega), if_pos (by omega)]
      exact ih (p + 1) (by omega) (by omega)

/-- A scorer records its call, and does not count as a step of the chain. -/
theorem GetInteractionScorePerTargetClasses_ghost {D F : Type} (bAllocated : Bool)
    (Calc : Int → Int → Option D → List Feature → Nat → Bool × Option F) (compiler : Int)
    (st : EbmInteractionState D) (fc : List Feature) (cMin : Nat) (p : Option F) :
    (GetInteractionScorePerTargetClasses bAllocated Calc compiler st fc cMin p).scorerCalls =
        [compiler] ∧
      (GetInteractionScorePerTargetClasses bAllocated Calc compiler st fc cMin p).chainSteps =
        0 := by
  unfold GetInteractionScorePerTargetClasses
  split <;> exact ⟨rfl, rfl⟩

/-- A scorer whose allocation fails returns 1 and stores nothing. -/
theorem GetInteractionScorePerTargetClasses_unallocated {D F : Type}
    (Calc : Int → Int → Option D → List Feature → Nat → Bool × Option F) (compiler : Int)
    (st : EbmInteractionState D) (fc : List Feature) (cMin : Nat) (p : Option F) :
    GetInteractionScorePerTargetClasses false Calc compiler st fc cMin p =
      ⟨1, p, [compiler], 0⟩ := by
  simp [GetInteractionScorePerTargetClasses]

/-- The chain from `possible` with `distance` instantiations to go, for a runtime class count
that is `possible + k` with `k < distance`: after `k` recursive calls the scorer compiled for the
runtime class count is called. -/
theorem CompilerRecursiveGetInteractionScore_hit {D F : Type} (E : EbmInternal)
    (bAllocated : Bool) (Calc : Int → Int → Option D → List Feature → Nat → Bool × Option F)
    (runtime : Int) (st : EbmInteractionState D) (fc : List Feature) (cMin : Nat)
    (p : Option F) :
    ∀ (k distance : Nat) (possible : Int), runtime = possible + k → k < distance →
      CompilerRecursiveGetInteractionScore E bAllocated Calc runtime st fc cMin p distance
          possible =
        { GetInteractionScorePerTargetClasses bAllocated Calc runtime st fc cMin p with
          chainSteps := k } := by
  intro k
  induction k with
  | zero =>
    intro distance possible hr hd
    obtain ⟨d, rfl⟩ : ∃ d, distance = d + 1 := ⟨distance - 1, by omega⟩
    rw [CompilerRecursiveGetInteractionScore, if_pos (by omega)]
    have hp : possible = runtime := by omega
    rw [hp, ← (GetInteractionScorePerTargetClasses_ghost bAllocated Calc runtime st fc cMin p).2]
  | succ k ih =>
    intro distance possible hr hd
    obtain ⟨d, rfl⟩ : ∃ d, distance = d + 1 := ⟨distance - 1, by omega⟩
    rw [CompilerRecursiveGetInteractionScore, if_neg (by omega)]
    simp only
    rw [ih d (possible + 1) (by push_cast at hr ⊢; omega) (by omega)]

/-- The chain from `possible` with `distance` instantiations to go, for a runtime class count
that is none of `possible, ..., possible + distance - 1`: after `distance` recursive calls the
dynamic scorer is called. -/
theorem CompilerRecursiveGetInteractionScore_miss {D F : Type} (E : EbmInternal)
    (bAllocated : Bool) (Calc : Int → Int → Option D → List Feature → Nat → Bool × Option F)
    (runtime : Int) (st : EbmInteractionState D) (fc : List Feature) (cMin : Nat)
    (p : Option F) :
    ∀ (distance : Nat) (possible : Int), (runtime < possible ∨ possible + distance ≤ runtime) →
      CompilerRecursiveGetInteractionScore E bAllocated Calc runtime st fc cMin p distance
          possible =
        { GetInteractionScorePerTargetClasses bAllocated Calc E.k_DynamicClassification st fc
            cMin p with chainSteps := distance } := by
  intro distance
  induction distance with
  | zero =>
    intro possible _
    rw [CompilerRecursiveGetInteractionScore,
      ← (GetInteractionScorePerTargetClasses_ghost bAllocated Calc E.k_DynamicClassification st
        fc cMin p).2]
  | succ d ih =>
    intro possible h
    rw [CompilerRecursiveGetInteractionScore, if_neg (by push_cast at h; omega)]
    simp only
    rw [ih (possible + 1) (by push_cast at h ⊢; omega)]


/-- With a data set, a count of at most `k_cDimensionsMax` features and valid indexes of features
with at least two bins, `GetInteractionScore` gets to the choice of the scorer with the entries
of the feature combination filled in. -/
theorem GetInteractionScore_dispatch {D F : Type} (E : EbmInternal) (A : FloatOps F)
    (bAllocated : Bool) (Calc : Int → Int → Option D → List Feature → Nat → Bool × Option F)
    (st : EbmInteractionState D) (count : Int) (featureIndexes : List Int) (p : Option F)
    (pDataSet : D)
    (hcount : E.IsNumberConvertable count = true) (hpos : 0 < count.toNat)
    (hmax : count.toNat ≤ E.k_cDimensionsMax) (hds : st.m_pDataSet = some pDataSet)
    (hvalid : ∀ j, j < count.toNat → ∃ idx f, featureIndexes[j]? = some idx ∧
      E.IsNumberConvertable idx = true ∧ st.m_aFeatures[idx.toNat]? = some f ∧
      2 ≤ f.m_cBins) :
    ∃ fc : List Feature, fc.length = count.toNat ∧
      GetInteractionScore E A bAllocated Calc st count featureIndexes p =
        if E.IsClassification st.m_runtimeLearningTypeOrCountTargetClasses then
          if st.m_runtimeLearningTypeOrCountTargetClasses ≤ 1 then
            .ok ⟨0, p.map fun _ => A.zero, [], 0⟩
          else
            .ok (CompilerRecursiveGetInteractionScore E bAllocated Calc
              st.m_runtimeLearningTypeOrCountTargetClasses st fc
              E.TODO_REMOVE_THIS_DEFAULT_cInstancesRequiredForChildSplitMin p
              (E.k_cCompilerOptimizedTargetClassesMax + 1 - 2).toNat 2)
        else
          .ok (GetInteractionScorePerTargetClasses bAllocated Calc E.k_Regression st fc
            E.TODO_REMOVE_THIS_DEFAULT_cInstancesRequiredForChildSplitMin p) := by
  obtain ⟨fc, hfc, hlen⟩ := fillFeatureCombination_ok st.m_aFeatures featureIndexes count.toNat
    (fun j hj => by
      obtain ⟨idx, f, h1, _, h3, _⟩ := hvalid j hj
      exact ⟨idx, f, h1, h3⟩) count.toNat 0 [] hpos (by omega)
  refine ⟨fc, by simpa using hlen, ?_⟩
  unfold GetInteractionScore
  simp only [hcount, Bool.not_true, Bool.false_eq_true, if_false]
  rw [if_neg (by omega), hds]
  simp only
  rw [scanFeatureIndexes_done E _ featureIndexes _ hvalid _ 0 (by omega) (by omega)]
  simp only
  rw [if_neg (by omega), hfc]

/-- C21, as stated, fails where the allocation in `GetInteractionScorePerTargetClasses` fails:
for every state with a data set, every list of at most `k_cDimensionsMax` valid features with
at least two bins each, and an objective that is regression or has at least two classes, the
call returns 1 through the tail of the function, having called a scorer template, and
`*interactionScoreReturn` is what it was before the call. So when the caller's double behind the
pointer is below zero, the assertion `0 <= *interactionScoreReturn` of the tail is false. -/
theorem exit_assertion_fails_unallocated {D F : Type} (E : EbmInternal) (A : FloatOps F)
    (Calc : Int → Int → Option D → List Feature → Nat → Bool × Option F)
    (st : EbmInteractionState D) (count : Int) (featureIndexes : List Int) (x : F)
    (pDataSet : D)
    (hcount : E.IsNumberConvertable count = true) (hpos : 0 < count.toNat)
    (hmax : count.toNat ≤ E.k_cDimensionsMax) (hds : st.m_pDataSet = some pDataSet)
    (hvalid : ∀ j, j < count.toNat → ∃ idx f, featureIndexes[j]? = some idx ∧
      E.IsNumberConvertable idx = true ∧ st.m_aFeatures[idx.toNat]? = some f ∧
      2 ≤ f.m_cBins)
    (hobjective : E.IsClassification st.m_runtimeLearningTypeOrCountTargetClasses = true →
      2 ≤ st.m_runtimeLearningTypeOrCountTargetClasses)
    (hx : A.lt x A.zero = true) :
    ∃ r, GetInteractionScore E A false Calc st count featureIndexes (some x) = .ok r ∧
      r.ret = 1 ∧ r.scorerCalls ≠ [] ∧ r.interactionScoreReturn = some x ∧
      ¬ GetInteractionScore.ExitAssertion A r := by
  obtain ⟨fc, _, hd⟩ := GetInteractionScore_dispatch E A false Calc st count featureIndexes
    (some x) pDataSet hcount hpos hmax hds hvalid
  have hassert : ∀ r : InteractionScoreResult F, r.interactionScoreReturn = some x →
      ¬ GetInteractionScore.ExitAssertion A r := by
    intro r hr h
    have := (h x hr).2
    rw [hx] at this
    cases this
  rw [hd]
  by_cases hc : E.IsClassification st.m_runtimeLearningTypeOrCountTargetClasses = true
  · have h2 := hobjective hc
    rw [if_pos hc, if_neg (by omega)]
    by_cases hle : st.m_runtimeLearningTypeOrCountTargetClasses ≤
        E.k_cCompilerOptimizedTargetClassesMax
    · obtain ⟨k, hk⟩ : ∃ k : Nat, st.m_runtimeLearningTypeOrCountTargetClasses = 2 + k :=
        ⟨(st.m_runtimeLearningTypeOrCountTargetClasses - 2).toNat, by omega⟩
      rw [CompilerRecursiveGetInteractionScore_hit E false Calc _ st fc _ (some x) k _ 2 hk
        (by omega), GetInteractionScorePerTargetClasses_unallocated]
      exact ⟨_, rfl, rfl, by simp, rfl, hassert _ rfl⟩
    · rw [CompilerRecursiveGetInteractionScore_miss E false Calc _ st fc _ (some x) _ 2
        (Or.inr (by omega)), GetInteractionScorePerTargetClasses_unallocated]
      exact ⟨_, rfl, rfl, by simp, rfl, hassert _ rfl⟩
  · rw [if_neg hc, GetInteractionScorePerTargetClasses_unallocated]
    exact ⟨_, rfl, rfl, by simp, rfl, hassert _ rfl⟩

/-- For C21: a regression state with a data set and two features of two bins, the pair of the
two features, a failing allocation and `-1` behind the pointer: the call returns 1 after the
call of the regression scorer template, `-1` is still behind the pointer, and the assertion of
the tail is false. -/
theorem exit_assertion_fails_unallocated_witness :
    GetInteractionScore ebmInternal64 exactOps false (fun _ _ _ _ _ => (false, some 1))
        (⟨-1, 2, [⟨2⟩, ⟨2⟩], some ()⟩ : EbmInteractionState Unit) 2 [0, 1] (some (-1)) =
      .ok ⟨1, some (-1), [-1], 0⟩ ∧
    ∃ r, GetInteractionScore ebmInternal64 exactOps false (fun _ _ _ _ _ => (false, some 1))
        (⟨-1, 2, [⟨2⟩, ⟨2⟩], some ()⟩ : EbmInteractionState Unit) 2 [0, 1] (some (-1)) = .ok r ∧
      r.ret = 1 ∧ r.scorerCalls ≠ [] ∧ r.interactionScoreReturn = some (-1) ∧
      ¬ GetInteractionScore.ExitAssertion exactOps r := by
  refine ⟨?_, exit_assertion_fails_unallocated ebmInternal64 exactOps
    (fun _ _ _ _ _ => (false, some 1)) ⟨-1, 2, [⟨2⟩, ⟨2⟩], some ()⟩ 2 [0, 1] (-1) ()
    (by decide) (by decide) (by decide) rfl
    (by
      intro j hj
      match j, hj with
      | 0, _ => exact ⟨0, ⟨2⟩, rfl, by decide, rfl, by decide⟩
      | 1, _ => exact ⟨1, ⟨2⟩, rfl, by decide, rfl, by decide⟩)
    (by decide) (by simp [exactOps])⟩
  simp [GetInteractionScore, ebmInternal64, scanFeatureIndexes, fillFeatureCombination,
    GetInteractionScorePerTargetClasses]

/-- Every run of the chain of scorer templates calls a scorer. -/
theorem CompilerRecursiveGetInteractionScore_calls {D F : Type} (E : EbmInternal)
    (bAllocated : Bool) (Calc : Int → Int → Option D → List Feature → Nat → Bool × Option F)
    (runtime : Int) (st : EbmInteractionState D) (fc : List Feature) (cMin : Nat)
    (p : Option F) :
    ∀ (distance : Nat) (possible : Int),
      (CompilerRecursiveGetInteractionScore E bAllocated Calc runtime st fc cMin p distance
        possible).scorerCalls ≠ [] := by
  intro distance
  induction distance with
  | zero =>
    intro possible
    rw [CompilerRecursiveGetInteractionScore,
      (GetInteractionScorePerTargetClasses_ghost bAllocated Calc _ st fc cMin p).1]
    simp
  | succ d ih =>
    intro possible
    rw [CompilerRecursiveGetInteractionScore]
    split
    · rw [(GetInteractionScorePerTargetClasses_ghost bAllocated Calc _ st fc cMin p).1]
      simp
    · exact ih _

/-- C22. Out-parameter untouched on error: on each of the three paths on which
`GetInteractionScore` itself returns a failure code (the feature count is no `size_t`; a
feature index is no `size_t`, the indexes before it being valid and naming features with at
least two bins; more than `k_cDimensionsMax` valid features with at least two bins each), it
returns 1 and `*interactionScoreReturn` is what it was before the call. And in general,
whenever a call returns a code other than 0 without having called a scorer template,
`*interactionScoreReturn` is what it was before the call. -/
theorem out_parameter_untouched_on_error {D F : Type} (E : EbmInternal) (A : FloatOps F)
    (bAllocated : Bool)
    (CalculateInteractionScore : Int → Int → Option D → List Feature → Nat → Bool × Option F)
    (pEbmInteractionState : EbmInteractionState D) (countFeaturesInCombination : Int)
    (featureIndexes : List Int) (interactionScoreReturn : Option F) :
    (E.IsNumberConvertable countFeaturesInCombination = false →
      GetInteractionScore E A bAllocated CalculateInteractionScore pEbmInteractionState
          countFeaturesInCombination featureIndexes interactionScoreReturn =
        .ok ⟨1, interactionScoreReturn, [], 0⟩) ∧
    (∀ (pDataSet : D) (j0 : Nat) (idx0 : Int),
      E.IsNumberConvertable countFeaturesInCombination = true →
      pEbmInteractionState.m_pDataSet = some pDataSet →
      j0 < countFeaturesInCombination.toNat → featureIndexes[j0]? = some idx0 →
      E.IsNumberConvertable idx0 = false →
      (∀ j, j < j0 → ∃ idx f, featureIndexes[j]? = some idx ∧
        E.IsNumberConvertable idx = true ∧
        pEbmInteractionState.m_aFeatures[idx.toNat]? = some f ∧ 2 ≤ f.m_cBins) →
      GetInteractionScore E A bAllocated CalculateInteractionScore pEbmInteractionState
          countFeaturesInCombination featureIndexes interactionScoreReturn =
        .ok ⟨1, interactionScoreReturn, [], 0⟩) ∧
    (∀ (pDataSet : D),
      E.IsNumberConvertable countFeaturesInCombination = true →
      pEbmInteractionState.m_pDataSet = some pDataSet →
      E.k_cDimensionsMax < countFeaturesInCombination.toNat →
      (∀ j, j < countFeaturesInCombination.toNat → ∃ idx f, featureIndexes[j]? = some idx ∧
        E.IsNumberConvertable idx = true ∧
        pEbmInteractionState.m_aFeatures[idx.toNat]? = some f ∧ 2 ≤ f.m_cBins) →
      GetInteractionScore E A bAllocated CalculateInteractionScore pEbmInteractionState
          countFeaturesInCombination featureIndexes interactionScoreReturn =
        .ok ⟨1, interactionScoreReturn, [], 0⟩) ∧
    (∀ r, GetInteractionScore E A bAllocated CalculateInteractionScore pEbmInteractionState
          countFeaturesInCombination featureIndexes interactionScoreReturn = .ok r →
      r.ret ≠ 0 → r.scorerCalls = [] → r.interactionScoreReturn = interactionScoreReturn) := by
  refine ⟨?_, ?_, ?_, ?_⟩
  · intro hcount
    unfold GetInteractionScore
    simp only [hcount, Bool.not_false, if_true]
  · intro pDataSet j0 idx0 hcount hds hj0 h0 hbad hvalid
    unfold GetInteractionScore
    simp only [hcount, Bool.not_true, Bool.false_eq_true, if_false]
    rw [if_neg (by omega), hds]
    simp only
    rw [scanFeatureIndexes_notConvertable E _ featureIndexes _ j0 hj0 idx0 h0 hbad hvalid _ 0
      (Nat.zero_le _) (by omega)]
  · intro pDataSet hcount hds hmax hvalid
    unfold GetInteractionScore
    simp only [hcount, Bool.not_true, Bool.false_eq_true, if_false]
    rw [if_neg (by omega), hds]
    simp only
    rw [scanFeatureIndexes_done E _ featureIndexes _ hvalid _ 0 (by omega) (by omega)]
    simp only
    rw [if_pos hmax]
  · intro r h hret hcalls
    unfold GetInteractionScore at h
    split at h
    · cases h; rfl
    · simp only at h
      split at h
      · cases h; exact absurd rfl hret
      · split at h
        · cases h; exact absurd rfl hret
        · split at h
          · cases h
          · cases h; rfl
          · cases h; exact absurd rfl hret
          · split at h
            · cases h; rfl
            · split at h
              · cases h
              · split at h
                · split at h
                  · cases h; exact absurd rfl hret
                  · cases h
                    exact absurd hcalls (CompilerRecursiveGetInteractionScore_calls E bAllocated
                      CalculateInteractionScore _ _ _ _ _ _ _)
                · cases h
                  rw [(GetInteractionScorePerTargetClasses_ghost bAllocated
                    CalculateInteractionScore _ _ _ _ _).1] at hcalls
                  cases hcalls

/-- For C22: a state with a data set and one feature of two bins, the index list `[0, -5]` whose
second index is negative, and `7` behind the pointer: the call returns 1 and `7` stays. -/
theorem out_parameter_untouched_on_error_witness :
    GetInteractionScore ebmInternal64 exactOps true (fun _ _ _ _ _ => (false, some 1))
        (⟨-1, 1, [⟨2⟩], some ()⟩ : EbmInteractionState Unit) 2 [0, -5] (some 7) =
      .ok ⟨1, some 7, [], 0⟩ :=
  (out_parameter_untouched_on_error ebmInternal64 exactOps true
    (fun _ _ _ _ _ => (false, some 1)) ⟨-1, 1, [⟨2⟩], some ()⟩ 2 [0, -5] (some 7)).2.1 () 1 (-5)
    (by decide) rfl (by decide) (by decide) (by decide)
    (by
      intro j hj
      match j, hj with
      | 0, _ => exact ⟨0, ⟨2⟩, rfl, by decide, rfl, by decide⟩)

/-- C23. Objective dispatch, with `k_cCompilerOptimizedTargetClassesMax = 8`: for a runtime
class count `C` with `2 <= C <= 8` the chain `CompilerRecursiveGetInteractionScore<2>` is the
call of the scorer template compiled for `C`, reached after `C - 2` recursive calls, and for
`C > 8` it is the call of the dynamic classification scorer, reached after 7 recursive calls;
exactly one scorer template is called, after at most 7 recursive calls. In
`GetInteractionScore`, on a state with a data set and a list of at most `k_cDimensionsMax`
valid features with at least two bins each, a classification state with at least two classes
calls that one scorer and a regression state calls the regression scorer. -/
theorem objective_dispatch {D F : Type} (E : EbmInternal) (A : FloatOps F) (bAllocated : Bool)
    (CalculateInteractionScore : Int → Int → Option D → List Feature → Nat → Bool × Option F)
    (pEbmInteractionState : EbmInteractionState D)
    (hmax : E.k_cCompilerOptimizedTargetClassesMax = 8) :
    (∀ (C : Int) (pFeatureCombination : List Feature) (cMin : Nat) (p : Option F),
      2 ≤ C → C ≤ 8 →
      CompilerRecursiveGetInteractionScore E bAllocated CalculateInteractionScore C
          pEbmInteractionState pFeatureCombination cMin p
          (E.k_cCompilerOptimizedTargetClassesMax + 1 - 2).toNat 2 =
        { GetInteractionScorePerTargetClasses bAllocated CalculateInteractionScore C
            pEbmInteractionState pFeatureCombination cMin p with
          chainSteps := (C - 2).toNat } ∧
      (CompilerRecursiveGetInteractionScore E bAllocated CalculateInteractionScore C
          pEbmInteractionState pFeatureCombination cMin p
          (E.k_cCompilerOptimizedTargetClassesMax + 1 - 2).toNat 2).scorerCalls = [C] ∧
      (CompilerRecursiveGetInteractionScore E bAllocated CalculateInteractionScore C
          pEbmInteractionState pFeatureCombination cMin p
          (E.k_cCompilerOptimizedTargetClassesMax + 1 - 2).toNat 2).chainSteps ≤ 7) ∧
    (∀ (C : Int) (pFeatureCombination : List Feature) (cMin : Nat) (p : Option F),
      8 < C →
      CompilerRecursiveGetInteractionScore E bAllocated CalculateInteractionScore C
          pEbmInteractionState pFeatureCombination cMin p
          (E.k_cCompilerOptimizedTargetClassesMax + 1 - 2).toNat 2 =
        { GetInteractionScorePerTargetClasses bAllocated CalculateInteractionScore
            E.k_DynamicClassification pEbmInteractionState pFeatureCombination cMin p with
          chainSteps := 7 } ∧
      (CompilerRecursiveGetInteractionScore E bAllocated CalculateInteractionScore C
          pEbmInteractionState pFeatureCombination cMin p
          (E.k_cCompilerOptimizedTargetClassesMax + 1 - 2).toNat 2).scorerCalls =
        [E.k_DynamicClassification]) ∧
    (∀ (countFeaturesInCombination : Int) (featureIndexes : List Int)
        (interactionScoreReturn : Option F) (pDataSet : D),
      E.IsNumberConvertable countFeaturesInCombination = true →
      0 < countFeaturesInCombination.toNat →
      countFeaturesInCombination.toNat ≤ E.k_cDimensionsMax →
      pEbmInteractionState.m_pDataSet = some pDataSet →
      (∀ j, j < countFeaturesInCombination.toNat → ∃ idx f, featureIndexes[j]? = some idx ∧
        E.IsNumberConvertable idx = true ∧
        pEbmInteractionState.m_aFeatures[idx.toNat]? = some f ∧ 2 ≤ f.m_cBins) →
      (E.IsClassification pEbmInteractionState.m_runtimeLearningTypeOrCountTargetClasses = true →
        2 ≤ pEbmInteractionState.m_runtimeLearningTypeOrCountTargetClasses →
        ∃ r, GetInteractionScore E A bAllocated CalculateInteractionScore pEbmInteractionState
            countFeaturesInCombination featureIndexes interactionScoreReturn = .ok r ∧
          r.scorerCalls =
            [if pEbmInteractionState.m_runtimeLearningTypeOrCountTargetClasses ≤ 8 then
              pEbmInteractionState.m_runtimeLearningTypeOrCountTargetClasses
            else E.k_DynamicClassification] ∧
          r.chainSteps ≤ 7) ∧
      (E.IsClassification pEbmInteractionState.m_runtimeLearningTypeOrCountTargetClasses =
          false →
        ∃ r, GetInteractionScore E A bAllocated CalculateInteractionScore pEbmInteractionState
            countFeaturesInCombination featureIndexes interactionScoreReturn = .ok r ∧
          r.scorerCalls = [E.k_Regression] ∧ r.chainSteps = 0)) := by
  have hhit : ∀ (C : Int) (fc : List Feature) (cMin : Nat) (p : Option F), 2 ≤ C → C ≤ 8 →
      CompilerRecursiveGetInteractionScore E bAllocated CalculateInteractionScore C
          pEbmInteractionState fc cMin p
          (E.k_cCompilerOptimizedTargetClassesMax + 1 - 2).toNat 2 =
        { GetInteractionScorePerTargetClasses bAllocated CalculateInteractionScore C
            pEbmInteractionState fc cMin p with chainSteps := (C - 2).toNat } := by
    intro C fc cMin p h2 h8
    exact CompilerRecursiveGetInteractionScore_hit E bAllocated CalculateInteractionScore C
      pEbmInteractionState fc cMin p (C - 2).toNat _ 2 (by omega) (by omega)
  have hmiss : ∀ (C : Int) (fc : List Feature) (cMin : Nat) (p : Option F), 8 < C →
      CompilerRecursiveGetInteractionScore E bAllocated CalculateInteractionScore C
          pEbmInteractionState fc cMin p
          (E.k_cCompilerOptimizedTargetClassesMax + 1 - 2).toNat 2 =
        { GetInteractionScorePerTargetClasses bAllocated CalculateInteractionScore
            E.k_DynamicClassification pEbmInteractionState fc cMin p with chainSteps := 7 } := by
    intro C fc cMin p h8
    have h7 : (E.k_cCompilerOptimizedTargetClassesMax + 1 - 2).toNat = 7 := by omega
    rw [h7]
    exact CompilerRecursiveGetInteractionScore_miss E bAllocated CalculateInteractionScore C
      pEbmInteractionState fc cMin p 7 2 (Or.inr (by omega))
  refine ⟨?_, ?_, ?_⟩
  · intro C fc cMin p h2 h8
    refine ⟨hhit C fc cMin p h2 h8, ?_, ?_⟩
    · rw [hhit C fc cMin p h2 h8]
      exact (GetInteractionScorePerTargetClasses_ghost bAllocated CalculateInteractionScore C
        pEbmInteractionState fc cMin p).1
    · rw [hhit C fc cMin p h2 h8]
      show (C - 2).toNat ≤ 7
      omega
  · intro C fc cMin p h8
    refine ⟨hmiss C fc cMin p h8, ?_⟩
    rw [hmiss C fc cMin p h8]
    exact (GetInteractionScorePerTargetClasses_ghost bAllocated CalculateInteractionScore _
      pEbmInteractionState fc cMin p).1
  · intro count featureIndexes p pDataSet hcount hpos hdim hds hvalid
    obtain ⟨fc, _, hd⟩ := GetInteractionScore_dispatch E A bAllocated CalculateInteractionScore
      pEbmInteractionState count featureIndexes p pDataSet hcount hpos hdim hds hvalid
    constructor
    · intro hc h2
      rw [hd, if_pos hc, if_neg (by omega)]
      by_cases h8 : pEbmInteractionState.m_runtimeLearningTypeOrCountTargetClasses ≤ 8
      · rw [if_pos h8, hhit _ fc _ p h2 h8]
        exact ⟨_, rfl, (GetInteractionScorePerTargetClasses_ghost bAllocated
          CalculateInteractionScore _ pEbmInteractionState fc _ p).1, by
            show (pEbmInteractionState.m_runtimeLearningTypeOrCountTargetClasses - 2).toNat ≤ 7
            omega⟩
      · rw [if_neg h8, hmiss _ fc _ p (by omega)]
        exact ⟨_, rfl, (GetInteractionScorePerTargetClasses_ghost bAllocated
          CalculateInteractionScore _ pEbmInteractionState fc _ p).1, Nat.le_refl 7⟩
    · intro hc
      rw [hd, if_neg (by rw [hc]; simp)]
      exact ⟨_, rfl, (GetInteractionScorePerTargetClasses_ghost bAllocated
        CalculateInteractionScore _ pEbmInteractionState fc _ p).1,
        (GetInteractionScorePerTargetClasses_ghost bAllocated
        CalculateInteractionScore _ pEbmInteractionState fc _ p).2⟩

/-- For C23: a classification state with three classes, a data set and two features of two bins
each, and the pair of the two features: the scorer compiled for three classes is the one that is
called, after one recursive call of the chain. -/
theorem objective_dispatch_witness :
    GetInteractionScore ebmInternal64 exactOps true (fun _ _ _ _ _ => (false, some 1))
        (⟨3, 2, [⟨2⟩, ⟨2⟩], some ()⟩ : EbmInteractionState Unit) 2 [0, 1] (some 7) =
      .ok ⟨0, some 1, [3], 1⟩ ∧
    ∃ r, GetInteractionScore ebmInternal64 exactOps true (fun _ _ _ _ _ => (false, some 1))
        (⟨3, 2, [⟨2⟩, ⟨2⟩], some ()⟩ : EbmInteractionState Unit) 2 [0, 1] (some 7) = .ok r ∧
      r.scorerCalls = [if (3 : Int) ≤ 8 then 3 else ebmInternal64.k_DynamicClassification] ∧
      r.chainSteps ≤ 7 := by
  refine ⟨?_, ((objective_dispatch ebmInternal64 exactOps true
    (fun _ _ _ _ _ => (false, some 1)) ⟨3, 2, [⟨2⟩, ⟨2⟩], some ()⟩ rfl).2.2 2 [0, 1] (some 7) ()
    (by decide) (by decide) (by decide) rfl
    (by
      intro j hj
      match j, hj with
      | 0, _ => exact ⟨0, ⟨2⟩, rfl, by decide, rfl, by decide⟩
      | 1, _ => exact ⟨1, ⟨2⟩, rfl, by decide, rfl, by decide⟩)).1 (by decide) (by decide)⟩
  simp [GetInteractionScore, ebmInternal64, scanFeatureIndexes, fillFeatureCombination,
    CompilerRecursiveGetInteractionScore, GetInteractionScorePerTargetClasses]

/-- C27, as stated, fails: on a state with a data set whose one feature has no bin, the call for
the combination of that feature returns 0, not an error code, and stores the score 0. -/
theorem zero_bins_counterexample :
    GetInteractionScore ebmInternal64 exactOps true (fun _ _ _ _ _ => (false, some 1))
        (⟨-1, 1, [⟨0⟩], some ()⟩ : EbmInteractionState Unit) 1 [0] (some 7) =
      .ok ⟨0, some 0, [], 0⟩ := by
  simp [GetInteractionScore, ebmInternal64, exactOps, scanFeatureIndexes]

/-- C27, amended. A feature with `bin_count = 0` is handled like a feature with one bin: for
every interaction state with a data set and every list of valid feature indexes that names a
feature whose bin count is 0, `GetInteractionScore` returns 0, stores zero in
`*interactionScoreReturn` when that pointer is not null, and calls no scorer. -/
theorem zero_bins_short_circuit {D F : Type} (E : EbmInternal) (A : FloatOps F)
    (bAllocated : Bool)
    (CalculateInteractionScore : Int → Int → Option D → List Feature → Nat → Bool × Option F)
    (pEbmInteractionState : EbmInteractionState D) (countFeaturesInCombination : Int)
    (featureIndexes : List Int) (interactionScoreReturn : Option F) (pDataSet : D)
    (hcount : E.IsNumberConvertable countFeaturesInCombination = true)
    (hds : pEbmInteractionState.m_pDataSet = some pDataSet)
    (hvalid : ∀ j, j < countFeaturesInCombination.toNat → ∃ idx f,
      featureIndexes[j]? = some idx ∧ E.IsNumberConvertable idx = true ∧
      pEbmInteractionState.m_aFeatures[idx.toNat]? = some f)
    (hzero : ∃ j idx f, j < countFeaturesInCombination.toNat ∧ featureIndexes[j]? = some idx ∧
      pEbmInteractionState.m_aFeatures[idx.toNat]? = some f ∧ f.m_cBins = 0) :
    GetInteractionScore E A bAllocated CalculateInteractionScore pEbmInteractionState
        countFeaturesInCombination featureIndexes interactionScoreReturn =
      .ok ⟨0, interactionScoreReturn.map fun _ => A.zero, [], 0⟩ := by
  obtain ⟨j0, idx0, f0, hj0, e1, e2, e3⟩ := hzero
  unfold GetInteractionScore
  simp only [hcount, Bool.not_true, Bool.false_eq_true, if_false]
  rw [if_neg (by omega), hds]
  simp only
  rw [scanFeatureIndexes_degenerate E _ featureIndexes _ j0 hj0
    (fun j hj => hvalid j (by omega)) ⟨idx0, f0, e1, e2, by omega⟩ _ 0 (Nat.zero_le _)
    (by omega)]

/-- For C27: a classification state with a data set and the features with `2` and `0` bins,
and the pair of the two: the call returns 0 and replaces the `7` behind the pointer by `0`. -/
theorem zero_bins_short_circuit_witness :
    GetInteractionScore ebmInternal64 exactOps true (fun _ _ _ _ _ => (false, some 1))
        (⟨2, 2, [⟨2⟩, ⟨0⟩], some ()⟩ : EbmInteractionState Unit) 2 [0, 1] (some 7) =
      .ok ⟨0, some 0, [], 0⟩ :=
  zero_bins_short_circuit ebmInternal64 exactOps true (fun _ _ _ _ _ => (false, some 1))
    ⟨2, 2, [⟨2⟩, ⟨0⟩], some ()⟩ 2 [0, 1] (some 7) () (by decide) rfl
    (by
      intro j hj
      match j, hj with
      | 0, _ => exact ⟨0, ⟨2⟩, rfl, by decide, rfl⟩
      | 1, _ => exact ⟨1, ⟨0⟩, rfl, by decide, rfl⟩)
    ⟨1, 1, ⟨0⟩, by decide, rfl, rfl, rfl⟩

/-! ## The creation of an interaction state and the scratch storage -/

/-- C24. Negative counts are rejected, with `IsNumberConvertable<size_t, IntEbmType>` false at
every negative number: `InitializeInteractionClassification` returns the null handle for every
negative `countTargetClasses`, and `AllocateInteraction` returns the null handle for every
negative `countFeatures` or negative `countInstances`, and no `EbmInteractionState` has been
constructed; the same holds through the two exported functions that call it. -/
theorem negative_counts_rejected {D I : Type} (E : EbmInternal)
    (IsNumberConvertablePtrdiff : Int → Bool)
    (newEbmInteractionState : Int → Nat → I → Option (EbmInteractionState D))
    (InitializeInteraction : EbmInteractionState D → I → Nat → Bool × EbmInteractionState D)
    (hneg : ∀ x : Int, x < 0 → E.IsNumberConvertable x = false) :
    (∀ (countTargetClasses countFeatures countInstances : Int) (buffers : I),
      countTargetClasses < 0 →
      InitializeInteractionClassification E IsNumberConvertablePtrdiff newEbmInteractionState
        InitializeInteraction countTargetClasses countFeatures countInstances buffers =
          ⟨none, 0, 0⟩) ∧
    (∀ (countFeatures runtimeLearningTypeOrCountTargetClasses countInstances : Int)
        (buffers : I),
      countFeatures < 0 ∨ countInstances < 0 →
      AllocateInteraction E newEbmInteractionState InitializeInteraction countFeatures
        runtimeLearningTypeOrCountTargetClasses countInstances buffers = ⟨none, 0, 0⟩) ∧
    (∀ (countFeatures countInstances : Int) (buffers : I),
      countFeatures < 0 ∨ countInstances < 0 →
      InitializeInteractionRegression E newEbmInteractionState InitializeInteraction
        countFeatures countInstances buffers = ⟨none, 0, 0⟩) ∧
    (∀ (countTargetClasses countFeatures countInstances : Int) (buffers : I),
      countFeatures < 0 ∨ countInstances < 0 →
      InitializeInteractionClassification E IsNumberConvertablePtrdiff newEbmInteractionState
        InitializeInteraction countTargetClasses countFeatures countInstances buffers =
          ⟨none, 0, 0⟩) := by
  have halloc : ∀ (countFeatures runtime countInstances : Int) (buffers : I),
      countFeatures < 0 ∨ countInstances < 0 →
      AllocateInteraction E newEbmInteractionState InitializeInteraction countFeatures
        runtime countInstances buffers = ⟨none, 0, 0⟩ := by
    intro countFeatures runtime countInstances buffers h
    unfold AllocateInteraction
    by_cases hf : E.IsNumberConvertable countFeatures = true
    · have hi : E.IsNumberConvertable countInstances = false := by
        rcases h with h | h
        · rw [hneg _ h] at hf
          exact absurd hf (by simp)
        · exact hneg _ h
      simp [hf, hi]
    · simp [hf]
  refine ⟨?_, halloc, ?_, ?_⟩
  · intro countTargetClasses countFeatures countInstances buffers h
    unfold InitializeInteractionClassification
    rw [if_pos h]
  · intro countFeatures countInstances buffers h
    exact halloc countFeatures E.k_Regression countInstances buffers h
  · intro countTargetClasses countFeatures countInstances buffers h
    unfold InitializeInteractionClassification
    split
    · rfl
    · split
      · rfl
      · split
        · rfl
        · exact halloc countFeatures countTargetClasses countInstances buffers h

/-- For C24: with the 64 bit constants and an allocation that always succeeds, three features,
three classes and `-1` instances give the null handle and no state, where `5` instances give a
state. -/
theorem negative_counts_rejected_witness :
    AllocateInteraction ebmInternal64
        (fun runtime cFeatures (_ : Unit) =>
          some (⟨runtime, cFeatures, [], none⟩ : EbmInteractionState Unit))
        (fun s _ _ => (false, s)) 3 3 (-1) () = ⟨none, 0, 0⟩ ∧
    AllocateInteraction ebmInternal64
        (fun runtime cFeatures (_ : Unit) =>
          some (⟨runtime, cFeatures, [], none⟩ : EbmInteractionState Unit))
        (fun s _ _ => (false, s)) 3 3 5 () = ⟨some ⟨3, 3, [], none⟩, 1, 0⟩ :=
  ⟨(negative_counts_rejected ebmInternal64 (fun x => decide (0 ≤ x))
      (fun runtime cFeatures (_ : Unit) =>
        some (⟨runtime, cFeatures, [], none⟩ : EbmInteractionState Unit))
      (fun s _ _ => (false, s))
      (by
        intro x hx
        simp only [ebmInternal64, decide_eq_false_iff_not]
        omega)).2.1 3 3 (-1) () (Or.inr (by decide)),
    by simp [AllocateInteraction, ebmInternal64]⟩

/-- C29. The layout the applier derives is never invalid: for every word width `W` and every
`P` with `1 <= P <= W`, the item width `GetCountBits(P) = floor(W / P)` is at least 1 and at
most `W` (the two assertions on `cBitsPerItemMax`), `P * bits_per_item <= W`, so the condition
`P * bits_per_item > W` does not occur, every one of the `P` fields of a word ends inside the
`W` bits, the shift that makes the mask is by less than `W`, and the mask is that of one
item. -/
theorem layout_never_invalid (W P : Nat) (h1 : 1 ≤ P) (hW : P ≤ W) :
    1 ≤ GetCountBits W P ∧ GetCountBits W P ≤ W ∧ P * GetCountBits W P ≤ W ∧
    ¬ (W < P * GetCountBits W P) ∧
    (∀ k, k < P → k * GetCountBits W P + GetCountBits W P ≤ W) ∧
    W - GetCountBits W P < W ∧
    maskBits W (GetCountBits W P) = 2 ^ GetCountBits W P - 1 := by
  have hb1 : 1 ≤ GetCountBits W P := by
    unfold GetCountBits
    exact (Nat.one_le_div_iff (by omega)).2 hW
  have hbW : GetCountBits W P ≤ W := Nat.div_le_self W P
  have hPb : P * GetCountBits W P ≤ W := by
    unfold GetCountBits
    exact Nat.mul_div_le W P
  refine ⟨hb1, hbW, hPb, by omega, ?_, by omega, maskBits_eq W _ hbW⟩
  intro k hk
  have h : (k + 1) * GetCountBits W P ≤ P * GetCountBits W P :=
    Nat.mul_le_mul_right _ (by omega)
  have e : (k + 1) * GetCountBits W P = k * GetCountBits W P + GetCountBits W P :=
    Nat.succ_mul k _
  omega

/-- For C29: three items in a word of 64 bits have 21 bits each, 63 bits in all, and the last
field ends at bit 63. -/
theorem layout_never_invalid_witness :
    GetCountBits 64 3 = 21 ∧ 3 * GetCountBits 64 3 ≤ 64 ∧
    2 * GetCountBits 64 3 + GetCountBits 64 3 ≤ 64 ∧
    maskBits 64 (GetCountBits 64 3) = 2 ^ GetCountBits 64 3 - 1 :=
  ⟨by decide, (layout_never_invalid 64 3 (by decide) (by decide)).2.2.1,
    (layout_never_invalid 64 3 (by decide) (by decide)).2.2.2.2.1 2 (by decide),
    (layout_never_invalid 64 3 (by decide) (by decide)).2.2.2.2.2.2⟩

/-- C30. Objective-tagged scratch storage: the constructor of `EbmBoostingState` constructs
exactly one member of the union, the classification member if and only if
`IsClassification(runtimeLearningTypeOrCountTargetClasses)`, and for every later state of the
object, whose tag `m_runtimeLearningTypeOrCountTargetClasses` is const and whose union still
holds that member, `~EbmBoostingState` calls exactly one destructor, that of the member
constructed. -/
theorem union_member_destroyed_is_constructed {F : Type} (E : EbmInternal) (A : FloatOps F)
    (runtimeLearningTypeOrCountTargetClasses : Int)
    (cFeatures cFeatureCombinations cSamplingSets : Nat) (s : EbmBoostingState F)
    (htag : s.m_runtimeLearningTypeOrCountTargetClasses =
      (EbmBoostingState.construct E A runtimeLearningTypeOrCountTargetClasses cFeatures
        cFeatureCombinations cSamplingSets).m_runtimeLearningTypeOrCountTargetClasses)
    (hunion : s.m_cachedThreadResourcesUnion =
      (EbmBoostingState.construct E A runtimeLearningTypeOrCountTargetClasses cFeatures
        cFeatureCombinations cSamplingSets).m_cachedThreadResourcesUnion) :
    ∃ m : CachedThreadResourcesMember,
      (m = .classification ↔
        E.IsClassification runtimeLearningTypeOrCountTargetClasses = true) ∧
      (m = .regression ↔
        E.IsClassification runtimeLearningTypeOrCountTargetClasses = false) ∧
      (EbmBoostingState.construct E A runtimeLearningTypeOrCountTargetClasses cFeatures
        cFeatureCombinations cSamplingSets).m_cachedThreadResourcesUnion =
          ⟨[(m, GetVectorLength runtimeLearningTypeOrCountTargetClasses)], []⟩ ∧
      EbmBoostingState.destruct E s =
        ⟨[(m, GetVectorLength runtimeLearningTypeOrCountTargetClasses)], [m]⟩ := by
  have htag1 : s.m_runtimeLearningTypeOrCountTargetClasses =
      runtimeLearningTypeOrCountTargetClasses := htag
  have hunion1 : s.m_cachedThreadResourcesUnion =
      CachedThreadResourcesUnion.construct E runtimeLearningTypeOrCountTargetClasses := hunion
  by_cases hc : E.IsClassification runtimeLearningTypeOrCountTargetClasses = true
  · refine ⟨.classification, by simp [hc], by simp [hc], ?_, ?_⟩
    · simp [EbmBoostingState.construct, CachedThreadResourcesUnion.construct, hc]
    · simp [EbmBoostingState.destruct, CachedThreadResourcesUnion.destruct, htag1, hunion1,
        CachedThreadResourcesUnion.construct, hc]
  · have hc1 : E.IsClassification runtimeLearningTypeOrCountTargetClasses = false := by
      simpa using hc
    refine ⟨.regression, by simp [hc1], by simp [hc1], ?_, ?_⟩
    · simp [EbmBoostingState.construct, CachedThreadResourcesUnion.construct, hc1]
    · simp [EbmBoostingState.destruct, CachedThreadResourcesUnion.destruct, htag1, hunion1,
        CachedThreadResourcesUnion.construct, hc1]

/-- For C30: a state built for three classes whose best metric has since been set to `2`: the
classification member, of vector length 3, is the one constructed and the one destroyed. -/
theorem union_member_destroyed_is_constructed_witness :
    EbmBoostingState.destruct ebmInternal64
        { EbmBoostingState.construct ebmInternal64 exactOps 3 4 5 6 with
          m_bestModelMetric := 2 } =
      ⟨[(.classification, 3)], [.classification]⟩ := by
  obtain ⟨m, h1, _, _, h4⟩ := union_member_destroyed_is_constructed ebmInternal64 exactOps 3 4 5 6
    { EbmBoostingState.construct ebmInternal64 exactOps 3 4 5 6 with m_bestModelMetric := 2 }
    rfl rfl
  have hm : m = .classification := h1.2 (by decide)
  rw [hm] at h4
  exact h4

/-! ## The compile time chain over the pack widths -/

/-- The kernel compiled for the runtime pack width is the dynamic kernel: the only use of the
compile time width is the macro `GET_COUNT_ITEMS_PER_BIT_PACKED_DATA_UNIT`. -/
theorem internal_instance_pack_width {F : Type} (E : EbmInternal) (A : FloatOps F)
    (S : EbmStatistics F) (W fuel : Nat) (compiler : Int) (compilerP : Nat) (runtime : Int)
    (runtimeP : Nat) (fc : FeatureCombination) (ds : DataSetByFeatureCombination F) (U : List F)
    (h : compilerP = E.k_cItemsPerBitPackedDataUnitDynamic ∨ compilerP = runtimeP) :
    OptimizedApplyModelUpdateValidationInternal.Instance E A S W fuel compiler compilerP runtime
        runtimeP fc ds U =
      OptimizedApplyModelUpdateValidationInternal.Instance E A S W fuel compiler
        E.k_cItemsPerBitPackedDataUnitDynamic runtime runtimeP fc ds U := by
  have hget : GET_COUNT_ITEMS_PER_BIT_PACKED_DATA_UNIT E.k_cItemsPerBitPackedDataUnitDynamic
      compilerP runtimeP =
      GET_COUNT_ITEMS_PER_BIT_PACKED_DATA_UNIT E.k_cItemsPerBitPackedDataUnitDynamic
        E.k_cItemsPerBitPackedDataUnitDynamic runtimeP := by
    unfold GET_COUNT_ITEMS_PER_BIT_PACKED_DATA_UNIT
    rcases h with h | h
    · rw [h]
    · rw [h]
      simp
  unfold OptimizedApplyModelUpdateValidationInternal.Instance
  simp only [hget]

/-- When the chain of pack widths comes to the dynamic width or to the runtime width within
`depth` instantiations, `MagicCompilerLoopFunction` is the call of the dynamic kernel. -/
theorem magic_eq_dynamic {F : Type} (E : EbmInternal) (A : FloatOps F)
    (S : EbmStatistics F) (W fuel : Nat) (compiler runtime : Int) (runtimeP : Nat)
    (fc : FeatureCombination) (ds : DataSetByFeatureCombination F) (U : List F) :
    ∀ (depth possible : Nat),
      (∃ k, k < depth ∧
        (E.GetNextCountItemsBitPacked^[k] possible = E.k_cItemsPerBitPackedDataUnitDynamic ∨
          E.GetNextCountItemsBitPacked^[k] possible = runtimeP)) →
      OptimizedApplyModelUpdateValidationCompiler.MagicCompilerLoopFunction E A S W fuel compiler
          runtime runtimeP fc ds U depth possible =
        OptimizedApplyModelUpdateValidationInternal.Instance E A S W fuel compiler
          E.k_cItemsPerBitPackedDataUnitDynamic runtime runtimeP fc ds U := by
  intro depth
  induction depth with
  | zero =>
    intro possible h
    obtain ⟨k, hk, _⟩ := h
    omega
  | succ depth ih =>
    intro possible h
    obtain ⟨k, hk, hreach⟩ := h
    unfold OptimizedApplyModelUpdateValidationCompiler.MagicCompilerLoopFunction
    by_cases hd : possible = E.k_cItemsPerBitPackedDataUnitDynamic
    · rw [if_pos hd]
    · rw [if_neg hd]
      by_cases hr : possible = runtimeP
      · rw [if_pos hr]
        exact internal_instance_pack_width E A S W fuel compiler possible runtime runtimeP fc ds U
          (Or.inr hr)
      · rw [if_neg hr]
        cases k with
        | zero =>
          rcases hreach with h0 | h0
          · exact absurd h0 hd
          · exact absurd h0 hr
        | succ k =>
          apply ih
          refine ⟨k, by omega, ?_⟩
          rw [Function.iterate_succ_apply] at hreach
          exact hreach

/-- The kernel choice with `bUseSIMD` set is that without it, when the chain of pack widths
comes to the dynamic width or to the runtime width within `fuel` instantiations. -/
theorem dispatch_simd_eq {F : Type} (E : EbmInternal) (A : FloatOps F)
    (S : EbmStatistics F) (W fuel : Nat) (compiler runtime : Int) (bUseSIMD : Bool)
    (fc : FeatureCombination) (ds : DataSetByFeatureCombination F) (U : List F)
    (hchain : bUseSIMD = true → ∃ k, k < fuel ∧
      (E.GetNextCountItemsBitPacked^[k] E.k_cItemsPerBitPackedDataUnitMax =
          E.k_cItemsPerBitPackedDataUnitDynamic ∨
        E.GetNextCountItemsBitPacked^[k] E.k_cItemsPerBitPackedDataUnitMax =
          fc.m_cItemsPerBitPackedDataUnit)) :
    OptimizedApplyModelUpdateValidation.Dispatch E A S W fuel compiler runtime bUseSIMD fc ds U =
      OptimizedApplyModelUpdateValidation.Dispatch E A S W fuel compiler runtime false fc
        ds U := by
  cases bUseSIMD with
  | false => rfl
  | true =>
    unfold OptimizedApplyModelUpdateValidation.Dispatch
    by_cases h0 : 0 = fc.m_cFeatures
    · rw [if_pos h0, if_pos h0]
    · rw [if_neg h0, if_neg h0]
      simp only [if_true, Bool.false_eq_true, if_false]
      exact magic_eq_dynamic E A S W fuel compiler runtime fc.m_cItemsPerBitPackedDataUnit fc ds
        U fuel E.k_cItemsPerBitPackedDataUnitMax (hchain rfl)

/-- C28. Pack-width specialization is result-preserving: for every compile time objective,
every runtime class count, every feature combination with whatever items-per-word `P` and every
validation set and tensor, when the chain of pack widths that starts at
`k_cItemsPerBitPackedDataUnitMax` comes to the dynamic width or to `P` within the bound on the
number of instantiations, the call with `bUseSIMD` set and the call without it return the same
raw metric and state from the kernel choice and the same metric and state from
`OptimizedApplyModelUpdateValidation`. -/
theorem pack_width_specialization_preserves {F : Type} (E : EbmInternal) (A : FloatOps F)
    (S : EbmStatistics F) (W fuel : Nat) (compiler runtime : Int)
    (fc : FeatureCombination) (ds : DataSetByFeatureCombination F) (U : List F)
    (hchain : ∃ k, k < fuel ∧
      (E.GetNextCountItemsBitPacked^[k] E.k_cItemsPerBitPackedDataUnitMax =
          E.k_cItemsPerBitPackedDataUnitDynamic ∨
        E.GetNextCountItemsBitPacked^[k] E.k_cItemsPerBitPackedDataUnitMax =
          fc.m_cItemsPerBitPackedDataUnit)) :
    OptimizedApplyModelUpdateValidation.Dispatch E A S W fuel compiler runtime true fc ds U =
      OptimizedApplyModelUpdateValidation.Dispatch E A S W fuel compiler runtime false fc ds U ∧
    OptimizedApplyModelUpdateValidation E A S W fuel compiler runtime true fc ds U =
      OptimizedApplyModelUpdateValidation E A S W fuel compiler runtime false fc ds U := by
  have h := dispatch_simd_eq E A S W fuel compiler runtime true fc ds U (fun _ => hchain)
  refine ⟨h, ?_⟩
  unfold OptimizedApplyModelUpdateValidation
  rw [h]

/-- For C28: a regression set of four instances packed 32 to a word of 64 bits, the bins
`1, 0, 1, 1` (the word `81`), `U = [10, 20]`: the chain `64, 32` comes to the width 32 at its
first step, and both calls return the metric `485 / 2` and the residuals
`[-19, -8, -17, -16]`. -/
theorem pack_width_specialization_preserves_witness :
    OptimizedApplyModelUpdateValidation ebmInternal64 exactOps
        ⟨id, id, fun x _ => x, fun x _ => x⟩ 64 5 (-1) (-1) true ⟨1, 32, 0⟩
        ⟨4, [1, 2, 3, 4], [], [], fun _ => [81]⟩ [10, 20] =
      OptimizedApplyModelUpdateValidation ebmInternal64 exactOps
        ⟨id, id, fun x _ => x, fun x _ => x⟩ 64 5 (-1) (-1) false ⟨1, 32, 0⟩
        ⟨4, [1, 2, 3, 4], [], [], fun _ => [81]⟩ [10, 20] ∧
    OptimizedApplyModelUpdateValidation ebmInternal64 exactOps
        ⟨id, id, fun x _ => x, fun x _ => x⟩ 64 5 (-1) (-1) false ⟨1, 32, 0⟩
        ⟨4, [1, 2, 3, 4], [], [], fun _ => [81]⟩ [10, 20] =
      .ok (485 / 2, ⟨4, [-19, -8, -17, -16], [], [], fun _ => [81]⟩) := by
  refine ⟨(pack_width_specialization_preserves ebmInternal64 exactOps
    ⟨id, id, fun x _ => x, fun x _ => x⟩ 64 5 (-1) (-1) ⟨1, 32, 0⟩
    ⟨4, [1, 2, 3, 4], [], [], fun _ => [81]⟩ [10, 20]
    ⟨1, by decide, Or.inr (by decide)⟩).2, ?_⟩
  simp [OptimizedApplyModelUpdateValidation, OptimizedApplyModelUpdateValidation.Finish,
    OptimizedApplyModelUpdateValidation.Dispatch,
    OptimizedApplyModelUpdateValidationInternal.Instance,
    GET_COUNT_ITEMS_PER_BIT_PACKED_DATA_UNIT, ebmInternal64,
    OptimizedApplyModelUpdateValidationInternalRegression.Func,
    OptimizedApplyModelUpdateValidationInternalRegression.Run, bitPackedLoop, outerLoop,
    oneLastLoop, innerLoop, regressionItem, Cursor.start, exactOps, GetCountBits, maskBits,
    ComputeSingleInstanceSquaredErrorRegression, (by decide : 3 &&& 81 = 1),
    (by decide : 3 &&& 20 = 0), (by decide : 3 &&& 5 = 1)]
  norm_num

/-! ## What the applier leaves alone -/

/-- The general regression kernel returns the validation set with new residuals. -/
theorem regression_func_frame {F : Type} (A : FloatOps F) (CRE : F → F) (W fuel P : Nat)
    (fc : FeatureCombination) (ds : DataSetByFeatureCombination F) (U : List F) (ret : F)
    (ds1 : DataSetByFeatureCombination F)
    (h : OptimizedApplyModelUpdateValidationInternalRegression.Func A CRE W fuel P fc ds U =
      .ok (ret, ds1)) :
    ∃ a, ds1 = { ds with m_aResidualErrors := a } := by
  unfold OptimizedApplyModelUpdateValidationInternalRegression.Func at h
  split at h
  · exact absurd h (by simp)
  · injection h with h
    injection h with _ h2
    exact ⟨_, h2.symm⟩

/-- The general binary classification kernel returns the validation set with new scores. -/
theorem binary_func_frame {F : Type} (A : FloatOps F) (LL : F → Nat → F) (W fuel P : Nat)
    (fc : FeatureCombination) (ds : DataSetByFeatureCombination F) (U : List F) (ret : F)
    (ds1 : DataSetByFeatureCombination F)
    (h : OptimizedApplyModelUpdateValidationInternalBinary.Func A LL W fuel P fc ds U =
      .ok (ret, ds1)) :
    ∃ a, ds1 = { ds with m_aPredictorScores := a } := by
  unfold OptimizedApplyModelUpdateValidationInternalBinary.Func at h
  split at h
  · exact absurd h (by simp)
  · injection h with h
    injection h with _ h2
    exact ⟨_, h2.symm⟩

/-- The general multiclass kernel returns the validation set with new scores. -/
theorem multiclass_func_frame {F : Type} (A : FloatOps F) (EbmExp : F → F) (LL : F → F → F)
    (W fuel : Nat) (C : Int) (P : Nat)
    (fc : FeatureCombination) (ds : DataSetByFeatureCombination F) (U : List F) (ret : F)
    (ds1 : DataSetByFeatureCombination F)
    (h : OptimizedApplyModelUpdateValidationInternal.Func A EbmExp LL W fuel C P fc ds U =
      .ok (ret, ds1)) :
    ∃ a, ds1 = { ds with m_aPredictorScores := a } := by
  unfold OptimizedApplyModelUpdateValidationInternal.Func at h
  split at h
  · exact absurd h (by simp)
  · injection h with h
    injection h with _ h2
    exact ⟨_, h2.symm⟩

/-- The zero-feature regression kernel returns the validation set with new residuals. -/
theorem zeroFeatures_regression_func_frame {F : Type} (A : FloatOps F) (CRE : F → F)
    (fuel : Nat) (ds : DataSetByFeatureCombination F) (U : List F) (ret : F)
    (ds1 : DataSetByFeatureCombination F)
    (h : OptimizedApplyModelUpdateValidationZeroFeaturesRegression.Func A CRE fuel ds U =
      .ok (ret, ds1)) :
    ∃ a, ds1 = { ds with m_aResidualErrors := a } := by
  unfold OptimizedApplyModelUpdateValidationZeroFeaturesRegression.Func at h
  split at h
  · exact absurd h (by simp)
  · split at h
    · exact absurd h (by simp)
    · injection h with h
      injection h with _ h2
      exact ⟨_, h2.symm⟩

/-- The zero-feature binary classification kernel returns the validation set with new
scores. -/
theorem zeroFeatures_binary_func_frame {F : Type} (A : FloatOps F) (LL : F → Nat → F)
    (fuel : Nat) (ds : DataSetByFeatureCombination F) (U : List F) (ret : F)
    (ds1 : DataSetByFeatureCombination F)
    (h : OptimizedApplyModelUpdateValidationZeroFeaturesBinary.Func A LL fuel ds U =
      .ok (ret, ds1)) :
    ∃ a, ds1 = { ds with m_aPredictorScores := a } := by
  unfold OptimizedApplyModelUpdateValidationZeroFeaturesBinary.Func at h
  split at h
  · exact absurd h (by simp)
  · split at h
    · exact absurd h (by simp)
    · injection h with h
      injection h with _ h2
      exact ⟨_, h2.symm⟩

/-- The zero-feature multiclass kernel returns the validation set with new scores. -/
theorem zeroFeatures_multiclass_func_frame {F : Type} (A : FloatOps F) (EbmExp : F → F)
    (LL : F → F → F) (fuel : Nat) (C : Int) (ds : DataSetByFeatureCombination F) (U : List F)
    (ret : F) (ds1 : DataSetByFeatureCombination F)
    (h : OptimizedApplyModelUpdateValidationZeroFeatures.Func A EbmExp LL fuel C ds U =
      .ok (ret, ds1)) :
    ∃ a, ds1 = { ds with m_aPredictorScores := a } := by
  unfold OptimizedApplyModelUpdateValidationZeroFeatures.Func at h
  split at h
  · exact absurd h (by simp)
  · injection h with h
    injection h with _ h2
    exact ⟨_, h2.symm⟩

/-- An instantiation of the general kernel: the regression one returns the set with new
residuals, every other one the set with new scores. -/
theorem internal_instance_frame {F : Type} (E : EbmInternal) (A : FloatOps F)
    (S : EbmStatistics F) (W fuel : Nat) (compiler : Int) (compilerP : Nat) (runtime : Int)
    (runtimeP : Nat) (fc : FeatureCombination) (ds : DataSetByFeatureCombination F) (U : List F)
    (ret : F) (ds1 : DataSetByFeatureCombination F)
    (h : OptimizedApplyModelUpdateValidationInternal.Instance E A S W fuel compiler compilerP
      runtime runtimeP fc ds U = .ok (ret, ds1)) :
    (compiler = E.k_Regression → ∃ a, ds1 = { ds with m_aResidualErrors := a }) ∧
    (compiler ≠ E.k_Regression → ∃ a, ds1 = { ds with m_aPredictorScores := a }) := by
  unfold OptimizedApplyModelUpdateValidationInternal.Instance at h
  by_cases hr : compiler = E.k_Regression
  · simp only [if_pos hr] at h
    exact ⟨fun _ => regression_func_frame A _ W fuel _ fc ds U ret ds1 h,
      fun hn => absurd hr hn⟩
  · simp only [if_neg hr] at h
    refine ⟨fun hn => absurd hn hr, fun _ => ?_⟩
    by_cases h2 : compiler = 2
    · simp only [if_pos h2] at h
      exact binary_func_frame A _ W fuel _ fc ds U ret ds1 h
    · simp only [if_neg h2] at h
      exact multiclass_func_frame A _ _ W fuel _ _ fc ds U ret ds1 h

/-- An instantiation of the zero-feature kernel: the regression one returns the set with new
residuals, every other one the set with new scores. -/
theorem zeroFeatures_instance_frame {F : Type} (E : EbmInternal) (A : FloatOps F)
    (S : EbmStatistics F) (fuel : Nat) (compiler runtime : Int)
    (ds : DataSetByFeatureCombination F) (U : List F)
    (ret : F) (ds1 : DataSetByFeatureCombination F)
    (h : OptimizedApplyModelUpdateValidationZeroFeatures.Instance E A S fuel compiler runtime ds
      U = .ok (ret, ds1)) :
    (compiler = E.k_Regression → ∃ a, ds1 = { ds with m_aResidualErrors := a }) ∧
    (compiler ≠ E.k_Regression → ∃ a, ds1 = { ds with m_aPredictorScores := a }) := by
  unfold OptimizedApplyModelUpdateValidationZeroFeatures.Instance at h
  by_cases hr : compiler = E.k_Regression
  · simp only [if_pos hr] at h
    exact ⟨fun _ => zeroFeatures_regression_func_frame A _ fuel ds U ret ds1 h,
      fun hn => absurd hr hn⟩
  · simp only [if_neg hr] at h
    refine ⟨fun hn => absurd hn hr, fun _ => ?_⟩
    by_cases h2 : compiler = 2
    · simp only [if_pos h2] at h
      exact zeroFeatures_binary_func_frame A _ fuel ds U ret ds1 h
    · simp only [if_neg h2] at h
      exact zeroFeatures_multiclass_func_frame A _ _ fuel _ ds U ret ds1 h

/-- The chain over the pack widths returns what one instantiation of the general kernel
returns. -/
theorem magic_frame {F : Type} (E : EbmInternal) (A : FloatOps F)
    (S : EbmStatistics F) (W fuel : Nat) (compiler runtime : Int) (runtimeP : Nat)
    (fc : FeatureCombination) (ds : DataSetByFeatureCombination F) (U : List F)
    (ret : F) (ds1 : DataSetByFeatureCombination F) :
    ∀ (depth possible : Nat),
      OptimizedApplyModelUpdateValidationCompiler.MagicCompilerLoopFunction E A S W fuel compiler
        runtime runtimeP fc ds U depth possible = .ok (ret, ds1) →
      (compiler = E.k_Regression → ∃ a, ds1 = { ds with m_aResidualErrors := a }) ∧
      (compiler ≠ E.k_Regression → ∃ a, ds1 = { ds with m_aPredictorScores := a }) := by
  intro depth
  induction depth with
  | zero =>
    intro possible h
    unfold OptimizedApplyModelUpdateValidationCompiler.MagicCompilerLoopFunction at h
    exact absurd h (by simp)
  | succ depth ih =>
    intro possible h
    unfold OptimizedApplyModelUpdateValidationCompiler.MagicCompilerLoopFunction at h
    by_cases hd : possible = E.k_cItemsPerBitPackedDataUnitDynamic
    · rw [if_pos hd] at h
      exact internal_instance_frame E A S W fuel compiler _ runtime runtimeP fc ds U ret ds1 h
    · rw [if_neg hd] at h
      by_cases hr : possible = runtimeP
      · rw [if_pos hr] at h
        exact internal_instance_frame E A S W fuel compiler _ runtime runtimeP fc ds U ret ds1 h
      · rw [if_neg hr] at h
        exact ih _ h

/-- The kernel choice returns the set with new residuals for the regression instantiation and
with new scores for every other one. -/
theorem dispatch_frame {F : Type} (E : EbmInternal) (A : FloatOps F)
    (S : EbmStatistics F) (W fuel : Nat) (compiler runtime : Int) (bUseSIMD : Bool)
    (fc : FeatureCombination) (ds : DataSetByFeatureCombination F) (U : List F)
    (ret : F) (ds1 : DataSetByFeatureCombination F)
    (h : OptimizedApplyModelUpdateValidation.Dispatch E A S W fuel compiler runtime bUseSIMD fc
      ds U = .ok (ret, ds1)) :
    (compiler = E.k_Regression → ∃ a, ds1 = { ds with m_aResidualErrors := a }) ∧
    (compiler ≠ E.k_Regression → ∃ a, ds1 = { ds with m_aPredictorScores := a }) := by
  unfold OptimizedApplyModelUpdateValidation.Dispatch at h
  by_cases h0 : 0 = fc.m_cFeatures
  · rw [if_pos h0] at h
    exact zeroFeatures_instance_frame E A S fuel compiler runtime ds U ret ds1 h
  · rw [if_neg h0] at h
    cases bUseSIMD with
    | true =>
      simp only [if_true] at h
      exact magic_frame E A S W fuel compiler runtime _ fc ds U ret ds1 _ _ h
    | false =>
      simp only [Bool.false_eq_true, if_false] at h
      exact internal_instance_frame E A S W fuel compiler _ runtime _ fc ds U ret ds1 h

/-- The entry point returns the validation set of the kernel choice. -/
theorem OptimizedApplyModelUpdateValidation_ok {F : Type} (E : EbmInternal) (A : FloatOps F)
    (S : EbmStatistics F) (W fuel : Nat) (compiler runtime : Int) (bUseSIMD : Bool)
    (fc : FeatureCombination) (ds : DataSetByFeatureCombination F) (U : List F) (m : F)
    (ds1 : DataSetByFeatureCombination F)
    (h : OptimizedApplyModelUpdateValidation E A S W fuel compiler runtime bUseSIMD fc ds U =
      .ok (m, ds1)) :
    ∃ ret, OptimizedApplyModelUpdateValidation.Dispatch E A S W fuel compiler runtime bUseSIMD
        fc ds U = .ok (ret, ds1) ∧
      m = OptimizedApplyModelUpdateValidation.Finish E A compiler ret := by
  unfold OptimizedApplyModelUpdateValidation at h
  split at h
  · exact absurd h (by simp)
  · rename_i ret ds2 heq
    injection h with h
    injection h with h1 h2
    subst h2
    exact ⟨ret, heq, h1.symm⟩

/-- C26. Frame of the validation applier: whenever `OptimizedApplyModelUpdateValidation`
returns, for whatever objective, kernel path, feature combination and tensor, the validation
set it leaves has the instance count, the targets and the packed input words of every feature
combination it had before; the regression instantiation leaves the predictor scores as they
were and every classification instantiation leaves the residuals as they were. The update
tensor and the feature combination are `const` arguments, passed by value here. -/
theorem applier_frame {F : Type} (E : EbmInternal) (A : FloatOps F)
    (S : EbmStatistics F) (W fuel : Nat) (compiler runtime : Int) (bUseSIMD : Bool)
    (fc : FeatureCombination) (ds : DataSetByFeatureCombination F) (U : List F) (m : F)
    (ds1 : DataSetByFeatureCombination F)
    (h : OptimizedApplyModelUpdateValidation E A S W fuel compiler runtime bUseSIMD fc ds U =
      .ok (m, ds1)) :
    ds1.m_cInstances = ds.m_cInstances ∧
    ds1.m_aTargetData = ds.m_aTargetData ∧
    ds1.GetInputDataPointer = ds.GetInputDataPointer ∧
    (compiler = E.k_Regression → ds1.m_aPredictorScores = ds.m_aPredictorScores ∧
      ds1 = { ds with m_aResidualErrors := ds1.m_aResidualErrors }) ∧
    (compiler ≠ E.k_Regression → ds1.m_aResidualErrors = ds.m_aResidualErrors ∧
      ds1 = { ds with m_aPredictorScores := ds1.m_aPredictorScores }) := by
  obtain ⟨ret, hd, _⟩ := OptimizedApplyModelUpdateValidation_ok E A S W fuel compiler runtime
    bUseSIMD fc ds U m ds1 h
  have hf := dispatch_frame E A S W fuel compiler runtime bUseSIMD fc ds U ret ds1 hd
  by_cases hr : compiler = E.k_Regression
  · obtain ⟨a, ha⟩ := hf.1 hr
    subst ha
    exact ⟨rfl, rfl, rfl, fun _ => ⟨rfl, rfl⟩, fun hn => absurd hr hn⟩
  · obtain ⟨a, ha⟩ := hf.2 hr
    subst ha
    exact ⟨rfl, rfl, rfl, fun hn => absurd hn hr, fun _ => ⟨rfl, rfl⟩⟩

/-- For C26: the regression call on four instances packed 32 to a word: the residuals change,
and the scores `[7]`, the targets `[8, 9]`, the count and the column are as before. -/
theorem applier_frame_witness :
    OptimizedApplyModelUpdateValidation ebmInternal64 exactOps
        ⟨id, id, fun x _ => x, fun x _ => x⟩ 64 5 (-1) (-1) false ⟨1, 32, 0⟩
        ⟨4, [1, 2, 3, 4], [7], [8, 9], fun _ => [81]⟩ [10, 20] =
      .ok (485 / 2, ⟨4, [-19, -8, -17, -16], [7], [8, 9], fun _ => [81]⟩) ∧
    (⟨4, [-19, -8, -17, -16], [7], [8, 9], fun _ => [81]⟩ :
        DataSetByFeatureCombination ℚ).m_aTargetData = [8, 9] ∧
    ((-1 : Int) = ebmInternal64.k_Regression →
      (⟨4, [-19, -8, -17, -16], [7], [8, 9], fun _ => [81]⟩ :
        DataSetByFeatureCombination ℚ).m_aPredictorScores = [7] ∧
      (⟨4, [-19, -8, -17, -16], [7], [8, 9], fun _ => [81]⟩ : DataSetByFeatureCombination ℚ) =
        { (⟨4, [1, 2, 3, 4], [7], [8, 9], fun _ => [81]⟩ : DataSetByFeatureCombination ℚ) with
          m_aResidualErrors := [-19, -8, -17, -16] }) := by
  have hrun : OptimizedApplyModelUpdateValidation ebmInternal64 exactOps
        ⟨id, id, fun x _ => x, fun x _ => x⟩ 64 5 (-1) (-1) false ⟨1, 32, 0⟩
        ⟨4, [1, 2, 3, 4], [7], [8, 9], fun _ => [81]⟩ [10, 20] =
      .ok (485 / 2, ⟨4, [-19, -8, -17, -16], [7], [8, 9], fun _ => [81]⟩) := by
    simp [OptimizedApplyModelUpdateValidation, OptimizedApplyModelUpdateValidation.Finish,
      OptimizedApplyModelUpdateValidation.Dispatch,
      OptimizedApplyModelUpdateValidationInternal.Instance,
      GET_COUNT_ITEMS_PER_BIT_PACKED_DATA_UNIT, ebmInternal64,
      OptimizedApplyModelUpdateValidationInternalRegression.Func,
      OptimizedApplyModelUpdateValidationInternalRegression.Run, bitPackedLoop, outerLoop,
      oneLastLoop, innerLoop, regressionItem, Cursor.start, exactOps, GetCountBits, maskBits,
      ComputeSingleInstanceSquaredErrorRegression, (by decide : 3 &&& 81 = 1),
      (by decide : 3 &&& 20 = 0), (by decide : 3 &&& 5 = 1)]
    norm_num
  have hf := applier_frame ebmInternal64 exactOps ⟨id, id, fun x _ => x, fun x _ => x⟩ 64 5
    (-1) (-1) false ⟨1, 32, 0⟩ ⟨4, [1, 2, 3, 4], [7], [8, 9], fun _ => [81]⟩ [10, 20] _ _ hrun
  exact ⟨hrun, hf.2.1, hf.2.2.2.1⟩

/-! ## The state the applier leaves when the metric is replaced -/

/-- With at least one feature the kernel choice is the dynamic instantiation of the general
kernel, when the chain of pack widths ends. -/
theorem dispatch_general {F : Type} (E : EbmInternal) (A : FloatOps F)
    (S : EbmStatistics F) (W fuel : Nat) (compiler runtime : Int) (bUseSIMD : Bool)
    (fc : FeatureCombination) (ds : DataSetByFeatureCombination F) (U : List F)
    (h0 : 0 ≠ fc.m_cFeatures)
    (hchain : bUseSIMD = true → ∃ k, k < fuel ∧
      (E.GetNextCountItemsBitPacked^[k] E.k_cItemsPerBitPackedDataUnitMax =
          E.k_cItemsPerBitPackedDataUnitDynamic ∨
        E.GetNextCountItemsBitPacked^[k] E.k_cItemsPerBitPackedDataUnitMax =
          fc.m_cItemsPerBitPackedDataUnit)) :
    OptimizedApplyModelUpdateValidation.Dispatch E A S W fuel compiler runtime bUseSIMD fc ds U =
      OptimizedApplyModelUpdateValidationInternal.Instance E A S W fuel compiler
        E.k_cItemsPerBitPackedDataUnitDynamic runtime fc.m_cItemsPerBitPackedDataUnit fc ds
        U := by
  rw [dispatch_simd_eq E A S W fuel compiler runtime bUseSIMD fc ds U hchain]
  unfold OptimizedApplyModelUpdateValidation.Dispatch
  rw [if_neg h0]
  simp

/-- The dynamic instantiation of the general kernel for regression. -/
theorem internal_instance_regression {F : Type} (E : EbmInternal) (A : FloatOps F)
    (S : EbmStatistics F) (W fuel : Nat) (runtime : Int) (P : Nat)
    (fc : FeatureCombination) (ds : DataSetByFeatureCombination F) (U : List F) :
    OptimizedApplyModelUpdateValidationInternal.Instance E A S W fuel E.k_Regression
        E.k_cItemsPerBitPackedDataUnitDynamic runtime P fc ds U =
      OptimizedApplyModelUpdateValidationInternalRegression.Func A
        S.ComputeResidualErrorRegression W fuel P fc ds U := by
  simp [OptimizedApplyModelUpdateValidationInternal.Instance,
    GET_COUNT_ITEMS_PER_BIT_PACKED_DATA_UNIT]

/-- The dynamic instantiation of the general kernel for binary classification. -/
theorem internal_instance_binary {F : Type} (E : EbmInternal) (A : FloatOps F)
    (S : EbmStatistics F) (W fuel : Nat) (runtime : Int) (P : Nat)
    (fc : FeatureCombination) (ds : DataSetByFeatureCombination F) (U : List F)
    (h2 : (2 : Int) ≠ E.k_Regression) :
    OptimizedApplyModelUpdateValidationInternal.Instance E A S W fuel 2
        E.k_cItemsPerBitPackedDataUnitDynamic runtime P fc ds U =
      OptimizedApplyModelUpdateValidationInternalBinary.Func A
        S.ComputeSingleInstanceLogLossBinaryClassification W fuel P fc ds U := by
  simp [OptimizedApplyModelUpdateValidationInternal.Instance,
    GET_COUNT_ITEMS_PER_BIT_PACKED_DATA_UNIT, h2]

/-- The dynamic instantiation of the general kernel for the other class counts. -/
theorem internal_instance_multiclass {F : Type} (E : EbmInternal) (A : FloatOps F)
    (S : EbmStatistics F) (W fuel : Nat) (compiler runtime : Int) (P : Nat)
    (fc : FeatureCombination) (ds : DataSetByFeatureCombination F) (U : List F)
    (hr : compiler ≠ E.k_Regression) (h2 : compiler ≠ 2) :
    OptimizedApplyModelUpdateValidationInternal.Instance E A S W fuel compiler
        E.k_cItemsPerBitPackedDataUnitDynamic runtime P fc ds U =
      OptimizedApplyModelUpdateValidationInternal.Func A S.EbmExp
        S.ComputeSingleInstanceLogLossMulticlass W fuel
        (GET_LEARNING_TYPE_OR_COUNT_TARGET_CLASSES E.k_DynamicClassification compiler runtime)
        P fc ds U := by
  simp [OptimizedApplyModelUpdateValidationInternal.Instance,
    GET_COUNT_ITEMS_PER_BIT_PACKED_DATA_UNIT, hr, h2]

/-- The entry point after a kernel choice that returned: the metric is what `Finish` makes of
the raw one, the largest finite value when the raw one is NaN or infinite, and the validation
set is the kernel's. -/
theorem OptimizedApplyModelUpdateValidation_sentinel {F : Type} (E : EbmInternal)
    (A : FloatOps F) (S : EbmStatistics F) (W fuel : Nat) (compiler runtime : Int)
    (bUseSIMD : Bool) (fc : FeatureCombination) (ds : DataSetByFeatureCombination F)
    (U : List F) (ret : F) (ds1 : DataSetByFeatureCombination F)
    (hraw : OptimizedApplyModelUpdateValidation.Dispatch E A S W fuel compiler runtime bUseSIMD
      fc ds U = .ok (ret, ds1)) :
    OptimizedApplyModelUpdateValidation E A S W fuel compiler runtime bUseSIMD fc ds U =
        .ok (OptimizedApplyModelUpdateValidation.Finish E A compiler ret, ds1) ∧
    (A.isnan ret = true ∨ A.isinf ret = true →
      OptimizedApplyModelUpdateValidation E A S W fuel compiler runtime bUseSIMD fc ds U =
        .ok (A.max, ds1)) := by
  have h := OptimizedApplyModelUpdateValidation_of_raw E A S W fuel compiler runtime bUseSIMD fc
    ds U ret ds1 hraw
  refine ⟨h, fun hnf => ?_⟩
  rw [h]
  unfold OptimizedApplyModelUpdateValidation.Finish
  rw [if_pos (by rcases hnf with h | h <;> simp [h])]

/-- C25. No rollback: whenever the kernel choice of `OptimizedApplyModelUpdateValidation`
returns a raw metric and a validation set, the entry point returns that same validation set,
with the metric that the tail of the function makes of the raw one, the sentinel
`std::numeric_limits<FloatEbmType>::max()` when the raw one is NaN or infinite; and every
validation set the entry point returns is the one its kernel choice returned. For the general
kernels of the three objectives, under the input conditions of each, the call returns and the
validation set returned, also with the sentinel, has the residual or the score of every one of
the `cInstances` instances updated with the tensor value of its bin. -/
theorem no_rollback {F : Type} (E : EbmInternal) (A : FloatOps F) (S : EbmStatistics F)
    (W fuel : Nat) (bUseSIMD : Bool) (fc : FeatureCombination)
    (hchain : bUseSIMD = true → ∃ k, k < fuel ∧
      (E.GetNextCountItemsBitPacked^[k] E.k_cItemsPerBitPackedDataUnitMax =
          E.k_cItemsPerBitPackedDataUnitDynamic ∨
        E.GetNextCountItemsBitPacked^[k] E.k_cItemsPerBitPackedDataUnitMax =
          fc.m_cItemsPerBitPackedDataUnit)) :
    (∀ (compiler runtime : Int) (ds : DataSetByFeatureCombination F) (U : List F) (ret : F)
        (ds1 : DataSetByFeatureCombination F),
      OptimizedApplyModelUpdateValidation.Dispatch E A S W fuel compiler runtime bUseSIMD fc ds
        U = .ok (ret, ds1) →
      OptimizedApplyModelUpdateValidation E A S W fuel compiler runtime bUseSIMD fc ds U =
          .ok (OptimizedApplyModelUpdateValidation.Finish E A compiler ret, ds1) ∧
      (A.isnan ret = true ∨ A.isinf ret = true →
        OptimizedApplyModelUpdateValidation E A S W fuel compiler runtime bUseSIMD fc ds U =
          .ok (A.max, ds1))) ∧
    (∀ (compiler runtime : Int) (ds : DataSetByFeatureCombination F) (U : List F) (m : F)
        (ds1 : DataSetByFeatureCombination F),
      OptimizedApplyModelUpdateValidation E A S W fuel compiler runtime bUseSIMD fc ds U =
        .ok (m, ds1) →
      ∃ ret, OptimizedApplyModelUpdateValidation.Dispatch E A S W fuel compiler runtime bUseSIMD
          fc ds U = .ok (ret, ds1) ∧
        m = OptimizedApplyModelUpdateValidation.Finish E A compiler ret) ∧
    (∀ (runtime : Int) (ds : DataSetByFeatureCombination F) (U : List F),
      0 ≠ fc.m_cFeatures → 1 ≤ ds.m_cInstances → 1 ≤ fc.m_cItemsPerBitPackedDataUnit →
      ds.m_cInstances < fuel → ds.m_cInstances ≤ ds.m_aResidualErrors.length →
      (ds.m_cInstances - 1) / fc.m_cItemsPerBitPackedDataUnit <
        (ds.GetInputDataPointer fc).length →
      (∀ i, i < ds.m_cInstances →
        decodeItem W fc.m_cItemsPerBitPackedDataUnit (ds.GetInputDataPointer fc) i < U.length) →
      ∃ (ret : F) (ds1 : DataSetByFeatureCombination F),
        OptimizedApplyModelUpdateValidation.Dispatch E A S W fuel E.k_Regression runtime
          bUseSIMD fc ds U = .ok (ret, ds1) ∧
        OptimizedApplyModelUpdateValidation E A S W fuel E.k_Regression runtime bUseSIMD fc ds
          U = .ok (OptimizedApplyModelUpdateValidation.Finish E A E.k_Regression ret, ds1) ∧
        (A.isnan ret = true ∨ A.isinf ret = true →
          OptimizedApplyModelUpdateValidation E A S W fuel E.k_Regression runtime bUseSIMD fc ds
            U = .ok (A.max, ds1)) ∧
        (∀ i r u, i < ds.m_cInstances → ds.m_aResidualErrors[i]? = some r →
          U[decodeItem W fc.m_cItemsPerBitPackedDataUnit (ds.GetInputDataPointer fc) i]? =
            some u →
          ds1.m_aResidualErrors[i]? = some (S.ComputeResidualErrorRegression (A.sub r u)))) ∧
    (∀ (runtime : Int) (ds : DataSetByFeatureCombination F) (U : List F),
      (2 : Int) ≠ E.k_Regression →
      0 ≠ fc.m_cFeatures → 1 ≤ ds.m_cInstances → 1 ≤ fc.m_cItemsPerBitPackedDataUnit →
      ds.m_cInstances < fuel → ds.m_cInstances ≤ ds.m_aPredictorScores.length →
      ds.m_cInstances ≤ ds.m_aTargetData.length →
      (ds.m_cInstances - 1) / fc.m_cItemsPerBitPackedDataUnit <
        (ds.GetInputDataPointer fc).length →
      (∀ i, i < ds.m_cInstances →
        decodeItem W fc.m_cItemsPerBitPackedDataUnit (ds.GetInputDataPointer fc) i < U.length) →
      ∃ (ret : F) (ds1 : DataSetByFeatureCombination F),
        OptimizedApplyModelUpdateValidation.Dispatch E A S W fuel 2 runtime
          bUseSIMD fc ds U = .ok (ret, ds1) ∧
        OptimizedApplyModelUpdateValidation E A S W fuel 2 runtime bUseSIMD fc ds
          U = .ok (OptimizedApplyModelUpdateValidation.Finish E A 2 ret, ds1) ∧
        (A.isnan ret = true ∨ A.isinf ret = true →
          OptimizedApplyModelUpdateValidation E A S W fuel 2 runtime bUseSIMD fc ds
            U = .ok (A.max, ds1)) ∧
        (∀ i s u, i < ds.m_cInstances → ds.m_aPredictorScores[i]? = some s →
          U[decodeItem W fc.m_cItemsPerBitPackedDataUnit (ds.GetInputDataPointer fc) i]? =
            some u →
          ds1.m_aPredictorScores[i]? = some (A.add s u))) ∧
    (∀ (compiler runtime : Int) (C : Nat) (ds : DataSetByFeatureCombination F) (U : List F),
      compiler ≠ E.k_Regression → compiler ≠ 2 →
      GET_LEARNING_TYPE_OR_COUNT_TARGET_CLASSES E.k_DynamicClassification compiler runtime = C →
      3 ≤ C →
      0 ≠ fc.m_cFeatures → 1 ≤ ds.m_cInstances → 1 ≤ fc.m_cItemsPerBitPackedDataUnit →
      ds.m_cInstances < fuel → C ≤ fuel →
      ds.m_cInstances * C ≤ ds.m_aPredictorScores.length →
      ds.m_cInstances ≤ ds.m_aTargetData.length →
      (ds.m_cInstances - 1) / fc.m_cItemsPerBitPackedDataUnit <
        (ds.GetInputDataPointer fc).length →
      (∀ i, i < ds.m_cInstances →
        decodeItem W fc.m_cItemsPerBitPackedDataUnit (ds.GetInputDataPointer fc) i * C + C ≤
          U.length) →
      ∃ (ret : F) (ds1 : DataSetByFeatureCombination F),
        OptimizedApplyModelUpdateValidation.Dispatch E A S W fuel compiler runtime
          bUseSIMD fc ds U = .ok (ret, ds1) ∧
        OptimizedApplyModelUpdateValidation E A S W fuel compiler runtime bUseSIMD fc ds
          U = .ok (OptimizedApplyModelUpdateValidation.Finish E A compiler ret, ds1) ∧
        (A.isnan ret = true ∨ A.isinf ret = true →
          OptimizedApplyModelUpdateValidation E A S W fuel compiler runtime bUseSIMD fc ds
            U = .ok (A.max, ds1)) ∧
        (∀ i v s u, i < ds.m_cInstances → v < C → ds.m_aPredictorScores[i * C + v]? = some s →
          U[decodeItem W fc.m_cItemsPerBitPackedDataUnit (ds.GetInputDataPointer fc) i * C +
            v]? = some u →
          ds1.m_aPredictorScores[i * C + v]? = some (A.add s u))) := by
  refine ⟨?_, ?_, ?_, ?_, ?_⟩
  · intro compiler runtime ds U ret ds1 hraw
    exact OptimizedApplyModelUpdateValidation_sentinel E A S W fuel compiler runtime bUseSIMD fc
      ds U ret ds1 hraw
  · intro compiler runtime ds U m ds1 h
    exact OptimizedApplyModelUpdateValidation_ok E A S W fuel compiler runtime bUseSIMD fc ds U
      m ds1 h
  · intro runtime ds U h0 hN hP hfuel hres hcol hU
    have hraw := ((dispatch_general E A S W fuel E.k_Regression runtime bUseSIMD fc ds U h0
      hchain).trans (internal_instance_regression E A S W fuel runtime _ fc ds U)).trans
      (regression_func A S.ComputeResidualErrorRegression W fuel
        fc.m_cItemsPerBitPackedDataUnit fc ds U hN hP hfuel hres hcol hU)
    have hs := OptimizedApplyModelUpdateValidation_sentinel E A S W fuel E.k_Regression runtime
      bUseSIMD fc ds U _ _ hraw
    refine ⟨_, _, hraw, hs.1, hs.2, ?_⟩
    intro i r u hi hr hu
    show (prefixMap _ _ _)[i]? = _
    rw [prefixMap_getElem?_lt _ _ _ _ hi]
    simp [residualNew, List.getD_eq_getElem?_getD, hr, hu]
  · intro runtime ds U h2 h0 hN hP hfuel hsc htg hcol hU
    have hraw := ((dispatch_general E A S W fuel 2 runtime bUseSIMD fc ds U h0
      hchain).trans (internal_instance_binary E A S W fuel runtime _ fc ds U h2)).trans
      (binary_func A S.ComputeSingleInstanceLogLossBinaryClassification W fuel
        fc.m_cItemsPerBitPackedDataUnit fc ds U hN hP hfuel hsc htg hcol hU)
    have hs := OptimizedApplyModelUpdateValidation_sentinel E A S W fuel 2 runtime
      bUseSIMD fc ds U _ _ hraw
    refine ⟨_, _, hraw, hs.1, hs.2, ?_⟩
    intro i s u hi hs1 hu
    show (prefixMap _ _ _)[i]? = _
    rw [prefixMap_getElem?_lt _ _ _ _ hi]
    simp [scoreNew, List.getD_eq_getElem?_getD, hs1, hu]
  · intro compiler runtime C ds U hr h2 hget hC h0 hN hP hfuel hfuelC hsc htg hcol hU
    have hinst := internal_instance_multiclass E A S W fuel compiler runtime
      fc.m_cItemsPerBitPackedDataUnit fc ds U hr h2
    rw [hget] at hinst
    have hraw := ((dispatch_general E A S W fuel compiler runtime bUseSIMD fc ds U h0
      hchain).trans hinst).trans
      (multiclass_func A S.EbmExp S.ComputeSingleInstanceLogLossMulticlass W fuel C
        fc.m_cItemsPerBitPackedDataUnit fc ds U hC hN hP hfuel hfuelC hsc htg hcol hU)
    have hs := OptimizedApplyModelUpdateValidation_sentinel E A S W fuel compiler runtime
      bUseSIMD fc ds U _ _ hraw
    refine ⟨_, _, hraw, hs.1, hs.2, ?_⟩
    intro i v s u hi hv hs1 hu
    have hlt : i * C + v < ds.m_cInstances * C := by
      have : (i + 1) * C ≤ ds.m_cInstances * C := Nat.mul_le_mul_right _ hi
      rw [Nat.succ_mul] at this
      omega
    show (prefixMap _ _ _)[i * C + v]? = _
    rw [prefixMap_getElem?_lt _ _ _ _ hlt]
    have h1 : (i * C + v) / C = i := by
      rw [Nat.mul_comm, Nat.mul_add_div (by omega), Nat.div_eq_of_lt hv, Nat.add_zero]
    have h2 : (i * C + v) % C = v := Nat.mul_add_mod_of_lt hv
    simp [multiclassScoreNew, h1, h2, List.getD_eq_getElem?_getD, hs1, hu]

/-- For C25: a regression set of doubles with the residuals `[NaN, 1]` and the update
`U = [+inf]`, on the path with `bUseSIMD` set: the raw mean is NaN, the metric returned is the
largest finite double, and the set returned has both residuals updated, to `[NaN, -inf]`. -/
theorem no_rollback_witness :
    OptimizedApplyModelUpdateValidation ebmInternal64 binary64Ops
      ⟨id, id, fun x _ => x, fun x _ => x⟩ 64 3 (-1) (-1) true ⟨1, 64, 0⟩
      ⟨2, [Binary64.nan, Binary64.finite 1], [], [], fun _ => [0]⟩ [Binary64.inf false] =
        .ok (Binary64.finite (2 ^ 1024 - 2 ^ 971),
          ⟨2, [Binary64.nan, Binary64.inf true], [], [], fun _ => [0]⟩) := by
  have hraw : OptimizedApplyModelUpdateValidation.Dispatch ebmInternal64 binary64Ops
      ⟨id, id, fun x _ => x, fun x _ => x⟩ 64 3 (-1) (-1) true ⟨1, 64, 0⟩
      ⟨2, [Binary64.nan, Binary64.finite 1], [], [], fun _ => [0]⟩ [Binary64.inf false] =
        .ok (Binary64.nan, ⟨2, [Binary64.nan, Binary64.inf true], [], [], fun _ => [0]⟩) := by
    simp [OptimizedApplyModelUpdateValidation.Dispatch,
      OptimizedApplyModelUpdateValidationCompiler.MagicCompilerLoopFunction,
      OptimizedApplyModelUpdateValidationInternal.Instance,
      GET_COUNT_ITEMS_PER_BIT_PACKED_DATA_UNIT, ebmInternal64,
      OptimizedApplyModelUpdateValidationInternalRegression.Func,
      OptimizedApplyModelUpdateValidationInternalRegression.Run, bitPackedLoop, outerLoop,
      oneLastLoop, innerLoop, regressionItem, Cursor.start, binary64Ops, GetCountBits, maskBits,
      ComputeSingleInstanceSquaredErrorRegression, Binary64.add, Binary64.neg, Binary64.mul,
      Binary64.div]
  exact ((no_rollback ebmInternal64 binary64Ops ⟨id, id, fun x _ => x, fun x _ => x⟩ 64 3 true
    ⟨1, 64, 0⟩ (fun _ => ⟨0, by decide, Or.inr rfl⟩)).1 (-1) (-1)
    ⟨2, [Binary64.nan, Binary64.finite 1], [], [], fun _ => [0]⟩ [Binary64.inf false]
    Binary64.nan _ hraw).2 (Or.inl rfl)

/-! ## The empty combination and the trivial classification target -/

/-- C37. Empty combination, with `0` a number that `IsNumberConvertable<size_t, IntEbmType>`
accepts: `GetInteractionScore` called with `countFeaturesInCombination = 0` returns 0 and calls
no scorer, whatever the state (with or without a data set, whatever the objective), the
contents of `featureIndexes` and the allocation outcome are; when `interactionScoreReturn` is
not null the value behind it becomes zero, and when it is null nothing is stored. -/
theorem empty_combination_short_circuit {D F : Type} (E : EbmInternal) (A : FloatOps F)
    (bAllocated : Bool)
    (CalculateInteractionScore : Int → Int → Option D → List Feature → Nat → Bool × Option F)
    (pEbmInteractionState : EbmInteractionState D) (featureIndexes : List Int)
    (hzero : E.IsNumberConvertable 0 = true) :
    (∀ x : F, GetInteractionScore E A bAllocated CalculateInteractionScore pEbmInteractionState
        0 featureIndexes (some x) = .ok ⟨0, some A.zero, [], 0⟩) ∧
    GetInteractionScore E A bAllocated CalculateInteractionScore pEbmInteractionState
        0 featureIndexes none = .ok ⟨0, none, [], 0⟩ := by
  constructor
  · intro x
    unfold GetInteractionScore
    simp [hzero]
  · unfold GetInteractionScore
    simp [hzero]

/-- For C37: a regression state with a data set and a classification state without one, each
with the count 0 and an array of indexes that holds nothing: the call returns 0 and replaces
the `7` behind the pointer by `0`; with a null pointer it returns 0 as well. -/
theorem empty_combination_short_circuit_witness :
    GetInteractionScore ebmInternal64 exactOps true (fun _ _ _ _ _ => (false, some 1))
        (⟨-1, 2, [⟨2⟩, ⟨2⟩], some ()⟩ : EbmInteractionState Unit) 0 [] (some 7) =
      .ok ⟨0, some 0, [], 0⟩ ∧
    GetInteractionScore ebmInternal64 exactOps false (fun _ _ _ _ _ => (false, some 1))
        (⟨3, 2, [⟨2⟩, ⟨2⟩], none⟩ : EbmInteractionState Unit) 0 [] none =
      .ok ⟨0, none, [], 0⟩ :=
  ⟨(empty_combination_short_circuit ebmInternal64 exactOps true
      (fun _ _ _ _ _ => (false, some 1)) ⟨-1, 2, [⟨2⟩, ⟨2⟩], some ()⟩ [] (by decide)).1 7,
    (empty_combination_short_circuit ebmInternal64 exactOps false
      (fun _ _ _ _ _ => (false, some 1)) ⟨3, 2, [⟨2⟩, ⟨2⟩], none⟩ [] (by decide)).2⟩

/-- C38. Trivial classification target: for every classification state whose class count is at
most 1, with a data set, and every list of at least one and at most `k_cDimensionsMax` valid
features with at least two bins each, `GetInteractionScore` returns 0, the value behind
`interactionScoreReturn`, when that pointer is not null, becomes exactly zero, and no scorer
template is entered. -/
theorem trivial_target_short_circuit {D F : Type} (E : EbmInternal) (A : FloatOps F)
    (bAllocated : Bool)
    (CalculateInteractionScore : Int → Int → Option D → List Feature → Nat → Bool × Option F)
    (pEbmInteractionState : EbmInteractionState D) (countFeaturesInCombination : Int)
    (featureIndexes : List Int) (interactionScoreReturn : Option F) (pDataSet : D)
    (hcount : E.IsNumberConvertable countFeaturesInCombination = true)
    (hpos : 0 < countFeaturesInCombination.toNat)
    (hmax : countFeaturesInCombination.toNat ≤ E.k_cDimensionsMax)
    (hds : pEbmInteractionState.m_pDataSet = some pDataSet)
    (hvalid : ∀ j, j < countFeaturesInCombination.toNat → ∃ idx f,
      featureIndexes[j]? = some idx ∧ E.IsNumberConvertable idx = true ∧
      pEbmInteractionState.m_aFeatures[idx.toNat]? = some f ∧ 2 ≤ f.m_cBins)
    (hclass : E.IsClassification
      pEbmInteractionState.m_runtimeLearningTypeOrCountTargetClasses = true)
    (hone : pEbmInteractionState.m_runtimeLearningTypeOrCountTargetClasses ≤ 1) :
    GetInteractionScore E A bAllocated CalculateInteractionScore pEbmInteractionState
        countFeaturesInCombination featureIndexes interactionScoreReturn =
      .ok ⟨0, interactionScoreReturn.map fun _ => A.zero, [], 0⟩ := by
  obtain ⟨fc, _, hd⟩ := GetInteractionScore_dispatch E A bAllocated CalculateInteractionScore
    pEbmInteractionState countFeaturesInCombination featureIndexes interactionScoreReturn
    pDataSet hcount hpos hmax hds hvalid
  rw [hd, if_pos hclass, if_pos hone]

/-- For C38: a classification state with one class, a data set and two features of two bins
each, and the pair of the two: the call returns 0 and replaces the `7` behind the pointer by
`0`, where the same call on a state with two classes runs the scorer. -/
theorem trivial_target_short_circuit_witness :
    GetInteractionScore ebmInternal64 exactOps true (fun _ _ _ _ _ => (false, some 1))
        (⟨1, 2, [⟨2⟩, ⟨2⟩], some ()⟩ : EbmInteractionState Unit) 2 [0, 1] (some 7) =
      .ok ⟨0, some 0, [], 0⟩ ∧
    GetInteractionScore ebmInternal64 exactOps true (fun _ _ _ _ _ => (false, some 1))
        (⟨2, 2, [⟨2⟩, ⟨2⟩], some ()⟩ : EbmInteractionState Unit) 2 [0, 1] (some 7) =
      .ok ⟨0, some 1, [2], 0⟩ := by
  refine ⟨trivial_target_short_circuit ebmInternal64 exactOps true
    (fun _ _ _ _ _ => (false, some 1)) ⟨1, 2, [⟨2⟩, ⟨2⟩], some ()⟩ 2 [0, 1] (some 7) ()
    (by decide) (by decide) (by decide) rfl
    (by
      intro j hj
      match j, hj with
      | 0, _ => exact ⟨0, ⟨2⟩, rfl, by decide, rfl, by decide⟩
      | 1, _ => exact ⟨1, ⟨2⟩, rfl, by decide, rfl, by decide⟩)
    (by decide) (by decide), ?_⟩
  simp [GetInteractionScore, ebmInternal64, scanFeatureIndexes, fillFeatureCombination,
    CompilerRecursiveGetInteractionScore, GetInteractionScorePerTargetClasses]

/-! ## The shift amounts of the bit-pack loop -/

/-- A pass of the inner loop that does not end it goes on with `iTensorBinCombined` shifted
right by `cBitsPerItemMax`. -/
theorem innerLoop_shift {F : Type} (item : Nat → Cursor F → Except Fault (Cursor F))
    (mask b pInnerEnd fuel w : Nat) (c c1 : Cursor F)
    (hitem : item (mask &&& w)
      { c with trace := c.trace ++ [⟨c.pInputData - 1, c.pState, mask &&& w⟩] } = .ok c1)
    (hgo : pInnerEnd ≠ c1.pState) :
    innerLoop item mask b pInnerEnd (fuel + 1) w c =
      innerLoop item mask b pInnerEnd fuel (w >>> b) c1 := by
  simp only [innerLoop, hitem]
  rw [if_pos hgo]

/-- C34. The shift amounts of the applier, for every word width `W` and every `P` with
`1 <= P <= W`, the range the assertions of `Func` admit, with `b = GetCountBits(P) =
floor(W / P)`: the shift `W - b` that builds the mask is strictly less than `W`, and the shift
`b` by which a pass of the inner loop advances `iTensorBinCombined` is strictly less than `W`
when `2 <= P`; but when `P = 1` that shift is by `W` itself, the full width of the word, so it
is not less than `W`. These are the amounts of the two shifts: `maskBits` shifts the all-ones
word right by `W - b`, and a pass of the inner loop that does not end it shifts
`iTensorBinCombined` right by `b`. -/
theorem shift_amounts (F : Type) (W P : Nat) (h1 : 1 ≤ P) (hW : P ≤ W) :
    W - GetCountBits W P < W ∧
    (2 ≤ P → GetCountBits W P < W) ∧
    (P = 1 → GetCountBits W P = W) ∧
    maskBits W (GetCountBits W P) = (2 ^ W - 1) >>> (W - GetCountBits W P) ∧
    ∀ (item : Nat → Cursor F → Except Fault (Cursor F)) (mask pInnerEnd fuel w : Nat)
      (c c1 : Cursor F),
      item (mask &&& w)
        { c with trace := c.trace ++ [⟨c.pInputData - 1, c.pState, mask &&& w⟩] } = .ok c1 →
      pInnerEnd ≠ c1.pState →
      innerLoop item mask (GetCountBits W P) pInnerEnd (fuel + 1) w c =
        innerLoop item mask (GetCountBits W P) pInnerEnd fuel (w >>> GetCountBits W P) c1 := by
  have hb1 : 1 ≤ GetCountBits W P := by
    unfold GetCountBits
    exact (Nat.one_le_div_iff (by omega)).2 hW
  refine ⟨by omega, ?_, ?_, rfl, fun item mask pInnerEnd fuel w c c1 h1 h2 =>
    innerLoop_shift item mask _ pInnerEnd fuel w c c1 h1 h2⟩
  · intro h2
    unfold GetCountBits
    exact Nat.div_lt_self (by omega) (by omega)
  · intro hP
    unfold GetCountBits
    rw [hP, Nat.div_one]

/-- For C34: one item in a word of 64 bits has all 64 bits, inside the asserted range
`1 <= 1 <= 64`: the mask is shifted by 0, and the pass of the inner loop shifts the word by 64,
which is not less than 64. -/
theorem shift_amounts_witness :
    64 - GetCountBits 64 1 < 64 ∧ GetCountBits 64 1 = 64 ∧ ¬ GetCountBits 64 1 < 64 ∧
    ∀ (item : Nat → Cursor ℚ → Except Fault (Cursor ℚ)) (mask pInnerEnd fuel w : Nat)
      (c c1 : Cursor ℚ),
      item (mask &&& w)
        { c with trace := c.trace ++ [⟨c.pInputData - 1, c.pState, mask &&& w⟩] } = .ok c1 →
      pInnerEnd ≠ c1.pState →
      innerLoop item mask (GetCountBits 64 1) pInnerEnd (fuel + 1) w c =
        innerLoop item mask (GetCountBits 64 1) pInnerEnd fuel (w >>> GetCountBits 64 1) c1 :=
  ⟨(shift_amounts ℚ 64 1 (by decide) (by decide)).1,
    (shift_amounts ℚ 64 1 (by decide) (by decide)).2.2.1 rfl,
    by rw [(shift_amounts ℚ 64 1 (by decide) (by decide)).2.2.1 rfl]; exact Nat.lt_irrefl 64,
    (shift_amounts ℚ 64 1 (by decide) (by decide)).2.2.2.2⟩

/-! ## Doubles that are not below zero -/

theorem roundNearestEven_nonneg (m : ℚ) (hm : 0 ≤ m) : 0 ≤ roundNearestEven m := by
  have hf : 0 ≤ ⌊m⌋ := Int.floor_nonneg.2 hm
  unfold roundNearestEven
  split
  · exact hf
  · split
    · omega
    · split
      · exact hf
      · omega

theorem Binary64.ulp_pos (q : ℚ) : 0 < Binary64.ulp q := by
  unfold Binary64.ulp
  exact zpow_pos (by norm_num) _

/-- The double of a rational that is not negative is `+0`, `+inf` or a number that is not
negative. -/
theorem ofRat_nonneg_cases (q : ℚ) (hq : 0 ≤ q) :
    Binary64.ofRat q = .zero false ∨ Binary64.ofRat q = .inf false ∨
      ∃ r, 0 ≤ r ∧ Binary64.ofRat q = .finite r := by
  have hd : decide (q < 0) = false := decide_eq_false (not_lt.2 hq)
  have hr : 0 ≤ (roundNearestEven (q / Binary64.ulp q) : ℚ) * Binary64.ulp q :=
    mul_nonneg (Int.cast_nonneg.2 (roundNearestEven_nonneg _
      (div_nonneg hq (le_of_lt (Binary64.ulp_pos q))))) (le_of_lt (Binary64.ulp_pos q))
  unfold Binary64.ofRat
  by_cases h0 : q = 0
  · rw [if_pos h0]
    exact Or.inl rfl
  · rw [if_neg h0]
    simp only [hd]
    by_cases h1 : (roundNearestEven (q / Binary64.ulp q) : ℚ) * Binary64.ulp q = 0
    · rw [if_pos h1]
      exact Or.inl rfl
    · rw [if_neg h1]
      by_cases h2 : (2 : ℚ) ^ 1024 ≤ |(roundNearestEven (q / Binary64.ulp q) : ℚ) * Binary64.ulp q|
      · rw [if_pos h2]
        exact Or.inr (Or.inl rfl)
      · rw [if_neg h2]
        exact Or.inr (Or.inr ⟨_, hr, rfl⟩)

/-- A double is not below zero when it is NaN, `+inf`, a zero, or a number that is not
negative. -/
theorem Binary64.lt_zero_eq_false (x : Binary64) (h : Binary64.lt x (.zero false) = false) :
    x = .nan ∨ x = .inf false ∨ (∃ s, x = .zero s) ∨ ∃ p, 0 ≤ p ∧ x = .finite p := by
  cases x with
  | nan => exact Or.inl rfl
  | inf s =>
    simp only [Binary64.lt] at h
    subst h
    exact Or.inr (Or.inl rfl)
  | zero s => exact Or.inr (Or.inr (Or.inl ⟨s, rfl⟩))
  | finite p =>
    simp only [Binary64.lt, decide_eq_false_iff_not, not_lt] at h
    exact Or.inr (Or.inr (Or.inr ⟨p, h, rfl⟩))

theorem Binary64.ofRat_not_below_zero (q : ℚ) (hq : 0 ≤ q) :
    Binary64.lt (Binary64.ofRat q) (.zero false) = false := by
  rcases ofRat_nonneg_cases q hq with h | h | ⟨r, hr, h⟩
  · rw [h]; rfl
  · rw [h]; rfl
  · rw [h]
    simp only [Binary64.lt, decide_eq_false_iff_not, not_lt]
    exact hr

/-- The square of a double is not below zero. -/
theorem binary64_mul_self (x : Binary64) :
    binary64Ops.lt (binary64Ops.mul x x) binary64Ops.zero = false := by
  show Binary64.lt (Binary64.mul x x) (.zero false) = false
  cases x with
  | nan => rfl
  | inf s => cases s <;> rfl
  | zero s => cases s <;> rfl
  | finite p => exact Binary64.ofRat_not_below_zero _ (mul_self_nonneg p)

/-- The sum of two doubles that are not below zero is not below zero. -/
theorem binary64_add_not_below_zero (a b : Binary64)
    (ha : binary64Ops.lt a binary64Ops.zero = false)
    (hb : binary64Ops.lt b binary64Ops.zero = false) :
    binary64Ops.lt (binary64Ops.add a b) binary64Ops.zero = false := by
  show Binary64.lt (Binary64.add a b) (.zero false) = false
  rcases Binary64.lt_zero_eq_false a ha with rfl | rfl | ⟨s, rfl⟩ | ⟨p, hp, rfl⟩ <;>
    rcases Binary64.lt_zero_eq_false b hb with rfl | rfl | ⟨t, rfl⟩ | ⟨q, hq, rfl⟩ <;>
    first
      | rfl
      | exact Binary64.ofRat_not_below_zero _ (add_nonneg hp hq)
      | (simp only [Binary64.add, Binary64.lt, decide_eq_false_iff_not, not_lt]; assumption)

/-- A double that is not below zero, divided by the double of a count, is not below zero. -/
theorem binary64_div_ofSize (a : Binary64) (n : Nat)
    (ha : binary64Ops.lt a binary64Ops.zero = false) :
    binary64Ops.lt (binary64Ops.div a (binary64Ops.ofSize n)) binary64Ops.zero = false := by
  show Binary64.lt (Binary64.div a (Binary64.ofRat n)) (.zero false) = false
  have hn : (0 : ℚ) ≤ n := Nat.cast_nonneg n
  rcases Binary64.lt_zero_eq_false a ha with rfl | rfl | ⟨s, rfl⟩ | ⟨p, hp, rfl⟩ <;>
    rcases ofRat_nonneg_cases n hn with h | h | ⟨r, hr, h⟩ <;> rw [h] <;>
    first
      | rfl
      | exact Binary64.ofRat_not_below_zero _ (div_nonneg hp hr)
      | (simp only [Binary64.div, Binary64.lt, Bool.xor_false, Bool.false_xor,
          decide_eq_false (not_lt.2 hr)])
      | (simp only [Binary64.div, Binary64.lt, Bool.xor_false, Bool.false_xor,
          decide_eq_false (not_lt.2 hp)])

/-! ## The assertions on the metric the applier returns -/

/-- A sum of terms that are not below zero, added from zero, is not below zero. -/
theorem sumUpTo_not_below_zero {F : Type} (A : FloatOps F) (term : Nat → F)
    (hzero : A.lt A.zero A.zero = false)
    (hadd : ∀ a b, A.lt a A.zero = false → A.lt b A.zero = false →
      A.lt (A.add a b) A.zero = false) :
    ∀ n, (∀ i, i < n → A.lt (term i) A.zero = false) →
      A.lt (sumUpTo A term n) A.zero = false := by
  intro n
  induction n with
  | zero =>
    intro _
    exact hzero
  | succ n ih =>
    intro h
    rw [sumUpTo_succ]
    exact hadd _ _ (ih (fun i hi => h i (Nat.lt_succ_of_lt hi))) (h n (Nat.lt_succ_self n))

/-- The tail of the entry point on a raw metric that is not below zero: the only replacement it
makes is that of a NaN or an infinity. -/
theorem Finish_of_not_below_zero {F : Type} (E : EbmInternal) (A : FloatOps F) (compiler : Int)
    (ret : F) (h : A.lt ret A.zero = false) :
    OptimizedApplyModelUpdateValidation.Finish E A compiler ret =
      if A.isnan ret || A.isinf ret then A.max else ret := by
  unfold OptimizedApplyModelUpdateValidation.Finish
  by_cases hn : (A.isnan ret || A.isinf ret) = true
  · rw [if_pos hn, if_pos hn]
  · rw [if_neg hn, if_neg hn]
    by_cases hc : E.IsClassification compiler = true
    · rw [if_pos hc, if_neg (by rw [h]; simp)]
    · rw [if_neg hc]

/-- The three assertions before the exit of the entry point hold of what the tail makes of a
raw metric, when the instantiation is a classification one or the raw metric is not below
zero. -/
theorem Finish_assertions {F : Type} (E : EbmInternal) (A : FloatOps F) (compiler : Int)
    (ret : F)
    (hmax : A.isnan A.max = false ∧ A.isinf A.max = false ∧ A.lt A.max A.zero = false)
    (hzero : A.isnan A.zero = false ∧ A.isinf A.zero = false ∧ A.lt A.zero A.zero = false)
    (h : E.IsClassification compiler = true ∨ A.lt ret A.zero = false) :
    A.isnan (OptimizedApplyModelUpdateValidation.Finish E A compiler ret) = false ∧
    A.isinf (OptimizedApplyModelUpdateValidation.Finish E A compiler ret) = false ∧
    A.lt (OptimizedApplyModelUpdateValidation.Finish E A compiler ret) A.zero = false := by
  unfold OptimizedApplyModelUpdateValidation.Finish
  by_cases hn : (A.isnan ret || A.isinf ret) = true
  · rw [if_pos hn]
    exact hmax
  · rw [if_neg hn]
    have hn1 : A.isnan ret = false ∧ A.isinf ret = false := by
      simpa using hn
    by_cases hc : E.IsClassification compiler = true
    · rw [if_pos hc]
      by_cases hlt : A.lt ret A.zero = true
      · rw [if_pos hlt]
        exact hzero
      · rw [if_neg hlt]
        exact ⟨hn1.1, hn1.2, by simpa using hlt⟩
    · rw [if_neg hc]
      rcases h with h | h
      · exact absurd h hc
      · exact ⟨hn1.1, hn1.2, h⟩

/-- Without a feature the kernel choice for regression is the zero-feature regression
kernel. -/
theorem dispatch_zeroFeatures_regression {F : Type} (E : EbmInternal) (A : FloatOps F)
    (S : EbmStatistics F) (W fuel : Nat) (runtime : Int) (bUseSIMD : Bool)
    (fc : FeatureCombination) (ds : DataSetByFeatureCombination F) (U : List F)
    (h0 : 0 = fc.m_cFeatures) :
    OptimizedApplyModelUpdateValidation.Dispatch E A S W fuel E.k_Regression runtime bUseSIMD fc
        ds U =
      OptimizedApplyModelUpdateValidationZeroFeaturesRegression.Func A
        S.ComputeResidualErrorRegression fuel ds U := by
  unfold OptimizedApplyModelUpdateValidation.Dispatch
  rw [if_pos h0]
  unfold OptimizedApplyModelUpdateValidationZeroFeatures.Instance
  rw [if_pos rfl]

/-- Without a feature the kernel choice for binary classification is the zero-feature binary
kernel. -/
theorem dispatch_zeroFeatures_binary {F : Type} (E : EbmInternal) (A : FloatOps F)
    (S : EbmStatistics F) (W fuel : Nat) (runtime : Int) (bUseSIMD : Bool)
    (fc : FeatureCombination) (ds : DataSetByFeatureCombination F) (U : List F)
    (h0 : 0 = fc.m_cFeatures) (h2 : (2 : Int) ≠ E.k_Regression) :
    OptimizedApplyModelUpdateValidation.Dispatch E A S W fuel 2 runtime bUseSIMD fc ds U =
      OptimizedApplyModelUpdateValidationZeroFeaturesBinary.Func A
        S.ComputeSingleInstanceLogLossBinaryClassification fuel ds U := by
  unfold OptimizedApplyModelUpdateValidation.Dispatch
  rw [if_pos h0]
  unfold OptimizedApplyModelUpdateValidationZeroFeatures.Instance
  rw [if_neg h2, if_pos rfl]

/-- C31. The three assertions before the exit of `OptimizedApplyModelUpdateValidation` hold,
for a float arithmetic in which `max()` and zero are neither NaN nor infinite nor below zero, a
square is not below zero, and a sum and a quotient by a count of values not below zero are not
below zero (a NaN counts as not below zero): the value returned is not NaN, not infinite and
not below zero. For a classification instantiation this holds of every call that returns,
whatever the raw metric is; for the regression instantiation, where nothing is clamped, the
call of the general and of the zero-feature kernel under its input conditions returns, and
what it returns satisfies the three assertions, also when the sum of squares is NaN or
infinite. -/
theorem exit_assertions_hold {F : Type} (E : EbmInternal) (A : FloatOps F)
    (S : EbmStatistics F) (W fuel : Nat) (bUseSIMD : Bool) (fc : FeatureCombination)
    (hmax : A.isnan A.max = false ∧ A.isinf A.max = false ∧ A.lt A.max A.zero = false)
    (hzero : A.isnan A.zero = false ∧ A.isinf A.zero = false ∧ A.lt A.zero A.zero = false)
    (hsq : ∀ x, A.lt (A.mul x x) A.zero = false)
    (hadd : ∀ a b, A.lt a A.zero = false → A.lt b A.zero = false →
      A.lt (A.add a b) A.zero = false)
    (hdiv : ∀ a n, 1 ≤ n → A.lt a A.zero = false → A.lt (A.div a (A.ofSize n)) A.zero = false)
    (hchain : bUseSIMD = true → ∃ k, k < fuel ∧
      (E.GetNextCountItemsBitPacked^[k] E.k_cItemsPerBitPackedDataUnitMax =
          E.k_cItemsPerBitPackedDataUnitDynamic ∨
        E.GetNextCountItemsBitPacked^[k] E.k_cItemsPerBitPackedDataUnitMax =
          fc.m_cItemsPerBitPackedDataUnit)) :
    (∀ (compiler runtime : Int) (ds : DataSetByFeatureCombination F) (U : List F) (m : F)
        (ds1 : DataSetByFeatureCombination F),
      E.IsClassification compiler = true →
      OptimizedApplyModelUpdateValidation E A S W fuel compiler runtime bUseSIMD fc ds U =
        .ok (m, ds1) →
      A.isnan m = false ∧ A.isinf m = false ∧ A.lt m A.zero = false) ∧
    (∀ (runtime : Int) (ds : DataSetByFeatureCombination F) (U : List F),
      0 ≠ fc.m_cFeatures → 1 ≤ ds.m_cInstances → 1 ≤ fc.m_cItemsPerBitPackedDataUnit →
      ds.m_cInstances < fuel → ds.m_cInstances ≤ ds.m_aResidualErrors.length →
      (ds.m_cInstances - 1) / fc.m_cItemsPerBitPackedDataUnit <
        (ds.GetInputDataPointer fc).length →
      (∀ i, i < ds.m_cInstances →
        decodeItem W fc.m_cItemsPerBitPackedDataUnit (ds.GetInputDataPointer fc) i < U.length) →
      ∃ (m : F) (ds1 : DataSetByFeatureCombination F),
        OptimizedApplyModelUpdateValidation E A S W fuel E.k_Regression runtime bUseSIMD fc ds
          U = .ok (m, ds1) ∧
        A.isnan m = false ∧ A.isinf m = false ∧ A.lt m A.zero = false) ∧
    (∀ (runtime : Int) (ds : DataSetByFeatureCombination F) (U : List F) (u0 : F),
      0 = fc.m_cFeatures → 1 ≤ ds.m_cInstances → ds.m_cInstances < fuel →
      ds.m_cInstances ≤ ds.m_aResidualErrors.length → U[0]? = some u0 →
      ∃ (m : F) (ds1 : DataSetByFeatureCombination F),
        OptimizedApplyModelUpdateValidation E A S W fuel E.k_Regression runtime bUseSIMD fc ds
          U = .ok (m, ds1) ∧
        A.isnan m = false ∧ A.isinf m = false ∧ A.lt m A.zero = false) := by
  have hraw : ∀ (res : Nat → F) (N : Nat), 1 ≤ N →
      A.lt (A.div (sumUpTo A (fun i => ComputeSingleInstanceSquaredErrorRegression A (res i)) N)
        (A.ofSize N)) A.zero = false := by
    intro res N hN
    exact hdiv _ N hN (sumUpTo_not_below_zero A _ hzero.2.2 hadd N (fun i _ => hsq (res i)))
  refine ⟨?_, ?_, ?_⟩
  · intro compiler runtime ds U m ds1 hc h
    obtain ⟨ret, _, hm⟩ := OptimizedApplyModelUpdateValidation_ok E A S W fuel compiler runtime
      bUseSIMD fc ds U m ds1 h
    rw [hm]
    exact Finish_assertions E A compiler ret hmax hzero (Or.inl hc)
  · intro runtime ds U h0 hN hP hfuel hres hcol hU
    have hd := ((dispatch_general E A S W fuel E.k_Regression runtime bUseSIMD fc ds U h0
      hchain).trans (internal_instance_regression E A S W fuel runtime _ fc ds U)).trans
      (regression_func A S.ComputeResidualErrorRegression W fuel
        fc.m_cItemsPerBitPackedDataUnit fc ds U hN hP hfuel hres hcol hU)
    exact ⟨_, _, OptimizedApplyModelUpdateValidation_of_raw E A S W fuel E.k_Regression runtime
      bUseSIMD fc ds U _ _ hd, Finish_assertions E A E.k_Regression _ hmax hzero
        (Or.inr (hraw _ _ hN))⟩
  · intro runtime ds U u0 h0 hN hfuel hres hU
    have hd := (dispatch_zeroFeatures_regression E A S W fuel runtime bUseSIMD fc ds U h0).trans
      (zeroFeatures_regression_func A S.ComputeResidualErrorRegression fuel ds U u0 hN hfuel
        hres hU)
    exact ⟨_, _, OptimizedApplyModelUpdateValidation_of_raw E A S W fuel E.k_Regression runtime
      bUseSIMD fc ds U _ _ hd, Finish_assertions E A E.k_Regression _ hmax hzero
        (Or.inr (hraw _ _ hN))⟩

/-- For C31, on doubles: the regression set with the residuals `[NaN, 1]` and `U = [+inf]`,
whose sum of squares is NaN: the call returns the largest finite double, which is not NaN, not
infinite and not below zero. -/
theorem exit_assertions_hold_witness :
    ∃ (m : Binary64) (ds1 : DataSetByFeatureCombination Binary64),
      OptimizedApplyModelUpdateValidation ebmInternal64 binary64Ops
        ⟨id, id, fun x _ => x, fun x _ => x⟩ 64 3 ebmInternal64.k_Regression (-1) true
        ⟨1, 64, 0⟩ ⟨2, [Binary64.nan, Binary64.finite 1], [], [], fun _ => [0]⟩
        [Binary64.inf false] = .ok (m, ds1) ∧
      binary64Ops.isnan m = false ∧ binary64Ops.isinf m = false ∧
      binary64Ops.lt m binary64Ops.zero = false :=
  (exit_assertions_hold ebmInternal64 binary64Ops ⟨id, id, fun x _ => x, fun x _ => x⟩ 64 3
    true ⟨1, 64, 0⟩
    ⟨rfl, rfl, by
      show decide ((2 : ℚ) ^ 1024 - 2 ^ 971 < 0) = false
      rw [decide_eq_false_iff_not, not_lt, sub_nonneg]
      exact pow_le_pow_right₀ (by norm_num) (by norm_num)⟩
    ⟨rfl, rfl, rfl⟩ binary64_mul_self binary64_add_not_below_zero
    (fun a n _ ha => binary64_div_ofSize a n ha)
    (fun _ => ⟨0, by decide, Or.inr rfl⟩)).2.1 (-1)
    ⟨2, [Binary64.nan, Binary64.finite 1], [], [], fun _ => [0]⟩ [Binary64.inf false]
    (by decide) (by decide) (by decide) (by decide) (by decide) (by decide) (by decide)

/-- C35. The negative clamp is not reached in binary classification: for a float arithmetic in
which zero is not below zero and a sum and a quotient by a count of values not below zero are
not below zero, and a binary log loss that is never below zero (the kernel's assertion; a NaN
counts as not below zero), the raw mean that the general and the zero-feature binary kernel
return under their input conditions is not below zero, so the test `ret < 0` of the tail is
false and the entry point returns the raw mean itself, or `max()` when that is NaN or
infinite. -/
theorem binary_never_clamped {F : Type} (E : EbmInternal) (A : FloatOps F)
    (S : EbmStatistics F) (W fuel : Nat) (bUseSIMD : Bool) (fc : FeatureCombination)
    (hzero : A.lt A.zero A.zero = false)
    (hadd : ∀ a b, A.lt a A.zero = false → A.lt b A.zero = false →
      A.lt (A.add a b) A.zero = false)
    (hdiv : ∀ a n, 1 ≤ n → A.lt a A.zero = false → A.lt (A.div a (A.ofSize n)) A.zero = false)
    (hloss : ∀ s t,
      A.lt (S.ComputeSingleInstanceLogLossBinaryClassification s t) A.zero = false)
    (h2 : (2 : Int) ≠ E.k_Regression)
    (hchain : bUseSIMD = true → ∃ k, k < fuel ∧
      (E.GetNextCountItemsBitPacked^[k] E.k_cItemsPerBitPackedDataUnitMax =
          E.k_cItemsPerBitPackedDataUnitDynamic ∨
        E.GetNextCountItemsBitPacked^[k] E.k_cItemsPerBitPackedDataUnitMax =
          fc.m_cItemsPerBitPackedDataUnit)) :
    (∀ (runtime : Int) (ds : DataSetByFeatureCombination F) (U : List F),
      0 ≠ fc.m_cFeatures → 1 ≤ ds.m_cInstances → 1 ≤ fc.m_cItemsPerBitPackedDataUnit →
      ds.m_cInstances < fuel → ds.m_cInstances ≤ ds.m_aPredictorScores.length →
      ds.m_cInstances ≤ ds.m_aTargetData.length →
      (ds.m_cInstances - 1) / fc.m_cItemsPerBitPackedDataUnit <
        (ds.GetInputDataPointer fc).length →
      (∀ i, i < ds.m_cInstances →
        decodeItem W fc.m_cItemsPerBitPackedDataUnit (ds.GetInputDataPointer fc) i < U.length) →
      ∃ (ret : F) (ds1 : DataSetByFeatureCombination F),
        OptimizedApplyModelUpdateValidation.Dispatch E A S W fuel 2 runtime bUseSIMD fc ds U =
          .ok (ret, ds1) ∧
        A.lt ret A.zero = false ∧
        OptimizedApplyModelUpdateValidation E A S W fuel 2 runtime bUseSIMD fc ds U =
          .ok (if A.isnan ret || A.isinf ret then A.max else ret, ds1)) ∧
    (∀ (runtime : Int) (ds : DataSetByFeatureCombination F) (U : List F) (u0 : F),
      0 = fc.m_cFeatures → 1 ≤ ds.m_cInstances → ds.m_cInstances < fuel →
      ds.m_cInstances ≤ ds.m_aPredictorScores.length →
      ds.m_cInstances ≤ ds.m_aTargetData.length → U[0]? = some u0 →
      ∃ (ret : F) (ds1 : DataSetByFeatureCombination F),
        OptimizedApplyModelUpdateValidation.Dispatch E A S W fuel 2 runtime bUseSIMD fc ds U =
          .ok (ret, ds1) ∧
        A.lt ret A.zero = false ∧
        OptimizedApplyModelUpdateValidation E A S W fuel 2 runtime bUseSIMD fc ds U =
          .ok (if A.isnan ret || A.isinf ret then A.max else ret, ds1)) := by
  have hraw : ∀ (score : Nat → F) (target : Nat → Nat) (N : Nat), 1 ≤ N →
      A.lt (A.div (sumUpTo A (fun i =>
        S.ComputeSingleInstanceLogLossBinaryClassification (score i) (target i)) N)
        (A.ofSize N)) A.zero = false := by
    intro score target N hN
    exact hdiv _ N hN (sumUpTo_not_below_zero A _ hzero hadd N (fun i _ => hloss _ _))
  constructor
  · intro runtime ds U h0 hN hP hfuel hsc htg hcol hU
    have hd := ((dispatch_general E A S W fuel 2 runtime bUseSIMD fc ds U h0
      hchain).trans (internal_instance_binary E A S W fuel runtime _ fc ds U h2)).trans
      (binary_func A S.ComputeSingleInstanceLogLossBinaryClassification W fuel
        fc.m_cItemsPerBitPackedDataUnit fc ds U hN hP hfuel hsc htg hcol hU)
    have hlt := hraw (scoreNew A ds.m_aPredictorScores U
      (decodeItem W fc.m_cItemsPerBitPackedDataUnit (ds.GetInputDataPointer fc)))
      (fun i => ds.m_aTargetData.getD i 0) ds.m_cInstances hN
    refine ⟨_, _, hd, hlt, ?_⟩
    rw [OptimizedApplyModelUpdateValidation_of_raw E A S W fuel 2 runtime bUseSIMD fc ds U _ _
      hd, Finish_of_not_below_zero E A 2 _ hlt]
  · intro runtime ds U u0 h0 hN hfuel hsc htg hU
    have hd := (dispatch_zeroFeatures_binary E A S W fuel runtime bUseSIMD fc ds U h0 h2).trans
      (zeroFeatures_binary_func A S.ComputeSingleInstanceLogLossBinaryClassification fuel ds U
        u0 hN hfuel hsc htg hU)
    have hlt := hraw (scoreNew A ds.m_aPredictorScores [u0] (fun _ => 0))
      (fun i => ds.m_aTargetData.getD i 0) ds.m_cInstances hN
    refine ⟨_, _, hd, hlt, ?_⟩
    rw [OptimizedApplyModelUpdateValidation_of_raw E A S W fuel 2 runtime bUseSIMD fc ds U _ _
      hd, Finish_of_not_below_zero E A 2 _ hlt]

/-- For C35, in exact arithmetic with the loss `score ^ 2`, which is never below zero: two
instances packed 32 to a word with the bins `1, 0`, the scores `[1, 2]` and `U = [10, 20]`: the
raw mean `585 / 2` is not below zero and is the metric returned. -/
theorem binary_never_clamped_witness :
    ∃ (ret : ℚ) (ds1 : DataSetByFeatureCombination ℚ),
      OptimizedApplyModelUpdateValidation.Dispatch ebmInternal64 exactOps
        ⟨id, id, fun x _ => x * x, fun x _ => x⟩ 64 5 2 2 false ⟨1, 32, 0⟩
        ⟨2, [], [1, 2], [0, 1], fun _ => [1]⟩ [10, 20] = .ok (ret, ds1) ∧
      exactOps.lt ret exactOps.zero = false ∧
      OptimizedApplyModelUpdateValidation ebmInternal64 exactOps
        ⟨id, id, fun x _ => x * x, fun x _ => x⟩ 64 5 2 2 false ⟨1, 32, 0⟩
        ⟨2, [], [1, 2], [0, 1], fun _ => [1]⟩ [10, 20] =
          .ok (if exactOps.isnan ret || exactOps.isinf ret then exactOps.max else ret, ds1) :=
  (binary_never_clamped ebmInternal64 exactOps ⟨id, id, fun x _ => x * x, fun x _ => x⟩ 64 5
    false ⟨1, 32, 0⟩ (by simp [exactOps])
    (by
      intro a b ha hb
      simp only [exactOps, decide_eq_false_iff_not, not_lt] at ha hb ⊢
      exact add_nonneg ha hb)
    (by
      intro a n _ ha
      simp only [exactOps, decide_eq_false_iff_not, not_lt] at ha ⊢
      exact div_nonneg ha (Nat.cast_nonneg n))
    (by
      intro s t
      simp only [exactOps, decide_eq_false_iff_not, not_lt]
      exact mul_self_nonneg s)
    (by decide) (fun h => absurd h (by decide))).1 2
    ⟨2, [], [1, 2], [0, 1], fun _ => [1]⟩ [10, 20]
    (by decide) (by decide) (by decide) (by decide) (by decide) (by decide) (by decide)
    (by decide)

/-- What the tail of the entry point returns is `max()`, zero, or a raw metric that is neither
NaN nor infinite. -/
theorem Finish_cases {F : Type} (E : EbmInternal) (A : FloatOps F) (compiler : Int) (ret : F) :
    OptimizedApplyModelUpdateValidation.Finish E A compiler ret = A.max ∨
    OptimizedApplyModelUpdateValidation.Finish E A compiler ret = A.zero ∨
    (OptimizedApplyModelUpdateValidation.Finish E A compiler ret = ret ∧
      A.isnan ret = false ∧ A.isinf ret = false) := by
  unfold OptimizedApplyModelUpdateValidation.Finish
  by_cases hn : (A.isnan ret || A.isinf ret) = true
  · rw [if_pos hn]
    exact Or.inl rfl
  · rw [if_neg hn]
    have hn1 : A.isnan ret = false ∧ A.isinf ret = false := by
      simpa using hn
    by_cases hc : E.IsClassification compiler = true
    · rw [if_pos hc]
      by_cases hlt : A.lt ret A.zero = true
      · rw [if_pos hlt]
        exact Or.inr (Or.inl rfl)
      · rw [if_neg hlt]
        exact Or.inr (Or.inr ⟨rfl, hn1⟩)
    · rw [if_neg hc]
      exact Or.inr (Or.inr ⟨rfl, hn1⟩)

/-- C36. The non-finite sentinel never improves on the best metric, for a float arithmetic in
which `max()` and zero are neither NaN nor infinite and no value that is neither NaN nor
infinite is above `max()`: the metric returned for a round whose raw mean is NaN or infinite is
`std::numeric_limits<FloatEbmType>::max()`; that is the `m_bestModelMetric` of a newly
constructed `EbmBoostingState`; every metric the entry point returns is neither NaN nor
infinite and `max()` is not below it. So `max() < best` is false when `best` is the initial
best metric and when it is any metric that `OptimizedApplyModelUpdateValidation` returned. -/
theorem sentinel_never_improves {F : Type} (E : EbmInternal) (A : FloatOps F)
    (S : EbmStatistics F) (W fuel : Nat)
    (hmax : A.isnan A.max = false ∧ A.isinf A.max = false)
    (hzero : A.isnan A.zero = false ∧ A.isinf A.zero = false)
    (hfinite : ∀ x, A.isnan x = false → A.isinf x = false → A.lt A.max x = false) :
    (∀ (compiler runtime : Int) (bUseSIMD : Bool) (fc : FeatureCombination)
        (ds : DataSetByFeatureCombination F) (U : List F) (ret : F)
        (ds1 : DataSetByFeatureCombination F),
      OptimizedApplyModelUpdateValidation.Dispatch E A S W fuel compiler runtime bUseSIMD fc ds
        U = .ok (ret, ds1) →
      A.isnan ret = true ∨ A.isinf ret = true →
      OptimizedApplyModelUpdateValidation E A S W fuel compiler runtime bUseSIMD fc ds U =
        .ok (A.max, ds1)) ∧
    (∀ (runtime : Int) (cFeatures cFeatureCombinations cSamplingSets : Nat),
      (EbmBoostingState.construct E A runtime cFeatures cFeatureCombinations
        cSamplingSets).m_bestModelMetric = A.max ∧
      A.lt A.max (EbmBoostingState.construct E A runtime cFeatures cFeatureCombinations
        cSamplingSets).m_bestModelMetric = false) ∧
    (∀ (compiler runtime : Int) (bUseSIMD : Bool) (fc : FeatureCombination)
        (ds : DataSetByFeatureCombination F) (U : List F) (m : F)
        (ds1 : DataSetByFeatureCombination F),
      OptimizedApplyModelUpdateValidation E A S W fuel compiler runtime bUseSIMD fc ds U =
        .ok (m, ds1) →
      A.isnan m = false ∧ A.isinf m = false ∧ A.lt A.max m = false) := by
  refine ⟨?_, ?_, ?_⟩
  · intro compiler runtime bUseSIMD fc ds U ret ds1 hraw hnf
    exact (OptimizedApplyModelUpdateValidation_sentinel E A S W fuel compiler runtime bUseSIMD
      fc ds U ret ds1 hraw).2 hnf
  · intro runtime cFeatures cFeatureCombinations cSamplingSets
    exact ⟨rfl, hfinite A.max hmax.1 hmax.2⟩
  · intro compiler runtime bUseSIMD fc ds U m ds1 h
    obtain ⟨ret, _, hm⟩ := OptimizedApplyModelUpdateValidation_ok E A S W fuel compiler runtime
      bUseSIMD fc ds U m ds1 h
    rcases Finish_cases E A compiler ret with hf | hf | ⟨hf, h1, h2⟩
    · rw [hm, hf]
      exact ⟨hmax.1, hmax.2, hfinite A.max hmax.1 hmax.2⟩
    · rw [hm, hf]
      exact ⟨hzero.1, hzero.2, hfinite A.zero hzero.1 hzero.2⟩
    · rw [hm, hf]
      exact ⟨h1, h2, hfinite ret h1 h2⟩

/-- For C36, in exact arithmetic with the range of the doubles: a regression round on four
instances returns the metric `485 / 2`, and the sentinel is below neither that metric nor the
initial best metric of a new boosting state. -/
theorem sentinel_never_improves_witness :
    OptimizedApplyModelUpdateValidation ebmInternal64 boundedOps
        ⟨id, id, fun x _ => x, fun x _ => x⟩ 64 5 (-1) (-1) false ⟨1, 32, 0⟩
        ⟨4, [1, 2, 3, 4], [], [], fun _ => [81]⟩ [10, 20] =
      .ok (485 / 2, ⟨4, [-19, -8, -17, -16], [], [], fun _ => [81]⟩) ∧
    boundedOps.lt boundedOps.max (485 / 2) = false ∧
    boundedOps.lt boundedOps.max
      (EbmBoostingState.construct ebmInternal64 boundedOps 3 4 5 6).m_bestModelMetric =
        false := by
  have hmaxpos : (0 : ℚ) ≤ 2 ^ 1024 - 2 ^ 971 := by
    rw [sub_nonneg]
    exact pow_le_pow_right₀ (by norm_num) (by norm_num)
  have hrun : OptimizedApplyModelUpdateValidation ebmInternal64 boundedOps
        ⟨id, id, fun x _ => x, fun x _ => x⟩ 64 5 (-1) (-1) false ⟨1, 32, 0⟩
        ⟨4, [1, 2, 3, 4], [], [], fun _ => [81]⟩ [10, 20] =
      .ok (485 / 2, ⟨4, [-19, -8, -17, -16], [], [], fun _ => [81]⟩) := by
    simp [OptimizedApplyModelUpdateValidation, OptimizedApplyModelUpdateValidation.Finish,
      OptimizedApplyModelUpdateValidation.Dispatch,
      OptimizedApplyModelUpdateValidationInternal.Instance,
      GET_COUNT_ITEMS_PER_BIT_PACKED_DATA_UNIT, ebmInternal64,
      OptimizedApplyModelUpdateValidationInternalRegression.Func,
      OptimizedApplyModelUpdateValidationInternalRegression.Run, bitPackedLoop, outerLoop,
      oneLastLoop, innerLoop, regressionItem, Cursor.start, boundedOps, exactOps, GetCountBits,
      maskBits, ComputeSingleInstanceSquaredErrorRegression, (by decide : 3 &&& 81 = 1),
      (by decide : 3 &&& 20 = 0), (by decide : 3 &&& 5 = 1)]
    norm_num
    rw [abs_of_nonneg (by norm_num)]
    norm_num
  have h := sentinel_never_improves ebmInternal64 boundedOps
    ⟨id, id, fun x _ => x, fun x _ => x⟩ 64 5
    ⟨rfl, by
      show decide ((2 : ℚ) ^ 1024 - 2 ^ 971 < |(2 : ℚ) ^ 1024 - 2 ^ 971|) = false
      rw [abs_of_nonneg hmaxpos]
      simp⟩
    ⟨rfl, by
      show decide ((2 : ℚ) ^ 1024 - 2 ^ 971 < |(0 : ℚ)|) = false
      rw [abs_zero, decide_eq_false_iff_not, not_lt]
      exact hmaxpos⟩
    (by
      intro x _ hx
      have hx1 : ¬ ((2 : ℚ) ^ 1024 - 2 ^ 971 < |x|) := by
        simpa [boundedOps, exactOps] using hx
      show decide ((2 : ℚ) ^ 1024 - 2 ^ 971 < x) = false
      rw [decide_eq_false_iff_not]
      exact fun hlt => hx1 (lt_of_lt_of_le hlt (le_abs_self x)))
  exact ⟨hrun, (h.2.2 (-1) (-1) false ⟨1, 32, 0⟩ ⟨4, [1, 2, 3, 4], [], [], fun _ => [81]⟩
    [10, 20] _ _ hrun).2.2, (h.2.1 3 4 5 6).2⟩

/-! ## Termination of the goto-based loop and the range of its accesses -/

/-- With more instances than fit in one word, the exit pointer of the main loop is a whole
number of strides after the start: `(cInstances - 1) / P` of them. -/
theorem bitPackedLoop_exit {F : Type} (item : Nat → Cursor F → Except Fault (Cursor F))
    (W fuel P V N : Nat) (col : List Nat) (c : Cursor F) (hP : 1 ≤ P) (hNP : P < N) :
    bitPackedLoop item W fuel P V N col c =
      outerLoop item col (maskBits W (GetCountBits W P)) (GetCountBits W P) (P * V)
        (c.pState + N * V) fuel (c.pState + P * V) (c.pState + (N - 1) / P * (P * V)) c := by
  have hdm := Nat.div_add_mod (N - 1) P
  have hNeq : N = (N - 1) / P * P + ((N - 1) % P + 1) := by
    rw [Nat.mul_comm] at hdm
    omega
  have hexit : c.pState + N * V - ((N - 1) % P + 1) * V = c.pState + (N - 1) / P * (P * V) := by
    have h : N * V = (N - 1) / P * (P * V) + ((N - 1) % P + 1) * V := by
      rw [← Nat.mul_assoc, ← Nat.add_mul, ← hNeq]
    omega
  unfold bitPackedLoop
  simp only
  rw [if_neg (by omega), hexit]

/-- With at most one word of instances the loop is entered at `one_last_loop` with all three
end pointers at the true end. -/
theorem bitPackedLoop_single {F : Type} (item : Nat → Cursor F → Except Fault (Cursor F))
    (W fuel P V N : Nat) (col : List Nat) (c : Cursor F) (hNP : N ≤ P) :
    bitPackedLoop item W fuel P V N col c =
      outerLoop item col (maskBits W (GetCountBits W P)) (GetCountBits W P) (P * V)
        (c.pState + N * V) fuel (c.pState + N * V) (c.pState + N * V) c := by
  unfold bitPackedLoop
  simp only
  rw [if_pos hNP]

/-- The arithmetic of the exit pointer. -/
theorem exit_offset (P N : Nat) (hP : 1 ≤ P) (hNP : P < N) :
    1 ≤ (N - 1) / P ∧ N - ((N - 1) % P + 1) = (N - 1) / P * P ∧
    0 < N - ((N - 1) % P + 1) ∧ N - ((N - 1) % P + 1) < N := by
  have hdm := Nat.div_add_mod (N - 1) P
  have hmod : (N - 1) % P < P := Nat.mod_lt _ (by omega)
  have hq : 0 < (N - 1) / P := Nat.div_pos (by omega) (by omega)
  have hmul : 1 * P ≤ (N - 1) / P * P := Nat.mul_le_mul_right P hq
  rw [Nat.mul_comm] at hdm
  refine ⟨hq, by omega, by omega, by omega⟩

/-- An event of the run is the event of an instance. -/
theorem mem_itemEvents (W P V : Nat) (col : List Nat) (p0 N : Nat) (e : Event)
    (h : e ∈ itemEvents W P V col p0 N) : ∃ i, i < N ∧ e = itemEvent W P V col p0 i := by
  unfold itemEvents at h
  rw [List.mem_map] at h
  obtain ⟨i, hi, he⟩ := h
  exact ⟨i, List.mem_range.1 hi, he.symm⟩

/-- The word of an instance is one of the `⌈N / P⌉` words of the column. -/
theorem word_index_lt (P N i : Nat) (hP : 1 ≤ P) (hi : i < N) : i / P < (N + P - 1) / P := by
  have h1 : i / P ≤ (N - 1) / P := Nat.div_le_div_right (by omega)
  have h2 : N + P - 1 = N - 1 + P := by omega
  rw [h2, Nat.add_div_right _ (by omega)]
  omega

/-- C32. Loop termination of the goto-based applier, for `P >= 1` items per word. When
`cInstances > P`, the offset `cInstances - ((cInstances - 1) mod P + 1)` of the exit pointer is
`(cInstances - 1) / P` times `P`, a positive multiple of `P` below `cInstances` (the two
assertions `start < exit < trueEnd`), and the loop is the outer loop run towards the exit
pointer `start + (cInstances - 1) / P` strides, so the test `pExit != p`, made after each full
stride, is met; when `cInstances <= P` the loop is entered at `one_last_loop` with every end
pointer at the true end. Each of the three general kernels, under its input conditions and with
fuel above `cInstances`, returns with the state pointer at the true end after
`(cInstances - 1) / P + 1` passes, each of which reads one word: the passes of the main loop
and one pass over the last word, a single pass when `cInstances <= P`. -/
theorem loop_termination {F : Type} (A : FloatOps F) (W fuel P : Nat)
    (fc : FeatureCombination) (hP : 1 ≤ P) :
    (∀ N, P < N → 1 ≤ (N - 1) / P ∧ N - ((N - 1) % P + 1) = (N - 1) / P * P ∧
      0 < N - ((N - 1) % P + 1) ∧ N - ((N - 1) % P + 1) < N) ∧
    (∀ (item : Nat → Cursor F → Except Fault (Cursor F)) (V N : Nat) (col : List Nat)
        (c : Cursor F), P < N →
      bitPackedLoop item W fuel P V N col c =
        outerLoop item col (maskBits W (GetCountBits W P)) (GetCountBits W P) (P * V)
          (c.pState + N * V) fuel (c.pState + P * V) (c.pState + (N - 1) / P * (P * V)) c) ∧
    (∀ (item : Nat → Cursor F → Except Fault (Cursor F)) (V N : Nat) (col : List Nat)
        (c : Cursor F), N ≤ P →
      bitPackedLoop item W fuel P V N col c =
        outerLoop item col (maskBits W (GetCountBits W P)) (GetCountBits W P) (P * V)
          (c.pState + N * V) fuel (c.pState + N * V) (c.pState + N * V) c) ∧
    (∀ (CRE : F → F) (ds : DataSetByFeatureCombination F) (U : List F),
      1 ≤ ds.m_cInstances → ds.m_cInstances < fuel →
      ds.m_cInstances ≤ ds.m_aResidualErrors.length →
      (ds.m_cInstances - 1) / P < (ds.GetInputDataPointer fc).length →
      (∀ i, i < ds.m_cInstances → decodeItem W P (ds.GetInputDataPointer fc) i < U.length) →
      ∃ c,
        OptimizedApplyModelUpdateValidationInternalRegression.Run A CRE W fuel P fc ds U =
          .ok c ∧
        c.pState = ds.m_cInstances ∧
        c.pInputData = (ds.m_cInstances - 1) / P + 1 ∧
        (ds.m_cInstances ≤ P → c.pInputData = 1)) ∧
    (∀ (LLb : F → Nat → F) (ds : DataSetByFeatureCombination F) (U : List F),
      1 ≤ ds.m_cInstances → ds.m_cInstances < fuel →
      ds.m_cInstances ≤ ds.m_aPredictorScores.length →
      ds.m_cInstances ≤ ds.m_aTargetData.length →
      (ds.m_cInstances - 1) / P < (ds.GetInputDataPointer fc).length →
      (∀ i, i < ds.m_cInstances → decodeItem W P (ds.GetInputDataPointer fc) i < U.length) →
      ∃ c,
        OptimizedApplyModelUpdateValidationInternalBinary.Run A LLb W fuel P fc ds U = .ok c ∧
        c.pState = ds.m_cInstances ∧
        c.pInputData = (ds.m_cInstances - 1) / P + 1 ∧
        (ds.m_cInstances ≤ P → c.pInputData = 1)) ∧
    (∀ (EbmExp : F → F) (LLm : F → F → F) (C : Nat) (ds : DataSetByFeatureCombination F)
      (U : List F), 3 ≤ C → C ≤ fuel →
      1 ≤ ds.m_cInstances → ds.m_cInstances < fuel →
      ds.m_cInstances * C ≤ ds.m_aPredictorScores.length →
      ds.m_cInstances ≤ ds.m_aTargetData.length →
      (ds.m_cInstances - 1) / P < (ds.GetInputDataPointer fc).length →
      (∀ i, i < ds.m_cInstances →
        decodeItem W P (ds.GetInputDataPointer fc) i * C + C ≤ U.length) →
      ∃ c,
        OptimizedApplyModelUpdateValidationInternal.Run A EbmExp LLm W fuel (C : Int) P fc ds U =
          .ok c ∧
        c.pState = ds.m_cInstances * C ∧
        c.pInputData = (ds.m_cInstances - 1) / P + 1 ∧
        (ds.m_cInstances ≤ P → c.pInputData = 1)) := by
  have hwords : ∀ N, 1 ≤ N → wordsRead P N = (N - 1) / P + 1 ∧
      (N ≤ P → wordsRead P N = 1) := by
    intro N hN
    unfold wordsRead
    rw [if_neg (by omega)]
    refine ⟨rfl, fun hNP => ?_⟩
    rw [Nat.div_eq_of_lt (by omega)]
  refine ⟨fun N hNP => exit_offset P N hP hNP,
    fun item V N col c hNP => bitPackedLoop_exit item W fuel P V N col c hP hNP,
    fun item V N col c hNP => bitPackedLoop_single item W fuel P V N col c hNP, ?_, ?_, ?_⟩
  · intro CRE ds U hN hfuel hres hcol hU
    exact ⟨_, regression_run A CRE W fuel P fc ds U hN hP hfuel hres hcol hU, rfl,
      (hwords _ hN).1, (hwords _ hN).2⟩
  · intro LLb ds U hN hfuel hsc htg hcol hU
    exact ⟨_, binary_run A LLb W fuel P fc ds U hN hP hfuel hsc htg hcol hU, rfl,
      (hwords _ hN).1, (hwords _ hN).2⟩
  · intro EbmExp LLm C ds U hC hfuelC hN hfuel hsc htg hcol hU
    have hV := GetVectorLength_multiclass C hC
    have hm := multiclass_run A EbmExp LLm W fuel (C : Int) P fc ds U hN hP hfuel
      (by rw [hV]; exact hfuelC) (by rw [hV]; exact hsc) htg hcol (by rw [hV]; exact hU)
    rw [hV] at hm
    exact ⟨_, hm, rfl, (hwords _ hN).1, (hwords _ hN).2⟩

/-- For C32, in exact arithmetic: five instances and two items per word. The exit pointer is
at offset `4 = 2 * 2`, and the regression kernel returns after three passes, with the state
pointer at 5. -/
theorem loop_termination_witness :
    (5 - ((5 - 1) % 2 + 1) = (5 - 1) / 2 * 2 ∧ 0 < 5 - ((5 - 1) % 2 + 1) ∧
      5 - ((5 - 1) % 2 + 1) < 5) ∧
    ∃ c,
      OptimizedApplyModelUpdateValidationInternalRegression.Run exactOps id 64 6 2 ⟨1, 2, 0⟩
        ⟨5, [1, 2, 3, 4, 5], [], [], fun _ => [0, 0, 0]⟩ [0] = .ok c ∧
      c.pState = 5 ∧ c.pInputData = (5 - 1) / 2 + 1 ∧ (5 ≤ 2 → c.pInputData = 1) :=
  ⟨((loop_termination exactOps 64 6 2 ⟨1, 2, 0⟩ (by decide)).1 5 (by decide)).2,
    (loop_termination exactOps 64 6 2 ⟨1, 2, 0⟩ (by decide)).2.2.2.1 id
      ⟨5, [1, 2, 3, 4, 5], [], [], fun _ => [0, 0, 0]⟩ [0] (by decide) (by decide) (by decide)
      (by decide) (by decide)⟩

/-- C33. All accesses are in bounds, for `P >= 1` items per word: given `cInstances >= 1`, a
packed column of at least `⌈cInstances / P⌉` words, at least `cInstances` targets and
`cInstances * V` state entries, and a tensor of `B * V` entries where the packed field of every
instance is below `B`, each of the three general kernels returns, so none of its reads and
writes of the column, the targets, the state array and the tensor was out of range, and every
item it decoded came from a word below `⌈cInstances / P⌉`, was used at a state offset whose
`V` entries end at or before `cInstances * V`, and was a bin below `B`, whose tensor cell ends
inside the `B * V` entries; the target pointer ends at `cInstances`. -/
theorem accesses_in_bounds {F : Type} (A : FloatOps F) (W fuel P : Nat)
    (fc : FeatureCombination) (hP : 1 ≤ P) :
    (∀ (CRE : F → F) (ds : DataSetByFeatureCombination F) (U : List F) (B : Nat),
      1 ≤ ds.m_cInstances → ds.m_cInstances < fuel →
      ds.m_cInstances ≤ ds.m_aResidualErrors.length →
      (ds.m_cInstances + P - 1) / P ≤ (ds.GetInputDataPointer fc).length →
      (∀ i, i < ds.m_cInstances →
        packedField (GetCountBits W P) P (ds.GetInputDataPointer fc) i < B) →
      U.length = B →
      ∃ (c : Cursor F) (ret : F) (ds1 : DataSetByFeatureCombination F),
        OptimizedApplyModelUpdateValidationInternalRegression.Run A CRE W fuel P fc ds U =
          .ok c ∧
        OptimizedApplyModelUpdateValidationInternalRegression.Func A CRE W fuel P fc ds U =
          .ok (ret, ds1) ∧
        c.trace.length = ds.m_cInstances ∧
        ∀ e, e ∈ c.trace →
          e.iWord < (ds.m_cInstances + P - 1) / P ∧ e.pState < ds.m_cInstances ∧
          e.iTensorBin < B) ∧
    (∀ (LLb : F → Nat → F) (ds : DataSetByFeatureCombination F) (U : List F) (B : Nat),
      1 ≤ ds.m_cInstances → ds.m_cInstances < fuel →
      ds.m_cInstances ≤ ds.m_aPredictorScores.length →
      ds.m_cInstances ≤ ds.m_aTargetData.length →
      (ds.m_cInstances + P - 1) / P ≤ (ds.GetInputDataPointer fc).length →
      (∀ i, i < ds.m_cInstances →
        packedField (GetCountBits W P) P (ds.GetInputDataPointer fc) i < B) →
      U.length = B →
      ∃ (c : Cursor F) (ret : F) (ds1 : DataSetByFeatureCombination F),
        OptimizedApplyModelUpdateValidationInternalBinary.Run A LLb W fuel P fc ds U = .ok c ∧
        OptimizedApplyModelUpdateValidationInternalBinary.Func A LLb W fuel P fc ds U =
          .ok (ret, ds1) ∧
        c.trace.length = ds.m_cInstances ∧
        c.pTargetData = ds.m_cInstances ∧
        ∀ e, e ∈ c.trace →
          e.iWord < (ds.m_cInstances + P - 1) / P ∧ e.pState < ds.m_cInstances ∧
          e.iTensorBin < B) ∧
    (∀ (EbmExp : F → F) (LLm : F → F → F) (C : Nat) (ds : DataSetByFeatureCombination F)
      (U : List F) (B : Nat), 3 ≤ C → C ≤ fuel →
      1 ≤ ds.m_cInstances → ds.m_cInstances < fuel →
      ds.m_cInstances * C ≤ ds.m_aPredictorScores.length →
      ds.m_cInstances ≤ ds.m_aTargetData.length →
      (ds.m_cInstances + P - 1) / P ≤ (ds.GetInputDataPointer fc).length →
      (∀ i, i < ds.m_cInstances →
        packedField (GetCountBits W P) P (ds.GetInputDataPointer fc) i < B) →
      U.length = B * C →
      ∃ (c : Cursor F) (ret : F) (ds1 : DataSetByFeatureCombination F),
        OptimizedApplyModelUpdateValidationInternal.Run A EbmExp LLm W fuel (C : Int) P fc ds U =
          .ok c ∧
        OptimizedApplyModelUpdateValidationInternal.Func A EbmExp LLm W fuel (C : Int) P fc ds
          U = .ok (ret, ds1) ∧
        c.trace.length = ds.m_cInstances ∧
        c.pTargetData = ds.m_cInstances ∧
        ∀ e, e ∈ c.trace →
          e.iWord < (ds.m_cInstances + P - 1) / P ∧ e.pState + C ≤ ds.m_cInstances * C ∧
          e.iTensorBin < B ∧ e.iTensorBin * C + C ≤ B * C) := by
  have hcolumn : ∀ (N len : Nat), 1 ≤ N → (N + P - 1) / P ≤ len → (N - 1) / P < len := by
    intro N len hN h
    have h2 : N + P - 1 = N - 1 + P := by omega
    rw [h2, Nat.add_div_right _ (by omega)] at h
    omega
  have hevent : ∀ (V : Nat) (col : List Nat) (N B : Nat),
      (∀ i, i < N → packedField (GetCountBits W P) P col i < B) →
      ∀ e, e ∈ itemEvents W P V col 0 N →
        ∃ i, i < N ∧ e.iWord < (N + P - 1) / P ∧ e.pState = i * V ∧ e.iTensorBin < B := by
    intro V col N B hB e he
    obtain ⟨i, hi, rfl⟩ := mem_itemEvents W P V col 0 N e he
    refine ⟨i, hi, word_index_lt P N i hP hi, by simp [itemEvent], ?_⟩
    show decodeItem W P col i < B
    rw [decodeItem_eq_packedField]
    exact hB i hi
  have hlen : ∀ (V : Nat) (col : List Nat) (N : Nat),
      (itemEvents W P V col 0 N).length = N := by
    intro V col N
    simp [itemEvents]
  refine ⟨?_, ?_, ?_⟩
  · intro CRE ds U B hN hfuel hres hcol hB hU
    have hU1 : ∀ i, i < ds.m_cInstances →
        decodeItem W P (ds.GetInputDataPointer fc) i < U.length := by
      intro i hi
      rw [decodeItem_eq_packedField, hU]
      exact hB i hi
    have hrun := regression_run A CRE W fuel P fc ds U hN hP hfuel hres
      (hcolumn _ _ hN hcol) hU1
    refine ⟨_, _, _, hrun, regression_func A CRE W fuel P fc ds U hN hP hfuel hres
      (hcolumn _ _ hN hcol) hU1, hlen _ _ _, ?_⟩
    intro e he
    obtain ⟨i, hi, h1, h2, h3⟩ := hevent 1 _ _ B hB e he
    exact ⟨h1, by omega, h3⟩
  · intro LLb ds U B hN hfuel hsc htg hcol hB hU
    have hU1 : ∀ i, i < ds.m_cInstances →
        decodeItem W P (ds.GetInputDataPointer fc) i < U.length := by
      intro i hi
      rw [decodeItem_eq_packedField, hU]
      exact hB i hi
    have hrun := binary_run A LLb W fuel P fc ds U hN hP hfuel hsc htg
      (hcolumn _ _ hN hcol) hU1
    refine ⟨_, _, _, hrun, binary_func A LLb W fuel P fc ds U hN hP hfuel hsc htg
      (hcolumn _ _ hN hcol) hU1, hlen _ _ _, rfl, ?_⟩
    intro e he
    obtain ⟨i, hi, h1, h2, h3⟩ := hevent 1 _ _ B hB e he
    exact ⟨h1, by omega, h3⟩
  · intro EbmExp LLm C ds U B hC hfuelC hN hfuel hsc htg hcol hB hU
    have hcell : ∀ b, b < B → b * C + C ≤ B * C := by
      intro b hb
      have h : (b + 1) * C ≤ B * C := Nat.mul_le_mul_right C hb
      rw [Nat.succ_mul] at h
      exact h
    have hU1 : ∀ i, i < ds.m_cInstances →
        decodeItem W P (ds.GetInputDataPointer fc) i * C + C ≤ U.length := by
      intro i hi
      rw [decodeItem_eq_packedField, hU]
      exact hcell _ (hB i hi)
    have hV := GetVectorLength_multiclass C hC
    have hrun := multiclass_run A EbmExp LLm W fuel (C : Int) P fc ds U hN hP hfuel
      (by rw [hV]; exact hfuelC) (by rw [hV]; exact hsc) htg (hcolumn _ _ hN hcol)
      (by rw [hV]; exact hU1)
    rw [hV] at hrun
    refine ⟨_, _, _, hrun, multiclass_func A EbmExp LLm W fuel C P fc ds U hC hN hP hfuel
      hfuelC hsc htg (hcolumn _ _ hN hcol) hU1, hlen _ _ _, rfl, ?_⟩
    intro e he
    obtain ⟨i, hi, h1, h2, h3⟩ := hevent C _ _ B hB e he
    refine ⟨h1, ?_, h3, hcell _ h3⟩
    rw [h2]
    have h : (i + 1) * C ≤ ds.m_cInstances * C := Nat.mul_le_mul_right C hi
    rw [Nat.succ_mul] at h
    exact h

/-- For C33, in exact arithmetic: five instances packed two to a word in three words, bins
below 2 and a tensor of 2 entries: the regression kernel returns and each of its five items
came from one of the three words, at a state offset below 5, with a bin below 2. -/
theorem accesses_in_bounds_witness :
    ∃ (c : Cursor ℚ) (ret : ℚ) (ds1 : DataSetByFeatureCombination ℚ),
      OptimizedApplyModelUpdateValidationInternalRegression.Run exactOps id 64 6 2 ⟨1, 2, 0⟩
        ⟨5, [1, 2, 3, 4, 5], [], [], fun _ => [1, 2 ^ 32, 1]⟩ [10, 20] = .ok c ∧
      OptimizedApplyModelUpdateValidationInternalRegression.Func exactOps id 64 6 2 ⟨1, 2, 0⟩
        ⟨5, [1, 2, 3, 4, 5], [], [], fun _ => [1, 2 ^ 32, 1]⟩ [10, 20] = .ok (ret, ds1) ∧
      c.trace.length = 5 ∧
      ∀ e, e ∈ c.trace → e.iWord < (5 + 2 - 1) / 2 ∧ e.pState < 5 ∧ e.iTensorBin < 2 :=
  (accesses_in_bounds exactOps 64 6 2 ⟨1, 2, 0⟩ (by decide)).1 id
    ⟨5, [1, 2, 3, 4, 5], [], [], fun _ => [1, 2 ^ 32, 1]⟩ [10, 20] 2 (by decide) (by decide)
    (by decide) (by decide) (by decide) rfl

end EbmNative
